import Mathlib

/-!
# Pseudorandom generators of `ak_random.c`

A shallow embedding of the generator handle (`struct random`), of its public
entry points and of the generator classes implemented in `ak_random.c`,
followed by theorems about them.

Conventions of the embedding.

* Machine integers are natural numbers or integers with the reduction modulo
  `2^w` written out where the C arithmetic can wrap.
* A C function that may trap (dereference of a `NULL` or freed pointer, access
  outside an allocated block, division by zero, call through a `NULL` function
  pointer) or whose loop may fail to terminate returns an `Option`; `none`
  stands for "no result".
* A shift of a 32-bit operand takes its count modulo 32, as the shift
  instructions of the hosts of the library do; for a count below 32 this is the
  shift of the C language.
* Loops are recursive functions over a fuel argument; the function that owns
  the loop supplies the fuel.
* Objects reached through a pointer are stored in place of the pointer
  (`pointer.live`).
* The per-algorithm operations (`next`, `randomize_ptr`, `random`, `free`) are
  `static` and are reached through the slots of a handle, as in
  `rnd->random( rnd, out, size )`, after the public entry points have rejected
  `NULL` handles and `NULL` buffers, or from a constructor with a local buffer.
  Their handle and buffer arguments are therefore values here, and the `NULL`
  guards on these two arguments have no counterpart. Guards on sizes and on the
  algorithm context are kept.
* Multi-byte words are laid out little-endian, as on the hosts the library
  targets.
* Allocations made inside an operation (`malloc` of a temporary block,
  `realloc` of a state block) are taken to succeed; those of a constructor are
  arguments of the constructor.
* The one floating-point quantity, the statistic of `ak_random_dynamic_test`, is
  a rational number; the definition says why no rounding takes place.
-/

set_option linter.dupNamespace false

namespace Akrypt

/-! ## Error codes and memory -/

/-- Modelled from the spec: the error codes of the library (they are declared in
`libakrypt.h`, which is not part of this source file). Only their identity
matters. -/
inductive ak_error where
  | ak_error_ok
  | ak_error_null_pointer
  | ak_error_zero_length
  | ak_error_wrong_length
  | ak_error_undefined_value
  | ak_error_undefined_function
  | ak_error_read_data
  | ak_error_write_data
  | ak_error_open_file
  | ak_error_close_file
  | ak_error_invalid_value
  deriving DecidableEq, Repr

open ak_error

/-- Modelled from the spec: `ak_error_message( code, function, message )` of the
library records the message and hands the code back, so that errors surface as
typed results. -/
def ak_error_message (code : ak_error) : ak_error := code

/-- A C pointer to an object of type `α`: `NULL`, a pointer to a live object
(kept in place), or a pointer whose block has been released. -/
inductive pointer (α : Type) where
  | null
  | live (a : α)
  | dangling
  deriving DecidableEq, Repr

/-- Reads `len` bytes (or words) at offset `off` of a block; `none` when the
range leaves the block. -/
def mem_read (buf : List Nat) (off len : Nat) : Option (List Nat) :=
  if off + len ≤ buf.length then some ((buf.drop off).take len) else none

/-- Writes `src` at offset `off` of a block; `none` when the range leaves the
block. -/
def mem_write (buf : List Nat) (off : Nat) (src : List Nat) : Option (List Nat) :=
  if off + src.length ≤ buf.length then
    some (buf.take off ++ src ++ buf.drop (off + src.length))
  else none

/-- Byte number `k` (in address order, little-endian) of a word. -/
def byte_of_word (w k : Nat) : Nat := w / 2 ^ (8 * k) % 256

/-- The 32-bit word stored little-endian in four bytes. -/
def word32_of_bytes (bs : List Nat) : Nat :=
  bs.getD 0 0 % 256 + 2 ^ 8 * (bs.getD 1 0 % 256) + 2 ^ 16 * (bs.getD 2 0 % 256)
    + 2 ^ 24 * (bs.getD 3 0 % 256)

/-- Reads `((ak_uint32 *)ptr)[idx]`. -/
def read_word32 (ptr : List Nat) (idx : Nat) : Option Nat :=
  (mem_read ptr (4 * idx) 4).map word32_of_bytes

/-- Reads `n` consecutive 32-bit words starting at word index `idx`. -/
def read_words32 (ptr : List Nat) (idx : Nat) : Nat → Option (List Nat)
  | 0 => some []
  | n + 1 =>
    match read_word32 ptr idx, read_words32 ptr (idx + 1) n with
    | some w, some ws => some (w :: ws)
    | _, _ => none

/-- The conversion `(ak_uint64) size` of a signed size. -/
def to_uint64 (size : Int) : Nat := (size % 2 ^ 64).toNat

/-- The conversion `int cursize = size` of a signed size to 32 bits. -/
def to_int32 (size : Int) : Int := (size + 2 ^ 31) % 2 ^ 32 - 2 ^ 31

/-! ## The generator handle -/

/-- State of the quadratic congruential generator
(`struct random_quadratic_congruence_method`); all fields are `ak_uint32`. -/
structure random_quadratic_congruence_method where
  xn : Nat
  d : Nat
  a : Nat
  c : Nat
  m : Nat
  deriving DecidableEq, Repr

/-- State of the Mitchell-Moore generator (`struct random_mitchel`): the current
word, the pointer to the block of previous words, the modulus. -/
structure random_mitchel where
  next : Nat
  x : pointer (List Nat)
  m : Nat
  deriving DecidableEq, Repr

/-- State of the hash based generator (`struct random_hrng`): the counter
`ak_mpzn512` as eight 64-bit words, the 64 generated bytes, and the number of
bytes still available. The hash context `hctx` belongs to the hash
collaborator and is represented by the function `collaborators.ak_hash_ptr`. -/
structure random_hrng where
  counter : List Nat
  buffer : List Nat
  capacity : Int
  deriving DecidableEq, Repr

/-- State of the generator of Knuth's Algorithm M (`struct random_knuth_m`). The
two source generators are borrowed handles; `S` is the type of a source. -/
structure random_knuth_m (S : Type) where
  source_gen_x : pointer S
  source_gen_y : pointer S
  k : Nat
  v : pointer (List Nat)
  next : Nat
  deriving DecidableEq, Repr

/-- State of the generator of Knuth's Algorithm B (`struct random_knuth_b`). -/
structure random_knuth_b (S : Type) where
  source_gen : pointer S
  k : Nat
  v : pointer (List Nat)
  next : Nat
  deriving DecidableEq, Repr

/-- State of the Coveyou generator (`struct random_quadratic_coveyou_method`);
both fields are `ak_uint32`. -/
structure random_quadratic_coveyou_method where
  x : Nat
  m : Nat
  deriving DecidableEq, Repr

/-- State of the Green-Smith-Klem generator (`struct random_gck`): the current
word, the number `k` of previous words kept (`ak_uint64`), the pointer to the
block of previous words, the modulus. -/
structure random_gck where
  next : Nat
  k : Nat
  x : pointer (List Nat)
  m : Nat
  deriving DecidableEq, Repr

/-- State of the additive Fibonacci generator (`struct random_fibonachi`): the
current word, the previous word, the modulus; all fields are `ak_uint32`. -/
structure random_fibonachi where
  xn : Nat
  xprev : Nat
  m : Nat
  deriving DecidableEq, Repr

/-- State of the nonlinear feedback shift register (`struct nlfsr_register`): the
register, the code of the linear feedback, the code of the nonlinear feedback
(three `ak_uint32`) and the register length `n` (a `size_t`). -/
structure nlfsr_register where
  state : Nat
  linear_part : Nat
  nonlinear_part : Nat
  n : Nat
  deriving DecidableEq, Repr

/-- The object behind `data.ctx`, one alternative per context structure. -/
inductive context (S : Type) where
  | qcg (c : random_quadratic_congruence_method)
  | mitchel (c : random_mitchel)
  | hrng (c : random_hrng)
  | knuth_m (c : random_knuth_m S)
  | knuth_b (c : random_knuth_b S)
  | coveyou (c : random_quadratic_coveyou_method)
  | gck (c : random_gck)
  | fibonachi (c : random_fibonachi)
  | nlfsr (c : nlfsr_register)
  deriving DecidableEq, Repr

/-- Modelled from the spec: the open file description behind a descriptor
(file/device collaborator): the bytes of the file, the read position and the
number of `read` calls served so far. -/
structure open_file where
  contents : List Nat
  pos : Nat
  reads : Nat
  deriving DecidableEq, Repr

/-- Modelled from the spec: the member `data` of `struct random` (declared in
`libakrypt.h`). It is a union of the 64-bit value `val`, the descriptor `fd`
and the context pointer `ctx`; every generator class uses one member only, and
the members are kept side by side. `file` is the open file description that
`fd` refers to, if any. -/
structure random_data (S : Type) where
  val : Nat
  fd : Int
  file : Option open_file
  ctx : pointer (context S)
  deriving DecidableEq, Repr

/-- The result of `memset( &rnd->data, 0, sizeof( rnd->data ))`. -/
def random_data.zero {S : Type} : random_data S :=
  { val := 0, fd := 0, file := none, ctx := pointer.null }

/-- The functions that may be installed in the slot `next`. -/
inductive fn_next where
  | lcg
  | hrng
  | qcg
  | mitchel
  | knuth_m
  | knuth_b
  | coveyou
  | gck
  | fibonachi
  deriving DecidableEq, Repr

/-- The functions that may be installed in the slot `randomize_ptr`. -/
inductive fn_randomize where
  | lcg
  | hrng
  | qcg
  | mitchel
  | coveyou
  | gck
  | fibonachi
  | nlfsr
  deriving DecidableEq, Repr

/-- The functions that may be installed in the slot `random`. -/
inductive fn_random where
  | lcg
  | file
  | hrng
  | qcg
  | mitchel
  | knuth_m
  | knuth_b
  | coveyou
  | gck
  | fibonachi
  | nlfsr
  deriving DecidableEq, Repr

/-- The functions that may be installed in the slot `free`. -/
inductive fn_free where
  | file
  | hrng
  | qcg
  | mitchel
  | knuth_m
  | knuth_b
  | coveyou
  | gck
  | fibonachi
  | nlfsr
  deriving DecidableEq, Repr

/-- Modelled from the spec: the generator handle `struct random` (declared in
`libakrypt.h`): the identity `oid`, the four operation slots and the algorithm
state `data`. A slot holds `none` for `NULL` or the name of the installed
function. -/
structure random (S : Type) where
  oid : Option String
  next : Option fn_next
  randomize_ptr : Option fn_randomize
  random : Option fn_random
  free : Option fn_free
  data : random_data S
  deriving DecidableEq, Repr

/-- Modelled from the spec: the external collaborators of the module. -/
structure collaborators (S : Type) where
  /-- Registry lookup `ak_oid_find_by_name`. -/
  ak_oid_find_by_name : String → Option String
  /-- Hash `ak_hash_ptr( ctx, in, size, out, out_size )`: from the input bytes and
  the size of the output block, the returned code and the bytes written. -/
  ak_hash_ptr : List Nat → Nat → ak_error × List Nat
  /-- Call `src->random( src, out, size )` of a borrowed source generator. -/
  source_random : S → List Nat → Int → Option (ak_error × S × List Nat)
  /-- System call `open( filename, O_RDONLY )`: the descriptor and the file. -/
  os_open : String → Option (Int × List Nat)
  /-- Whether the `n`-th `read` on a descriptor fails. -/
  os_read_fails : Nat → Bool
  /-- The number of bytes the `n`-th `read` is willing to deliver. -/
  os_read_length : Nat → Nat
  /-- Result of `ak_hash_create_streebog512` on the context of a new generator. -/
  ak_hash_create_streebog512 : ak_error

/-- Replaces the context object of a handle (a store through `rnd->data.ctx`). -/
def set_ctx {S : Type} (rnd : random S) (c : context S) : random S :=
  { rnd with data := { rnd.data with ctx := pointer.live c } }

/-- Replaces the 64-bit value of a handle (a store to `rnd->data.val`). -/
def set_val {S : Type} (rnd : random S) (v : Nat) : random S :=
  { rnd with data := { rnd.data with val := v } }

/-- The bytes of a block of 64-bit words, little-endian. -/
def bytes_of_words64 (ws : List Nat) : List Nat :=
  (ws.map (fun w => (List.range 8).map (byte_of_word w))).flatten

/-- The 64-bit words stored little-endian in a block of bytes. -/
def words64_of_bytes : List Nat → List Nat
  | b0 :: b1 :: b2 :: b3 :: b4 :: b5 :: b6 :: b7 :: rest =>
    (b0 + 2 ^ 8 * b1 + 2 ^ 16 * b2 + 2 ^ 24 * b3 + 2 ^ 32 * b4 + 2 ^ 40 * b5 + 2 ^ 48 * b6
      + 2 ^ 56 * b7) :: words64_of_bytes rest
  | _ => []

/-! ## The state transitions `next` -/

/-- The two statements `val *= 125643267795740073ULL; val += 506098983240188723ULL`
of `ak_random_lcg_next` on a 64-bit value (the constants are written as the left
operands). -/
def lcg_advance (v : Nat) : Nat :=
  let val1 := 125643267795740073 * v % 2 ^ 64
  (506098983240188723 + val1) % 2 ^ 64

/-- The function `ak_random_lcg_next`: one step of the 64-bit value. -/
def ak_random_lcg_next {S : Type} (rnd : random S) : Option (ak_error × random S) :=
  some (ak_error_ok, set_val rnd (lcg_advance rnd.data.val))

/-- The three statements of `ak_random_hrng_next` on the context: `counter[7]++`,
`capacity = 64`, and the hash of the 64 bytes of the counter written to the
buffer; the code returned is that of the hash. -/
def hrng_advance {S : Type} (E : collaborators S) (hrng : random_hrng) :
    Option (ak_error × random_hrng) := do
  let c7 ← hrng.counter[7]?
  let counter ← mem_write hrng.counter 7 [(c7 + 1) % 2 ^ 64]
  let hashed := E.ak_hash_ptr (bytes_of_words64 counter) 64
  let buffer ← mem_write hrng.buffer 0 (hashed.2.take 64)
  some (hashed.1, { counter := counter, buffer := buffer, capacity := 64 })

/-- The function `ak_random_hrng_next`. -/
def ak_random_hrng_next {S : Type} (E : collaborators S) (rnd : random S) :
    Option (ak_error × random S) :=
  match rnd.data.ctx with
  | pointer.null => some (ak_error_message ak_error_undefined_value, rnd)
  | pointer.live (context.hrng hrng) =>
    match hrng_advance E hrng with
    | some res => some (res.1, set_ctx rnd (context.hrng res.2))
    | none => none
  | _ => none

/-- The assignment
`xn = (((d*((xn*xn) % m)) % m) + ((a*xn) % m) + c) % m` of `ak_random_qcg_next`,
every product and sum being taken in 32-bit unsigned arithmetic. -/
def qcg_advance (qcg : random_quadratic_congruence_method) :
    random_quadratic_congruence_method :=
  let t1 := (qcg.d * ((qcg.xn * qcg.xn) % 2 ^ 32 % qcg.m)) % 2 ^ 32 % qcg.m
  let t2 := (qcg.a * qcg.xn) % 2 ^ 32 % qcg.m
  let sum := ((t1 + t2) % 2 ^ 32 + qcg.c) % 2 ^ 32
  { qcg with xn := sum % qcg.m }

/-- The function `ak_random_qcg_next`; a zero modulus traps in the division. -/
def ak_random_qcg_next {S : Type} (rnd : random S) : Option (ak_error × random S) :=
  match rnd.data.ctx with
  | pointer.null => some (ak_error_message ak_error_undefined_value, rnd)
  | pointer.live (context.qcg qcg) =>
    if qcg.m = 0 then none
    else some (ak_error_ok, set_ctx rnd (context.qcg (qcg_advance qcg)))
  | _ => none

/-- The function `ak_random_mitchel_next`: the new current word is
`(x[0] + x[30]) % m` (computed in 64 bits), the words `x[1..54]` move down by
one place through a temporary block, and the old current word goes to
`x[54]`. -/
def ak_random_mitchel_next {S : Type} (rnd : random S) : Option (ak_error × random S) :=
  match rnd.data.ctx with
  | pointer.null => some (ak_error_message ak_error_undefined_value, rnd)
  | pointer.live (context.mitchel mitchel) =>
    match mitchel.x with
    | pointer.live x => do
      let x0 ← x[0]?
      let x30 ← x[30]?
      if mitchel.m = 0 then none
      else
        let next := (x0 + x30) % 2 ^ 64 % mitchel.m
        let buf ← mem_read x 1 54
        let x1 ← mem_write x 0 buf
        let x2 ← mem_write x1 54 [mitchel.next]
        some (ak_error_ok, set_ctx rnd
          (context.mitchel { mitchel with x := pointer.live x2, next := next }))
    | _ => none
  | _ => none

/-- The function `ak_random_knuth_m_next`: one byte from source Y selects
`j = (k * y) >> 8`, `v[j]` becomes the current byte, and one byte from source X
replaces `v[j]`. The local byte `next` serves as the buffer of both calls. -/
def ak_random_knuth_m_next {S : Type} (E : collaborators S) (rnd : random S) :
    Option (ak_error × random S) :=
  match rnd.data.ctx with
  | pointer.live (context.knuth_m ctx) =>
    match ctx.source_gen_y, ctx.source_gen_x, ctx.v with
    | pointer.live y, pointer.live x, pointer.live v => do
      let ry ← E.source_random y [0] 1
      let ctx1 := { ctx with source_gen_y := pointer.live ry.2.1 }
      if ry.1 ≠ ak_error_ok then some (ry.1, set_ctx rnd (context.knuth_m ctx1))
      else
        let next ← ry.2.2[0]?
        let j := (ctx.k * next) % 2 ^ 32 / 2 ^ 8 % 256
        let vj ← v[j]?
        let ctx2 := { ctx1 with next := vj }
        let rx ← E.source_random x ry.2.2 1
        let ctx3 := { ctx2 with source_gen_x := pointer.live rx.2.1 }
        if rx.1 ≠ ak_error_ok then some (rx.1, set_ctx rnd (context.knuth_m ctx3))
        else
          let next1 ← rx.2.2[0]?
          let v1 ← mem_write v j [next1]
          some (ak_error_ok, set_ctx rnd (context.knuth_m { ctx3 with v := pointer.live v1 }))
    | _, _, _ => none
  | _ => none

/-- The function `ak_random_knuth_b_next`: as Algorithm M, with the single
source drawn twice. -/
def ak_random_knuth_b_next {S : Type} (E : collaborators S) (rnd : random S) :
    Option (ak_error × random S) :=
  match rnd.data.ctx with
  | pointer.live (context.knuth_b ctx) =>
    match ctx.source_gen, ctx.v with
    | pointer.live src, pointer.live v => do
      let r1 ← E.source_random src [0] 1
      let ctx1 := { ctx with source_gen := pointer.live r1.2.1 }
      if r1.1 ≠ ak_error_ok then some (r1.1, set_ctx rnd (context.knuth_b ctx1))
      else
        let next ← r1.2.2[0]?
        let j := (ctx.k * next) % 2 ^ 32 / 2 ^ 8 % 256
        let vj ← v[j]?
        let ctx2 := { ctx1 with next := vj }
        let r2 ← E.source_random r1.2.1 r1.2.2 1
        let ctx3 := { ctx2 with source_gen := pointer.live r2.2.1 }
        if r2.1 ≠ ak_error_ok then some (r2.1, set_ctx rnd (context.knuth_b ctx3))
        else
          let next1 ← r2.2.2[0]?
          let v1 ← mem_write v j [next1]
          some (ak_error_ok, set_ctx rnd (context.knuth_b { ctx3 with v := pointer.live v1 }))
    | _, _ => none
  | _ => none

/-- The assignment `x = ((ak_uint64)x * (x + 1)) % m` of
`ak_random_coveyou_next`: the sum `x + 1` is a 32-bit sum, the product is a
64-bit product. -/
def coveyou_advance (coveyou : random_quadratic_coveyou_method) :
    random_quadratic_coveyou_method :=
  { coveyou with x := (coveyou.x * ((coveyou.x + 1) % 2 ^ 32)) % 2 ^ 64 % coveyou.m }

/-- The function `ak_random_coveyou_next`; a zero modulus traps in the
division. -/
def ak_random_coveyou_next {S : Type} (rnd : random S) : Option (ak_error × random S) :=
  match rnd.data.ctx with
  | pointer.null => some (ak_error_message ak_error_undefined_value, rnd)
  | pointer.live (context.coveyou coveyou) =>
    if coveyou.m = 0 then none
    else some (ak_error_ok, set_ctx rnd (context.coveyou (coveyou_advance coveyou)))
  | _ => none

/-- The function `ak_random_gck_next`: the new current word is
`(next + x[0]) % m` (computed in 64 bits); `k - 1` words are copied from
`gck->x + sizeof(ak_uint32)`, which is the address of `x[4]`, through a temporary
block to the front of `x`; the old current word goes to `x[k-1]`. With `k = 0`
the size `k - 1` of the temporary block wraps and the copy has no result. -/
def ak_random_gck_next {S : Type} (rnd : random S) : Option (ak_error × random S) :=
  match rnd.data.ctx with
  | pointer.null => some (ak_error_message ak_error_undefined_value, rnd)
  | pointer.live (context.gck gck) =>
    match gck.x with
    | pointer.live x => do
      let x0 ← x[0]?
      if gck.m = 0 ∨ gck.k = 0 then none
      else
        let next := (gck.next + x0) % 2 ^ 64 % gck.m
        let buf ← mem_read x 4 (gck.k - 1)
        let x1 ← mem_write x 0 buf
        let x2 ← mem_write x1 (gck.k - 1) [gck.next]
        some (ak_error_ok, set_ctx rnd
          (context.gck { gck with x := pointer.live x2, next := next }))
    | _ => none
  | _ => none

/-- The three statements
`next = ((ak_uint64)xn + xprev) % m; xprev = xn; xn = next` of
`ak_random_fibonachi_next`. -/
def fibonachi_advance (fibonachi : random_fibonachi) : random_fibonachi :=
  { fibonachi with xn := (fibonachi.xn + fibonachi.xprev) % 2 ^ 64 % fibonachi.m,
                   xprev := fibonachi.xn }

/-- The function `ak_random_fibonachi_next`; a zero modulus traps in the
division. -/
def ak_random_fibonachi_next {S : Type} (rnd : random S) : Option (ak_error × random S) :=
  match rnd.data.ctx with
  | pointer.null => some (ak_error_message ak_error_undefined_value, rnd)
  | pointer.live (context.fibonachi fibonachi) =>
    if fibonachi.m = 0 then none
    else some (ak_error_ok, set_ctx rnd (context.fibonachi (fibonachi_advance fibonachi)))
  | _ => none

/-- The call `rnd->next( rnd )` through the slot; a `NULL` slot traps. -/
def call_next {S : Type} (E : collaborators S) (rnd : random S) : Option (ak_error × random S) :=
  match rnd.next with
  | none => none
  | some fn_next.lcg => ak_random_lcg_next rnd
  | some fn_next.hrng => ak_random_hrng_next E rnd
  | some fn_next.qcg => ak_random_qcg_next rnd
  | some fn_next.mitchel => ak_random_mitchel_next rnd
  | some fn_next.knuth_m => ak_random_knuth_m_next E rnd
  | some fn_next.knuth_b => ak_random_knuth_b_next E rnd
  | some fn_next.coveyou => ak_random_coveyou_next rnd
  | some fn_next.gck => ak_random_gck_next rnd
  | some fn_next.fibonachi => ak_random_fibonachi_next rnd

/-! ## Seeding: the functions `randomize_ptr` -/

/-- The `do ... while( ++idx < size )` loop of `ak_random_lcg_randomize_ptr`:
one `next` and one addition of `value[idx]` per turn. -/
def ak_random_lcg_randomize_loop {S : Type} (E : collaborators S) :
    Nat → random S → List Nat → Nat → Int → Option (random S)
  | 0, _, _, _, _ => none
  | fuel + 1, rnd, value, idx, size => do
    let r1 ← call_next E rnd
    let b ← value[idx]?
    let rnd2 := set_val r1.2 ((r1.2.data.val + b) % 2 ^ 64)
    if ((idx + 1 : Nat) : Int) < size then
      ak_random_lcg_randomize_loop E fuel rnd2 value (idx + 1) size
    else some rnd2

/-- The function `ak_random_lcg_randomize_ptr`. -/
def ak_random_lcg_randomize_ptr {S : Type} (E : collaborators S) (rnd : random S)
    (ptr : List Nat) (size : Int) : Option (ak_error × random S) :=
  if size ≤ 0 then some (ak_error_message ak_error_wrong_length, rnd)
  else do
    let b0 ← ptr[0]?
    let rnd1 := set_val rnd b0
    let rnd2 ← ak_random_lcg_randomize_loop E size.toNat rnd1 ptr 0 size
    call_next E rnd2

/-- The function `ak_random_hrng_randomize_ptr`: the counter becomes the hash of
the seed, then one `next`. -/
def ak_random_hrng_randomize_ptr {S : Type} (E : collaborators S) (rnd : random S)
    (ptr : List Nat) (size : Int) : Option (ak_error × random S) :=
  match rnd.data.ctx with
  | pointer.null => some (ak_error_message ak_error_undefined_value, rnd)
  | pointer.live (context.hrng hrng) =>
    if size < 0 then none
    else do
      let input ← mem_read ptr 0 size.toNat
      let hashed := E.ak_hash_ptr input 64
      let bytes ← mem_write (bytes_of_words64 hrng.counter) 0 (hashed.2.take 64)
      let rnd1 := set_ctx rnd (context.hrng { hrng with counter := words64_of_bytes bytes })
      if hashed.1 ≠ ak_error_ok then some (ak_error_message hashed.1, rnd1)
      else call_next E rnd1
  | _ => none

/-- The function `ak_random_qcg_randomize_ptr`: the first word sets `xn`; with
at least five words the next four set `a`, `c`, `d`, `m`. -/
def ak_random_qcg_randomize_ptr {S : Type} (rnd : random S) (ptr : List Nat) (size : Int) :
    Option (ak_error × random S) :=
  if to_uint64 size < 4 then some (ak_error_message ak_error_wrong_length, rnd)
  else
    match rnd.data.ctx with
    | pointer.live (context.qcg ctx) => do
      let x ← read_word32 ptr 0
      let ctx1 := { ctx with xn := x }
      if to_uint64 size < 5 * 4 then some (ak_error_ok, set_ctx rnd (context.qcg ctx1))
      else do
        let a ← read_word32 ptr 1
        let c ← read_word32 ptr 2
        let d ← read_word32 ptr 3
        let m ← read_word32 ptr 4
        some (ak_error_ok, set_ctx rnd (context.qcg { ctx1 with a := a, c := c, d := d, m := m }))
    | _ => none

/-- The function `ak_random_mitchel_randomize_ptr`: 55 words of the seed are
copied over the block `x`. -/
def ak_random_mitchel_randomize_ptr {S : Type} (rnd : random S) (ptr : List Nat) (size : Int) :
    Option (ak_error × random S) :=
  if to_uint64 size < 55 * 4 then some (ak_error_message ak_error_wrong_length, rnd)
  else
    match rnd.data.ctx with
    | pointer.live (context.mitchel ctx) =>
      match ctx.x with
      | pointer.live x => do
        let ws ← read_words32 ptr 0 55
        let x1 ← mem_write x 0 ws
        some (ak_error_ok, set_ctx rnd (context.mitchel { ctx with x := pointer.live x1 }))
      | _ => none
    | _ => none

/-- The function `ak_random_coveyou_randomize_ptr`: the first word must have
the two low bits `10`; it sets `x`, and with at least two words the second
sets `m`. -/
def ak_random_coveyou_randomize_ptr {S : Type} (rnd : random S) (ptr : List Nat) (size : Int) :
    Option (ak_error × random S) :=
  if to_uint64 size < 4 then some (ak_error_message ak_error_wrong_length, rnd)
  else do
    let w0 ← read_word32 ptr 0
    if w0 % 4 ≠ 2 then some (ak_error_message ak_error_invalid_value, rnd)
    else
      match rnd.data.ctx with
      | pointer.live (context.coveyou ctx) =>
        let ctx1 := { ctx with x := w0 }
        if to_uint64 size < 2 * 4 then some (ak_error_ok, set_ctx rnd (context.coveyou ctx1))
        else do
          let w1 ← read_word32 ptr 1
          some (ak_error_ok, set_ctx rnd (context.coveyou { ctx1 with m := w1 }))
      | _ => none

/-- The function `ak_random_gck_randomize_ptr`: the size must be a multiple of
four; `k` becomes `size >> 2`, the block `x` is resized to `k` words with
`realloc` (taken to succeed) and filled from the seed. -/
def ak_random_gck_randomize_ptr {S : Type} (rnd : random S) (ptr : List Nat) (size : Int) :
    Option (ak_error × random S) :=
  if size % 4 ≠ 0 then some (ak_error_message ak_error_wrong_length, rnd)
  else
    match rnd.data.ctx with
    | pointer.live (context.gck ctx) =>
      if size < 0 ∨ ctx.x = pointer.dangling then none
      else do
        let ws ← read_words32 ptr 0 (size / 4).toNat
        some (ak_error_ok, set_ctx rnd
          (context.gck { ctx with k := (size / 4).toNat, x := pointer.live ws }))
    | _ => none

/-- The function `ak_random_fibonachi_randomize_ptr`: the first two words set
`xn` and `xprev`; with at least three words the third sets `m`. -/
def ak_random_fibonachi_randomize_ptr {S : Type} (rnd : random S) (ptr : List Nat) (size : Int) :
    Option (ak_error × random S) :=
  if to_uint64 size < 2 * 4 then some (ak_error_message ak_error_wrong_length, rnd)
  else
    match rnd.data.ctx with
    | pointer.live (context.fibonachi ctx) => do
      let w0 ← read_word32 ptr 0
      let w1 ← read_word32 ptr 1
      let ctx1 := { ctx with xn := w0, xprev := w1 }
      if to_uint64 size < 3 * 4 then some (ak_error_ok, set_ctx rnd (context.fibonachi ctx1))
      else do
        let w2 ← read_word32 ptr 2
        some (ak_error_ok, set_ctx rnd (context.fibonachi { ctx1 with m := w2 }))
    | _ => none

/-- The shift `x << count` of an `unsigned` (32 bits). The shift instruction
uses the low five bits of the count, so that the count `64 - n` of the seeding
of the class `nlfsr` acts as `32 - n` for `n` from 1 to 31 and as 0 for
`n = 32`. -/
def shl32 (x count : Nat) : Nat := x * 2 ^ (count % 32) % 2 ^ 32

/-- The shift `x >> count` of an `unsigned` (32 bits), with the same reduction
of the count. -/
def shr32 (x count : Nat) : Nat := x / 2 ^ (count % 32)

/-- The function `ak_random_nlfsr_randomize_ptr`: up to four bytes of the seed
are packed, first byte highest, into the 32-bit register `state`; then come the
two statements `state <<= 64 - n; state >>= 64 - n`, whose count `64 - n` is
a `size_t`. -/
def ak_random_nlfsr_randomize_ptr {S : Type} (rnd : random S) (ptr : List Nat) (size : Int) :
    Option (ak_error × random S) :=
  if size ≤ 0 then some (ak_error_message ak_error_wrong_length, rnd)
  else
    match rnd.data.ctx with
    | pointer.live (context.nlfsr ctx) => do
      let s0 ← ptr[0]?
      let s1 ← if size > 1 then (ptr[1]?).map (fun b => (s0 * 2 ^ 8 % 2 ^ 32 + b) % 2 ^ 32)
        else some s0
      let s2 ← if size > 2 then (ptr[2]?).map (fun b => (s1 * 2 ^ 8 % 2 ^ 32 + b) % 2 ^ 32)
        else some s1
      let s3 ← if size > 3 then (ptr[3]?).map (fun b => (s2 * 2 ^ 8 % 2 ^ 32 + b) % 2 ^ 32)
        else some s2
      let count := (64 + (2 ^ 64 - ctx.n % 2 ^ 64)) % 2 ^ 64
      let up := shl32 s3 count
      let down := shr32 up count
      some (ak_error_ok, set_ctx rnd (context.nlfsr { ctx with state := down }))
    | _ => none

/-- The call `rnd->randomize_ptr( rnd, ptr, size )` through the slot. -/
def call_randomize {S : Type} (E : collaborators S) (rnd : random S) (ptr : List Nat)
    (size : Int) : Option (ak_error × random S) :=
  match rnd.randomize_ptr with
  | none => none
  | some fn_randomize.lcg => ak_random_lcg_randomize_ptr E rnd ptr size
  | some fn_randomize.hrng => ak_random_hrng_randomize_ptr E rnd ptr size
  | some fn_randomize.qcg => ak_random_qcg_randomize_ptr rnd ptr size
  | some fn_randomize.mitchel => ak_random_mitchel_randomize_ptr rnd ptr size
  | some fn_randomize.coveyou => ak_random_coveyou_randomize_ptr rnd ptr size
  | some fn_randomize.gck => ak_random_gck_randomize_ptr rnd ptr size
  | some fn_randomize.fibonachi => ak_random_fibonachi_randomize_ptr rnd ptr size
  | some fn_randomize.nlfsr => ak_random_nlfsr_randomize_ptr rnd ptr size

/-! ## Extraction: the functions `random` -/

/-- The loop `lab_start: ... if( ++idx < size ) goto lab_start` of
`ak_random_lcg_random`: the byte `(ak_uint8)( val >> 16 )` is stored, then the
state moves on. -/
def ak_random_lcg_random_loop {S : Type} (E : collaborators S) :
    Nat → random S → List Nat → Nat → Int → Option (random S × List Nat)
  | 0, _, _, _, _ => none
  | fuel + 1, rnd, value, idx, size => do
    let value1 ← mem_write value idx [rnd.data.val / 2 ^ 16 % 256]
    let r1 ← call_next E rnd
    if ((idx + 1 : Nat) : Int) < size then
      ak_random_lcg_random_loop E fuel r1.2 value1 (idx + 1) size
    else some (r1.2, value1)

/-- The function `ak_random_lcg_random`. -/
def ak_random_lcg_random {S : Type} (E : collaborators S) (rnd : random S)
    (ptr : List Nat) (size : Int) : Option (ak_error × random S × List Nat) :=
  if size ≤ 0 then some (ak_error_message ak_error_wrong_length, rnd, ptr)
  else do
    let r ← ak_random_lcg_random_loop E size.toNat rnd ptr 0 size
    some (ak_error_ok, r.1, r.2)

/-- Modelled from the spec: the system call `read( fd, buf, count )` on an open
file description. A failing call returns `-1`; at the end of the file the call
returns `0`; otherwise it delivers between one byte and
`min( count, bytes left )` bytes and moves the position. -/
def os_read {S : Type} (E : collaborators S) (f : open_file) (count : Nat) :
    Int × open_file × List Nat :=
  if E.os_read_fails f.reads then (-1, { f with reads := f.reads + 1 }, [])
  else
    let avail := f.contents.length - f.pos
    let n := if avail = 0 ∨ count = 0 then 0
      else max 1 (min (E.os_read_length f.reads) (min avail count))
    (n, { f with pos := f.pos + n, reads := f.reads + 1 }, (f.contents.drop f.pos).take n)

/-- The loop `slabel: ... goto slabel` of `ak_random_file_ptr`: read what can be
read; a negative result is an error, a zero result rewinds the file
(`lseek( fd, 0, SEEK_SET )`) and retries. A descriptor that is not open makes
`read` fail. -/
def ak_random_file_loop {S : Type} (E : collaborators S) :
    Nat → random S → List Nat → Int → Int → Int → Option (ak_error × random S × List Nat)
  | 0, _, _, _, _, _ => none
  | fuel + 1, rnd, value, offset, count, size =>
    match rnd.data.file with
    | none => some (ak_error_message ak_error_read_data, rnd, value)
    | some f =>
      let res := os_read E f count.toNat
      let rnd1 := { rnd with data := { rnd.data with file := some res.2.1 } }
      if res.1 < 0 then some (ak_error_message ak_error_read_data, rnd1, value)
      else if res.1 = 0 then
        let rnd2 := { rnd with data := { rnd.data with file := some { res.2.1 with pos := 0 } } }
        ak_random_file_loop E fuel rnd2 value offset count size
      else
        match mem_write value offset.toNat res.2.2 with
        | none => none
        | some value1 =>
          if offset + res.1 ≥ size then some (ak_error_ok, rnd1, value1)
          else ak_random_file_loop E fuel rnd1 value1 (offset + res.1) (count - res.1) size

/-- The function `ak_random_file_ptr`. -/
def ak_random_file_ptr {S : Type} (E : collaborators S) (rnd : random S)
    (ptr : List Nat) (size : Int) : Option (ak_error × random S × List Nat) :=
  if size ≤ 0 then some (ak_error_message ak_error_zero_length, rnd, ptr)
  else do
    let value ← mem_write ptr 0 (List.replicate size.toNat 0)
    ak_random_file_loop E (2 * size.toNat + 1) rnd value 0 size size

/-- The code of `ak_random_hrng_random` from the test of
`while( hrng->capacity < cursize )` to the return: while the buffer holds
fewer bytes than asked for, the rest of the buffer is copied out and the state
moves on; then `cursize` bytes are copied out and the capacity is reduced. The
last component counts the calls of `rnd->next`. -/
def ak_random_hrng_random_loop {S : Type} (E : collaborators S) :
    Nat → random S → Int → List Nat → Nat → Nat → Option (ak_error × random S × List Nat × Nat)
  | 0, _, _, _, _, _ => none
  | fuel + 1, rnd, cursize, ptr, outbuf, calls =>
    match rnd.data.ctx with
    | pointer.live (context.hrng hrng) =>
      if hrng.capacity < cursize then
        if hrng.capacity < 0 ∨ 64 < hrng.capacity then none
        else do
          let part ← mem_read hrng.buffer (64 - hrng.capacity).toNat hrng.capacity.toNat
          let ptr1 ← mem_write ptr outbuf part
          let r1 ← call_next E rnd
          ak_random_hrng_random_loop E fuel r1.2 (cursize - hrng.capacity) ptr1
            (outbuf + hrng.capacity.toNat) (calls + 1)
      else if cursize < 0 ∨ 64 < hrng.capacity then none
      else do
        let part ← mem_read hrng.buffer (64 - hrng.capacity).toNat cursize.toNat
        let ptr1 ← mem_write ptr outbuf part
        some (ak_error_ok,
          set_ctx rnd (context.hrng { hrng with capacity := hrng.capacity - cursize }),
          ptr1, calls)
    | _ => none

/-- The function `ak_random_hrng_random`. Besides the returned code, the handle
and the output block, the result reports how many times `rnd->next` was
called. -/
def ak_random_hrng_random {S : Type} (E : collaborators S) (rnd : random S)
    (ptr : List Nat) (size : Int) : Option (ak_error × random S × List Nat × Nat) :=
  match rnd.data.ctx with
  | pointer.null => some (ak_error_message ak_error_undefined_value, rnd, ptr, 0)
  | pointer.live (context.hrng _) =>
    ak_random_hrng_random_loop E ((to_int32 size).toNat + 3) rnd (to_int32 size) ptr 0 0
  | _ => none

/-- The word `((ak_random_qcg)rnd->data.ctx)->xn` read by the extraction loop. -/
def qcg_word {S : Type} (rnd : random S) : Option Nat :=
  match rnd.data.ctx with
  | pointer.live (context.qcg ctx) => some ctx.xn
  | _ => none

/-- The word `((ak_random_mitchel)rnd->data.ctx)->next` read by the extraction
loop. -/
def mitchel_word {S : Type} (rnd : random S) : Option Nat :=
  match rnd.data.ctx with
  | pointer.live (context.mitchel ctx) => some ctx.next
  | _ => none

/-- The word `((ak_random_coveyou)rnd->data.ctx)->x` read by the extraction
loop. -/
def coveyou_word {S : Type} (rnd : random S) : Option Nat :=
  match rnd.data.ctx with
  | pointer.live (context.coveyou ctx) => some ctx.x
  | _ => none

/-- The word `((ak_random_gck)rnd->data.ctx)->next` read by the extraction
loop. -/
def gck_word {S : Type} (rnd : random S) : Option Nat :=
  match rnd.data.ctx with
  | pointer.live (context.gck ctx) => some ctx.next
  | _ => none

/-- The loop `while (i < size)` shared, textually, by `ak_random_qcg_random`,
`ak_random_mitchel_random`, `ak_random_coveyou_random` and
`ak_random_gck_random` (they differ in the word they read, here `word`):
after one `next` the bytes at addresses 1, 2 and 3 of the 32-bit word are
copied out one by one, the loop being left as soon as `i == size`. -/
def random_three_bytes_loop {S : Type} (E : collaborators S) (word : random S → Option Nat) :
    Nat → random S → List Nat → Nat → Int → Option (ak_error × random S × List Nat)
  | 0, _, _, _, _ => none
  | fuel + 1, rnd, ptr, i, size =>
    if (i : Int) < size then do
      let r1 ← call_next E rnd
      if r1.1 ≠ ak_error_ok then some (r1.1, r1.2, ptr)
      else do
        let w ← word r1.2
        let ptr1 ← mem_write ptr i [byte_of_word w 1]
        if ((i + 1 : Nat) : Int) = size then some (r1.1, r1.2, ptr1)
        else do
          let ptr2 ← mem_write ptr1 (i + 1) [byte_of_word w 2]
          if ((i + 2 : Nat) : Int) = size then some (r1.1, r1.2, ptr2)
          else do
            let ptr3 ← mem_write ptr2 (i + 2) [byte_of_word w 3]
            random_three_bytes_loop E word fuel r1.2 ptr3 (i + 3) size
    else some (ak_error_ok, rnd, ptr)

/-- The function `ak_random_qcg_random`. -/
def ak_random_qcg_random {S : Type} (E : collaborators S) (rnd : random S)
    (ptr : List Nat) (size : Int) : Option (ak_error × random S × List Nat) :=
  if size ≤ 0 then some (ak_error_message ak_error_wrong_length, rnd, ptr)
  else random_three_bytes_loop E qcg_word (size.toNat + 1) rnd ptr 0 size

/-- The function `ak_random_mitchel_random`. -/
def ak_random_mitchel_random {S : Type} (E : collaborators S) (rnd : random S)
    (ptr : List Nat) (size : Int) : Option (ak_error × random S × List Nat) :=
  if size ≤ 0 then some (ak_error_message ak_error_wrong_length, rnd, ptr)
  else random_three_bytes_loop E mitchel_word (size.toNat + 1) rnd ptr 0 size

/-- The function `ak_random_coveyou_random`. -/
def ak_random_coveyou_random {S : Type} (E : collaborators S) (rnd : random S)
    (ptr : List Nat) (size : Int) : Option (ak_error × random S × List Nat) :=
  if size ≤ 0 then some (ak_error_message ak_error_wrong_length, rnd, ptr)
  else random_three_bytes_loop E coveyou_word (size.toNat + 1) rnd ptr 0 size

/-- The function `ak_random_gck_random`. -/
def ak_random_gck_random {S : Type} (E : collaborators S) (rnd : random S)
    (ptr : List Nat) (size : Int) : Option (ak_error × random S × List Nat) :=
  if size ≤ 0 then some (ak_error_message ak_error_wrong_length, rnd, ptr)
  else random_three_bytes_loop E gck_word (size.toNat + 1) rnd ptr 0 size

/-- The word `((ak_random_fibonachi)rnd->data.ctx)->xn` read by the extraction
loop. -/
def fibonachi_word {S : Type} (rnd : random S) : Option Nat :=
  match rnd.data.ctx with
  | pointer.live (context.fibonachi ctx) => some ctx.xn
  | _ => none

/-- The function `ak_random_fibonachi_random`; its loop is, textually, the loop
`random_three_bytes_loop` on the word `xn`. -/
def ak_random_fibonachi_random {S : Type} (E : collaborators S) (rnd : random S)
    (ptr : List Nat) (size : Int) : Option (ak_error × random S × List Nat) :=
  if size ≤ 0 then some (ak_error_message ak_error_wrong_length, rnd, ptr)
  else random_three_bytes_loop E fibonachi_word (size.toNat + 1) rnd ptr 0 size

/-- The function `ak_hamming_weight` on an `ak_uint32`: three steps of parallel
bit counting, then the low bit of the top byte of `number * 0x01010101`. -/
def ak_hamming_weight (number : Nat) : Nat :=
  let n1 := (number + (2 ^ 32 - (number / 2 ^ 1 &&& 0x55555555))) % 2 ^ 32
  let n2 := ((n1 &&& 0x33333333) + (n1 / 2 ^ 2 &&& 0x33333333)) % 2 ^ 32
  let n3 := (n2 + n2 / 2 ^ 4) % 2 ^ 32 &&& 0x0F0F0F0F
  (0x01010101 * n3 % 2 ^ 32 / 2 ^ 24) &&& 1

/-- The macro `ak_random_nlfsr_next_bit2`: one step of the register. It works on
the context and on the locals `lsb` and `n1` of `ak_random_nlfsr_next_byte`, and
leaves the new register and the new `lsb`. The shift `new_bit << n1` is a shift
of an `ak_uint32`. -/
def ak_random_nlfsr_next_bit2 (ctx : nlfsr_register) (lsb n1 : Nat) :
    Option (nlfsr_register × Nat) := do
  let state := ctx.state / 2 ^ 1
  let linear := ctx.linear_part &&& state
  let non_linear := linear ^^^ (ctx.nonlinear_part &&& state &&& state / 2 ^ 1)
  let hweight := ak_hamming_weight non_linear
  let new_bit := lsb ^^^ hweight
  let moved := shl32 new_bit n1
  let ctx1 := { ctx with state := state ^^^ moved }
  some (ctx1, ctx1.state &&& 1)

/-- The function `ak_random_nlfsr_next_byte`: eight steps of the register; the
byte starts as the `lsb` of the first step and is shifted left by one and
or-ed with the new `lsb` at each of the seven further steps. `n1` is the
`ak_uint32` local initialised with `ctx->n - 1`. -/
def ak_random_nlfsr_next_byte (ctx : nlfsr_register) : Option (nlfsr_register × Nat) := do
  let lsb := ctx.state &&& 1
  let n1 := (ctx.n + (2 ^ 64 - 1)) % 2 ^ 64 % 2 ^ 32
  let r0 ← ak_random_nlfsr_next_bit2 ctx lsb n1
  let byte0 := r0.2 % 256
  let r1 ← ak_random_nlfsr_next_bit2 r0.1 r0.2 n1
  let byte1 := (byte0 * 2 % 256) ||| r1.2
  let r2 ← ak_random_nlfsr_next_bit2 r1.1 r1.2 n1
  let byte2 := (byte1 * 2 % 256) ||| r2.2
  let r3 ← ak_random_nlfsr_next_bit2 r2.1 r2.2 n1
  let byte3 := (byte2 * 2 % 256) ||| r3.2
  let r4 ← ak_random_nlfsr_next_bit2 r3.1 r3.2 n1
  let byte4 := (byte3 * 2 % 256) ||| r4.2
  let r5 ← ak_random_nlfsr_next_bit2 r4.1 r4.2 n1
  let byte5 := (byte4 * 2 % 256) ||| r5.2
  let r6 ← ak_random_nlfsr_next_bit2 r5.1 r5.2 n1
  let byte6 := (byte5 * 2 % 256) ||| r6.2
  let r7 ← ak_random_nlfsr_next_bit2 r6.1 r6.2 n1
  let byte7 := (byte6 * 2 % 256) ||| r7.2
  some (r7.1, byte7)

/-- The loop `while( size-- > 0 ) *value++ = ak_random_nlfsr_next_byte( rnd )` of
`ak_random_nlfsr_random`. -/
def ak_random_nlfsr_random_loop {S : Type} :
    Nat → random S → List Nat → Nat → Int → Option (random S × List Nat)
  | 0, _, _, _, _ => none
  | fuel + 1, rnd, value, idx, size =>
    if size > 0 then
      match rnd.data.ctx with
      | pointer.live (context.nlfsr ctx) => do
        let r ← ak_random_nlfsr_next_byte ctx
        let value1 ← mem_write value idx [r.2]
        ak_random_nlfsr_random_loop fuel (set_ctx rnd (context.nlfsr r.1)) value1 (idx + 1)
          (size - 1)
      | _ => none
    else some (rnd, value)

/-- The function `ak_random_nlfsr_random`. -/
def ak_random_nlfsr_random {S : Type} (rnd : random S) (buffer : List Nat) (size : Int) :
    Option (ak_error × random S × List Nat) :=
  if size ≤ 0 then some (ak_error_message ak_error_wrong_length, rnd, buffer)
  else do
    let r ← ak_random_nlfsr_random_loop (size.toNat + 1) rnd buffer 0 size
    some (ak_error_ok, r.1, r.2)

/-- The byte `((ak_random_knuth_m)rnd->data.ctx)->next`. -/
def knuth_m_byte {S : Type} (rnd : random S) : Option Nat :=
  match rnd.data.ctx with
  | pointer.live (context.knuth_m ctx) => some ctx.next
  | _ => none

/-- The byte `((ak_random_knuth_b)rnd->data.ctx)->next`. -/
def knuth_b_byte {S : Type} (rnd : random S) : Option Nat :=
  match rnd.data.ctx with
  | pointer.live (context.knuth_b ctx) => some ctx.next
  | _ => none

/-- The loop `for (i = 0; i < size; i++)` shared, textually, by
`ak_random_knuth_m_random` and `ak_random_knuth_b_random` (they differ in the
byte they read, here `byte`): one `next`, then the current byte is copied
out. -/
def ak_random_knuth_random_loop {S : Type} (E : collaborators S) (byte : random S → Option Nat) :
    Nat → random S → List Nat → Nat → Int → Option (ak_error × random S × List Nat)
  | 0, _, _, _, _ => none
  | fuel + 1, rnd, ptr, i, size =>
    if (i : Int) < size then do
      let r1 ← call_next E rnd
      if r1.1 ≠ ak_error_ok then some (r1.1, r1.2, ptr)
      else do
        let b ← byte r1.2
        let ptr1 ← mem_write ptr i [b]
        ak_random_knuth_random_loop E byte fuel r1.2 ptr1 (i + 1) size
    else some (ak_error_ok, rnd, ptr)

/-- The function `ak_random_knuth_m_random`. -/
def ak_random_knuth_m_random {S : Type} (E : collaborators S) (rnd : random S)
    (ptr : List Nat) (size : Int) : Option (ak_error × random S × List Nat) :=
  ak_random_knuth_random_loop E knuth_m_byte (size.toNat + 1) rnd ptr 0 size

/-- The function `ak_random_knuth_b_random`. -/
def ak_random_knuth_b_random {S : Type} (E : collaborators S) (rnd : random S)
    (ptr : List Nat) (size : Int) : Option (ak_error × random S × List Nat) :=
  ak_random_knuth_random_loop E knuth_b_byte (size.toNat + 1) rnd ptr 0 size

/-- The call `rnd->random( rnd, ptr, size )` through the slot. -/
def call_random {S : Type} (E : collaborators S) (rnd : random S) (ptr : List Nat)
    (size : Int) : Option (ak_error × random S × List Nat) :=
  match rnd.random with
  | none => none
  | some fn_random.lcg => ak_random_lcg_random E rnd ptr size
  | some fn_random.file => ak_random_file_ptr E rnd ptr size
  | some fn_random.hrng =>
    (ak_random_hrng_random E rnd ptr size).map (fun r => (r.1, r.2.1, r.2.2.1))
  | some fn_random.qcg => ak_random_qcg_random E rnd ptr size
  | some fn_random.mitchel => ak_random_mitchel_random E rnd ptr size
  | some fn_random.knuth_m => ak_random_knuth_m_random E rnd ptr size
  | some fn_random.knuth_b => ak_random_knuth_b_random E rnd ptr size
  | some fn_random.coveyou => ak_random_coveyou_random E rnd ptr size
  | some fn_random.gck => ak_random_gck_random E rnd ptr size
  | some fn_random.fibonachi => ak_random_fibonachi_random E rnd ptr size
  | some fn_random.nlfsr => ak_random_nlfsr_random rnd ptr size

/-! ## Release: the functions `free` -/

/-- The function `ak_random_file_free`: the descriptor is closed; a failing
`close` is only reported. -/
def ak_random_file_free {S : Type} (rnd : random S) : Option (ak_error × random S) :=
  some (ak_error_ok, { rnd with data := { rnd.data with file := none } })

/-- The function `ak_random_hrng_free`: a non-`NULL` context is cleared and
released. -/
def ak_random_hrng_free {S : Type} (rnd : random S) : Option (ak_error × random S) :=
  match rnd.data.ctx with
  | pointer.null => some (ak_error_ok, rnd)
  | pointer.live _ => some (ak_error_ok, { rnd with data := { rnd.data with ctx := pointer.dangling } })
  | pointer.dangling => none

/-- The function `ak_random_qcg_free`: `memset` over the context, then `free`;
there is no guard on the context pointer. -/
def ak_random_qcg_free {S : Type} (rnd : random S) : Option (ak_error × random S) :=
  match rnd.data.ctx with
  | pointer.live _ => some (ak_error_ok, { rnd with data := { rnd.data with ctx := pointer.dangling } })
  | _ => none

/-- The function `ak_random_mitchel_free`: the block `x` and the context are
cleared and released. -/
def ak_random_mitchel_free {S : Type} (rnd : random S) : Option (ak_error × random S) :=
  match rnd.data.ctx with
  | pointer.live (context.mitchel ctx) =>
    match ctx.x with
    | pointer.live x =>
      if 55 ≤ x.length then
        some (ak_error_ok, { rnd with data := { rnd.data with ctx := pointer.dangling } })
      else none
    | _ => none
  | _ => none

/-- The function `ak_random_knuth_m_free`: the source pointers are dropped, the
table and the context are cleared and released. -/
def ak_random_knuth_m_free {S : Type} (rnd : random S) : Option (ak_error × random S) :=
  match rnd.data.ctx with
  | pointer.live (context.knuth_m ctx) =>
    match ctx.v with
    | pointer.live v =>
      if ctx.k ≤ v.length then
        some (ak_error_ok, { rnd with data := { rnd.data with ctx := pointer.dangling } })
      else none
    | _ => none
  | _ => none

/-- The function `ak_random_knuth_b_free`. -/
def ak_random_knuth_b_free {S : Type} (rnd : random S) : Option (ak_error × random S) :=
  match rnd.data.ctx with
  | pointer.live (context.knuth_b ctx) =>
    match ctx.v with
    | pointer.live v =>
      if ctx.k ≤ v.length then
        some (ak_error_ok, { rnd with data := { rnd.data with ctx := pointer.dangling } })
      else none
    | _ => none
  | _ => none

/-- The function `ak_random_coveyou_free`: `memset` over the context, then
`free`; there is no guard on the context pointer. -/
def ak_random_coveyou_free {S : Type} (rnd : random S) : Option (ak_error × random S) :=
  match rnd.data.ctx with
  | pointer.live _ => some (ak_error_ok, { rnd with data := { rnd.data with ctx := pointer.dangling } })
  | _ => none

/-- The function `ak_random_gck_free`: the `k` words of the block `x` and the
context are cleared and released. -/
def ak_random_gck_free {S : Type} (rnd : random S) : Option (ak_error × random S) :=
  match rnd.data.ctx with
  | pointer.live (context.gck ctx) =>
    match ctx.x with
    | pointer.live x =>
      if ctx.k ≤ x.length then
        some (ak_error_ok, { rnd with data := { rnd.data with ctx := pointer.dangling } })
      else none
    | _ => none
  | _ => none

/-- The function `ak_random_fibonachi_free`: `memset` over the context, then
`free`; there is no guard on the context pointer. -/
def ak_random_fibonachi_free {S : Type} (rnd : random S) : Option (ak_error × random S) :=
  match rnd.data.ctx with
  | pointer.live _ => some (ak_error_ok, { rnd with data := { rnd.data with ctx := pointer.dangling } })
  | _ => none

/-- The function `ak_random_nlfsr_free`: a non-`NULL` context is released. -/
def ak_random_nlfsr_free {S : Type} (rnd : random S) : Option (ak_error × random S) :=
  match rnd.data.ctx with
  | pointer.null => some (ak_error_ok, rnd)
  | pointer.live _ => some (ak_error_ok, { rnd with data := { rnd.data with ctx := pointer.dangling } })
  | pointer.dangling => none

/-- The call `rnd->free( rnd )` through a non-`NULL` slot. -/
def call_free {S : Type} (f : fn_free) (rnd : random S) : Option (ak_error × random S) :=
  match f with
  | fn_free.file => ak_random_file_free rnd
  | fn_free.hrng => ak_random_hrng_free rnd
  | fn_free.qcg => ak_random_qcg_free rnd
  | fn_free.mitchel => ak_random_mitchel_free rnd
  | fn_free.knuth_m => ak_random_knuth_m_free rnd
  | fn_free.knuth_b => ak_random_knuth_b_free rnd
  | fn_free.coveyou => ak_random_coveyou_free rnd
  | fn_free.gck => ak_random_gck_free rnd
  | fn_free.fibonachi => ak_random_fibonachi_free rnd
  | fn_free.nlfsr => ak_random_nlfsr_free rnd

/-! ## The public entry points -/

/-- The function `ak_random_create`: every slot and the identity become `NULL`
and the state is zeroed. -/
def ak_random_create {S : Type} (rnd : Option (random S)) : ak_error × Option (random S) :=
  match rnd with
  | none => (ak_error_message ak_error_null_pointer, none)
  | some _ =>
    (ak_error_ok, some { oid := none, next := none, randomize_ptr := none, random := none,
                         free := none, data := random_data.zero })

/-- The function `ak_random_destroy`: the release operation, if installed, is
called; then `oid`, `next`, `randomize_ptr` and `random` become `NULL` and the
state is zeroed. -/
def ak_random_destroy {S : Type} (rnd : Option (random S)) : Option (ak_error × Option (random S)) :=
  match rnd with
  | none => some (ak_error_message ak_error_null_pointer, none)
  | some r =>
    let released : Option (random S) :=
      match r.free with
      | none => some r
      | some f => (call_free f r).map (fun res => res.2)
    match released with
    | none => none
    | some r1 =>
      some (ak_error_ok, some { r1 with oid := none, next := none, randomize_ptr := none,
                                        random := none, data := random_data.zero })

/-- The function `ak_random_randomize`. -/
def ak_random_randomize {S : Type} (E : collaborators S) (rnd : Option (random S))
    (inp : Option (List Nat)) (size : Int) : Option (ak_error × Option (random S)) :=
  match rnd with
  | none => some (ak_error_message ak_error_null_pointer, none)
  | some r =>
    match inp with
    | none => some (ak_error_message ak_error_null_pointer, some r)
    | some buf =>
      if size ≤ 0 then some (ak_error_message ak_error_wrong_length, some r)
      else if r.randomize_ptr = none then
        some (ak_error_message ak_error_undefined_function, some r)
      else (call_randomize E r buf size).map (fun res => (res.1, some res.2))

/-- The function `ak_random_ptr`. -/
def ak_random_ptr {S : Type} (E : collaborators S) (rnd : Option (random S))
    (out : Option (List Nat)) (size : Int) :
    Option (ak_error × Option (random S) × Option (List Nat)) :=
  match rnd with
  | none => some (ak_error_message ak_error_null_pointer, none, out)
  | some r =>
    match out with
    | none => some (ak_error_message ak_error_null_pointer, some r, none)
    | some buf =>
      if size ≤ 0 then some (ak_error_message ak_error_wrong_length, some r, some buf)
      else if r.random = none then
        some (ak_error_message ak_error_undefined_function, some r, some buf)
      else (call_random E r buf size).map (fun res => (res.1, some res.2.1, some res.2.2))

/-! ## Constructors

The outcome of an allocation is an argument of the constructor (`true` when the
block is obtained); a block obtained from `malloc` is taken to hold zeros. The
value of `ak_random_value()`, which depends on the clock and on the process, is
an argument as well. -/

/-- The function `ak_random_create_lcg`; `qword` is the value of
`ak_random_value()`. -/
def ak_random_create_lcg {S : Type} (E : collaborators S) (qword : Nat)
    (generator : Option (random S)) : Option (ak_error × Option (random S)) :=
  match ak_random_create generator with
  | (_, none) => some (ak_error_message ak_error_null_pointer, none)
  | (error, some g) =>
    let g1 := { g with oid := E.ak_oid_find_by_name ("lcg"), next := some fn_next.lcg,
                       randomize_ptr := some fn_randomize.lcg, random := some fn_random.lcg }
    match ak_random_lcg_randomize_ptr E g1 ((List.range 8).map (byte_of_word qword)) 8 with
    | none => none
    | some r => some (error, some r.2)

/-- The function `ak_random_create_file`. -/
def ak_random_create_file {S : Type} (E : collaborators S) (rnd : Option (random S))
    (filename : String) : Option (ak_error × Option (random S)) :=
  match ak_random_create rnd with
  | (_, none) => some (ak_error_message ak_error_null_pointer, none)
  | (error, some r) =>
    match E.os_open filename with
    | none =>
      match ak_random_destroy (some { r with data := { r.data with fd := -1 } }) with
      | none => none
      | some res => some (ak_error_open_file, res.2)
    | some (fd, contents) =>
      let f : open_file := { contents := contents, pos := 0, reads := 0 }
      some (error, some { r with next := none, randomize_ptr := none,
                                 random := some fn_random.file, free := some fn_free.file,
                                 data := { r.data with fd := fd, file := some f } })

/-- The function `ak_random_create_urandom`. -/
def ak_random_create_urandom {S : Type} (E : collaborators S) (generator : Option (random S)) :
    Option (ak_error × Option (random S)) :=
  match ak_random_create_file E generator ("/dev/urandom") with
  | some (ak_error_ok, some g) =>
    some (ak_error_ok, some { g with oid := E.ak_oid_find_by_name ("dev-urandom") })
  | other => other

/-- The function `ak_random_create_hrng`; `value` is the value of
`ak_random_value()`. -/
def ak_random_create_hrng {S : Type} (E : collaborators S) (value : Nat) (calloc_ok : Bool)
    (rnd : Option (random S)) : Option (ak_error × Option (random S)) :=
  match ak_random_create rnd with
  | (_, none) => some (ak_error_message ak_error_null_pointer, none)
  | (_, some r) =>
    if calloc_ok = false then
      match ak_random_destroy (some r) with
      | none => none
      | some res => some (ak_error_message ak_error_null_pointer, res.2)
    else
      let r1 := set_ctx r (context.hrng
        { counter := List.replicate 8 0, buffer := List.replicate 64 0, capacity := 0 })
      if E.ak_hash_create_streebog512 ≠ ak_error_ok then
        some (ak_error_message E.ak_hash_create_streebog512, some r1)
      else
        let r2 := { r1 with oid := E.ak_oid_find_by_name ("hrng"), next := some fn_next.hrng,
                            randomize_ptr := some fn_randomize.hrng,
                            random := some fn_random.hrng, free := some fn_free.hrng }
        match call_randomize E r2 ((List.range 8).map (byte_of_word value)) 8 with
        | none => none
        | some res => some (res.1, some res.2)

/-- The constants `random_quadratic_congruence_method_a`, `_c`, `_d`, `_m`. -/
def random_quadratic_congruence_method_a : Nat := 0x57FF7
/-- Default free term of the quadratic congruential generator. -/
def random_quadratic_congruence_method_c : Nat := 0x418693
/-- Default coefficient of the square of the quadratic congruential generator. -/
def random_quadratic_congruence_method_d : Nat := 0x2
/-- Default modulus of the quadratic congruential generator. -/
def random_quadratic_congruence_method_m : Nat := 0xFFFFFFFC

/-- The function `ak_random_create_qcg`. -/
def ak_random_create_qcg {S : Type} (E : collaborators S) (calloc_ok : Bool)
    (rnd : Option (random S)) : Option (ak_error × Option (random S)) :=
  match ak_random_create rnd with
  | (_, none) => some (ak_error_message ak_error_null_pointer, none)
  | (_, some r) =>
    if calloc_ok = false then
      match ak_random_destroy (some r) with
      | none => none
      | some res => some (ak_error_message ak_error_null_pointer, res.2)
    else
      let r1 := { r with oid := E.ak_oid_find_by_name ("qcg"), next := some fn_next.qcg,
                         randomize_ptr := some fn_randomize.qcg,
                         random := some fn_random.qcg, free := some fn_free.qcg }
      let r2 := set_ctx r1 (context.qcg
        { xn := 0, d := random_quadratic_congruence_method_d,
          a := random_quadratic_congruence_method_a,
          c := random_quadratic_congruence_method_c,
          m := random_quadratic_congruence_method_m })
      match call_randomize E r2 ((List.range 4).map (byte_of_word 0x8299)) 4 with
      | none => none
      | some res => some (res.1, some res.2)

/-- The constant `random_coveyou_m`. -/
def random_coveyou_m : Nat := 0xFFFFFFFB

/-- The function `ak_random_create_coveyou`. -/
def ak_random_create_coveyou {S : Type} (E : collaborators S) (calloc_ok : Bool)
    (rnd : Option (random S)) : Option (ak_error × Option (random S)) :=
  match ak_random_create rnd with
  | (_, none) => some (ak_error_message ak_error_null_pointer, none)
  | (_, some r) =>
    if calloc_ok = false then
      match ak_random_destroy (some r) with
      | none => none
      | some res => some (ak_error_message ak_error_null_pointer, res.2)
    else
      let r1 := { r with oid := E.ak_oid_find_by_name ("coveyou"), next := some fn_next.coveyou,
                         randomize_ptr := some fn_randomize.coveyou,
                         random := some fn_random.coveyou, free := some fn_free.coveyou }
      let r2 := set_ctx r1 (context.coveyou { x := 0, m := random_coveyou_m })
      match call_randomize E r2 ((List.range 4).map (byte_of_word 0x380316)) 4 with
      | none => none
      | some res => some (res.1, some res.2)

/-- The constant `random_fibonachi_m`. -/
def random_fibonachi_m : Nat := 0xFFFFFFFB

/-- The function `ak_random_create_fibonachi`; the seed is the array
`init[2] = { 0x4E5F6A7B, 0xA1B2C3D4 }`. -/
def ak_random_create_fibonachi {S : Type} (E : collaborators S) (calloc_ok : Bool)
    (rnd : Option (random S)) : Option (ak_error × Option (random S)) :=
  match ak_random_create rnd with
  | (_, none) => some (ak_error_message ak_error_null_pointer, none)
  | (_, some r) =>
    if calloc_ok = false then
      match ak_random_destroy (some r) with
      | none => none
      | some res => some (ak_error_message ak_error_null_pointer, res.2)
    else
      let r1 := { r with oid := E.ak_oid_find_by_name ("fibonachi"),
                         next := some fn_next.fibonachi,
                         randomize_ptr := some fn_randomize.fibonachi,
                         random := some fn_random.fibonachi, free := some fn_free.fibonachi }
      let r2 := set_ctx r1 (context.fibonachi { xn := 0, xprev := 0, m := random_fibonachi_m })
      match call_randomize E r2
          ((List.range 4).map (byte_of_word 0x4E5F6A7B)
            ++ (List.range 4).map (byte_of_word 0xA1B2C3D4)) 8 with
      | none => none
      | some res => some (res.1, some res.2)

/-- The loop of `ak_initialize_nonlinear_part`:
`non_linear = (non_linear << 1) ^ non_linear`, repeated while `i` is below the
bound `n - 3` (computed in `size_t`); `non_linear` is an `unsigned`. -/
def ak_initialize_nonlinear_part_loop : Nat → Nat → Nat → Nat → Option Nat
  | 0, _, _, _ => none
  | fuel + 1, i, bound, non_linear =>
    if i < bound then
      ak_initialize_nonlinear_part_loop fuel (i + 1) bound
        ((non_linear * 2 % 2 ^ 32) ^^^ non_linear)
    else some non_linear

/-- The function `ak_initialize_nonlinear_part` on the context. -/
def ak_initialize_nonlinear_part (ctx : nlfsr_register) : Option nlfsr_register :=
  let bound := (ctx.n + (2 ^ 64 - 3)) % 2 ^ 64
  (ak_initialize_nonlinear_part_loop (bound + 1) 0 bound 1).map
    fun non_linear => { ctx with nonlinear_part := non_linear }

/-- The function `ak_random_create_nlfsr_with_params`; `size` is a `size_t` and
`linear_part` an `ak_uint64`, `value` is the value of `ak_random_value()`. The
context comes from `malloc` and is used without a test. The register is set to
the low 32 bits of `value` and goes through the same two shifts by `64 - size`
as in the seeding. -/
def ak_random_create_nlfsr_with_params {S : Type} (E : collaborators S) (value : Nat)
    (malloc_ok : Bool) (generator : Option (random S)) (size linear_part : Nat) :
    Option (ak_error × Option (random S)) :=
  match ak_random_create generator with
  | (_, none) => some (ak_error_message ak_error_null_pointer, none)
  | (error, some g) =>
    let g1 := { g with oid := E.ak_oid_find_by_name ("nlfsr"), next := none,
                       randomize_ptr := some fn_randomize.nlfsr,
                       random := some fn_random.nlfsr, free := some fn_free.nlfsr }
    if malloc_ok = false then none
    else do
      let count := (64 + (2 ^ 64 - size % 2 ^ 64)) % 2 ^ 64
      let up := shl32 (value % 2 ^ 32) count
      let down := shr32 up count
      let ctx ← ak_initialize_nonlinear_part
        { state := down, linear_part := linear_part % 2 ^ 32, nonlinear_part := 0,
          n := size % 2 ^ 64 }
      some (error, some (set_ctx g1 (context.nlfsr ctx)))

/-- The function `ak_random_create_nlfsr`. -/
def ak_random_create_nlfsr {S : Type} (E : collaborators S) (value : Nat) (malloc_ok : Bool)
    (generator : Option (random S)) : Option (ak_error × Option (random S)) :=
  ak_random_create_nlfsr_with_params E value malloc_ok generator 32 183599831

/-- The constant `random_gck_k`; no function of the file refers to it. -/
def random_gck_k : Nat := 47

/-- The constant `random_gck_m`. -/
def random_gck_m : Nat := 0xFFFFFFFB

/-- The array `init[45]` of `ak_random_create_gck`. -/
def random_gck_init : List Nat :=
  [0x74b3f95c, 0x8f6ea02e, 0x0127d3ab, 0xf30c98bd, 0x5d86a1e2,
   0xdba46cc1, 0x6e7934df, 0xca47b8f0, 0x3e91dc2a, 0x89fa4cc9,
   0x1273bf04, 0x40e95dea, 0xc1567ff1, 0x9ed3a6c8, 0x28fae80c,
   0x6db05bc2, 0x718c9f75, 0x24d6715f, 0x9b6949e8, 0xa390df17,
   0xc0831a62, 0x46fd8dc3, 0x5b4e63f9, 0x2c3ae4b7, 0x7f19d209,
   0x9d20e151, 0xeb3ca74b, 0x66a1cd0e, 0xf4be9a6d, 0x3bddf0a5,
   0x0f71b93a, 0x5c820df4, 0x9a546362, 0x32fe8cc0, 0xbbb2a4db,
   0xe8623d97, 0x151de34c, 0x8cec96ed, 0x615f7432, 0x2f40abd1,
   0x49ea6738, 0x0a2b193f, 0xe5150c29, 0x7b034c16, 0x14cf9bb1]

/-- The constant `random_mitchel_m`. -/
def random_mitchel_m : Nat := 0xFFFFFFFB

/-- The array `init[55]` of `ak_random_create_mitchel`. -/
def random_mitchel_init : List Nat :=
  [0x9f4b4f6a, 0xc1ed8d5e, 0x3bfe8d14, 0x05b8cc52, 0x6a7e2b19,
   0xd444a710, 0xf39bd3af, 0xc9a9f92e, 0x537ce20b, 0xa4f3c218,
   0xfb93acd4, 0xc52dfd21, 0x1125bf61, 0xe8a72d6c, 0x7bada3ed,
   0x628c51be, 0x05b4a3f7, 0x2e9c8f24, 0x9ba342df, 0xeca19c3a,
   0x18f8c871, 0x4df9b16b, 0x93a7d8c2, 0x7afda0b6, 0x5d4a3c48,
   0xd3b8f5c7, 0x4af35c91, 0x1e98fa6e, 0xaa67c449, 0x84bacf3f,
   0x5e4c2a79, 0x0ba87422, 0x15e72fbb, 0x4f9c3ae6, 0x305814e0,
   0x7f210a58, 0xa7f69127, 0x7d9a3f10, 0x62db4ad5, 0x8493c6f0,
   0x5325f4db, 0x7ff8d83a, 0xfcbe7c05, 0x9c2137b3, 0x143adf57,
   0xc5b42a01, 0x6d4c06ea, 0x317f21c8, 0x1fa783f1, 0x72e59a90,
   0x49f2dcbd, 0xd8ad6ec2, 0x58f6836d, 0xb0e9c3ff, 0x329b0edc]

/-- The bytes of a block of 32-bit words, little-endian. -/
def bytes_of_words32 (ws : List Nat) : List Nat :=
  (ws.map (fun w => (List.range 4).map (byte_of_word w))).flatten

/-- The value of `sizeof( struct random_fibonachi )`: three `ak_uint32`. -/
def sizeof_random_fibonachi : Nat := 3 * 4

/-- The offset of the member `x` of `struct random_mitchel`: the pointer follows
the `ak_uint32` member `next` at the alignment of a pointer. -/
def offsetof_random_mitchel_x : Nat := 8

/-- The offset of the member `m` of `struct random_mitchel`, after the pointer
`x`. -/
def offsetof_random_mitchel_m : Nat := 8 + 8

/-- A store of `width` bytes at the offset `offset` lies inside a block of
`block` bytes. -/
def store_in_block (block offset width : Nat) : Bool := decide (offset + width ≤ block)

/-- The function `ak_random_create_mitchel`. The context is obtained with
`calloc( 1, sizeof( struct random_fibonachi ))`, a block of 12 bytes, and is
used as a `struct random_mitchel`; the stores to the members `x` (bytes 8 to 15)
and `m` (bytes 16 to 19) are stores through the context pointer and have no
result when they leave the block. The block `x` comes from
`malloc( 55*sizeof( ak_uint32 ))`. -/
def ak_random_create_mitchel {S : Type} (E : collaborators S) (calloc_ok : Bool)
    (rnd : Option (random S)) : Option (ak_error × Option (random S)) :=
  match ak_random_create rnd with
  | (_, none) => some (ak_error_message ak_error_null_pointer, none)
  | (_, some r) =>
    if calloc_ok = false then
      match ak_random_destroy (some r) with
      | none => none
      | some res => some (ak_error_message ak_error_null_pointer, res.2)
    else
      let r1 := { r with oid := E.ak_oid_find_by_name ("mitchel"), next := some fn_next.mitchel,
                         randomize_ptr := some fn_randomize.mitchel,
                         random := some fn_random.mitchel, free := some fn_free.mitchel }
      if store_in_block sizeof_random_fibonachi offsetof_random_mitchel_x 8 = false then none
      else if store_in_block sizeof_random_fibonachi offsetof_random_mitchel_m 4 = false then none
      else
        let r2 := set_ctx r1 (context.mitchel
          { next := 0, x := pointer.live (List.replicate 55 0), m := random_mitchel_m })
        match call_randomize E r2 (bytes_of_words32 random_mitchel_init) (55 * 4) with
        | none => none
        | some res => some (res.1, some res.2)

/-- The function `ak_random_create_gck`. The context is obtained with `calloc`;
the block `x` starts as `malloc(1)`, a block too short to hold a word (`NULL`
when the allocation fails), and is resized by the seeding with the 45 words of
`init`. -/
def ak_random_create_gck {S : Type} (E : collaborators S) (calloc_ok malloc_ok : Bool)
    (rnd : Option (random S)) : Option (ak_error × Option (random S)) :=
  match ak_random_create rnd with
  | (_, none) => some (ak_error_message ak_error_null_pointer, none)
  | (_, some r) =>
    if calloc_ok = false then
      match ak_random_destroy (some r) with
      | none => none
      | some res => some (ak_error_message ak_error_null_pointer, res.2)
    else
      let r1 := { r with oid := E.ak_oid_find_by_name ("gck"), next := some fn_next.gck,
                         randomize_ptr := some fn_randomize.gck,
                         random := some fn_random.gck, free := some fn_free.gck }
      let x : pointer (List Nat) := if malloc_ok then pointer.live [] else pointer.null
      let r2 := set_ctx r1 (context.gck { next := 0, k := 0, x := x, m := random_gck_m })
      match call_randomize E r2 (bytes_of_words32 random_gck_init) (45 * 4) with
      | none => none
      | some res => some (res.1, some res.2)

/-- The function `ak_random_create_knuth_m`; `k` is an `ak_uint8`. The table is
filled by one call of the `random` operation of source X, whose result code is
not looked at. -/
def ak_random_create_knuth_m {S : Type} (E : collaborators S) (calloc_ok malloc_ok : Bool)
    (rnd : Option (random S)) (source_gen_x source_gen_y : pointer S) (k : Nat) :
    Option (ak_error × Option (random S)) :=
  match ak_random_create rnd with
  | (_, none) => some (ak_error_message ak_error_null_pointer, none)
  | (_, some r) =>
    if calloc_ok = false then
      match ak_random_destroy (some r) with
      | none => none
      | some res => some (ak_error_message ak_error_null_pointer, res.2)
    else
      let r1 := { r with next := some fn_next.knuth_m, randomize_ptr := none,
                         random := some fn_random.knuth_m, free := some fn_free.knuth_m }
      let ctx : random_knuth_m S :=
        { source_gen_x := source_gen_x, source_gen_y := source_gen_y, k := k % 256,
          v := pointer.null, next := 0 }
      if malloc_ok = false then
        some (ak_error_message ak_error_null_pointer, some (set_ctx r1 (context.knuth_m ctx)))
      else
        match source_gen_x with
        | pointer.live x =>
          match E.source_random x (List.replicate (k % 256) 0) ((k % 256 : Nat) : Int) with
          | none => none
          | some res =>
            some (ak_error_ok, some (set_ctx r1 (context.knuth_m
              { ctx with source_gen_x := pointer.live res.2.1, v := pointer.live res.2.2 })))
        | _ => none

/-- The function `ak_random_create_knuth_b`; `k` is an `ak_uint8`. -/
def ak_random_create_knuth_b {S : Type} (E : collaborators S) (calloc_ok malloc_ok : Bool)
    (rnd : Option (random S)) (source_gen : pointer S) (k : Nat) :
    Option (ak_error × Option (random S)) :=
  match ak_random_create rnd with
  | (_, none) => some (ak_error_message ak_error_null_pointer, none)
  | (_, some r) =>
    if calloc_ok = false then
      match ak_random_destroy (some r) with
      | none => none
      | some res => some (ak_error_message ak_error_null_pointer, res.2)
    else
      let r1 := { r with next := some fn_next.knuth_b, randomize_ptr := none,
                         random := some fn_random.knuth_b, free := some fn_free.knuth_b }
      let ctx : random_knuth_b S :=
        { source_gen := source_gen, k := k % 256, v := pointer.null, next := 0 }
      if malloc_ok = false then
        some (ak_error_message ak_error_null_pointer, some (set_ctx r1 (context.knuth_b ctx)))
      else
        match source_gen with
        | pointer.live src =>
          match E.source_random src (List.replicate (k % 256) 0) ((k % 256 : Nat) : Int) with
          | none => none
          | some res =>
            some (ak_error_ok, some (set_ctx r1 (context.knuth_b
              { ctx with source_gen := pointer.live res.2.1, v := pointer.live res.2.2 })))
        | _ => none

/-! ## Functional forms of the loops

The byte streams and state sequences that the loops above compute, written as
plain recursive functions; the theorems relate the loops to them. -/

/-- The state after the seeding loop of `ak_random_lcg_randomize_ptr` has
consumed the given bytes: one step and one addition per byte. -/
def lcg_seed_fold : List Nat → Nat → Nat
  | [], v => v
  | b :: bs, v => lcg_seed_fold bs ((lcg_advance v + b) % 2 ^ 64)

/-- The bytes stored by the loop of `ak_random_lcg_random`: the byte
`val >> 16` of the current state, then one step. -/
def lcg_bytes : Nat → Nat → List Nat
  | 0, _ => []
  | n + 1, v => (v / 2 ^ 16 % 256) :: lcg_bytes n (lcg_advance v)

/-- The three bytes that one turn of the extraction loop copies out of a 32-bit
word: those at addresses 1, 2 and 3. -/
def three_bytes (w : Nat) : List Nat :=
  [byte_of_word w 1, byte_of_word w 2, byte_of_word w 3]

/-- The bytes that `k` full turns of the extraction loop copy out, for a state
of type `α` with transition `step` and emitted word `word`. -/
def three_bytes_blocks {α : Type} (step : α → α) (word : α → Nat) : Nat → α → List Nat
  | 0, _ => []
  | k + 1, a => three_bytes (word (step a)) ++ three_bytes_blocks step word k (step a)

/-- A context of the hash based generator as the C types make it: eight counter
words, 64 buffer bytes, and a capacity between 0 and 64. -/
def hrng_wf (h : random_hrng) : Prop :=
  h.counter.length = 8 ∧ h.buffer.length = 64 ∧ 0 ≤ h.capacity ∧ h.capacity ≤ 64

/-- The context after one `ak_random_hrng_next` (`hrng_advance` without the
returned code); the capacity is 64 in any case. -/
def hrng_step {S : Type} (E : collaborators S) (h : random_hrng) : random_hrng :=
  match hrng_advance E h with
  | some res => { res.2 with capacity := 64 }
  | none => { h with capacity := 64 }

/-- The bytes copied out, the context left behind and the number of calls of
`next` when `ak_random_hrng_random` is asked for `n` bytes: while the capacity
is below the number of bytes still wanted, the rest of the buffer is taken and
the context moves on; the last bytes come from the front of the rest of the
buffer. -/
def hrng_drain {S : Type} (E : collaborators S) (h : random_hrng) (n : Nat) :
    random_hrng × List Nat × Nat :=
  if h.capacity.toNat < n then
    let r := hrng_drain E (hrng_step E h) (n - h.capacity.toNat)
    (r.1, h.buffer.drop (64 - h.capacity.toNat) ++ r.2.1, r.2.2 + 1)
  else
    ({ h with capacity := h.capacity - n }, (h.buffer.drop (64 - h.capacity.toNat)).take n, 0)
termination_by n + (if h.capacity.toNat = 0 then 1 else 0)
decreasing_by
  have h64 : (hrng_step E h).capacity.toNat = 64 := by
    unfold hrng_step
    split <;> rfl
  rw [h64]
  simp only [Nat.reduceEqDiff, if_false, Nat.add_zero]
  split <;> omega

/-- A handle whose `next` and `random` slots are those installed by
`ak_random_create_hrng`. -/
def hrng_handle {S : Type} (h : random S) : Prop :=
  h.next = some fn_next.hrng ∧ h.random = some fn_random.hrng

/-- A handle whose `next` and `random` slots are those installed by
`ak_random_create_qcg`. -/
def qcg_handle {S : Type} (h : random S) : Prop :=
  h.next = some fn_next.qcg ∧ h.random = some fn_random.qcg

/-- A handle whose slots are those installed by `ak_random_create_lcg`. -/
def lcg_handle {S : Type} (h : random S) : Prop :=
  h.next = some fn_next.lcg ∧ h.randomize_ptr = some fn_randomize.lcg
    ∧ h.random = some fn_random.lcg

/-- Two linear congruential handles that hold the same 64-bit state. -/
def lcg_same_state {S : Type} (a b : random S) : Prop :=
  lcg_handle a ∧ lcg_handle b ∧ a.data.val = b.data.val

/-! ## The block stream of the hash based generator -/

/-- The 64 bytes that `ak_hash_ptr( ctx, in, size, out, 64 )` leaves in `out`. -/
def hrng_hash {S : Type} (E : collaborators S) (inp : List Nat) : List Nat :=
  (E.ak_hash_ptr inp 64).2.take 64

/-- The counter after the statement `counter[7]++` of `ak_random_hrng_next`. -/
def hrng_increment (c : List Nat) : List Nat :=
  c.take 7 ++ [(c.getD 7 0 + 1) % 2 ^ 64] ++ c.drop 8

/-- The blocks `B_1 ++ ... ++ B_k` that follow a counter `c`: the counter is
incremented and its 64 bytes are hashed, `k` times over. -/
def hrng_blocks {S : Type} (E : collaborators S) : Nat → List Nat → List Nat
  | 0, _ => []
  | k + 1, c =>
    hrng_hash E (bytes_of_words64 (hrng_increment c)) ++ hrng_blocks E k (hrng_increment c)

/-- The context that one `ak_random_hrng_next` leaves when the counter was `c`. -/
def hrng_after {S : Type} (E : collaborators S) (c : List Nat) : random_hrng :=
  { counter := hrng_increment c,
    buffer := hrng_hash E (bytes_of_words64 (hrng_increment c)),
    capacity := 64 }

/-- The hash collaborator behaves as a hash function with a 64-byte value: every
call succeeds and delivers 64 bytes. -/
def hash_total {S : Type} (E : collaborators S) : Prop :=
  ∀ inp : List Nat, (E.ak_hash_ptr inp 64).1 = ak_error_ok ∧ (E.ak_hash_ptr inp 64).2.length = 64

/-- The handle that `ak_random_create_gck` is shown to leave when the context
is obtained: the slots of the class and the state as seeded from `init`. -/
def gck_created {S : Type} (E : collaborators S) : random S :=
  { oid := E.ak_oid_find_by_name ("gck"), next := some fn_next.gck,
    randomize_ptr := some fn_randomize.gck, random := some fn_random.gck,
    free := some fn_free.gck,
    data := { val := 0, fd := 0, file := none,
              ctx := pointer.live (context.gck
                { next := 0, k := 45, x := pointer.live random_gck_init, m := random_gck_m }) } }

/-! ## Wiping a region: `ak_ptr_wipe` -/

/-- The loop
`for( idx = 0; idx < size; idx++ ) ptr[idx] += ptr[size - 1 - idx]` of
`ak_ptr_wipe`, on bytes. -/
def ak_ptr_wipe_loop : Nat → List Nat → Nat → Nat → Option (List Nat)
  | 0, _, _, _ => none
  | fuel + 1, ptr, idx, size =>
    if idx < size then do
      let a ← ptr[idx]?
      let b ← ptr[size - 1 - idx]?
      let ptr1 ← mem_write ptr idx [(a + b) % 256]
      ak_ptr_wipe_loop fuel ptr1 (idx + 1) size
    else some ptr

/-- The function `ak_ptr_wipe`; `size` is a `size_t`. The region is filled by
one call of the `random` operation; if that call does not return
`ak_error_ok` the region is zeroed and the code to return becomes
`ak_error_write_data`; the mixing loop runs in both cases. -/
def ak_ptr_wipe {S : Type} (E : collaborators S) (ptr : Option (List Nat)) (size : Nat)
    (rnd : Option (random S)) : Option (ak_error × Option (random S) × Option (List Nat)) :=
  match rnd with
  | none => some (ak_error_message ak_error_null_pointer, none, ptr)
  | some r =>
    if r.random = none then some (ak_error_message ak_error_null_pointer, some r, ptr)
    else if size > (2 ^ 64 - 1) / 2 then
      some (ak_error_message ak_error_wrong_length, some r, ptr)
    else
      match ptr with
      | none => some (ak_error_ok, some r, none)
      | some buf =>
        if size = 0 then some (ak_error_ok, some r, some buf)
        else do
          let res ← call_random E r buf (size : Int)
          let filled ← if res.1 ≠ ak_error_ok then
              (mem_write res.2.2 0 (List.replicate size 0)).map
                (fun zeroed => (ak_error_write_data, zeroed))
            else some (ak_error_ok, res.2.2)
          let mixed ← ak_ptr_wipe_loop (size + 1) filled.2 0 size
          some (filled.1, some res.2.1, some mixed)

/-- The byte that the mixing loop of `ak_ptr_wipe` leaves at index `i` of a
region of `n` bytes that held `g`: the partner `g[n-1-i]` is added as it is
when it has not been visited yet, and after its own update otherwise. -/
def wipe_mixed (g : List Nat) (n i : Nat) : Nat :=
  if 2 * i + 1 < n then (g.getD i 0 + g.getD (n - 1 - i) 0) % 256
  else if 2 * i + 1 = n then (g.getD i 0 + g.getD i 0) % 256
  else (g.getD i 0 + (g.getD (n - 1 - i) 0 + g.getD i 0) % 256) % 256

/-- The region after the mixing loop has visited the indices below `idx`. -/
def wipe_state (g : List Nat) (n idx : Nat) : List Nat :=
  (List.range g.length).map (fun j => if j < idx then wipe_mixed g n j else g.getD j 0)

/-! ## The byte stream of a file generator -/

/-- Replaces the open file description of a handle (the effect of `read` and
`lseek` on the descriptor `rnd->data.fd`). -/
def set_file {S : Type} (rnd : random S) (f : open_file) : random S :=
  { rnd with data := { rnd.data with file := some f } }

/-- The bytes delivered by reading `k` bytes of a file with contents `c` from
position `p` on, starting again at the beginning whenever the end is reached. -/
def file_cycle (c : List Nat) : Nat → Nat → List Nat
  | _, 0 => []
  | p, k + 1 => c.getD (p % c.length) 0 :: file_cycle c (p + 1) k

/-! ## The statistical test of a block: `ak_random_dynamic_test` -/

/-- The array `ak_hamming_weight_table[256]`. -/
def ak_hamming_weight_table : List Nat :=
  [0, 1, 1, 2, 1, 2, 2, 3, 1, 2, 2, 3, 2, 3, 3, 4,
   1, 2, 2, 3, 2, 3, 3, 4, 2, 3, 3, 4, 3, 4, 4, 5,
   1, 2, 2, 3, 2, 3, 3, 4, 2, 3, 3, 4, 3, 4, 4, 5,
   2, 3, 3, 4, 3, 4, 4, 5, 3, 4, 4, 5, 4, 5, 5, 6,
   1, 2, 2, 3, 2, 3, 3, 4, 2, 3, 3, 4, 3, 4, 4, 5,
   2, 3, 3, 4, 3, 4, 4, 5, 3, 4, 4, 5, 4, 5, 5, 6,
   2, 3, 3, 4, 3, 4, 4, 5, 3, 4, 4, 5, 4, 5, 5, 6,
   3, 4, 4, 5, 4, 5, 5, 6, 4, 5, 5, 6, 5, 6, 6, 7,
   1, 2, 2, 3, 2, 3, 3, 4, 2, 3, 3, 4, 3, 4, 4, 5,
   2, 3, 3, 4, 3, 4, 4, 5, 3, 4, 4, 5, 4, 5, 5, 6,
   2, 3, 3, 4, 3, 4, 4, 5, 3, 4, 4, 5, 4, 5, 5, 6,
   3, 4, 4, 5, 4, 5, 5, 6, 4, 5, 5, 6, 5, 6, 6, 7,
   2, 3, 3, 4, 3, 4, 4, 5, 3, 4, 4, 5, 4, 5, 5, 6,
   3, 4, 4, 5, 4, 5, 5, 6, 4, 5, 5, 6, 5, 6, 6, 7,
   3, 4, 4, 5, 4, 5, 5, 6, 4, 5, 5, 6, 5, 6, 6, 7,
   4, 5, 5, 6, 5, 6, 6, 7, 5, 6, 6, 7, 6, 7, 7, 8]

/-- The array `ak_bigramm_weight_table[256][4]`. -/
def ak_bigramm_weight_table : List (List Nat) :=
  [[4, 0, 0, 0], [3, 1, 0, 0], [3, 0, 1, 0], [3, 0, 0, 1],
   [3, 1, 0, 0], [2, 2, 0, 0], [2, 1, 1, 0], [2, 1, 0, 1],
   [3, 0, 1, 0], [2, 1, 1, 0], [2, 0, 2, 0], [2, 0, 1, 1],
   [3, 0, 0, 1], [2, 1, 0, 1], [2, 0, 1, 1], [2, 0, 0, 2],
   [3, 1, 0, 0], [2, 2, 0, 0], [2, 1, 1, 0], [2, 1, 0, 1],
   [2, 2, 0, 0], [1, 3, 0, 0], [1, 2, 1, 0], [1, 2, 0, 1],
   [2, 1, 1, 0], [1, 2, 1, 0], [1, 1, 2, 0], [1, 1, 1, 1],
   [2, 1, 0, 1], [1, 2, 0, 1], [1, 1, 1, 1], [1, 1, 0, 2],
   [3, 0, 1, 0], [2, 1, 1, 0], [2, 0, 2, 0], [2, 0, 1, 1],
   [2, 1, 1, 0], [1, 2, 1, 0], [1, 1, 2, 0], [1, 1, 1, 1],
   [2, 0, 2, 0], [1, 1, 2, 0], [1, 0, 3, 0], [1, 0, 2, 1],
   [2, 0, 1, 1], [1, 1, 1, 1], [1, 0, 2, 1], [1, 0, 1, 2],
   [3, 0, 0, 1], [2, 1, 0, 1], [2, 0, 1, 1], [2, 0, 0, 2],
   [2, 1, 0, 1], [1, 2, 0, 1], [1, 1, 1, 1], [1, 1, 0, 2],
   [2, 0, 1, 1], [1, 1, 1, 1], [1, 0, 2, 1], [1, 0, 1, 2],
   [2, 0, 0, 2], [1, 1, 0, 2], [1, 0, 1, 2], [1, 0, 0, 3],
   [3, 1, 0, 0], [2, 2, 0, 0], [2, 1, 1, 0], [2, 1, 0, 1],
   [2, 2, 0, 0], [1, 3, 0, 0], [1, 2, 1, 0], [1, 2, 0, 1],
   [2, 1, 1, 0], [1, 2, 1, 0], [1, 1, 2, 0], [1, 1, 1, 1],
   [2, 1, 0, 1], [1, 2, 0, 1], [1, 1, 1, 1], [1, 1, 0, 2],
   [2, 2, 0, 0], [1, 3, 0, 0], [1, 2, 1, 0], [1, 2, 0, 1],
   [1, 3, 0, 0], [0, 4, 0, 0], [0, 3, 1, 0], [0, 3, 0, 1],
   [1, 2, 1, 0], [0, 3, 1, 0], [0, 2, 2, 0], [0, 2, 1, 1],
   [1, 2, 0, 1], [0, 3, 0, 1], [0, 2, 1, 1], [0, 2, 0, 2],
   [2, 1, 1, 0], [1, 2, 1, 0], [1, 1, 2, 0], [1, 1, 1, 1],
   [1, 2, 1, 0], [0, 3, 1, 0], [0, 2, 2, 0], [0, 2, 1, 1],
   [1, 1, 2, 0], [0, 2, 2, 0], [0, 1, 3, 0], [0, 1, 2, 1],
   [1, 1, 1, 1], [0, 2, 1, 1], [0, 1, 2, 1], [0, 1, 1, 2],
   [2, 1, 0, 1], [1, 2, 0, 1], [1, 1, 1, 1], [1, 1, 0, 2],
   [1, 2, 0, 1], [0, 3, 0, 1], [0, 2, 1, 1], [0, 2, 0, 2],
   [1, 1, 1, 1], [0, 2, 1, 1], [0, 1, 2, 1], [0, 1, 1, 2],
   [1, 1, 0, 2], [0, 2, 0, 2], [0, 1, 1, 2], [0, 1, 0, 3],
   [3, 0, 1, 0], [2, 1, 1, 0], [2, 0, 2, 0], [2, 0, 1, 1],
   [2, 1, 1, 0], [1, 2, 1, 0], [1, 1, 2, 0], [1, 1, 1, 1],
   [2, 0, 2, 0], [1, 1, 2, 0], [1, 0, 3, 0], [1, 0, 2, 1],
   [2, 0, 1, 1], [1, 1, 1, 1], [1, 0, 2, 1], [1, 0, 1, 2],
   [2, 1, 1, 0], [1, 2, 1, 0], [1, 1, 2, 0], [1, 1, 1, 1],
   [1, 2, 1, 0], [0, 3, 1, 0], [0, 2, 2, 0], [0, 2, 1, 1],
   [1, 1, 2, 0], [0, 2, 2, 0], [0, 1, 3, 0], [0, 1, 2, 1],
   [1, 1, 1, 1], [0, 2, 1, 1], [0, 1, 2, 1], [0, 1, 1, 2],
   [2, 0, 2, 0], [1, 1, 2, 0], [1, 0, 3, 0], [1, 0, 2, 1],
   [1, 1, 2, 0], [0, 2, 2, 0], [0, 1, 3, 0], [0, 1, 2, 1],
   [1, 0, 3, 0], [0, 1, 3, 0], [0, 0, 4, 0], [0, 0, 3, 1],
   [1, 0, 2, 1], [0, 1, 2, 1], [0, 0, 3, 1], [0, 0, 2, 2],
   [2, 0, 1, 1], [1, 1, 1, 1], [1, 0, 2, 1], [1, 0, 1, 2],
   [1, 1, 1, 1], [0, 2, 1, 1], [0, 1, 2, 1], [0, 1, 1, 2],
   [1, 0, 2, 1], [0, 1, 2, 1], [0, 0, 3, 1], [0, 0, 2, 2],
   [1, 0, 1, 2], [0, 1, 1, 2], [0, 0, 2, 2], [0, 0, 1, 3],
   [3, 0, 0, 1], [2, 1, 0, 1], [2, 0, 1, 1], [2, 0, 0, 2],
   [2, 1, 0, 1], [1, 2, 0, 1], [1, 1, 1, 1], [1, 1, 0, 2],
   [2, 0, 1, 1], [1, 1, 1, 1], [1, 0, 2, 1], [1, 0, 1, 2],
   [2, 0, 0, 2], [1, 1, 0, 2], [1, 0, 1, 2], [1, 0, 0, 3],
   [2, 1, 0, 1], [1, 2, 0, 1], [1, 1, 1, 1], [1, 1, 0, 2],
   [1, 2, 0, 1], [0, 3, 0, 1], [0, 2, 1, 1], [0, 2, 0, 2],
   [1, 1, 1, 1], [0, 2, 1, 1], [0, 1, 2, 1], [0, 1, 1, 2],
   [1, 1, 0, 2], [0, 2, 0, 2], [0, 1, 1, 2], [0, 1, 0, 3],
   [2, 0, 1, 1], [1, 1, 1, 1], [1, 0, 2, 1], [1, 0, 1, 2],
   [1, 1, 1, 1], [0, 2, 1, 1], [0, 1, 2, 1], [0, 1, 1, 2],
   [1, 0, 2, 1], [0, 1, 2, 1], [0, 0, 3, 1], [0, 0, 2, 2],
   [1, 0, 1, 2], [0, 1, 1, 2], [0, 0, 2, 2], [0, 0, 1, 3],
   [2, 0, 0, 2], [1, 1, 0, 2], [1, 0, 1, 2], [1, 0, 0, 3],
   [1, 1, 0, 2], [0, 2, 0, 2], [0, 1, 1, 2], [0, 1, 0, 3],
   [1, 0, 1, 2], [0, 1, 1, 2], [0, 0, 2, 2], [0, 0, 1, 3],
   [1, 0, 0, 3], [0, 1, 0, 3], [0, 0, 1, 3], [0, 0, 0, 4]]

/-- The local counters of `ak_random_dynamic_test`: `binsum` and
`bigrsum[0..3]`, all of type `size_t`. -/
structure dynamic_test_sums where
  binsum : Nat
  bigrsum0 : Nat
  bigrsum1 : Nat
  bigrsum2 : Nat
  bigrsum3 : Nat
  deriving DecidableEq, Repr

/-- The loop `for( idx = 0; idx < size; idx++ )` of `ak_random_dynamic_test`:
five additions in `size_t`, the summands looked up in the two tables at
`data[idx]`. The second index of the bigram table is a constant below 4. -/
def ak_random_dynamic_test_loop :
    Nat → List Nat → Nat → Nat → dynamic_test_sums → Option dynamic_test_sums
  | 0, _, _, _, _ => none
  | fuel + 1, data, idx, size, sums =>
    if idx < size then do
      let b ← data[idx]?
      let w ← ak_hamming_weight_table[b]?
      let row ← ak_bigramm_weight_table[b]?
      ak_random_dynamic_test_loop fuel data (idx + 1) size
        { binsum := (sums.binsum + w) % 2 ^ 64,
          bigrsum0 := (sums.bigrsum0 + row.getD 0 0) % 2 ^ 64,
          bigrsum1 := (sums.bigrsum1 + row.getD 1 0) % 2 ^ 64,
          bigrsum2 := (sums.bigrsum2 + row.getD 2 0) % 2 ^ 64,
          bigrsum3 := (sums.bigrsum3 + row.getD 3 0) % 2 ^ 64 }
    else some sums

/-- The product `(bigrsum[i] - size)*(bigrsum[i] - size)`, computed in
`size_t`: the difference and the product wrap modulo `2^64`. -/
def dynamic_test_square (s size : Nat) : Nat :=
  ((s + (2 ^ 64 - size % 2 ^ 64)) % 2 ^ 64) * ((s + (2 ^ 64 - size % 2 ^ 64)) % 2 ^ 64) % 2 ^ 64

/-- The value of the constant `16.266` of the source, a `double`: the binary
floating-point number nearest to 16.266, which is `2289235985587765 / 2^47`. -/
def dynamic_test_limit : ℚ := 2289235985587765 / 2 ^ 47

/-- The function `ak_random_dynamic_test`; `size` is a `size_t`. The statistic
`chi` is a `long double`; it is kept here as a rational number, which is what
the floating-point operations compute whenever the comparison with the limit
is reached: then `size` is 32, 64 or 128, the four squares and their sum are
integers below `2^20`, and the division is by a power of two. The logging
branch does not touch the result. -/
def ak_random_dynamic_test (data : List Nat) (size : Nat) : Option Bool := do
  let sums ← ak_random_dynamic_test_loop (size + 1) data 0 size
    { binsum := 0, bigrsum0 := 0, bigrsum1 := 0, bigrsum2 := 0, bigrsum3 := 0 }
  let chi : ℚ := ((dynamic_test_square sums.bigrsum0 size : ℚ)
    + (dynamic_test_square sums.bigrsum1 size : ℚ)
    + (dynamic_test_square sums.bigrsum2 size : ℚ)
    + (dynamic_test_square sums.bigrsum3 size : ℚ)) / (size : ℚ)
  if size = 32 then
    if sums.binsum < 102 ∨ sums.binsum > 154 then some false
    else if chi > dynamic_test_limit then some false else some true
  else if size = 64 then
    if sums.binsum < 219 ∨ sums.binsum > 293 then some false
    else if chi > dynamic_test_limit then some false else some true
  else if size = 128 then
    if sums.binsum < 460 ∨ sums.binsum > 564 then some false
    else if chi > dynamic_test_limit then some false else some true
  else some false

/-- The number of set bits of a byte. -/
def bit_count (b : Nat) : Nat :=
  ((List.range 8).map (fun k => b / 2 ^ k % 2)).sum

/-- The number of aligned 2-bit fields of a byte (bits `2k` and `2k+1`,
`k = 0..3`) that hold the value `v`. -/
def field_count (v b : Nat) : Nat :=
  ((List.range 4).filter (fun k => b / 4 ^ k % 4 = v)).length

/-- The total number of set bits of a block. -/
def block_bits (data : List Nat) : Nat := (data.map bit_count).sum

/-- The number of aligned 2-bit fields of a block that hold the value `v`. -/
def block_fields (v : Nat) (data : List Nat) : Nat := (data.map (field_count v)).sum

/-- The number of set bits of the first `idx` bytes of a block. -/
def block_bits_pre (data : List Nat) (idx : Nat) : Nat := block_bits (data.take idx)

/-- The number of 2-bit fields equal to `v` in the first `idx` bytes of a
block. -/
def block_fields_pre (v : Nat) (data : List Nat) (idx : Nat) : Nat :=
  block_fields v (data.take idx)

/-- The counters of `ak_random_dynamic_test` after the first `idx` bytes of the
block have been visited. -/
def dynamic_sums_at (data : List Nat) (idx : Nat) : dynamic_test_sums :=
  { binsum := block_bits_pre data idx % 2 ^ 64,
    bigrsum0 := block_fields_pre 0 data idx % 2 ^ 64,
    bigrsum1 := block_fields_pre 1 data idx % 2 ^ 64,
    bigrsum2 := block_fields_pre 2 data idx % 2 ^ 64,
    bigrsum3 := block_fields_pre 3 data idx % 2 ^ 64 }

/-- The statistic of the test in exact arithmetic: the sum over `v = 0..3` of
`(c_v - size)^2`, divided by `size`, where `c_v` is the number of 2-bit fields of
the block equal to `v`. -/
def block_chi (data : List Nat) (size : Nat) : ℚ :=
  (((block_fields 0 data : ℚ) - (size : ℚ)) ^ 2 + ((block_fields 1 data : ℚ) - (size : ℚ)) ^ 2
    + ((block_fields 2 data : ℚ) - (size : ℚ)) ^ 2
    + ((block_fields 3 data : ℚ) - (size : ℚ)) ^ 2) / (size : ℚ)

/-! ## Byte streams of Algorithm B and of its source -/

/-- The memory of a handle of any source type before a constructor has run on
it. -/
def blank_random {S : Type} : random S :=
  { oid := none, next := none, randomize_ptr := none, random := none, free := none,
    data := random_data.zero }

/-- The first `n` bytes emitted by a generator of Algorithm B that is built with
`ak_random_create_knuth_b` over the source `src` with table size `k` and then
asked once, through `ak_random_ptr`, for `n` bytes. -/
def knuth_b_stream {S : Type} (E : collaborators S) (src : S) (k n : Nat) : Option (List Nat) :=
  (ak_random_create_knuth_b E true true (some blank_random) (pointer.live src) k).bind fun r =>
  (ak_random_ptr E r.2 (some (List.replicate n 0)) (n : Int)).bind fun o => o.2.2

/-- The first `n` bytes of the source itself: one call of its `random`
operation. -/
def source_stream {S : Type} (E : collaborators S) (src : S) (n : Nat) : Option (List Nat) :=
  (E.source_random src (List.replicate n 0) (n : Int)).map fun r => r.2.2

/-- A source generator that delivers the bytes `s 0`, `s 1`, ... of a stream: its
state is the number of bytes delivered so far, and its `random` operation
writes the next `size` bytes and returns `ak_error_ok`. The other collaborators
play no part. -/
def stream_collaborators (s : Nat → Nat) : collaborators Nat :=
  { ak_oid_find_by_name := fun name => some name,
    ak_hash_ptr := fun _ n => (ak_error_ok, List.replicate n 0),
    source_random := fun pos out size =>
      if size.toNat ≤ out.length then
        some (ak_error_ok, pos + size.toNat,
          (List.range size.toNat).map (fun i => s (pos + i) % 256) ++ out.drop size.toNat)
      else none,
    os_open := fun _ => none,
    os_read_fails := fun _ => true,
    os_read_length := fun _ => 0,
    ak_hash_create_streebog512 := ak_error_ok }

/-- The stream 0, 255, 255, ... of period 256. -/
def spike_stream (i : Nat) : Nat := if i % 256 = 0 then 0 else 255

/-- A handle of Algorithm B as `ak_random_create_knuth_b` builds it: the source,
the table size, the table and the current byte. -/
def knuth_b_handle {S : Type} (src : S) (k : Nat) (v : List Nat) (next : Nat) : random S :=
  { oid := none, next := some fn_next.knuth_b, randomize_ptr := none,
    random := some fn_random.knuth_b, free := some fn_free.knuth_b,
    data := { val := 0, fd := 0, file := none,
              ctx := pointer.live (context.knuth_b
                { source_gen := pointer.live src, k := k, v := pointer.live v, next := next }) } }

/-! ## The linear congruential generator in the words of its description -/

/-- One advance `A(x) = a*x + c mod 2^64` with `a = 125643267795740073` and
`c = 506098983240188723`, as the description of the generator states it (the
summands are written with the constant first). -/
def lcg_spec_advance (x : Nat) : Nat :=
  (506098983240188723 + 125643267795740073 * x) % 2 ^ 64

/-- One advance-and-add `F(b, x) = A(x) + b mod 2^64` of the description of the
seeding. -/
def lcg_spec_fold (b x : Nat) : Nat := (lcg_spec_advance x + b) % 2 ^ 64

/-- The state that the description of the seeding gives for a seed
`b_0 .. b_(n-1)`: `A(F(b_(n-1), ... F(b_1, F(b_0, b_0)) ...))`. -/
def lcg_spec_seed (seed : List Nat) : Nat :=
  lcg_spec_advance (seed.foldl (fun x b => lcg_spec_fold b x) (seed.headD 0))

/-- The output byte of the doc comment of `ak_random_create_lcg`:
`(x - (x mod 2^24)) / 2^24 mod 256`. -/
def lcg_documented_byte (x : Nat) : Nat := (x - x % 2 ^ 24) / 2 ^ 24 % 256

/-! ## Recurrences in the words of the description -/

/-- The recurrence of the quadratic congruential generator as the description
states it: `(d*x^2 + a*x + c) mod m` in exact integer arithmetic. -/
def qcg_spec_advance (x a c d m : Nat) : Nat := (d * x ^ 2 + a * x + c) % m

/-- The states of the Coveyou generator that the code can reach: the fields are
32-bit words, and `x` was installed by a successful seeding (`x mod 4 = 2`) or
left by an advance (then it is below the modulus). -/
def coveyou_reachable (c : random_quadratic_coveyou_method) : Prop :=
  c.m < 2 ^ 32 ∧ ((c.x < 2 ^ 32 ∧ c.x % 4 = 2) ∨ c.x < c.m)

/-- The recurrence of the additive Fibonacci generator as the description states
it: `x_(n+1) = (x_n + x_(n-1)) mod m` in exact arithmetic, the pair being
shifted. -/
def fibonachi_spec_advance (f : random_fibonachi) : random_fibonachi :=
  { xn := (f.xn + f.xprev) % f.m, xprev := f.xn, m := f.m }

/-- A state of the additive Fibonacci generator as the C types make it, with a
modulus that can be divided by: three 32-bit words, `m` not zero. -/
def fibonachi_wf (f : random_fibonachi) : Prop :=
  f.m ≠ 0 ∧ f.m < 2 ^ 32 ∧ f.xn < 2 ^ 32 ∧ f.xprev < 2 ^ 32

/-- A handle whose `next` and `random` slots are those installed by
`ak_random_create_fibonachi`. -/
def fibonachi_handle {S : Type} (h : random S) : Prop :=
  h.next = some fn_next.fibonachi ∧ h.random = some fn_random.fibonachi

/-- The first step of `ak_hamming_weight` on one byte: each aligned pair of bits
is replaced by the number of its set bits. -/
def hamming_byte_pairs (b : Nat) : Nat := b - (b / 2 &&& 0x55)

/-- The second step of `ak_hamming_weight` on one byte: each half of the byte
holds the number of its set bits. -/
def hamming_byte_nibbles (b : Nat) : Nat :=
  (hamming_byte_pairs b &&& 0x33) + (hamming_byte_pairs b / 4 &&& 0x33)

/-- The number of set bits among the `n` low bits of `x`. -/
def bit_sum (n x : Nat) : Nat :=
  ((List.range n).map (fun k => x / 2 ^ k % 2)).sum

/-- The parity of a 32-bit word: the number of its set bits modulo 2. -/
def word_parity (x : Nat) : Nat := bit_sum 32 x % 2

/-- One step of the register as the description states it: `t = s >> 1`,
`f` the parity of `(L AND t) XOR (N AND t AND (t >> 1))`, `b = (s AND 1) XOR f`,
and the new state `t XOR (b << (n-1))`. -/
def nlfsr_spec_step (n L N s : Nat) : Nat :=
  let t := s / 2
  let f := word_parity ((L &&& t) ^^^ (N &&& t &&& t / 2))
  let b := (s &&& 1) ^^^ f
  t ^^^ (b * 2 ^ (n - 1))

/-- The byte that eight steps of the register give according to the
description: the least-significant bit of each new state, that of the first new
state in the most significant position. -/
def nlfsr_spec_byte (n L N s : Nat) : Nat :=
  128 * ((nlfsr_spec_step n L N)^[1] s % 2) + 64 * ((nlfsr_spec_step n L N)^[2] s % 2)
    + 32 * ((nlfsr_spec_step n L N)^[3] s % 2) + 16 * ((nlfsr_spec_step n L N)^[4] s % 2)
    + 8 * ((nlfsr_spec_step n L N)^[5] s % 2) + 4 * ((nlfsr_spec_step n L N)^[6] s % 2)
    + 2 * ((nlfsr_spec_step n L N)^[7] s % 2) + (nlfsr_spec_step n L N)^[8] s % 2

/-! ## Algorithm M and Algorithm B over byte streams -/

/-- A source generator as a generator of Knuth's algorithms sees it: it delivers
one of two byte streams (`second = false`: the stream of source X, `true`: that
of source Y), has delivered `pos` bytes so far, and its `random` operation has
been called `calls` times. -/
structure tape where
  second : Bool
  pos : Nat
  calls : Nat
  deriving DecidableEq, Repr

/-- The source generators over the byte streams `sx` and `sy`: the `random`
operation of a source writes the next `size` bytes of its stream, counts the
call and returns `ak_error_ok`. The other collaborators play no part. -/
def tape_collaborators (sx sy : Nat → Nat) : collaborators tape :=
  { ak_oid_find_by_name := fun name => some name,
    ak_hash_ptr := fun _ n => (ak_error_ok, List.replicate n 0),
    source_random := fun t out size =>
      if size.toNat ≤ out.length then
        some (ak_error_ok, { t with pos := t.pos + size.toNat, calls := t.calls + 1 },
          (List.range size.toNat).map
              (fun i => (if t.second then sy (t.pos + i) else sx (t.pos + i)) % 256)
            ++ out.drop size.toNat)
      else none,
    os_open := fun _ => none,
    os_read_fails := fun _ => true,
    os_read_length := fun _ => 0,
    ak_hash_create_streebog512 := ak_error_ok }

/-- A handle of Algorithm M as `ak_random_create_knuth_m` builds it: the two
sources, the table size, the table and the current byte. -/
def knuth_m_handle {S : Type} (x y : S) (k : Nat) (v : List Nat) (next : Nat) : random S :=
  { oid := none, next := some fn_next.knuth_m, randomize_ptr := none,
    random := some fn_random.knuth_m, free := some fn_free.knuth_m,
    data := { val := 0, fd := 0, file := none,
              ctx := pointer.live (context.knuth_m
                { source_gen_x := pointer.live x, source_gen_y := pointer.live y, k := k,
                  v := pointer.live v, next := next }) } }

/-- The state of Algorithm M over two byte streams: the two sources, the table
and the current byte. -/
structure knuth_m_state where
  x : tape
  y : tape
  v : List Nat
  next : Nat
  deriving DecidableEq, Repr

/-- One advance of Algorithm M as the description states it: one byte `y` is
drawn from source Y, `j = (k * y) >> 8`, the current byte becomes the old `v[j]`,
and one byte drawn from source X is stored in `v[j]`. -/
def knuth_m_spec_step (sx sy : Nat → Nat) (k : Nat) (st : knuth_m_state) : knuth_m_state :=
  { x := { st.x with pos := st.x.pos + 1, calls := st.x.calls + 1 },
    y := { st.y with pos := st.y.pos + 1, calls := st.y.calls + 1 },
    v := st.v.set (k * sy st.y.pos / 256) (sx st.x.pos),
    next := st.v.getD (k * sy st.y.pos / 256) 0 }

/-- The state of Algorithm M after construction with table size `k` over fresh
sources: the table holds the first `k` bytes of source X, drawn in one call. -/
def knuth_m_initial (sx : Nat → Nat) (k : Nat) : knuth_m_state :=
  { x := { second := false, pos := k, calls := 1 },
    y := { second := true, pos := 0, calls := 0 },
    v := (List.range k).map sx, next := 0 }

/-- The handle that holds a state of Algorithm M with table size `k`. -/
def knuth_m_embed (k : Nat) (st : knuth_m_state) : random tape :=
  knuth_m_handle st.x st.y k st.v st.next

/-- A state of Algorithm M with table size `k`: source X delivers the first
stream, source Y the second, and the table has `k` entries. -/
def knuth_m_wf (k : Nat) (st : knuth_m_state) : Prop :=
  st.x.second = false ∧ st.y.second = true ∧ st.v.length = k

/-- The byte `b` is one of the first `p` bytes of the stream `sx`: a source over
`sx` that has delivered `p` bytes has delivered `b`. -/
def drawn_from (sx : Nat → Nat) (p b : Nat) : Prop := ∃ q, q < p ∧ b = sx q

/-- The handle of `ak_random_create_hrng` after the five slots have been set,
without the context. -/
def hrng_slots {S : Type} (E : collaborators S) : random S :=
  { oid := E.ak_oid_find_by_name ("hrng"), next := some fn_next.hrng,
    randomize_ptr := some fn_randomize.hrng, random := some fn_random.hrng,
    free := some fn_free.hrng, data := random_data.zero }

/-- The block with every byte bitwise complemented (`~b` in 8 bits). -/
def block_complement (data : List Nat) : List Nat := data.map (fun b => b ^^^ 0xFF)

/-- The step of the register undone, as the description of the step determines
it: the low `n-1` bits of the new state are `t`, its bit `n-1` is `b`, and the
old state is `2t + (b XOR f)` with `f` the parity that `t` gives. -/
def nlfsr_spec_unstep (n L N s1 : Nat) : Nat :=
  let t := s1 % 2 ^ (n - 1)
  let b := s1 / 2 ^ (n - 1)
  let f := word_parity ((L &&& t) ^^^ (N &&& t &&& t / 2))
  2 * t + (b ^^^ f)

/-- A handle whose `random` slot is that installed by
`ak_random_create_nlfsr_with_params`. -/
def nlfsr_handle {S : Type} (h : random S) : Prop :=
  h.random = some fn_random.nlfsr

/-- The value to which the description of the seeding of the class `nlfsr` sets
the register, before the truncation: the first `min( len, 4 )` bytes of the seed
read as one number, first byte highest. -/
def nlfsr_seed_value (seed : List Nat) : Nat :=
  (seed.take 4).foldl (fun acc b => 256 * acc + b) 0

/-- The stream `2, 2, 1, 2, 2, 1, ...` of period 3. -/
def period_three_stream (i : Nat) : Nat := if i % 3 = 2 then 1 else 2

/-! ## Sample data for the concrete checks -/

/-- A concrete set of collaborators: the registry knows every name, the hash
repeats the sum of its input, a source hands out zeros, and the only file
holds the bytes 1, 2, 3, 4. -/
def sample_collaborators : collaborators Unit :=
  { ak_oid_find_by_name := fun name => some name,
    ak_hash_ptr := fun inp n => (ak_error_ok, List.replicate n (inp.sum % 256)),
    source_random := fun _ out size => if size.toNat ≤ out.length then
      some (ak_error_ok, (), List.replicate size.toNat 0 ++ out.drop size.toNat) else none,
    os_open := fun _ => some (3, [1, 2, 3, 4]),
    os_read_fails := fun _ => false,
    os_read_length := fun _ => 3,
    ak_hash_create_streebog512 := ak_error_ok }

/-- The memory of a handle before any constructor has run on it. -/
def blank_handle : random Unit :=
  { oid := none, next := none, randomize_ptr := none, random := none, free := none,
    data := random_data.zero }

/-- The handle that `ak_random_create_qcg` builds (with the sample registry). -/
def sample_qcg_handle : random Unit :=
  { oid := some ("qcg"), next := some fn_next.qcg, randomize_ptr := some fn_randomize.qcg,
    random := some fn_random.qcg, free := some fn_free.qcg,
    data := { val := 0, fd := 0, file := none,
              ctx := pointer.live (context.qcg
                { xn := 0x8299, d := 0x2, a := 0x57FF7, c := 0x418693, m := 0xFFFFFFFC }) } }

/-- The handle that `ak_random_create_file` builds on the sample file. -/
def sample_file_handle : random Unit :=
  { oid := none, next := none, randomize_ptr := none, random := some fn_random.file,
    free := some fn_free.file,
    data := { val := 0, fd := 3, file := some { contents := [1, 2, 3, 4], pos := 0, reads := 0 },
              ctx := pointer.null } }

/-- The handle that `ak_random_create_knuth_m` builds with `k = 2` over two
sample sources. -/
def sample_knuth_m_handle : random Unit :=
  { oid := none, next := some fn_next.knuth_m, randomize_ptr := none,
    random := some fn_random.knuth_m, free := some fn_free.knuth_m,
    data := { val := 0, fd := 0, file := none,
              ctx := pointer.live (context.knuth_m
                { source_gen_x := pointer.live (), source_gen_y := pointer.live (), k := 2,
                  v := pointer.live [0, 0], next := 0 }) } }

/-- The handle that `ak_random_create_knuth_b` builds with `k = 2` over a sample
source. -/
def sample_knuth_b_handle : random Unit :=
  { oid := none, next := some fn_next.knuth_b, randomize_ptr := none,
    random := some fn_random.knuth_b, free := some fn_free.knuth_b,
    data := { val := 0, fd := 0, file := none,
              ctx := pointer.live (context.knuth_b
                { source_gen := pointer.live (), k := 2, v := pointer.live [0, 0], next := 0 }) } }

/-- A linear congruential handle holding the given 64-bit state. -/
def sample_lcg_handle (v : Nat) : random Unit :=
  { oid := some ("lcg"), next := some fn_next.lcg, randomize_ptr := some fn_randomize.lcg,
    random := some fn_random.lcg, free := none,
    data := { val := v, fd := 0, file := none, ctx := pointer.null } }

/-- A Mitchell-Moore seed of 220 zero bytes. -/
def mitchel_seed_zero : List Nat := List.replicate 220 0

/-- A Mitchell-Moore seed whose first word is `0x100` and whose other words are
zero. -/
def mitchel_seed_mark : List Nat := [0, 1, 0, 0] ++ List.replicate 216 0

/-- A Mitchell-Moore handle with the given current word and block of previous
words. -/
def sample_mitchel_handle (next : Nat) (x : List Nat) : random Unit :=
  { oid := some ("mitchel"), next := some fn_next.mitchel,
    randomize_ptr := some fn_randomize.mitchel, random := some fn_random.mitchel,
    free := some fn_free.mitchel,
    data := { val := 0, fd := 0, file := none,
              ctx := pointer.live (context.mitchel
                { next := next, x := pointer.live x, m := random_mitchel_m }) } }

/-- History A of a Mitchell-Moore handle: the handle with the slots, the
modulus and the 55 words of `init` that `ak_random_create_mitchel` installs and
the current word 0 of `calloc`, seeded with `mitchel_seed_zero`; then 76 bytes
are extracted. -/
def mitchel_history_a : Option (ak_error × Option (random Unit) × Option (List Nat)) :=
  (ak_random_randomize sample_collaborators (some (sample_mitchel_handle 0 random_mitchel_init))
    (some mitchel_seed_zero) 220).bind fun r1 =>
  ak_random_ptr sample_collaborators r1.2 (some (List.replicate 76 0)) 76

/-- History B of a Mitchell-Moore handle: the same handle seeded with
`mitchel_seed_mark`, extraction of one byte, then seeding with
`mitchel_seed_zero` and extraction of 76 bytes. -/
def mitchel_history_b : Option (ak_error × Option (random Unit) × Option (List Nat)) :=
  (ak_random_randomize sample_collaborators (some (sample_mitchel_handle 0 random_mitchel_init))
    (some mitchel_seed_mark) 220).bind fun r1 =>
  (ak_random_ptr sample_collaborators r1.2 (some [0]) 1).bind fun r2 =>
  (ak_random_randomize sample_collaborators r2.2.1 (some mitchel_seed_zero) 220).bind fun r3 =>
  ak_random_ptr sample_collaborators r3.2 (some (List.replicate 76 0)) 76

/-- A handle with the slots installed by `ak_random_create_hrng` and an empty
state. -/
def sample_hrng_base : random Unit :=
  { oid := some ("hrng"), next := some fn_next.hrng, randomize_ptr := some fn_randomize.hrng,
    random := some fn_random.hrng, free := some fn_free.hrng, data := random_data.zero }

/-- The context of the hash based generator as `calloc` leaves it. -/
def sample_hrng_ctx : random_hrng :=
  { counter := List.replicate 8 0, buffer := List.replicate 64 0, capacity := 0 }

/-- The sample hash based generator after seeding with the bytes 1, 2, 3. -/
def sample_hrng_seeded : random Unit :=
  ((ak_random_hrng_randomize_ptr sample_collaborators
      (set_ctx sample_hrng_base (context.hrng sample_hrng_ctx)) [1, 2, 3] 3).map
    (fun res => res.2)).getD sample_hrng_base

/-- The number of calls of `next` made by one extraction of `size` bytes from a
hash based generator that was constructed and then seeded with the bytes
1, 2, 3. -/
def hrng_fresh_calls (size : Nat) : Option Nat :=
  (ak_random_create_hrng sample_collaborators 77 true (some blank_handle)).bind fun r0 =>
  (ak_random_randomize sample_collaborators r0.2 (some [1, 2, 3]) 3).bind fun r1 =>
  r1.2.bind fun g =>
  (ak_random_hrng_random sample_collaborators g (List.replicate size 0) (size : Int)).map
    fun res => res.2.2.2

/-- The handle that `ak_random_create_coveyou` builds (with the sample
registry). -/
def sample_coveyou_handle : random Unit :=
  { oid := some ("coveyou"), next := some fn_next.coveyou,
    randomize_ptr := some fn_randomize.coveyou, random := some fn_random.coveyou,
    free := some fn_free.coveyou,
    data := { val := 0, fd := 0, file := none,
              ctx := pointer.live (context.coveyou { x := 0x380316, m := 0xFFFFFFFB }) } }

/-- The sample file handle after some reads: the position and the number of
`read` calls served. -/
def sample_file_handle_at (pos reads : Nat) : random Unit :=
  { oid := none, next := none, randomize_ptr := none, random := some fn_random.file,
    free := some fn_free.file,
    data := { val := 0, fd := 3,
              file := some { contents := [1, 2, 3, 4], pos := pos, reads := reads },
              ctx := pointer.null } }

/-- A linear congruential generator is constructed, seeded with the single byte
1 and asked for two bytes: the state after the seeding, and the two bytes. -/
def lcg_history : Option (Option Nat × Option (List Nat)) :=
  (ak_random_create_lcg sample_collaborators 77 (some blank_handle)).bind fun r0 =>
  (ak_random_randomize sample_collaborators r0.2 (some [1]) 1).bind fun r1 =>
  (ak_random_ptr sample_collaborators r1.2 (some [0, 0]) 2).map fun r2 =>
    (r1.2.map (fun g => g.data.val), r2.2.2)

/-- A state of the Green-Smith-Klem generator with `k = 2` whose block is
followed by three more readable words: the memory that the copy of
`ak_random_gck_next` reaches beyond the block is made visible. -/
def sample_gck_wide_handle : random Unit :=
  { oid := some ("gck"), next := some fn_next.gck, randomize_ptr := some fn_randomize.gck,
    random := some fn_random.gck, free := some fn_free.gck,
    data := { val := 0, fd := 0, file := none,
              ctx := pointer.live (context.gck
                { next := 9, k := 2, x := pointer.live [10, 11, 12, 13, 14], m := 100 }) } }

/-- The handle that `ak_random_create_fibonachi` builds (with the sample
registry). -/
def sample_fibonachi_handle : random Unit :=
  { oid := some ("fibonachi"), next := some fn_next.fibonachi,
    randomize_ptr := some fn_randomize.fibonachi, random := some fn_random.fibonachi,
    free := some fn_free.fibonachi,
    data := { val := 0, fd := 0, file := none,
              ctx := pointer.live (context.fibonachi
                { xn := 0x4E5F6A7B, xprev := 0xA1B2C3D4, m := 0xFFFFFFFB }) } }

/-- A generator of the class `nlfsr` with the parameters that
`ak_random_create_nlfsr` passes (length 32, linear part 183599831, the nonlinear
part that `ak_initialize_nonlinear_part` computes for this length) and the
register value 5. -/
def sample_nlfsr_handle : random Unit :=
  { oid := some ("nlfsr"), next := none,
    randomize_ptr := some fn_randomize.nlfsr, random := some fn_random.nlfsr,
    free := some fn_free.nlfsr,
    data := { val := 0, fd := 0, file := none,
              ctx := pointer.live (context.nlfsr
                { state := 5, linear_part := 183599831, nonlinear_part := 858993459,
                  n := 32 }) } }

/-- A context of the hash based generator whose first and last counter words
differ: word 0 is 5, word 7 is 9. -/
def sample_hrng_marked : random_hrng :=
  { counter := [5, 0, 0, 0, 0, 0, 0, 9], buffer := List.replicate 64 0, capacity := 0 }

/-- A seed of 20 bytes for the quadratic congruential generator: the words
`xn = 1`, `a = 2`, `c = 3`, `d = 4` and `m = 0`. -/
def qcg_zero_modulus_seed : List Nat :=
  [1, 0, 0, 0, 2, 0, 0, 0, 3, 0, 0, 0, 4, 0, 0, 0, 0, 0, 0, 0]

/-- The sample quadratic congruential generator after the seed
`qcg_zero_modulus_seed` has been installed. -/
def sample_qcg_zero_modulus : random Unit :=
  { oid := some ("qcg"), next := some fn_next.qcg, randomize_ptr := some fn_randomize.qcg,
    random := some fn_random.qcg, free := some fn_free.qcg,
    data := { val := 0, fd := 0, file := none,
              ctx := pointer.live (context.qcg
                { xn := 1, d := 4, a := 2, c := 3, m := 0 }) } }

/-- A sample byte stream for source X: 1, 4, 7, 10, ... -/
def sample_stream_x (i : Nat) : Nat := (3 * i + 1) % 256

/-- A sample byte stream for source Y: 100, 164, 228, 36, ... -/
def sample_stream_y (i : Nat) : Nat := (64 * i + 100) % 256

theorem mem_write_mid (pre : List Nat) (b x : Nat) (tail : List Nat) :
    mem_write (pre ++ b :: tail) pre.length [x] = some (pre ++ x :: tail) := by
  unfold mem_write
  have h : pre.length + [x].length ≤ (pre ++ b :: tail).length := by simp
  rw [if_pos h]
  simp

theorem getElem_mid (pre : List Nat) (b : Nat) (tail : List Nat) :
    (pre ++ b :: tail)[pre.length]? = some b := by
  rw [List.getElem?_append_right (Nat.le_refl _)]
  simp

theorem set_val_next {S : Type} (rnd : random S) (v : Nat) :
    (set_val rnd v).next = rnd.next := by
  cases rnd; rfl

theorem set_val_val {S : Type} (rnd : random S) (v : Nat) :
    (set_val rnd v).data.val = v := by
  cases rnd; rfl

theorem set_val_set_val {S : Type} (rnd : random S) (v w : Nat) :
    set_val (set_val rnd v) w = set_val rnd w := by
  cases rnd; rfl

theorem call_next_lcg {S : Type} (E : collaborators S) (rnd : random S)
    (h : rnd.next = some fn_next.lcg) :
    call_next E rnd = some (ak_error_ok, set_val rnd (lcg_advance rnd.data.val)) := by
  unfold call_next
  rw [h]
  rfl

theorem lcg_randomize_loop_step {S : Type} (E : collaborators S) (fuel : Nat) (rnd : random S)
    (value : List Nat) (idx : Nat) (size : Int) (b : Nat)
    (hn : rnd.next = some fn_next.lcg) (hb : value[idx]? = some b) :
    ak_random_lcg_randomize_loop E (fuel + 1) rnd value idx size
      = if ((idx + 1 : Nat) : Int) < size then
          ak_random_lcg_randomize_loop E fuel
            (set_val rnd ((lcg_advance rnd.data.val + b) % 2 ^ 64)) value (idx + 1) size
        else some (set_val rnd ((lcg_advance rnd.data.val + b) % 2 ^ 64)) := by
  rw [ak_random_lcg_randomize_loop, call_next_lcg E rnd hn, hb]
  simp only [Option.bind_eq_bind, Option.some_bind, set_val_set_val, set_val_val]

theorem lcg_randomize_loop_eq {S : Type} (E : collaborators S) :
    ∀ (rest : List Nat) (fuel : Nat) (rnd : random S) (pre : List Nat) (b : Nat),
      rnd.next = some fn_next.lcg → rest.length < fuel →
      ak_random_lcg_randomize_loop E fuel rnd (pre ++ b :: rest) pre.length
          ((pre.length + 1 + rest.length : Nat) : Int)
        = some (set_val rnd (lcg_seed_fold (b :: rest) rnd.data.val)) := by
  intro rest
  induction rest with
  | nil =>
    intro fuel rnd pre b hn hf
    cases fuel with
    | zero => omega
    | succ f =>
      rw [lcg_randomize_loop_step E f rnd _ _ _ b hn (getElem_mid pre b _)]
      rw [if_neg (by simp)]
      rfl
  | cons c rest ih =>
    intro fuel rnd pre b hn hf
    cases fuel with
    | zero => omega
    | succ f =>
      rw [lcg_randomize_loop_step E f rnd _ _ _ b hn (getElem_mid pre b _)]
      have hlt : ((pre.length + 1 : Nat) : Int)
          < ((pre.length + 1 + (c :: rest).length : Nat) : Int) := by
        apply Int.ofNat_lt.mpr
        simp
      rw [if_pos hlt]
      have ih' := ih f (set_val rnd ((lcg_advance rnd.data.val + b) % 2 ^ 64)) (pre ++ [b]) c
        (by rw [set_val_next]; exact hn) (by simp at hf; omega)
      have e1 : (pre ++ [b]).length + 1 + rest.length = pre.length + 1 + (c :: rest).length := by
        simp; omega
      have e2 : pre ++ [b] ++ c :: rest = pre ++ b :: c :: rest := by simp
      have e3 : (pre ++ [b]).length = pre.length + 1 := by simp
      rw [e1, e2, e3, set_val_val] at ih'
      rw [ih']
      rfl

/-! ### The linear congruential loops -/

theorem lcg_random_loop_step {S : Type} (E : collaborators S) (fuel : Nat) (rnd : random S)
    (value value1 : List Nat) (idx : Nat) (size : Int)
    (hn : rnd.next = some fn_next.lcg)
    (hw : mem_write value idx [rnd.data.val / 2 ^ 16 % 256] = some value1) :
    ak_random_lcg_random_loop E (fuel + 1) rnd value idx size
      = if ((idx + 1 : Nat) : Int) < size then
          ak_random_lcg_random_loop E fuel (set_val rnd (lcg_advance rnd.data.val)) value1
            (idx + 1) size
        else some (set_val rnd (lcg_advance rnd.data.val), value1) := by
  rw [ak_random_lcg_random_loop, hw, call_next_lcg E rnd hn]
  simp only [Option.bind_eq_bind, Option.some_bind]


theorem lcg_bytes_succ (n v : Nat) :
    lcg_bytes (n + 1) v = (v / 2 ^ 16 % 256) :: lcg_bytes n (lcg_advance v) := by
  rw [lcg_bytes]

theorem lcg_bytes_zero (v : Nat) : lcg_bytes 0 v = [] := by
  rw [lcg_bytes]

theorem lcg_random_loop_eq {S : Type} (E : collaborators S) :
    ∀ (k : Nat) (mid : List Nat) (fuel : Nat) (rnd : random S) (pre : List Nat) (b : Nat)
      (post : List Nat),
      mid.length = k → rnd.next = some fn_next.lcg → k < fuel →
      ak_random_lcg_random_loop E fuel rnd (pre ++ b :: (mid ++ post)) pre.length
          ((pre.length + 1 + k : Nat) : Int)
        = some (set_val rnd (lcg_advance^[k + 1] rnd.data.val),
                pre ++ lcg_bytes (k + 1) rnd.data.val ++ post) := by
  intro k
  induction k with
  | zero =>
    intro mid fuel rnd pre b post hk hn hf
    cases fuel with
    | zero => omega
    | succ f =>
      have hmid : mid = [] := List.length_eq_zero.mp hk
      subst hmid
      rw [lcg_random_loop_step E f rnd _ _ _ _ hn (mem_write_mid pre b _ _)]
      rw [if_neg (by simp)]
      rw [lcg_bytes_succ, lcg_bytes_zero, Function.iterate_succ_apply, Function.iterate_zero_apply]
      simp only [List.nil_append, List.append_assoc, List.singleton_append]
  | succ k ih =>
    intro mid fuel rnd pre b post hk hn hf
    cases fuel with
    | zero => omega
    | succ f =>
      cases mid with
      | nil => simp at hk
      | cons c mid =>
        have hk' : mid.length = k := by
          rw [List.length_cons] at hk; omega
        rw [lcg_random_loop_step E f rnd _ _ _ _ hn (mem_write_mid pre b _ _)]
        have hlt : ((pre.length + 1 : Nat) : Int) < ((pre.length + 1 + (k + 1) : Nat) : Int) := by
          apply Int.ofNat_lt.mpr
          omega
        rw [if_pos hlt]
        have ih' := ih mid f (set_val rnd (lcg_advance rnd.data.val))
          (pre ++ [rnd.data.val / 2 ^ 16 % 256]) c post hk'
          (by rw [set_val_next]; exact hn) (by omega)
        have e3 : (pre ++ [rnd.data.val / 2 ^ 16 % 256]).length = pre.length + 1 := by
          rw [List.length_append, List.length_singleton]
        have e1 : pre.length + 1 + 1 + k = pre.length + 1 + (k + 1) := by omega
        have e2 : pre ++ [rnd.data.val / 2 ^ 16 % 256] ++ c :: (mid ++ post)
            = pre ++ (rnd.data.val / 2 ^ 16 % 256) :: (c :: mid ++ post) := by
          rw [List.append_assoc, List.singleton_append, List.cons_append]
        rw [e3, e1, e2, set_val_val, set_val_set_val] at ih'
        rw [ih', lcg_bytes_succ (k + 1)]
        simp only [Function.iterate_succ_apply, List.append_assoc, List.singleton_append,
          List.cons_append, List.nil_append]
theorem lcg_random_eq {S : Type} (E : collaborators S) (rnd : random S) (buf : List Nat)
    (n : Nat) (hn : rnd.next = some fn_next.lcg) (h1 : 1 ≤ n) (hlen : n ≤ buf.length) :
    ak_random_lcg_random E rnd buf (n : Int)
      = some (ak_error_ok, set_val rnd (lcg_advance^[n] rnd.data.val),
              lcg_bytes n rnd.data.val ++ buf.drop n) := by
  obtain ⟨k, rfl⟩ : ∃ k, n = k + 1 := ⟨n - 1, by omega⟩
  have hsplit : buf.take (k + 1) ++ buf.drop (k + 1) = buf := List.take_append_drop _ _
  have htl : (buf.take (k + 1)).length = k + 1 := by
    rw [List.length_take]; omega
  cases htake : buf.take (k + 1) with
  | nil => rw [htake, List.length_nil] at htl; omega
  | cons b mid =>
    rw [htake] at htl hsplit
    have hmid : mid.length = k := by
      rw [List.length_cons] at htl; omega
    have hpos : ¬ (((k + 1 : Nat) : Int) ≤ 0) := by omega
    unfold ak_random_lcg_random
    rw [if_neg hpos]
    have hloop := lcg_random_loop_eq E k mid (k + 1) rnd [] b (buf.drop (k + 1)) hmid hn (by omega)
    rw [List.length_nil, List.nil_append, List.nil_append, Nat.zero_add] at hloop
    have e : (1 + k : Nat) = k + 1 := by omega
    rw [e] at hloop
    have hval' : b :: (mid ++ buf.drop (k + 1)) = buf := by
      rw [← List.cons_append]; exact hsplit
    rw [hval'] at hloop
    rw [Int.toNat_ofNat, hloop]
    simp only [Option.bind_eq_bind, Option.some_bind]

theorem lcg_randomize_eq {S : Type} (E : collaborators S) (rnd : random S) (b0 : Nat)
    (rest : List Nat) (hn : rnd.next = some fn_next.lcg) :
    ak_random_lcg_randomize_ptr E rnd (b0 :: rest) (((b0 :: rest).length : Nat) : Int)
      = some (ak_error_ok, set_val rnd (lcg_advance (lcg_seed_fold (b0 :: rest) b0))) := by
  unfold ak_random_lcg_randomize_ptr
  have hpos : ¬ ((((b0 :: rest).length : Nat) : Int) ≤ 0) := by
    rw [List.length_cons]; omega
  rw [if_neg hpos]
  have hloop := lcg_randomize_loop_eq E rest (rest.length + 1) (set_val rnd b0) [] b0
    (by rw [set_val_next]; exact hn) (by omega)
  rw [List.length_nil, List.nil_append, Nat.zero_add, set_val_val, set_val_set_val] at hloop
  have e : (1 + rest.length : Nat) = (b0 :: rest).length := by
    rw [List.length_cons]; omega
  rw [e] at hloop
  have e2 : ((((b0 :: rest).length : Nat) : Int)).toNat = rest.length + 1 := by
    rw [Int.toNat_ofNat, List.length_cons]
  rw [e2]
  have e3 : (b0 :: rest)[0]? = some b0 := getElem_mid [] b0 rest
  rw [e3]
  simp only [Option.bind_eq_bind, Option.some_bind]
  rw [hloop]
  simp only [Option.some_bind]
  rw [call_next_lcg E _ (by rw [set_val_next]; exact hn), set_val_val, set_val_set_val]

theorem lcg_bytes_add (n m : Nat) : ∀ v : Nat,
    lcg_bytes (n + m) v = lcg_bytes n v ++ lcg_bytes m (lcg_advance^[n] v) := by
  induction n with
  | zero =>
    intro v
    rw [Nat.zero_add, lcg_bytes_zero, List.nil_append, Function.iterate_zero_apply]
  | succ n ih =>
    intro v
    have e : n + 1 + m = (n + m) + 1 := by omega
    rw [e, lcg_bytes_succ, lcg_bytes_succ, ih, Function.iterate_succ_apply, List.cons_append]

theorem lcg_bytes_length (n : Nat) : ∀ v : Nat, (lcg_bytes n v).length = n := by
  induction n with
  | zero => intro v; rw [lcg_bytes_zero]; rfl
  | succ n ih => intro v; rw [lcg_bytes_succ, List.length_cons, ih]

theorem set_val_slots {S : Type} (rnd : random S) (v : Nat) (h : lcg_handle rnd) :
    lcg_handle (set_val rnd v) := by
  cases rnd; exact h

theorem ak_random_ptr_lcg {S : Type} (E : collaborators S) (g : random S) (out : List Nat)
    (n : Nat) (hg : lcg_handle g) (h1 : 1 ≤ n) (hlen : out.length = n) :
    ak_random_ptr E (some g) (some out) (n : Int)
      = some (ak_error_ok, some (set_val g (lcg_advance^[n] g.data.val)),
              some (lcg_bytes n g.data.val)) := by
  have hpos : ¬ ((n : Int) ≤ 0) := by omega
  have hr : ¬ (g.random = none) := by rw [hg.2.2]; exact Option.some_ne_none _
  simp only [ak_random_ptr]
  rw [if_neg hpos, if_neg hr]
  unfold call_random
  rw [hg.2.2]
  simp only []
  rw [lcg_random_eq E g out n hg.1 h1 (by omega)]
  have hd : out.drop n = [] := by rw [← hlen]; exact List.drop_length out
  rw [hd, List.append_nil]
  rfl

theorem ak_random_randomize_lcg {S : Type} (E : collaborators S) (h : random S) (s : List Nat)
    (hh : lcg_handle h) (hs : s ≠ []) :
    ak_random_randomize E (some h) (some s) ((s.length : Nat) : Int)
      = some (ak_error_ok, some (set_val h (lcg_advance (lcg_seed_fold s (s.headD 0))))) := by
  cases s with
  | nil => exact absurd rfl hs
  | cons b0 rest =>
    have hpos : ¬ ((((b0 :: rest).length : Nat) : Int) ≤ 0) := by
      rw [List.length_cons]; omega
    have hr : ¬ (h.randomize_ptr = none) := by rw [hh.2.1]; exact Option.some_ne_none _
    simp only [ak_random_randomize]
    rw [if_neg hpos, if_neg hr]
    unfold call_randomize
    rw [hh.2.1]
    simp only []
    rw [lcg_randomize_eq E h b0 rest hh.1]
    rfl

/-- C1: `ak_random_ptr` returns the null-pointer error for a `NULL` handle or a
`NULL` buffer, the wrong-length error for `size <= 0`, and the
undefined-function error for a handle without an extract operation (such as a
handle fresh from `ak_random_create` or one that went through
`ak_random_destroy`), in each case leaving the handle and the buffer as they
were; in every other case its result is the result of the call through the
slot `random`. -/
theorem C1_ak_random_ptr_contract {S : Type} (E : collaborators S) (r : random S)
    (buf : List Nat) (out : Option (List Nat)) (size : Int) :
    ak_random_ptr E none out size = some (ak_error_null_pointer, none, out)
    ∧ ak_random_ptr E (some r) none size = some (ak_error_null_pointer, some r, none)
    ∧ (size ≤ 0 →
        ak_random_ptr E (some r) (some buf) size = some (ak_error_wrong_length, some r, some buf))
    ∧ (0 < size → r.random = none →
        ak_random_ptr E (some r) (some buf) size
          = some (ak_error_undefined_function, some r, some buf))
    ∧ (0 < size → r.random ≠ none →
        ak_random_ptr E (some r) (some buf) size
          = (call_random E r buf size).map (fun res => (res.1, some res.2.1, some res.2.2)))
    ∧ (0 < size → ∀ r0, (ak_random_create (some r)).2 = some r0 →
        ak_random_ptr E (some r0) (some buf) size
          = some (ak_error_undefined_function, some r0, some buf))
    ∧ (0 < size → ∀ e r1, ak_random_destroy (some r) = some (e, some r1) →
        ak_random_ptr E (some r1) (some buf) size
          = some (ak_error_undefined_function, some r1, some buf)) := by
  refine ⟨rfl, rfl, ?_, ?_, ?_, ?_, ?_⟩
  · intro h
    simp [ak_random_ptr, h, ak_error_message]
  · intro h hr
    simp [ak_random_ptr, not_le.mpr h, hr, ak_error_message]
  · intro h hr
    simp [ak_random_ptr, not_le.mpr h, hr]
  · intro h r0 hr0
    simp only [ak_random_create, Option.some.injEq] at hr0
    subst hr0
    simp [ak_random_ptr, not_le.mpr h, ak_error_message]
  · intro h e r1 hr1
    have hrand : r1.random = none := by
      unfold ak_random_destroy at hr1
      simp only at hr1
      split at hr1
      · exact absurd hr1 (by simp)
      · simp only [Option.some.injEq, Prod.mk.injEq] at hr1
        rw [← hr1.2]
    simp [ak_random_ptr, not_le.mpr h, hrand, ak_error_message]

/-- Concrete check of C1 on the sample quadratic congruential handle. -/
theorem C1_ak_random_ptr_contract_witness :
    ak_random_ptr sample_collaborators (some sample_qcg_handle) (some [0]) 0
        = some (ak_error_wrong_length, some sample_qcg_handle, some [0])
    ∧ ak_random_ptr sample_collaborators (some blank_handle) (some [0]) 1
        = some (ak_error_undefined_function, some blank_handle, some [0])
    ∧ ak_random_ptr sample_collaborators (some sample_qcg_handle) (some [0]) 1
        = (call_random sample_collaborators sample_qcg_handle [0] 1).map
            (fun res => (res.1, some res.2.1, some res.2.2))
    ∧ ak_random_ptr sample_collaborators (some blank_handle) (some [0]) 1
        = some (ak_error_undefined_function, some blank_handle, some [0])
    ∧ ak_random_ptr sample_collaborators (some blank_handle) (some [0]) 1
        = some (ak_error_undefined_function, some blank_handle, some [0]) :=
  ⟨(C1_ak_random_ptr_contract sample_collaborators sample_qcg_handle [0] none 0).2.2.1
      (by decide),
   (C1_ak_random_ptr_contract sample_collaborators blank_handle [0] none 1).2.2.2.1
      (by decide) rfl,
   (C1_ak_random_ptr_contract sample_collaborators sample_qcg_handle [0] none 1).2.2.2.2.1
      (by decide) (by decide),
   (C1_ak_random_ptr_contract sample_collaborators sample_qcg_handle [0] none 1).2.2.2.2.2.1
      (by decide) blank_handle rfl,
   (C1_ak_random_ptr_contract sample_collaborators blank_handle [0] none 1).2.2.2.2.2.2
      (by decide) ak_error_ok blank_handle rfl⟩

/-- A handle whose `randomize_ptr` slot is `NULL` is refused by
`ak_random_randomize` with the undefined-function error. -/
theorem randomize_undefined {S : Type} (E : collaborators S) (g : random S) (buf : List Nat)
    (size : Int) (hsize : 0 < size) (hg : g.randomize_ptr = none) :
    ak_random_randomize E (some g) (some buf) size
      = some (ak_error_undefined_function, some g) := by
  simp [ak_random_randomize, not_le.mpr hsize, hg, ak_error_message]

/-- The handle that `ak_random_destroy` returns has no `randomize_ptr`. -/
theorem destroy_randomize_ptr {S : Type} (r : random S) (e : ak_error) (g : random S)
    (h : ak_random_destroy (some r) = some (e, some g)) : g.randomize_ptr = none := by
  unfold ak_random_destroy at h
  simp only at h
  split at h
  · exact absurd h (by simp)
  · simp only [Option.some.injEq, Prod.mk.injEq] at h
    rw [← h.2]

/-- The handle that `ak_random_create_file` returns has no `randomize_ptr`. -/
theorem create_file_randomize_ptr {S : Type} (E : collaborators S) (rnd : Option (random S))
    (filename : String) (e : ak_error) (g : random S)
    (h : ak_random_create_file E rnd filename = some (e, some g)) : g.randomize_ptr = none := by
  unfold ak_random_create_file at h
  cases rnd with
  | none => simp [ak_random_create] at h
  | some r =>
    simp only [ak_random_create] at h
    cases hopen : E.os_open filename with
    | none =>
      simp only [hopen] at h
      split at h
      · exact absurd h (by simp)
      · rename_i res hres
        simp only [Option.some.injEq, Prod.mk.injEq] at h
        have hres2 : res.2 = some g := h.2
        exact destroy_randomize_ptr _ res.1 g (by rw [hres, ← hres2])
    | some p =>
      obtain ⟨fd, contents⟩ := p
      simp only [hopen, Option.some.injEq, Prod.mk.injEq] at h
      rw [← h.2]

/-- The handle that `ak_random_create_knuth_m` returns has no `randomize_ptr`. -/
theorem create_knuth_m_randomize_ptr {S : Type} (E : collaborators S) (calloc_ok malloc_ok : Bool)
    (rnd : Option (random S)) (x y : pointer S) (k : Nat) (e : ak_error) (g : random S)
    (h : ak_random_create_knuth_m E calloc_ok malloc_ok rnd x y k = some (e, some g)) :
    g.randomize_ptr = none := by
  unfold ak_random_create_knuth_m at h
  cases rnd with
  | none => simp [ak_random_create] at h
  | some r =>
    simp only [ak_random_create] at h
    split at h
    · split at h
      · exact absurd h (by simp)
      · rename_i res hres
        simp only [Option.some.injEq, Prod.mk.injEq] at h
        have hres2 : res.2 = some g := h.2
        exact destroy_randomize_ptr _ res.1 g (by rw [hres, ← hres2])
    · split at h
      · simp only [Option.some.injEq, Prod.mk.injEq] at h
        rw [← h.2]; rfl
      · split at h
        · split at h
          · exact absurd h (by simp)
          · simp only [Option.some.injEq, Prod.mk.injEq] at h
            rw [← h.2]; rfl
        · exact absurd h (by simp)

/-- The handle that `ak_random_create_knuth_b` returns has no `randomize_ptr`. -/
theorem create_knuth_b_randomize_ptr {S : Type} (E : collaborators S) (calloc_ok malloc_ok : Bool)
    (rnd : Option (random S)) (src : pointer S) (k : Nat) (e : ak_error) (g : random S)
    (h : ak_random_create_knuth_b E calloc_ok malloc_ok rnd src k = some (e, some g)) :
    g.randomize_ptr = none := by
  unfold ak_random_create_knuth_b at h
  cases rnd with
  | none => simp [ak_random_create] at h
  | some r =>
    simp only [ak_random_create] at h
    split at h
    · split at h
      · exact absurd h (by simp)
      · rename_i res hres
        simp only [Option.some.injEq, Prod.mk.injEq] at h
        have hres2 : res.2 = some g := h.2
        exact destroy_randomize_ptr _ res.1 g (by rw [hres, ← hres2])
    · split at h
      · simp only [Option.some.injEq, Prod.mk.injEq] at h
        rw [← h.2]; rfl
      · split at h
        · split at h
          · exact absurd h (by simp)
          · simp only [Option.some.injEq, Prod.mk.injEq] at h
            rw [← h.2]; rfl
        · exact absurd h (by simp)

/-- C2: on a handle built by `ak_random_create_file` (a device-backed generator),
by `ak_random_create_knuth_m` or by `ak_random_create_knuth_b`,
`ak_random_randomize` with a buffer and `size > 0` returns the
undefined-function error and leaves the handle as it was; on every handle a
`NULL` buffer gives the null-pointer error and `size <= 0` the wrong-length
error, the handle again unchanged and no seed operation being called. -/
theorem C2_randomize_unsupported {S : Type} (E : collaborators S) (rnd : Option (random S))
    (filename : String) (calloc_ok malloc_ok : Bool) (x y : pointer S) (k : Nat)
    (e : ak_error) (g : random S) (buf : List Nat) (size : Int) :
    (ak_random_create_file E rnd filename = some (e, some g) → 0 < size →
        ak_random_randomize E (some g) (some buf) size
          = some (ak_error_undefined_function, some g))
    ∧ (ak_random_create_knuth_m E calloc_ok malloc_ok rnd x y k = some (e, some g) → 0 < size →
        ak_random_randomize E (some g) (some buf) size
          = some (ak_error_undefined_function, some g))
    ∧ (ak_random_create_knuth_b E calloc_ok malloc_ok rnd x k = some (e, some g) → 0 < size →
        ak_random_randomize E (some g) (some buf) size
          = some (ak_error_undefined_function, some g))
    ∧ ak_random_randomize E (some g) none size = some (ak_error_null_pointer, some g)
    ∧ (size ≤ 0 →
        ak_random_randomize E (some g) (some buf) size = some (ak_error_wrong_length, some g)) := by
  refine ⟨?_, ?_, ?_, rfl, ?_⟩
  · intro h hsize
    exact randomize_undefined E g buf size hsize (create_file_randomize_ptr E rnd filename e g h)
  · intro h hsize
    exact randomize_undefined E g buf size hsize
      (create_knuth_m_randomize_ptr E calloc_ok malloc_ok rnd x y k e g h)
  · intro h hsize
    exact randomize_undefined E g buf size hsize
      (create_knuth_b_randomize_ptr E calloc_ok malloc_ok rnd x k e g h)
  · intro hsize
    simp [ak_random_randomize, hsize, ak_error_message]

/-- Concrete check of C2 on the sample file handle and the sample Knuth
handles. -/
theorem C2_randomize_unsupported_witness :
    ak_random_randomize sample_collaborators (some sample_file_handle) (some [7]) 1
        = some (ak_error_undefined_function, some sample_file_handle)
    ∧ ak_random_randomize sample_collaborators (some sample_knuth_m_handle) (some [7]) 1
        = some (ak_error_undefined_function, some sample_knuth_m_handle)
    ∧ ak_random_randomize sample_collaborators (some sample_knuth_b_handle) (some [7]) 1
        = some (ak_error_undefined_function, some sample_knuth_b_handle)
    ∧ ak_random_randomize sample_collaborators (some sample_qcg_handle) (some [7]) 0
        = some (ak_error_wrong_length, some sample_qcg_handle) :=
  ⟨(C2_randomize_unsupported sample_collaborators (some blank_handle) ("f") true true
      (pointer.live ()) (pointer.live ()) 2 ak_error_ok sample_file_handle [7] 1).1
      rfl (by decide),
   (C2_randomize_unsupported sample_collaborators (some blank_handle) ("f") true true
      (pointer.live ()) (pointer.live ()) 2 ak_error_ok sample_knuth_m_handle [7] 1).2.1
      rfl (by decide),
   (C2_randomize_unsupported sample_collaborators (some blank_handle) ("f") true true
      (pointer.live ()) (pointer.live ()) 2 ak_error_ok sample_knuth_b_handle [7] 1).2.2.1
      rfl (by decide),
   (C2_randomize_unsupported sample_collaborators (some blank_handle) ("f") true true
      (pointer.live ()) (pointer.live ()) 2 ak_error_ok sample_qcg_handle [7] 0).2.2.2.2
      (by decide)⟩

/-- C3 (evaluation at a quadratic congruential handle): `ak_random_destroy`
clears `oid`, `next`, `randomize_ptr`, `random` and zeroes the state, but the
slot `free` still holds `ak_random_qcg_free`, so the result is not the handle
that `ak_random_create` produces. -/
theorem C3_destroy_keeps_free_slot {S : Type} (E : collaborators S) (r : random S) :
    ∃ h h1 : random S,
      ak_random_create_qcg E true (some r) = some (ak_error_ok, some h)
      ∧ ak_random_destroy (some h) = some (ak_error_ok, some h1)
      ∧ h1.oid = none ∧ h1.next = none ∧ h1.randomize_ptr = none ∧ h1.random = none
      ∧ h1.data = random_data.zero
      ∧ h1.free = some fn_free.qcg
      ∧ (ak_random_create (some h)).2 ≠ some h1 := by
  refine ⟨_, _, rfl, rfl, rfl, rfl, rfl, rfl, rfl, rfl, ?_⟩
  simp [ak_random_create, set_ctx]

/-- C4 (evaluation at a quadratic congruential handle): after one
`ak_random_destroy` the slot `free` is still set and the context pointer is
`NULL`; a second `ak_random_destroy` therefore calls `ak_random_qcg_free`
again, whose `memset` through the `NULL` context traps, and no result is
returned. -/
theorem C4_second_destroy_calls_free {S : Type} (E : collaborators S) (r : random S) :
    ∃ h h1 : random S,
      ak_random_create_qcg E true (some r) = some (ak_error_ok, some h)
      ∧ ak_random_destroy (some h) = some (ak_error_ok, some h1)
      ∧ h1.free = some fn_free.qcg
      ∧ h1.data.ctx = pointer.null
      ∧ call_free fn_free.qcg h1 = none
      ∧ ak_random_destroy (some h1) = none := by
  refine ⟨_, _, rfl, rfl, rfl, rfl, rfl, rfl⟩

/-- C5: whatever state two linear congruential handles carry, seeding both
through `ak_random_randomize` with the same non-empty seed succeeds and leaves
them with the same 64-bit state; and from any two linear congruential handles
with the same state, `ak_random_ptr` of any length `n >= 1` returns the same
bytes and again handles with the same state, so every later extract agrees as
well. -/
theorem C5_lcg_reseed_determinism {S : Type} (E : collaborators S) (h1 h2 : random S)
    (s : List Nat) (hl1 : lcg_handle h1) (hl2 : lcg_handle h2) (hs : s ≠ []) :
    (∃ g1 g2 : random S,
        ak_random_randomize E (some h1) (some s) ((s.length : Nat) : Int)
          = some (ak_error_ok, some g1)
        ∧ ak_random_randomize E (some h2) (some s) ((s.length : Nat) : Int)
          = some (ak_error_ok, some g2)
        ∧ lcg_same_state g1 g2)
    ∧ (∀ (a b : random S) (n : Nat) (out1 out2 : List Nat), lcg_same_state a b → 1 ≤ n →
        out1.length = n → out2.length = n →
        ∃ (a1 b1 : random S) (bytes : List Nat),
          ak_random_ptr E (some a) (some out1) (n : Int) = some (ak_error_ok, some a1, some bytes)
          ∧ ak_random_ptr E (some b) (some out2) (n : Int) = some (ak_error_ok, some b1, some bytes)
          ∧ bytes.length = n
          ∧ lcg_same_state a1 b1) := by
  constructor
  · refine ⟨_, _, ak_random_randomize_lcg E h1 s hl1 hs, ak_random_randomize_lcg E h2 s hl2 hs,
      set_val_slots h1 _ hl1, set_val_slots h2 _ hl2, ?_⟩
    rw [set_val_val, set_val_val]
  · intro a b n out1 out2 hab hn ho1 ho2
    refine ⟨set_val a (lcg_advance^[n] a.data.val), set_val b (lcg_advance^[n] b.data.val),
      lcg_bytes n a.data.val, ak_random_ptr_lcg E a out1 n hab.1 hn ho1, ?_,
      lcg_bytes_length n _, set_val_slots a _ hab.1, set_val_slots b _ hab.2.1, ?_⟩
    · rw [hab.2.2]
      exact ak_random_ptr_lcg E b out2 n hab.2.1 hn ho2
    · rw [set_val_val, set_val_val, hab.2.2]

/-- Concrete check of C5: two linear congruential handles with states 5 and 9,
seeded with the bytes 1, 2. -/
theorem C5_lcg_reseed_determinism_witness :
    (∃ g1 g2 : random Unit,
        ak_random_randomize sample_collaborators (some (sample_lcg_handle 5)) (some [1, 2])
            ((([1, 2] : List Nat).length : Nat) : Int) = some (ak_error_ok, some g1)
        ∧ ak_random_randomize sample_collaborators (some (sample_lcg_handle 9)) (some [1, 2])
            ((([1, 2] : List Nat).length : Nat) : Int) = some (ak_error_ok, some g2)
        ∧ lcg_same_state g1 g2)
    ∧ (∃ (a1 b1 : random Unit) (bytes : List Nat),
        ak_random_ptr sample_collaborators (some (sample_lcg_handle 7)) (some [0, 0])
            ((2 : Nat) : Int) = some (ak_error_ok, some a1, some bytes)
        ∧ ak_random_ptr sample_collaborators (some (sample_lcg_handle 7)) (some [8, 8])
            ((2 : Nat) : Int) = some (ak_error_ok, some b1, some bytes)
        ∧ bytes.length = 2
        ∧ lcg_same_state a1 b1) :=
  ⟨(C5_lcg_reseed_determinism sample_collaborators (sample_lcg_handle 5) (sample_lcg_handle 9)
      [1, 2] ⟨rfl, rfl, rfl⟩ ⟨rfl, rfl, rfl⟩ (by decide)).1,
   (C5_lcg_reseed_determinism sample_collaborators (sample_lcg_handle 5) (sample_lcg_handle 9)
      [1, 2] ⟨rfl, rfl, rfl⟩ ⟨rfl, rfl, rfl⟩ (by decide)).2
      (sample_lcg_handle 7) (sample_lcg_handle 7) 2 [0, 0] [8, 8]
      ⟨⟨rfl, rfl, rfl⟩, ⟨rfl, rfl, rfl⟩, rfl⟩ (by decide) rfl rfl⟩

/-- C9: for every linear congruential handle and all `n >= 1`, `m >= 1`,
`ak_random_ptr` of `n` bytes followed by `ak_random_ptr` of `m` bytes returns
the same `n + m` bytes and the same final handle as one `ak_random_ptr` of
`n + m` bytes. -/
theorem C9_lcg_stream_continuity {S : Type} (E : collaborators S) (rnd : random S)
    (n m : Nat) (b1 b2 : List Nat) (hl : lcg_handle rnd) (hn : 1 ≤ n) (hm : 1 ≤ m)
    (hb1 : b1.length = n) (hb2 : b2.length = m) :
    ∃ (r1 r2 : random S) (o1 o2 : List Nat),
      ak_random_ptr E (some rnd) (some b1) (n : Int) = some (ak_error_ok, some r1, some o1)
      ∧ ak_random_ptr E (some r1) (some b2) (m : Int) = some (ak_error_ok, some r2, some o2)
      ∧ o1.length = n ∧ o2.length = m
      ∧ ak_random_ptr E (some rnd) (some (b1 ++ b2)) ((n + m : Nat) : Int)
          = some (ak_error_ok, some r2, some (o1 ++ o2)) := by
  refine ⟨_, _, _, _, ak_random_ptr_lcg E rnd b1 n hl hn hb1,
    ak_random_ptr_lcg E _ b2 m (set_val_slots rnd _ hl) hm hb2,
    lcg_bytes_length n _, lcg_bytes_length m _, ?_⟩
  rw [ak_random_ptr_lcg E rnd (b1 ++ b2) (n + m) hl (by omega)
    (by rw [List.length_append, hb1, hb2])]
  rw [set_val_val, set_val_set_val, lcg_bytes_add, Nat.add_comm n m,
    Function.iterate_add_apply]

/-- Concrete check of C9: state 5, three bytes then two bytes. -/
theorem C9_lcg_stream_continuity_witness :
    ∃ (r1 r2 : random Unit) (o1 o2 : List Nat),
      ak_random_ptr sample_collaborators (some (sample_lcg_handle 5)) (some [0, 0, 0])
          ((3 : Nat) : Int) = some (ak_error_ok, some r1, some o1)
      ∧ ak_random_ptr sample_collaborators (some r1) (some [0, 0]) ((2 : Nat) : Int)
          = some (ak_error_ok, some r2, some o2)
      ∧ o1.length = 3 ∧ o2.length = 2
      ∧ ak_random_ptr sample_collaborators (some (sample_lcg_handle 5))
          (some ([0, 0, 0] ++ [0, 0])) ((3 + 2 : Nat) : Int)
          = some (ak_error_ok, some r2, some (o1 ++ o2)) :=
  C9_lcg_stream_continuity sample_collaborators (sample_lcg_handle 5) 3 2 [0, 0, 0] [0, 0]
    ⟨rfl, rfl, rfl⟩ (by decide) (by decide) rfl rfl

/-! ### Mitchell-Moore seeding -/

theorem set_ctx_set_ctx {S : Type} (rnd : random S) (a b : context S) :
    set_ctx (set_ctx rnd a) b = set_ctx rnd b := by
  cases rnd; rfl

theorem set_ctx_ctx {S : Type} (rnd : random S) (a : context S) :
    (set_ctx rnd a).data.ctx = pointer.live a := by
  cases rnd; rfl

theorem set_ctx_next {S : Type} (rnd : random S) (a : context S) :
    (set_ctx rnd a).next = rnd.next := by
  cases rnd; rfl

theorem set_ctx_randomize_ptr {S : Type} (rnd : random S) (a : context S) :
    (set_ctx rnd a).randomize_ptr = rnd.randomize_ptr := by
  cases rnd; rfl

theorem set_ctx_random {S : Type} (rnd : random S) (a : context S) :
    (set_ctx rnd a).random = rnd.random := by
  cases rnd; rfl

theorem mem_read_some (buf : List Nat) (off len : Nat) (h : off + len ≤ buf.length) :
    mem_read buf off len = some ((buf.drop off).take len) := by
  unfold mem_read
  rw [if_pos h]

theorem mem_write_whole (xs ws : List Nat) (h : xs.length = ws.length) :
    mem_write xs 0 ws = some ws := by
  unfold mem_write
  have h1 : 0 + ws.length ≤ xs.length := by omega
  rw [if_pos h1]
  have h2 : xs.drop (0 + ws.length) = [] := by
    rw [Nat.zero_add, ← h]; exact List.drop_length xs
  rw [h2, List.take_zero, List.nil_append, List.append_nil]

theorem read_words32_some (ptr : List Nat) : ∀ (n idx : Nat), 4 * (idx + n) ≤ ptr.length →
    ∃ ws, read_words32 ptr idx n = some ws ∧ ws.length = n := by
  intro n
  induction n with
  | zero => intro idx _; exact ⟨[], rfl, rfl⟩
  | succ n ih =>
    intro idx h
    obtain ⟨ws, hws, hlen⟩ := ih (idx + 1) (by omega)
    have hw : read_word32 ptr idx
        = some (word32_of_bytes ((ptr.drop (4 * idx)).take 4)) := by
      unfold read_word32
      rw [mem_read_some ptr (4 * idx) 4 (by omega)]
      rfl
    refine ⟨word32_of_bytes ((ptr.drop (4 * idx)).take 4) :: ws, ?_, ?_⟩
    · rw [read_words32, hw, hws]
    · rw [List.length_cons, hlen]

theorem mitchel_randomize_eq {S : Type} (h : random S) (c : random_mitchel)
    (xs s : List Nat) (hx : xs.length = 55) (hs : s.length = 220) :
    ∃ ws, read_words32 s 0 55 = some ws ∧ ws.length = 55 ∧
      ak_random_mitchel_randomize_ptr (set_ctx h (context.mitchel { c with x := pointer.live xs }))
          s 220
        = some (ak_error_ok, set_ctx h (context.mitchel { c with x := pointer.live ws })) := by
  obtain ⟨ws, hws, hlen⟩ := read_words32_some s 55 0 (by omega)
  refine ⟨ws, hws, hlen, ?_⟩
  unfold ak_random_mitchel_randomize_ptr
  have hsz : ¬ (to_uint64 220 < 55 * 4) := by decide
  rw [if_neg hsz, set_ctx_ctx]
  simp only [hws, Option.bind_eq_bind, Option.some_bind]
  rw [mem_write_whole xs ws (by omega)]
  simp only [Option.some_bind, set_ctx_set_ctx]

theorem mitchel_reseed_same_word {S : Type} (E : collaborators S) (h : random S)
    (c : random_mitchel) (xs1 xs2 s : List Nat)
    (hr : h.randomize_ptr = some fn_randomize.mitchel)
    (hx1 : xs1.length = 55) (hx2 : xs2.length = 55) (hs : s.length = 220) :
    ∃ g1 g2 : random S,
      ak_random_randomize E (some (set_ctx h (context.mitchel { c with x := pointer.live xs1 })))
          (some s) 220 = some (ak_error_ok, some g1)
      ∧ ak_random_randomize E (some (set_ctx h (context.mitchel { c with x := pointer.live xs2 })))
          (some s) 220 = some (ak_error_ok, some g2)
      ∧ g1 = g2
      ∧ ∀ (out : Option (List Nat)) (n : Int),
          ak_random_ptr E (some g1) out n = ak_random_ptr E (some g2) out n := by
  obtain ⟨ws1, hws1, _, e1⟩ := mitchel_randomize_eq h c xs1 s hx1 hs
  obtain ⟨ws2, hws2, _, e2⟩ := mitchel_randomize_eq h c xs2 s hx2 hs
  have hw : ws1 = ws2 := Option.some.inj (hws1.symm.trans hws2)
  subst hw
  have hpos : ¬ ((220 : Int) ≤ 0) := by decide
  refine ⟨set_ctx h (context.mitchel { c with x := pointer.live ws1 }),
    set_ctx h (context.mitchel { c with x := pointer.live ws1 }), ?_, ?_, rfl, fun _ _ => rfl⟩
  · have hr1 : ¬ ((set_ctx h (context.mitchel { c with x := pointer.live xs1 })).randomize_ptr
        = none) := by
      rw [set_ctx_randomize_ptr, hr]; exact Option.some_ne_none _
    simp only [ak_random_randomize]
    rw [if_neg hpos, if_neg hr1]
    unfold call_randomize
    rw [set_ctx_randomize_ptr, hr]
    simp only []
    rw [e1]
    rfl
  · have hr2 : ¬ ((set_ctx h (context.mitchel { c with x := pointer.live xs2 })).randomize_ptr
        = none) := by
      rw [set_ctx_randomize_ptr, hr]; exact Option.some_ne_none _
    simp only [ak_random_randomize]
    rw [if_neg hpos, if_neg hr2]
    unfold call_randomize
    rw [set_ctx_randomize_ptr, hr]
    simp only []
    rw [e2]
    rfl

theorem mitchel_create_out_of_block {S : Type} (E : collaborators S) (r : random S) :
    ak_random_create_mitchel E true (some r) = none := by
  rfl

/-- C6: seeding a Mitchell-Moore generator copies the seed over the 55-word block
and leaves the current word `next`, which the following advances feed back into
the output. Two handles with different histories are seeded with the same 220
zero bytes: the handle in the state that the constructor installs emits 76 zero
bytes, the handle that was seeded with another seed and used for one byte
before emits 75 zero bytes and then the byte 1; and a handle whose current word
is 256 still holds 256 after the seeding. -/
theorem C6_mitchel_reseed_keeps_next :
    mitchel_history_a.map (fun r => (r.1, r.2.2))
        = some (ak_error_ok, some (List.replicate 76 0))
    ∧ mitchel_history_b.map (fun r => (r.1, r.2.2))
        = some (ak_error_ok, some (List.replicate 75 0 ++ [1]))
    ∧ ak_random_randomize sample_collaborators
          (some (sample_mitchel_handle 256 (List.replicate 55 7))) (some mitchel_seed_zero) 220
        = some (ak_error_ok, some (sample_mitchel_handle 256 (List.replicate 55 0))) := by
  refine ⟨?_, ?_, ?_⟩
  · set_option maxRecDepth 100000 in rfl
  · set_option maxRecDepth 100000 in rfl
  · set_option maxRecDepth 100000 in rfl

/-! ### The three-byte extraction loop -/

theorem mem_write_mid1 (pre : List Nat) (a b x : Nat) (tail : List Nat) :
    mem_write (pre ++ a :: b :: tail) (pre.length + 1) [x] = some (pre ++ a :: x :: tail) := by
  have h := mem_write_mid (pre ++ [a]) b x tail
  rw [List.length_append, List.length_singleton, List.append_assoc, List.singleton_append,
    List.append_assoc, List.singleton_append] at h
  exact h

theorem mem_write_mid2 (pre : List Nat) (a b c x : Nat) (tail : List Nat) :
    mem_write (pre ++ a :: b :: c :: tail) (pre.length + 2) [x]
      = some (pre ++ a :: b :: x :: tail) := by
  have h := mem_write_mid1 (pre ++ [a]) b c x tail
  rw [List.length_append, List.length_singleton, List.append_assoc, List.singleton_append,
    List.append_assoc, List.singleton_append] at h
  exact h

theorem three_bytes_loop_step {S : Type} (E : collaborators S) (word : random S → Option Nat)
    (fuel : Nat) (rnd r1 : random S) (ptr p1 : List Nat) (i : Nat) (size : Int) (w : Nat)
    (hnext : call_next E rnd = some (ak_error_ok, r1)) (hword : word r1 = some w)
    (hlt : (i : Int) < size) (hw1 : mem_write ptr i [byte_of_word w 1] = some p1) :
    random_three_bytes_loop E word (fuel + 1) rnd ptr i size
      = if ((i + 1 : Nat) : Int) = size then some (ak_error_ok, r1, p1)
        else (mem_write p1 (i + 1) [byte_of_word w 2]).bind fun p2 =>
          if ((i + 2 : Nat) : Int) = size then some (ak_error_ok, r1, p2)
          else (mem_write p2 (i + 2) [byte_of_word w 3]).bind fun p3 =>
            random_three_bytes_loop E word fuel r1 p3 (i + 3) size := by
  rw [random_three_bytes_loop, if_pos hlt, hnext]
  simp only [Option.bind_eq_bind, Option.some_bind, ne_eq, not_true_eq_false, if_false, hword, hw1]

theorem three_bytes_blocks_succ {α : Type} (step : α → α) (word : α → Nat) (k : Nat) (a : α) :
    three_bytes_blocks step word (k + 1) a
      = three_bytes (word (step a)) ++ three_bytes_blocks step word k (step a) := by
  rw [three_bytes_blocks]

theorem three_bytes_take (w n : Nat) (rest : List Nat) :
    (three_bytes w ++ rest).take (n + 3) = three_bytes w ++ rest.take n := rfl

theorem three_bytes_loop_eq {S α : Type} (E : collaborators S) (word : random S → Option Nat)
    (emb : α → random S) (step : α → α) (wd : α → Nat) (Inv : α → Prop)
    (H : ∀ a, Inv a → call_next E (emb a) = some (ak_error_ok, emb (step a)) ∧ Inv (step a)
      ∧ word (emb (step a)) = some (wd (step a))) :
    ∀ (fuel : Nat) (a : α) (pre mid post : List Nat), Inv a → mid.length < fuel →
      random_three_bytes_loop E word fuel (emb a) (pre ++ (mid ++ post)) pre.length
          ((pre.length + mid.length : Nat) : Int)
        = some (ak_error_ok, emb (step^[(mid.length + 2) / 3] a),
            pre ++ ((three_bytes_blocks step wd ((mid.length + 2) / 3) a).take mid.length
              ++ post)) := by
  intro fuel
  induction fuel with
  | zero => intro a pre mid post _ hf; omega
  | succ f ih =>
    intro a pre mid post ha hf
    obtain ⟨hnext, hinv, hword⟩ := H a ha
    match mid, hf with
    | [], _ =>
      have hnlt : ¬ ((pre.length : Int) < ((pre.length + ([] : List Nat).length : Nat) : Int)) := by
        rw [List.length_nil, Nat.add_zero]; omega
      rw [random_three_bytes_loop, if_neg hnlt]
      rfl
    | [x1], _ =>
      have hlt : (pre.length : Int) < ((pre.length + [x1].length : Nat) : Int) := by
        rw [List.length_singleton]; omega
      simp only [List.cons_append, List.nil_append]
      rw [three_bytes_loop_step E word f (emb a) _ _ _ _ _ _ hnext hword hlt
        (mem_write_mid pre x1 _ _)]
      rw [if_pos (by rw [List.length_singleton])]
      have e : ([x1].length + 2) / 3 = 0 + 1 := by simp
      rw [e, three_bytes_blocks_succ, Function.iterate_succ_apply, Function.iterate_zero_apply]
      rfl
    | [x1, x2], _ =>
      have hlt : (pre.length : Int) < ((pre.length + [x1, x2].length : Nat) : Int) := by
        apply Int.ofNat_lt.mpr; simp
      have hne : ¬ (((pre.length + 1 : Nat) : Int) = ((pre.length + [x1, x2].length : Nat) : Int)) := by
        intro h; have := Int.ofNat_inj.mp h; simp at this
      simp only [List.cons_append, List.nil_append]
      rw [three_bytes_loop_step E word f (emb a) _ _ _ _ _ _ hnext hword hlt
        (mem_write_mid pre x1 _ _)]
      rw [if_neg hne, mem_write_mid1, Option.some_bind, if_pos (by rfl)]
      have e : ([x1, x2].length + 2) / 3 = 0 + 1 := by simp
      rw [e, three_bytes_blocks_succ, Function.iterate_succ_apply, Function.iterate_zero_apply]
      rfl
    | x1 :: x2 :: x3 :: mid', hf =>
      have hlt : (pre.length : Int) < ((pre.length + (x1 :: x2 :: x3 :: mid').length : Nat) : Int) := by
        apply Int.ofNat_lt.mpr; simp
      have hne1 : ¬ (((pre.length + 1 : Nat) : Int)
          = ((pre.length + (x1 :: x2 :: x3 :: mid').length : Nat) : Int)) := by
        intro h; have := Int.ofNat_inj.mp h; simp at this
      have hne2 : ¬ (((pre.length + 2 : Nat) : Int)
          = ((pre.length + (x1 :: x2 :: x3 :: mid').length : Nat) : Int)) := by
        intro h; have := Int.ofNat_inj.mp h; simp at this
      simp only [List.cons_append, List.nil_append]
      rw [three_bytes_loop_step E word f (emb a) _ _ _ _ _ _ hnext hword hlt
        (mem_write_mid pre x1 _ _)]
      rw [if_neg hne1, mem_write_mid1, Option.some_bind, if_neg hne2, mem_write_mid2,
        Option.some_bind]
      have hf' : mid'.length < f := by
        simp only [List.length_cons] at hf; omega
      have ih' := ih (step a) (pre ++ three_bytes (wd (step a))) mid' post hinv hf'
      have e1 : (pre ++ three_bytes (wd (step a))).length = pre.length + 3 := by
        rw [List.length_append]; rfl
      have e2 : pre.length + 3 + mid'.length = pre.length + (x1 :: x2 :: x3 :: mid').length := by
        simp only [List.length_cons]; omega
      have e3 : pre ++ three_bytes (wd (step a)) ++ (mid' ++ post)
          = pre ++ byte_of_word (wd (step a)) 1 :: byte_of_word (wd (step a)) 2
              :: byte_of_word (wd (step a)) 3 :: (mid' ++ post) := by
        rw [List.append_assoc]; rfl
      rw [e1, e2, e3] at ih'
      rw [ih']
      have e4 : ((x1 :: x2 :: x3 :: mid').length + 2) / 3 = (mid'.length + 2) / 3 + 1 := by
        simp only [List.length_cons]; omega
      have e5 : (x1 :: x2 :: x3 :: mid').length = mid'.length + 3 := by
        simp only [List.length_cons]
      rw [e4, e5, three_bytes_blocks_succ, three_bytes_take, Function.iterate_succ_apply]
      simp only [List.append_assoc]

theorem three_bytes_blocks_length {α : Type} (step : α → α) (word : α → Nat) :
    ∀ (k : Nat) (a : α), (three_bytes_blocks step word k a).length = 3 * k := by
  intro k
  induction k with
  | zero => intro a; rfl
  | succ k ih =>
    intro a
    rw [three_bytes_blocks_succ, List.length_append, ih]
    have e : (three_bytes (word (step a))).length = 3 := rfl
    rw [e]; omega

theorem three_bytes_blocks_add {α : Type} (step : α → α) (word : α → Nat) (j : Nat) :
    ∀ (k : Nat) (a : α), three_bytes_blocks step word (k + j) a
      = three_bytes_blocks step word k a ++ three_bytes_blocks step word j (step^[k] a) := by
  intro k
  induction k with
  | zero =>
    intro a
    rw [Nat.zero_add, Function.iterate_zero_apply]
    rfl
  | succ k ih =>
    intro a
    have e : k + 1 + j = (k + j) + 1 := by omega
    rw [e, three_bytes_blocks_succ, three_bytes_blocks_succ, ih, Function.iterate_succ_apply,
      List.append_assoc]

theorem call_next_qcg {S : Type} (E : collaborators S) (h : random S)
    (c : random_quadratic_congruence_method) (hn : h.next = some fn_next.qcg) (hm : c.m ≠ 0) :
    call_next E (set_ctx h (context.qcg c))
      = some (ak_error_ok, set_ctx h (context.qcg (qcg_advance c))) := by
  unfold call_next
  rw [set_ctx_next, hn]
  simp only []
  unfold ak_random_qcg_next
  rw [set_ctx_ctx]
  simp only []
  rw [if_neg hm, set_ctx_set_ctx]

theorem qcg_word_set_ctx {S : Type} (h : random S) (c : random_quadratic_congruence_method) :
    qcg_word (set_ctx h (context.qcg c)) = some c.xn := by
  unfold qcg_word
  rw [set_ctx_ctx]

theorem qcg_advance_m (c : random_quadratic_congruence_method) : (qcg_advance c).m = c.m := rfl

theorem ak_random_ptr_qcg {S : Type} (E : collaborators S) (h : random S)
    (c : random_quadratic_congruence_method) (buf : List Nat) (n : Nat)
    (hh : qcg_handle h) (hm : c.m ≠ 0) (h1 : 1 ≤ n) (hlen : buf.length = n) :
    ak_random_ptr E (some (set_ctx h (context.qcg c))) (some buf) (n : Int)
      = some (ak_error_ok, some (set_ctx h (context.qcg (qcg_advance^[(n + 2) / 3] c))),
          some ((three_bytes_blocks qcg_advance (fun q => q.xn) ((n + 2) / 3) c).take n)) := by
  have hpos : ¬ ((n : Int) ≤ 0) := by omega
  have hr : ¬ ((set_ctx h (context.qcg c)).random = none) := by
    rw [set_ctx_random, hh.2]; exact Option.some_ne_none _
  simp only [ak_random_ptr]
  rw [if_neg hpos, if_neg hr]
  unfold call_random
  rw [set_ctx_random, hh.2]
  simp only []
  unfold ak_random_qcg_random
  rw [if_neg hpos]
  have hloop := three_bytes_loop_eq E qcg_word (fun q => set_ctx h (context.qcg q)) qcg_advance
    (fun q => q.xn) (fun q => q.m ≠ 0)
    (fun a ha => ⟨call_next_qcg E h a hh.1 ha, (by show (qcg_advance a).m ≠ 0; rw [qcg_advance_m]; exact ha),
      qcg_word_set_ctx h _⟩)
    (n + 1) c [] buf [] hm (by omega)
  rw [List.length_nil, Nat.zero_add, List.nil_append, List.append_nil, List.nil_append,
    List.append_nil, hlen] at hloop
  rw [Int.toNat_ofNat, hloop]
  rfl

/-- C7 (as stated, refuted): from the handle built by `ak_random_create_qcg`, one
byte and then one more byte are 238 and 138 (each call starts with a fresh
`next` and drops the two unused bytes of the word), while two bytes in one call
are 238 and 197; the final states differ as well. -/
theorem C7_qcg_continuity_counterexample :
    ∃ r1 r2 r3 : random Unit,
      ak_random_create_qcg sample_collaborators true (some blank_handle)
          = some (ak_error_ok, some sample_qcg_handle)
      ∧ ak_random_ptr sample_collaborators (some sample_qcg_handle) (some [0]) 1
          = some (ak_error_ok, some r1, some [238])
      ∧ ak_random_ptr sample_collaborators (some r1) (some [0]) 1
          = some (ak_error_ok, some r2, some [138])
      ∧ ak_random_ptr sample_collaborators (some sample_qcg_handle) (some ([0] ++ [0])) (1 + 1)
          = some (ak_error_ok, some r3, some [238, 197])
      ∧ [238] ++ [138] ≠ [238, 197]
      ∧ r2 ≠ r3 := by
  refine ⟨_, _, _, rfl, rfl, rfl, rfl, by decide, by decide⟩

/-- C7 (amended): for every quadratic congruential state with non-zero modulus,
every `n >= 1` that is a multiple of 3 and every `m >= 1`, `ak_random_ptr` of
`n` bytes followed by `ak_random_ptr` of `m` bytes returns the same `n + m`
bytes and the same final handle as one `ak_random_ptr` of `n + m` bytes. -/
theorem C7_qcg_continuity_blocks {S : Type} (E : collaborators S) (h : random S)
    (c : random_quadratic_congruence_method) (k m : Nat) (b1 b2 : List Nat)
    (hh : qcg_handle h) (hm0 : c.m ≠ 0) (hk : 1 ≤ k) (hm : 1 ≤ m)
    (hb1 : b1.length = 3 * k) (hb2 : b2.length = m) :
    ∃ (r1 r2 : random S) (o1 o2 : List Nat),
      ak_random_ptr E (some (set_ctx h (context.qcg c))) (some b1) ((3 * k : Nat) : Int)
          = some (ak_error_ok, some r1, some o1)
      ∧ ak_random_ptr E (some r1) (some b2) (m : Int) = some (ak_error_ok, some r2, some o2)
      ∧ o1.length = 3 * k ∧ o2.length = m
      ∧ ak_random_ptr E (some (set_ctx h (context.qcg c))) (some (b1 ++ b2))
          ((3 * k + m : Nat) : Int) = some (ak_error_ok, some r2, some (o1 ++ o2)) := by
  have hmk : ∀ j : Nat, (qcg_advance^[j] c).m ≠ 0 := by
    intro j
    induction j with
    | zero => exact hm0
    | succ j ih =>
      rw [Function.iterate_succ_apply', qcg_advance_m]
      exact ih
  have e1 : (3 * k + 2) / 3 = k := by omega
  have e2 : (3 * k + m + 2) / 3 = k + (m + 2) / 3 := by omega
  have hlen1 : (three_bytes_blocks qcg_advance (fun q => q.xn) k c).length = 3 * k :=
    three_bytes_blocks_length _ _ k c
  have htake1 : (three_bytes_blocks qcg_advance (fun q => q.xn) k c).take (3 * k)
      = three_bytes_blocks qcg_advance (fun q => q.xn) k c := by
    rw [← hlen1]; exact List.take_length _
  have hlen2 : (three_bytes_blocks qcg_advance (fun q => q.xn) ((m + 2) / 3)
      (qcg_advance^[k] c)).length = 3 * ((m + 2) / 3) := three_bytes_blocks_length _ _ _ _
  refine ⟨_, _, _, _, ak_random_ptr_qcg E h c b1 (3 * k) hh hm0 (by omega) hb1,
    ak_random_ptr_qcg E h _ b2 m hh (by rw [e1]; exact hmk k) hm hb2, ?_, ?_, ?_⟩
  · rw [List.length_take, e1, hlen1]; omega
  · rw [List.length_take, e1, hlen2]; omega
  · rw [ak_random_ptr_qcg E h c (b1 ++ b2) (3 * k + m) hh hm0 (by omega)
      (by rw [List.length_append, hb1, hb2])]
    rw [e1, e2, htake1, three_bytes_blocks_add, List.take_append_eq_append_take, hlen1,
      Nat.add_sub_cancel_left, List.take_of_length_le (by rw [hlen1]; omega),
      Nat.add_comm k ((m + 2) / 3), Function.iterate_add_apply]

/-- Concrete check of C7 (amended): three bytes, then two bytes, from the
default state. -/
theorem C7_qcg_continuity_blocks_witness :
    ∃ (r1 r2 : random Unit) (o1 o2 : List Nat),
      ak_random_ptr sample_collaborators
          (some (set_ctx sample_qcg_handle (context.qcg
            { xn := 0x8299, d := 0x2, a := 0x57FF7, c := 0x418693, m := 0xFFFFFFFC })))
          (some [0, 0, 0]) ((3 * 1 : Nat) : Int) = some (ak_error_ok, some r1, some o1)
      ∧ ak_random_ptr sample_collaborators (some r1) (some [0, 0]) ((2 : Nat) : Int)
          = some (ak_error_ok, some r2, some o2)
      ∧ o1.length = 3 * 1 ∧ o2.length = 2
      ∧ ak_random_ptr sample_collaborators
          (some (set_ctx sample_qcg_handle (context.qcg
            { xn := 0x8299, d := 0x2, a := 0x57FF7, c := 0x418693, m := 0xFFFFFFFC })))
          (some ([0, 0, 0] ++ [0, 0])) ((3 * 1 + 2 : Nat) : Int)
          = some (ak_error_ok, some r2, some (o1 ++ o2)) :=
  C7_qcg_continuity_blocks sample_collaborators sample_qcg_handle
    { xn := 0x8299, d := 0x2, a := 0x57FF7, c := 0x418693, m := 0xFFFFFFFC } 1 2
    [0, 0, 0] [0, 0] ⟨rfl, rfl⟩ (by decide) (by decide) (by decide) rfl rfl

/-! ### The hash based generator -/

theorem mem_write_block (pre blk tail src : List Nat) (h : src.length = blk.length) :
    mem_write (pre ++ (blk ++ tail)) pre.length src = some (pre ++ (src ++ tail)) := by
  unfold mem_write
  have h1 : pre.length + src.length ≤ (pre ++ (blk ++ tail)).length := by
    rw [List.length_append, List.length_append]; omega
  rw [if_pos h1, List.take_left']
  · have h2 : (pre ++ (blk ++ tail)).drop (pre.length + src.length) = tail := by
      rw [← List.append_assoc, h]
      have : pre.length + blk.length = (pre ++ blk).length := by rw [List.length_append]
      rw [this, List.drop_left']
      rfl
    rw [h2, List.append_assoc]
  · rfl

theorem mem_write_length (buf : List Nat) (off : Nat) (src out : List Nat)
    (h : mem_write buf off src = some out) : out.length = buf.length := by
  unfold mem_write at h
  split at h
  · rename_i hle
    have := Option.some.inj h
    rw [← this, List.length_append, List.length_append, List.length_take, List.length_drop]
    omega
  · exact absurd h (by simp)

theorem mem_write_ok (buf : List Nat) (off : Nat) (src : List Nat)
    (h : off + src.length ≤ buf.length) : ∃ out, mem_write buf off src = some out := by
  unfold mem_write
  rw [if_pos h]
  exact ⟨_, rfl⟩

theorem hrng_advance_wf {S : Type} (E : collaborators S) (h : random_hrng) (hw : hrng_wf h) :
    ∃ e, hrng_advance E h = some (e, hrng_step E h) ∧ hrng_wf (hrng_step E h)
      ∧ (hrng_step E h).capacity = 64 := by
  obtain ⟨hc, hb, _, _⟩ := hw
  have h7 : 7 < h.counter.length := by omega
  have hget : h.counter[7]? = some (h.counter[7]) := List.getElem?_eq_getElem h7
  obtain ⟨counter, hcw⟩ := mem_write_ok h.counter 7 [(h.counter[7] + 1) % 2 ^ 64]
    (by rw [List.length_singleton]; omega)
  obtain ⟨buffer, hbw⟩ := mem_write_ok h.buffer 0
    ((E.ak_hash_ptr (bytes_of_words64 counter) 64).2.take 64)
    (by rw [List.length_take]; omega)
  have hadv : hrng_advance E h = some ((E.ak_hash_ptr (bytes_of_words64 counter) 64).1,
      { counter := counter, buffer := buffer, capacity := 64 }) := by
    unfold hrng_advance
    simp only [hget, Option.bind_eq_bind, Option.some_bind, hcw, hbw]
  have hstep : hrng_step E h = { counter := counter, buffer := buffer, capacity := 64 } := by
    unfold hrng_step
    rw [hadv]
  refine ⟨(E.ak_hash_ptr (bytes_of_words64 counter) 64).1, ?_, ?_, ?_⟩
  · rw [hstep]; exact hadv
  · rw [hstep]
    exact ⟨by rw [mem_write_length _ _ _ _ hcw]; exact hc,
      by rw [mem_write_length _ _ _ _ hbw]; exact hb,
      (by show (0 : Int) ≤ 64; decide), (by show (64 : Int) ≤ 64; decide)⟩
  · rw [hstep]

theorem call_next_hrng {S : Type} (E : collaborators S) (g : random S) (h : random_hrng)
    (hn : g.next = some fn_next.hrng) (hw : hrng_wf h) :
    ∃ e, call_next E (set_ctx g (context.hrng h))
      = some (e, set_ctx g (context.hrng (hrng_step E h))) := by
  obtain ⟨e, hadv, _, _⟩ := hrng_advance_wf E h hw
  refine ⟨e, ?_⟩
  unfold call_next
  rw [set_ctx_next, hn]
  simp only []
  unfold ak_random_hrng_next
  rw [set_ctx_ctx]
  simp only [hadv, set_ctx_set_ctx]

theorem hrng_step_capacity {S : Type} (E : collaborators S) (h : random_hrng) (x : Int) :
    hrng_step E { h with capacity := x } = hrng_step E h := by
  unfold hrng_step hrng_advance
  rfl

theorem hrng_drain_lt {S : Type} (E : collaborators S) (h : random_hrng) (n : Nat)
    (hlt : h.capacity.toNat < n) :
    hrng_drain E h n
      = ((hrng_drain E (hrng_step E h) (n - h.capacity.toNat)).1,
         h.buffer.drop (64 - h.capacity.toNat)
           ++ (hrng_drain E (hrng_step E h) (n - h.capacity.toNat)).2.1,
         (hrng_drain E (hrng_step E h) (n - h.capacity.toNat)).2.2 + 1) := by
  conv_lhs => rw [hrng_drain]
  rw [if_pos hlt]

theorem hrng_drain_ge {S : Type} (E : collaborators S) (h : random_hrng) (n : Nat)
    (hge : ¬ (h.capacity.toNat < n)) :
    hrng_drain E h n
      = ({ h with capacity := h.capacity - n },
         (h.buffer.drop (64 - h.capacity.toNat)).take n, 0) := by
  conv_lhs => rw [hrng_drain]
  rw [if_neg hge]

theorem hrng_loop_eq {S : Type} (E : collaborators S) (g : random S)
    (hn : g.next = some fn_next.hrng) :
    ∀ (fuel : Nat) (h : random_hrng) (n : Nat) (pre mid post : List Nat) (calls : Nat),
      hrng_wf h → mid.length = n →
      n + (if h.capacity.toNat = 0 then 1 else 0) < fuel →
      ak_random_hrng_random_loop E fuel (set_ctx g (context.hrng h)) (n : Int)
          (pre ++ (mid ++ post)) pre.length calls
        = some (ak_error_ok, set_ctx g (context.hrng (hrng_drain E h n).1),
            pre ++ ((hrng_drain E h n).2.1 ++ post), calls + (hrng_drain E h n).2.2) := by
  intro fuel
  induction fuel with
  | zero => intro h n pre mid post calls _ _ hf; omega
  | succ f ih =>
    intro h n pre mid post calls hw hmid hf
    obtain ⟨hc, hb, h0, h64⟩ := hw
    have hcap : (h.capacity.toNat : Int) = h.capacity := Int.toNat_of_nonneg h0
    have hc64 : h.capacity.toNat ≤ 64 := by omega
    rw [ak_random_hrng_random_loop, set_ctx_ctx]
    simp only []
    by_cases hlt : h.capacity.toNat < n
    · have hlt' : h.capacity < (n : Int) := by omega
      have hrange : ¬ (h.capacity < 0 ∨ 64 < h.capacity) := by omega
      rw [if_pos hlt', if_neg hrange]
      have e64 : (64 - h.capacity).toNat = 64 - h.capacity.toNat := by omega
      have hread : mem_read h.buffer (64 - h.capacity.toNat) h.capacity.toNat
          = some (h.buffer.drop (64 - h.capacity.toNat)) := by
        rw [mem_read_some _ _ _ (by omega)]
        rw [List.take_of_length_le (by rw [List.length_drop]; omega)]
      have hpl : (h.buffer.drop (64 - h.capacity.toNat)).length = (mid.take h.capacity.toNat).length := by
        rw [List.length_drop, List.length_take]; omega
      have hsplit : pre ++ (mid ++ post)
          = pre ++ (mid.take h.capacity.toNat ++ (mid.drop h.capacity.toNat ++ post)) := by
        rw [← List.append_assoc (mid.take _), List.take_append_drop]
      obtain ⟨e, hnext⟩ := call_next_hrng E g h hn ⟨hc, hb, h0, h64⟩
      obtain ⟨_, _, hwf', hcap'⟩ := hrng_advance_wf E h ⟨hc, hb, h0, h64⟩
      rw [e64, hread, hsplit, hnext]
      simp only [Option.bind_eq_bind, Option.some_bind]
      rw [mem_write_block pre _ _ _ hpl]
      simp only [Option.some_bind]
      have hsub : (n : Int) - h.capacity = ((n - h.capacity.toNat : Nat) : Int) := by omega
      have ih' := ih (hrng_step E h) (n - h.capacity.toNat)
        (pre ++ h.buffer.drop (64 - h.capacity.toNat)) (mid.drop h.capacity.toNat) post
        (calls + 1) hwf' (by rw [List.length_drop]; omega)
        (by
          have h64' : (hrng_step E h).capacity.toNat = 64 := by rw [hcap']; rfl
          have hz : (if (64 : Nat) = 0 then 1 else 0) = 0 := rfl
          rw [h64', hz]
          split at hf <;> omega)
      have elen : (pre ++ h.buffer.drop (64 - h.capacity.toNat)).length
          = pre.length + h.capacity.toNat := by
        rw [List.length_append, List.length_drop]; omega
      rw [elen, List.append_assoc] at ih'
      rw [hsub, ih', hrng_drain_lt E h n hlt]
      simp only [List.append_assoc, Nat.add_assoc, Nat.add_comm 1]
    · have hge' : ¬ (h.capacity < (n : Int)) := by omega
      have hrange : ¬ ((n : Int) < 0 ∨ 64 < h.capacity) := by omega
      rw [if_neg hge', if_neg hrange]
      have e64 : (64 - h.capacity).toNat = 64 - h.capacity.toNat := by omega
      rw [e64, Int.toNat_ofNat, mem_read_some _ _ _ (by omega)]
      simp only [Option.bind_eq_bind, Option.some_bind]
      have hpl : ((h.buffer.drop (64 - h.capacity.toNat)).take n).length = mid.length := by
        rw [List.length_take, List.length_drop]; omega
      rw [mem_write_block pre mid post _ hpl]
      simp only [Option.some_bind]
      rw [hrng_drain_ge E h n hlt, set_ctx_set_ctx]
      rfl

theorem hrng_drain_wf {S : Type} (E : collaborators S) :
    ∀ (k : Nat) (h : random_hrng) (n : Nat), hrng_wf h →
      n + (if h.capacity.toNat = 0 then 1 else 0) < k →
      hrng_wf (hrng_drain E h n).1 ∧ (hrng_drain E h n).2.1.length = n := by
  intro k
  induction k with
  | zero => intro h n _ hk; omega
  | succ k ih =>
    intro h n hw hk
    obtain ⟨hc, hb, h0, h64⟩ := hw
    by_cases hlt : h.capacity.toNat < n
    · obtain ⟨_, _, hwf', hcap'⟩ := hrng_advance_wf E h ⟨hc, hb, h0, h64⟩
      have h64' : (hrng_step E h).capacity.toNat = 64 := by rw [hcap']; rfl
      have hz : (if (64 : Nat) = 0 then 1 else 0) = 0 := rfl
      obtain ⟨i1, i2⟩ := ih (hrng_step E h) (n - h.capacity.toNat) hwf'
        (by rw [h64', hz]; split at hk <;> omega)
      rw [hrng_drain_lt E h n hlt]
      refine ⟨i1, ?_⟩
      show (h.buffer.drop (64 - h.capacity.toNat)
        ++ (hrng_drain E (hrng_step E h) (n - h.capacity.toNat)).2.1).length = n
      rw [List.length_append, i2, List.length_drop]
      omega
    · rw [hrng_drain_ge E h n hlt]
      refine ⟨⟨hc, hb, ?_, ?_⟩, ?_⟩
      · show 0 ≤ h.capacity - (n : Int)
        omega
      · show h.capacity - (n : Int) ≤ 64
        omega
      · show ((h.buffer.drop (64 - h.capacity.toNat)).take n).length = n
        rw [List.length_take, List.length_drop]
        omega

theorem hrng_drain_add {S : Type} (E : collaborators S) (m : Nat) :
    ∀ (k : Nat) (h : random_hrng) (n : Nat), hrng_wf h →
      n + (if h.capacity.toNat = 0 then 1 else 0) < k →
      hrng_drain E h (n + m)
        = ((hrng_drain E (hrng_drain E h n).1 m).1,
           (hrng_drain E h n).2.1 ++ (hrng_drain E (hrng_drain E h n).1 m).2.1,
           (hrng_drain E h n).2.2 + (hrng_drain E (hrng_drain E h n).1 m).2.2) := by
  intro k
  induction k with
  | zero => intro h n _ hk; omega
  | succ k ih =>
    intro h n hw hk
    obtain ⟨hc, hb, h0, h64⟩ := hw
    by_cases hlt : h.capacity.toNat < n
    · obtain ⟨_, _, hwf', hcap'⟩ := hrng_advance_wf E h ⟨hc, hb, h0, h64⟩
      have h64' : (hrng_step E h).capacity.toNat = 64 := by rw [hcap']; rfl
      have hz : (if (64 : Nat) = 0 then 1 else 0) = 0 := rfl
      have i := ih (hrng_step E h) (n - h.capacity.toNat) hwf'
        (by rw [h64', hz]; split at hk <;> omega)
      have e : n - h.capacity.toNat + m = n + m - h.capacity.toNat := by omega
      rw [e] at i
      rw [hrng_drain_lt E h (n + m) (by omega), i, hrng_drain_lt E h n hlt]
      simp only [List.append_assoc, Nat.add_assoc, Nat.add_comm 1]
    · rw [hrng_drain_ge E h n hlt]
      simp only []
      have hc1 : (h.capacity - (n : Int)).toNat = h.capacity.toNat - n := by omega
      by_cases hlt2 : h.capacity.toNat - n < m
      · have hl : ({ h with capacity := h.capacity - (n : Int) } : random_hrng).capacity.toNat < m := by
          show (h.capacity - (n : Int)).toNat < m
          rw [hc1]; exact hlt2
        rw [hrng_drain_lt E _ m hl, hrng_drain_lt E h (n + m) (by omega)]
        simp only [hrng_step_capacity, hc1]
        have e1 : n + m - h.capacity.toNat = m - (h.capacity.toNat - n) := by omega
        have e2 : 64 - (h.capacity.toNat - n) = 64 - h.capacity.toNat + n := by omega
        have e3 : h.buffer.drop (64 - h.capacity.toNat)
            = (h.buffer.drop (64 - h.capacity.toNat)).take n
              ++ h.buffer.drop (64 - h.capacity.toNat + n) := by
          rw [← List.drop_drop, List.take_append_drop]
        rw [e1, e2]
        conv_lhs => rw [e3]
        simp only [List.append_assoc, Nat.zero_add]
      · have hl : ¬ (({ h with capacity := h.capacity - (n : Int) } : random_hrng).capacity.toNat
            < m) := by
          show ¬ ((h.capacity - (n : Int)).toNat < m)
          rw [hc1]; exact hlt2
        rw [hrng_drain_ge E _ m hl, hrng_drain_ge E h (n + m) (by omega)]
        simp only [hc1]
        have e2 : 64 - (h.capacity.toNat - n) = 64 - h.capacity.toNat + n := by omega
        have e4 : h.capacity - ((n + m : Nat) : Int) = h.capacity - (n : Int) - (m : Int) := by
          omega
        rw [e2, e4, List.take_add, List.drop_drop]

theorem to_int32_small (n : Nat) (h : n < 2 ^ 31) : to_int32 (n : Int) = (n : Int) := by
  unfold to_int32
  have h' : n < 2147483648 := by simpa using h
  norm_num
  omega

theorem hrng_random_eq {S : Type} (E : collaborators S) (g : random S) (h : random_hrng)
    (buf : List Nat) (n : Nat) (hn : g.next = some fn_next.hrng) (hw : hrng_wf h)
    (hlt : n < 2 ^ 31) (hlen : buf.length = n) :
    ak_random_hrng_random E (set_ctx g (context.hrng h)) buf (n : Int)
      = some (ak_error_ok, set_ctx g (context.hrng (hrng_drain E h n).1),
          (hrng_drain E h n).2.1, (hrng_drain E h n).2.2) := by
  unfold ak_random_hrng_random
  rw [set_ctx_ctx]
  simp only []
  rw [to_int32_small n hlt, Int.toNat_ofNat]
  have hloop := hrng_loop_eq E g hn (n + 3) h n [] buf [] 0 hw hlen (by split <;> omega)
  rw [List.nil_append, List.append_nil, List.length_nil, List.nil_append, List.append_nil,
    Nat.zero_add] at hloop
  exact hloop

theorem ak_random_ptr_hrng {S : Type} (E : collaborators S) (g : random S) (h : random_hrng)
    (buf : List Nat) (n : Nat) (hg : hrng_handle g) (hw : hrng_wf h) (h1 : 1 ≤ n)
    (hlt : n < 2 ^ 31) (hlen : buf.length = n) :
    ak_random_ptr E (some (set_ctx g (context.hrng h))) (some buf) (n : Int)
      = some (ak_error_ok, some (set_ctx g (context.hrng (hrng_drain E h n).1)),
          some (hrng_drain E h n).2.1) := by
  have hpos : ¬ ((n : Int) ≤ 0) := by omega
  have hr : ¬ ((set_ctx g (context.hrng h)).random = none) := by
    rw [set_ctx_random, hg.2]; exact Option.some_ne_none _
  simp only [ak_random_ptr]
  rw [if_neg hpos, if_neg hr]
  unfold call_random
  rw [set_ctx_random, hg.2]
  simp only []
  rw [hrng_random_eq E g h buf n hg.1 hw hlt hlen]
  rfl

theorem hrng_calls_full {S : Type} (E : collaborators S) (h : random_hrng) (hw : hrng_wf h)
    (hcap : h.capacity = 64) :
    (hrng_drain E h 64).2.2 = 0 ∧ (hrng_drain E h 65).2.2 = 1
      ∧ (hrng_drain E h 128).2.2 = 1 ∧ (hrng_drain E h 129).2.2 = 2 := by
  obtain ⟨_, _, hwf', hcap'⟩ := hrng_advance_wf E h hw
  obtain ⟨_, _, _, hcap''⟩ := hrng_advance_wf E (hrng_step E h) hwf'
  have c0 : h.capacity.toNat = 64 := by rw [hcap]; rfl
  have c1 : (hrng_step E h).capacity.toNat = 64 := by rw [hcap']; rfl
  have c2 : (hrng_step E (hrng_step E h)).capacity.toNat = 64 := by rw [hcap'']; rfl
  refine ⟨?_, ?_, ?_, ?_⟩
  · rw [hrng_drain_ge E h 64 (by omega)]
  · rw [hrng_drain_lt E h 65 (by omega), c0, hrng_drain_ge E _ _ (by omega)]
  · rw [hrng_drain_lt E h 128 (by omega), c0, hrng_drain_ge E _ _ (by omega)]
  · rw [hrng_drain_lt E h 129 (by omega), c0, hrng_drain_lt E _ _ (by omega), c1,
      hrng_drain_ge E _ _ (by omega)]

theorem bytes_of_words64_length : ∀ ws : List Nat, (bytes_of_words64 ws).length = 8 * ws.length := by
  intro ws
  induction ws with
  | nil => rfl
  | cons w ws ih =>
    have e : bytes_of_words64 (w :: ws)
        = (List.range 8).map (byte_of_word w) ++ bytes_of_words64 ws := rfl
    rw [e, List.length_append, ih, List.length_map, List.length_range, List.length_cons]
    omega

theorem words64_of_bytes_length : ∀ (k : Nat) (bs : List Nat), bs.length = 8 * k →
    (words64_of_bytes bs).length = k := by
  intro k
  induction k with
  | zero =>
    intro bs h
    have : bs = [] := List.length_eq_zero.mp (by omega)
    rw [this]; rfl
  | succ k ih =>
    intro bs h
    match bs, h with
    | b0 :: b1 :: b2 :: b3 :: b4 :: b5 :: b6 :: b7 :: rest, h =>
      have hr : rest.length = 8 * k := by
        simp only [List.length_cons] at h; omega
      rw [words64_of_bytes, List.length_cons, ih rest hr]
    | [], h => simp at h
    | [_], h => simp at h; omega
    | [_, _], h => simp at h; omega
    | [_, _, _], h => simp at h; omega
    | [_, _, _, _], h => simp at h; omega
    | [_, _, _, _, _], h => simp at h; omega
    | [_, _, _, _, _, _], h => simp at h; omega
    | [_, _, _, _, _, _, _], h => simp at h; omega

theorem hrng_randomize_ok {S : Type} (E : collaborators S) (g : random S) (h : random_hrng)
    (s : List Nat) (size : Int) (r : random S) (hn : g.next = some fn_next.hrng)
    (hw : hrng_wf h)
    (hr : ak_random_hrng_randomize_ptr E (set_ctx g (context.hrng h)) s size
      = some (ak_error_ok, r)) :
    ∃ h', r = set_ctx g (context.hrng h') ∧ hrng_wf h' ∧ h'.capacity = 64 := by
  obtain ⟨hc, hb, h0, h64⟩ := hw
  unfold ak_random_hrng_randomize_ptr at hr
  rw [set_ctx_ctx] at hr
  simp only [] at hr
  split at hr
  · exact absurd hr (by simp)
  · cases hin : mem_read s 0 size.toNat with
    | none => rw [hin] at hr; exact absurd hr (by simp)
    | some input =>
      rw [hin] at hr
      simp only [Option.bind_eq_bind, Option.some_bind] at hr
      cases hbw : mem_write (bytes_of_words64 h.counter) 0
          ((E.ak_hash_ptr input 64).2.take 64) with
      | none => rw [hbw] at hr; exact absurd hr (by simp)
      | some bytes =>
        rw [hbw] at hr
        simp only [Option.some_bind, set_ctx_set_ctx] at hr
        have hbl : bytes.length = 8 * 8 := by
          rw [mem_write_length _ _ _ _ hbw, bytes_of_words64_length, hc]
        have hwf1 : hrng_wf { h with counter := words64_of_bytes bytes } :=
          ⟨words64_of_bytes_length 8 bytes hbl, hb, h0, h64⟩
        split at hr
        · have := (Prod.mk.inj (Option.some.inj hr)).1
          rename_i hne
          exact absurd this hne
        · obtain ⟨e, hnext⟩ := call_next_hrng E g _ hn hwf1
          obtain ⟨_, _, hwf', hcap'⟩ := hrng_advance_wf E _ hwf1
          rw [hnext] at hr
          have := (Prod.mk.inj (Option.some.inj hr)).2
          exact ⟨_, this.symm, hwf', hcap'⟩

/-- C8: for every context of the hash based generator with `0 <= capacity <= 64`
and all `n >= 1`, `m >= 1` with `n + m < 2^31`, `ak_random_ptr` of `n` bytes
followed by `ak_random_ptr` of `m` bytes returns the same `n + m` bytes and the
same final handle (counter, buffer and capacity) as one `ak_random_ptr` of
`n + m` bytes; the hash is an arbitrary function. -/
theorem C8_hrng_stream_continuity {S : Type} (E : collaborators S) (g : random S)
    (h : random_hrng) (n m : Nat) (b1 b2 : List Nat) (hg : hrng_handle g) (hw : hrng_wf h)
    (hn : 1 ≤ n) (hm : 1 ≤ m) (hnm : n + m < 2 ^ 31)
    (hb1 : b1.length = n) (hb2 : b2.length = m) :
    ∃ (r1 r2 : random S) (o1 o2 : List Nat),
      ak_random_ptr E (some (set_ctx g (context.hrng h))) (some b1) (n : Int)
          = some (ak_error_ok, some r1, some o1)
      ∧ ak_random_ptr E (some r1) (some b2) (m : Int) = some (ak_error_ok, some r2, some o2)
      ∧ o1.length = n ∧ o2.length = m
      ∧ ak_random_ptr E (some (set_ctx g (context.hrng h))) (some (b1 ++ b2))
          ((n + m : Nat) : Int) = some (ak_error_ok, some r2, some (o1 ++ o2)) := by
  have hk : n + (if h.capacity.toNat = 0 then 1 else 0) < n + 2 := by split <;> omega
  obtain ⟨hwf1, hlen1⟩ := hrng_drain_wf E (n + 2) h n hw hk
  have hk2 : m + (if (hrng_drain E h n).1.capacity.toNat = 0 then 1 else 0) < m + 2 := by
    split <;> omega
  obtain ⟨_, hlen2⟩ := hrng_drain_wf E (m + 2) _ m hwf1 hk2
  refine ⟨_, _, _, _, ak_random_ptr_hrng E g h b1 n hg hw hn (by omega) hb1,
    ak_random_ptr_hrng E g _ b2 m hg hwf1 hm (by omega) hb2, hlen1, hlen2, ?_⟩
  rw [ak_random_ptr_hrng E g h (b1 ++ b2) (n + m) hg hw (by omega) hnm
    (by rw [List.length_append, hb1, hb2])]
  rw [hrng_drain_add E m (n + 2) h n hw hk]

/-- Concrete check of C8: the sample generator, 70 bytes then 3 bytes. -/
theorem C8_hrng_stream_continuity_witness :
    ∃ (r1 r2 : random Unit) (o1 o2 : List Nat),
      ak_random_ptr sample_collaborators
          (some (set_ctx sample_hrng_base (context.hrng sample_hrng_ctx)))
          (some (List.replicate 70 0)) ((70 : Nat) : Int) = some (ak_error_ok, some r1, some o1)
      ∧ ak_random_ptr sample_collaborators (some r1) (some (List.replicate 3 0))
          ((3 : Nat) : Int) = some (ak_error_ok, some r2, some o2)
      ∧ o1.length = 70 ∧ o2.length = 3
      ∧ ak_random_ptr sample_collaborators
          (some (set_ctx sample_hrng_base (context.hrng sample_hrng_ctx)))
          (some (List.replicate 70 0 ++ List.replicate 3 0)) ((70 + 3 : Nat) : Int)
          = some (ak_error_ok, some r2, some (o1 ++ o2)) :=
  C8_hrng_stream_continuity sample_collaborators sample_hrng_base sample_hrng_ctx 70 3
    (List.replicate 70 0) (List.replicate 3 0) ⟨rfl, rfl⟩
    ⟨rfl, rfl, by decide, by decide⟩ (by decide) (by decide) (by decide) rfl rfl

/-- C10 (as stated, refuted): a hash based generator is constructed and seeded,
so that its buffer is full; one extraction of exactly 128 bytes then calls
`next` once, not twice (the second block is taken from the buffer that the one
call has filled, and the loop `while( capacity < cursize )` is left with
capacity 0). -/
theorem C10_hrng_advance_counts_counterexample :
    hrng_fresh_calls 128 = some 1 ∧ hrng_fresh_calls 128 ≠ some 2 := by
  have h : hrng_fresh_calls 128 = some 1 := by
    set_option maxRecDepth 100000 in rfl
  exact ⟨h, by rw [h]; decide⟩

/-- C10 (amended): from a hash based generator that has just been seeded
successfully (full 64-byte buffer, capacity 64), one extraction of exactly 64
bytes makes 0 calls of `next`, one of exactly 65 bytes makes 1, one of exactly
128 bytes makes 1, and one of exactly 129 bytes makes 2. -/
theorem C10_hrng_advance_counts {S : Type} (E : collaborators S) (g : random S)
    (h : random_hrng) (s : List Nat) (size : Int) (r : random S)
    (hg : g.next = some fn_next.hrng) (hw : hrng_wf h)
    (hseed : ak_random_hrng_randomize_ptr E (set_ctx g (context.hrng h)) s size
      = some (ak_error_ok, r)) :
    (∀ out : List Nat, out.length = 64 →
        (ak_random_hrng_random E r out 64).map (fun res => res.2.2.2) = some 0)
    ∧ (∀ out : List Nat, out.length = 65 →
        (ak_random_hrng_random E r out 65).map (fun res => res.2.2.2) = some 1)
    ∧ (∀ out : List Nat, out.length = 128 →
        (ak_random_hrng_random E r out 128).map (fun res => res.2.2.2) = some 1)
    ∧ (∀ out : List Nat, out.length = 129 →
        (ak_random_hrng_random E r out 129).map (fun res => res.2.2.2) = some 2) := by
  obtain ⟨h', hr, hwf', hcap'⟩ := hrng_randomize_ok E g h s size r hg hw hseed
  obtain ⟨c64, c65, c128, c129⟩ := hrng_calls_full E h' hwf' hcap'
  subst hr
  refine ⟨?_, ?_, ?_, ?_⟩
  · intro out ho
    have e := hrng_random_eq E g h' out 64 hg hwf' (by decide) ho
    rw [show ((64 : Nat) : Int) = 64 from rfl] at e
    rw [e, c64]; rfl
  · intro out ho
    have e := hrng_random_eq E g h' out 65 hg hwf' (by decide) ho
    rw [show ((65 : Nat) : Int) = 65 from rfl] at e
    rw [e, c65]; rfl
  · intro out ho
    have e := hrng_random_eq E g h' out 128 hg hwf' (by decide) ho
    rw [show ((128 : Nat) : Int) = 128 from rfl] at e
    rw [e, c128]; rfl
  · intro out ho
    have e := hrng_random_eq E g h' out 129 hg hwf' (by decide) ho
    rw [show ((129 : Nat) : Int) = 129 from rfl] at e
    rw [e, c129]; rfl

/-- Concrete check of C10 (amended): the sample generator seeded with the bytes
1, 2, 3. -/
theorem C10_hrng_advance_counts_witness :
    (ak_random_hrng_random sample_collaborators sample_hrng_seeded (List.replicate 64 0) 64).map
        (fun res => res.2.2.2) = some 0
    ∧ (ak_random_hrng_random sample_collaborators sample_hrng_seeded (List.replicate 65 0) 65).map
        (fun res => res.2.2.2) = some 1
    ∧ (ak_random_hrng_random sample_collaborators sample_hrng_seeded (List.replicate 128 0)
        128).map (fun res => res.2.2.2) = some 1
    ∧ (ak_random_hrng_random sample_collaborators sample_hrng_seeded (List.replicate 129 0)
        129).map (fun res => res.2.2.2) = some 2 :=
  have hyp := C10_hrng_advance_counts sample_collaborators sample_hrng_base sample_hrng_ctx
    [1, 2, 3] 3 sample_hrng_seeded rfl ⟨rfl, rfl, by decide, by decide⟩ rfl
  ⟨hyp.1 _ rfl, hyp.2.1 _ rfl, hyp.2.2.1 _ rfl, hyp.2.2.2 _ rfl⟩

/-! ### The block stream of the hash based generator -/

theorem hrng_hash_length {S : Type} (E : collaborators S) (hE : hash_total E) (inp : List Nat) :
    (hrng_hash E inp).length = 64 := by
  unfold hrng_hash
  rw [List.length_take, (hE inp).2]
  rfl

theorem hrng_step_eq {S : Type} (E : collaborators S) (hE : hash_total E) (h : random_hrng)
    (hw : hrng_wf h) :
    hrng_advance E h = some (ak_error_ok, hrng_after E h.counter)
    ∧ hrng_step E h = hrng_after E h.counter := by
  obtain ⟨hc, hb, _, _⟩ := hw
  have h7 : 7 < h.counter.length := by omega
  have hget : h.counter[7]? = some (h.counter[7]) := List.getElem?_eq_getElem h7
  have hgd : h.counter.getD 7 0 = h.counter[7] := by
    rw [List.getD_eq_getElem?_getD, hget]; rfl
  have hcw : mem_write h.counter 7 [(h.counter[7] + 1) % 2 ^ 64]
      = some (hrng_increment h.counter) := by
    unfold mem_write hrng_increment
    rw [if_pos (by rw [List.length_singleton]; omega), hgd]
    rfl
  have hbw : mem_write h.buffer 0
      ((E.ak_hash_ptr (bytes_of_words64 (hrng_increment h.counter)) 64).2.take 64)
      = some (hrng_hash E (bytes_of_words64 (hrng_increment h.counter))) := by
    apply mem_write_whole
    rw [hb]
    exact (hrng_hash_length E hE _).symm
  have hadv : hrng_advance E h = some (ak_error_ok, hrng_after E h.counter) := by
    unfold hrng_advance
    simp only [hget, Option.bind_eq_bind, Option.some_bind, hcw, hbw, (hE _).1]
    rfl
  refine ⟨hadv, ?_⟩
  unfold hrng_step
  rw [hadv]
  rfl

theorem take_append_full (a x : List Nat) (n : Nat) (h : a.length ≤ n) :
    (a ++ x).take n = a ++ x.take (n - a.length) := by
  rw [List.take_append_eq_append_take, List.take_of_length_le h]

theorem hrng_drain_blocks {S : Type} (E : collaborators S) (hE : hash_total E) :
    ∀ (k : Nat) (h : random_hrng) (n : Nat), hrng_wf h → h.capacity = 64 → n ≤ 64 * (k + 1) →
      (hrng_drain E h n).2.1 = (h.buffer ++ hrng_blocks E k h.counter).take n := by
  intro k
  induction k with
  | zero =>
    intro h n hw hcap hn
    have c0 : h.capacity.toNat = 64 := by rw [hcap]; rfl
    rw [hrng_drain_ge E h n (by omega), c0]
    show (h.buffer.drop 0).take n = _
    rw [List.drop_zero, List.take_append_of_le_length (by rw [hw.2.1]; omega)]
  | succ k ih =>
    intro h n hw hcap hn
    have c0 : h.capacity.toNat = 64 := by rw [hcap]; rfl
    by_cases hlt : 64 < n
    · obtain ⟨_, _, hwf', hcap'⟩ := hrng_advance_wf E h hw
      have i := ih (hrng_step E h) (n - 64) hwf' hcap' (by omega)
      rw [hrng_drain_lt E h n (by omega), c0]
      show h.buffer.drop 0 ++ (hrng_drain E (hrng_step E h) (n - 64)).2.1 = _
      rw [i, List.drop_zero, (hrng_step_eq E hE h hw).2]
      have e : hrng_blocks E (k + 1) h.counter
          = (hrng_after E h.counter).buffer ++ hrng_blocks E k (hrng_after E h.counter).counter :=
        rfl
      rw [e, take_append_full h.buffer _ n (by rw [hw.2.1]; omega), hw.2.1]
    · rw [hrng_drain_ge E h n (by omega), c0]
      show (h.buffer.drop 0).take n = _
      rw [List.drop_zero, List.take_append_of_le_length (by rw [hw.2.1]; omega)]

theorem hrng_randomize_eq {S : Type} (E : collaborators S) (hE : hash_total E) (g : random S)
    (h : random_hrng) (s : List Nat) (hn : g.next = some fn_next.hrng) (hw : hrng_wf h) :
    ak_random_hrng_randomize_ptr E (set_ctx g (context.hrng h)) s (s.length : Int)
      = some (ak_error_ok,
          set_ctx g (context.hrng (hrng_after E (words64_of_bytes (hrng_hash E s))))) := by
  obtain ⟨hc, hb, h0, h64⟩ := hw
  have hread : mem_read s 0 s.length = some s := by
    rw [mem_read_some s 0 s.length (by omega), List.drop_zero, List.take_length]
  have hbw : mem_write (bytes_of_words64 h.counter) 0 ((E.ak_hash_ptr s 64).2.take 64)
      = some (hrng_hash E s) := by
    apply mem_write_whole
    rw [bytes_of_words64_length, hc]
    exact (hrng_hash_length E hE s).symm
  have hbl : (hrng_hash E s).length = 8 * 8 := hrng_hash_length E hE s
  have hwf1 : hrng_wf { h with counter := words64_of_bytes (hrng_hash E s) } :=
    ⟨words64_of_bytes_length 8 _ hbl, hb, h0, h64⟩
  have hnext : call_next E (set_ctx g (context.hrng
      { h with counter := words64_of_bytes (hrng_hash E s) }))
      = some (ak_error_ok,
          set_ctx g (context.hrng (hrng_after E (words64_of_bytes (hrng_hash E s))))) := by
    unfold call_next
    rw [set_ctx_next, hn]
    simp only []
    unfold ak_random_hrng_next
    rw [set_ctx_ctx]
    simp only [(hrng_step_eq E hE _ hwf1).1, set_ctx_set_ctx]
  unfold ak_random_hrng_randomize_ptr
  rw [set_ctx_ctx]
  simp only []
  rw [if_neg (by omega), Int.toNat_ofNat, hread]
  simp only [Option.bind_eq_bind, Option.some_bind, hbw, (hE s).1, set_ctx_set_ctx]
  exact hnext

theorem hrng_block_stream {S : Type} (E : collaborators S) (g : random S) (h : random_hrng)
    (s out : List Nat) (n k : Nat) (hE : hash_total E) (hg : hrng_handle g)
    (hrz : g.randomize_ptr = some fn_randomize.hrng) (hw : hrng_wf h)
    (hs : 1 ≤ s.length) (hn : 1 ≤ n) (hlt : n < 2 ^ 31) (hout : out.length = n)
    (hk : n ≤ 64 * k) :
    ∃ r1 r2 : random S,
      ak_random_randomize E (some (set_ctx g (context.hrng h))) (some s) (s.length : Int)
          = some (ak_error_ok, some r1)
      ∧ ak_random_ptr E (some r1) (some out) (n : Int)
          = some (ak_error_ok, some r2,
              some ((hrng_blocks E k (words64_of_bytes (hrng_hash E s))).take n)) := by
  obtain ⟨k, rfl⟩ : ∃ j, k = j + 1 := ⟨k - 1, by omega⟩
  have hseed : ak_random_randomize E (some (set_ctx g (context.hrng h))) (some s) (s.length : Int)
      = some (ak_error_ok,
          some (set_ctx g (context.hrng (hrng_after E (words64_of_bytes (hrng_hash E s)))))) := by
    have hpos : ¬ ((s.length : Int) ≤ 0) := by omega
    have hr : ¬ ((set_ctx g (context.hrng h)).randomize_ptr = none) := by
      rw [set_ctx_randomize_ptr, hrz]; exact Option.some_ne_none _
    simp only [ak_random_randomize]
    rw [if_neg hpos, if_neg hr]
    unfold call_randomize
    rw [set_ctx_randomize_ptr, hrz]
    simp only []
    rw [hrng_randomize_eq E hE g h s hg.1 hw]
    rfl
  have hwa : hrng_wf (hrng_after E (words64_of_bytes (hrng_hash E s))) := by
    refine ⟨?_, hrng_hash_length E hE _, by show (0 : Int) ≤ 64; decide,
      by show (64 : Int) ≤ 64; decide⟩
    show (hrng_increment _).length = 8
    have hl : (words64_of_bytes (hrng_hash E s)).length = 8 :=
      words64_of_bytes_length 8 _ (hrng_hash_length E hE s)
    unfold hrng_increment
    rw [List.length_append, List.length_append, List.length_take, List.length_drop, hl]
    rfl
  refine ⟨_, set_ctx g (context.hrng
    (hrng_drain E (hrng_after E (words64_of_bytes (hrng_hash E s))) n).1), hseed, ?_⟩
  rw [ak_random_ptr_hrng E g _ out n hg hwa hn hlt hout,
    hrng_drain_blocks E hE k _ n hwa rfl hk]
  rfl

theorem to_int32_wrap (m : Nat) (h : m < 2 ^ 31) :
    to_int32 ((2 ^ 32 + m : Nat) : Int) = (m : Int) := by
  unfold to_int32
  have h' : m < 2147483648 := by simpa using h
  push_cast
  omega

theorem hrng_random_wrap {S : Type} (E : collaborators S) (g : random S) (h : random_hrng)
    (buf : List Nat) (m : Nat) (hn : g.next = some fn_next.hrng) (hw : hrng_wf h)
    (hlt : m < 2 ^ 31) (hlen : buf.length = 2 ^ 32 + m) :
    ak_random_hrng_random E (set_ctx g (context.hrng h)) buf ((2 ^ 32 + m : Nat) : Int)
      = some (ak_error_ok, set_ctx g (context.hrng (hrng_drain E h m).1),
          (hrng_drain E h m).2.1 ++ buf.drop m, (hrng_drain E h m).2.2) := by
  unfold ak_random_hrng_random
  rw [set_ctx_ctx]
  simp only []
  rw [to_int32_wrap m hlt, Int.toNat_ofNat]
  have hmid : (buf.take m).length = m := by
    rw [List.length_take, hlen]
    omega
  have hloop := hrng_loop_eq E g hn (m + 3) h m [] (buf.take m) (buf.drop m) 0 hw hmid
    (by split <;> omega)
  rw [List.nil_append, List.take_append_drop, List.length_nil, List.nil_append,
    Nat.zero_add] at hloop
  exact hloop

theorem ak_random_ptr_hrng_wrap {S : Type} (E : collaborators S) (g : random S)
    (h : random_hrng) (buf : List Nat) (m : Nat) (hg : hrng_handle g) (hw : hrng_wf h)
    (hlt : m < 2 ^ 31) (hlen : buf.length = 2 ^ 32 + m) :
    ak_random_ptr E (some (set_ctx g (context.hrng h))) (some buf) ((2 ^ 32 + m : Nat) : Int)
      = some (ak_error_ok, some (set_ctx g (context.hrng (hrng_drain E h m).1)),
          some ((hrng_drain E h m).2.1 ++ buf.drop m)) := by
  have hpos : ¬ (((2 ^ 32 + m : Nat) : Int) ≤ 0) := by
    have : 0 < 2 ^ 32 + m := Nat.add_pos_left (Nat.two_pow_pos 32) m
    omega
  have hr : ¬ ((set_ctx g (context.hrng h)).random = none) := by
    rw [set_ctx_random, hg.2]; exact Option.some_ne_none _
  simp only [ak_random_ptr]
  rw [if_neg hpos, if_neg hr]
  unfold call_random
  rw [set_ctx_random, hg.2]
  simp only []
  rw [hrng_random_wrap E g h buf m hg.1 hw hlt hlen]
  rfl

/-- C11: the number of bytes asked of `ak_random_hrng_random` is kept in an
`int`. For every seed `s` of at least one byte, every `m < 2^31` and every
output block of `2^32 + m` bytes, seeding a hash based generator through
`ak_random_randomize` succeeds and the following `ak_random_ptr` of `2^32 + m`
bytes returns `ak_error_ok` with only the first `m` bytes of
`B_1 ++ B_2 ++ ...` written (`c_0 = H(s)`, `c_i` is `c_(i-1)` after
`counter[7]++`, `B_i = H(c_i)`, `H` any hash collaborator that always succeeds
with 64 bytes, `k + 1` any number of blocks that covers `m` bytes): the `2^32`
bytes that follow are those the block held before the call. -/
theorem C11_hrng_size_truncated {S : Type} (E : collaborators S) (g : random S)
    (h : random_hrng) (s out : List Nat) (m k : Nat) (hE : hash_total E) (hg : hrng_handle g)
    (hrz : g.randomize_ptr = some fn_randomize.hrng) (hw : hrng_wf h)
    (hs : 1 ≤ s.length) (hm : m < 2 ^ 31) (hout : out.length = 2 ^ 32 + m)
    (hk : m ≤ 64 * (k + 1)) :
    ∃ r1 r2 : random S,
      ak_random_randomize E (some (set_ctx g (context.hrng h))) (some s) (s.length : Int)
          = some (ak_error_ok, some r1)
      ∧ ak_random_ptr E (some r1) (some out) ((2 ^ 32 + m : Nat) : Int)
          = some (ak_error_ok, some r2,
              some ((hrng_blocks E (k + 1) (words64_of_bytes (hrng_hash E s))).take m
                ++ out.drop m))
      ∧ (out.drop m).length = 2 ^ 32 := by
  have hseed : ak_random_randomize E (some (set_ctx g (context.hrng h))) (some s) (s.length : Int)
      = some (ak_error_ok,
          some (set_ctx g (context.hrng (hrng_after E (words64_of_bytes (hrng_hash E s)))))) := by
    have hpos : ¬ ((s.length : Int) ≤ 0) := by omega
    have hr : ¬ ((set_ctx g (context.hrng h)).randomize_ptr = none) := by
      rw [set_ctx_randomize_ptr, hrz]; exact Option.some_ne_none _
    simp only [ak_random_randomize]
    rw [if_neg hpos, if_neg hr]
    unfold call_randomize
    rw [set_ctx_randomize_ptr, hrz]
    simp only []
    rw [hrng_randomize_eq E hE g h s hg.1 hw]
    rfl
  have hwa : hrng_wf (hrng_after E (words64_of_bytes (hrng_hash E s))) := by
    refine ⟨?_, hrng_hash_length E hE _, by show (0 : Int) ≤ 64; decide,
      by show (64 : Int) ≤ 64; decide⟩
    show (hrng_increment _).length = 8
    have hl : (words64_of_bytes (hrng_hash E s)).length = 8 :=
      words64_of_bytes_length 8 _ (hrng_hash_length E hE s)
    unfold hrng_increment
    rw [List.length_append, List.length_append, List.length_take, List.length_drop, hl]
    rfl
  refine ⟨_, set_ctx g (context.hrng
    (hrng_drain E (hrng_after E (words64_of_bytes (hrng_hash E s))) m).1), hseed, ?_, ?_⟩
  · rw [ak_random_ptr_hrng_wrap E g _ out m hg hwa hm hout,
      hrng_drain_blocks E hE k _ m hwa rfl hk]
    rfl
  · rw [List.length_drop, hout]
    omega

/-- Concrete check of C11: the sample generator seeded with the bytes 1, 2, 3 is
asked for `2^32 + 5` bytes and writes five. -/
theorem C11_hrng_size_truncated_witness :
    ∃ r1 r2 : random Unit,
      ak_random_randomize sample_collaborators
          (some (set_ctx sample_hrng_base (context.hrng sample_hrng_ctx))) (some [1, 2, 3])
          (([1, 2, 3] : List Nat).length : Int) = some (ak_error_ok, some r1)
      ∧ ak_random_ptr sample_collaborators (some r1) (some (List.replicate (2 ^ 32 + 5) 9))
          ((2 ^ 32 + 5 : Nat) : Int)
          = some (ak_error_ok, some r2,
              some ((hrng_blocks sample_collaborators (0 + 1)
                  (words64_of_bytes (hrng_hash sample_collaborators [1, 2, 3]))).take 5
                ++ (List.replicate (2 ^ 32 + 5) 9).drop 5))
      ∧ ((List.replicate (2 ^ 32 + 5) 9).drop 5).length = 2 ^ 32 :=
  C11_hrng_size_truncated sample_collaborators sample_hrng_base sample_hrng_ctx [1, 2, 3]
    (List.replicate (2 ^ 32 + 5) 9) 5 0 (fun _ => ⟨rfl, List.length_replicate _ _⟩) ⟨rfl, rfl⟩
    rfl ⟨rfl, rfl, by decide, by decide⟩ (by decide) (by decide) (List.length_replicate _ _)
    (by decide)

/-! ### Seeding of the Coveyou generator -/

theorem to_uint64_small (n : Nat) (h : n < 2 ^ 64) : to_uint64 (n : Int) = n := by
  unfold to_uint64
  have h' : n < 18446744073709551616 := by simpa using h
  norm_num
  omega

theorem read_word32_zero (s : List Nat) (h : 4 ≤ s.length) :
    read_word32 s 0 = some (word32_of_bytes (s.take 4)) := by
  unfold read_word32
  rw [mem_read_some s (4 * 0) 4 (by omega)]
  rfl

theorem read_word32_one (s : List Nat) (h : 8 ≤ s.length) :
    read_word32 s 1 = some (word32_of_bytes ((s.drop 4).take 4)) := by
  unfold read_word32
  rw [mem_read_some s (4 * 1) 4 (by omega)]
  rfl

/-- C12: for every seed of at least 4 bytes, `ak_random_randomize` on a Coveyou
generator succeeds exactly when the first 32-bit word `x` of the seed has
`x mod 4 = 2`: then `x` becomes the state (and the second word, if the seed has
one, the modulus); otherwise the result is the invalid-value error and the
handle, with its state and modulus, is as before. -/
theorem C12_coveyou_seed_validation {S : Type} (E : collaborators S) (g : random S)
    (c : random_quadratic_coveyou_method) (s : List Nat)
    (hz : g.randomize_ptr = some fn_randomize.coveyou) (h4 : 4 ≤ s.length)
    (hmax : s.length < 2 ^ 63) :
    ak_random_randomize E (some (set_ctx g (context.coveyou c))) (some s) (s.length : Int)
      = (if word32_of_bytes (s.take 4) % 4 = 2 then
          some (ak_error_ok, some (set_ctx g (context.coveyou
            { x := word32_of_bytes (s.take 4),
              m := if s.length < 8 then c.m else word32_of_bytes ((s.drop 4).take 4) })))
        else some (ak_error_invalid_value, some (set_ctx g (context.coveyou c)))) := by
  have hpos : ¬ ((s.length : Int) ≤ 0) := by omega
  have hr : ¬ ((set_ctx g (context.coveyou c)).randomize_ptr = none) := by
    rw [set_ctx_randomize_ptr, hz]; exact Option.some_ne_none _
  have hu : to_uint64 (s.length : Int) = s.length :=
    to_uint64_small s.length (by
      have : (2 : Nat) ^ 63 < 2 ^ 64 := by decide
      omega)
  simp only [ak_random_randomize]
  rw [if_neg hpos, if_neg hr]
  unfold call_randomize
  rw [set_ctx_randomize_ptr, hz]
  simp only []
  unfold ak_random_coveyou_randomize_ptr
  rw [hu, if_neg (by omega), read_word32_zero s h4, set_ctx_ctx]
  simp only [Option.bind_eq_bind, Option.some_bind]
  by_cases hv : word32_of_bytes (s.take 4) % 4 = 2
  · rw [if_neg (not_not.mpr hv), if_pos hv]
    by_cases h8 : s.length < 8
    · rw [if_pos (by omega), if_pos h8]
      rfl
    · rw [if_neg (by omega), if_neg h8, read_word32_one s (by omega)]
      simp only [Option.some_bind, set_ctx_set_ctx]
      rfl
  · rw [if_pos hv, if_neg hv]
    rfl

/-- Concrete check of C12: the seed word 1 is refused; a companion evaluation
shows the seed word 2 accepted. -/
theorem C12_coveyou_seed_validation_witness :
    ak_random_randomize sample_collaborators (some sample_coveyou_handle) (some [1, 0, 0, 0]) 4
        = some (ak_error_invalid_value, some sample_coveyou_handle)
    ∧ ak_random_randomize sample_collaborators (some sample_coveyou_handle) (some [2, 0, 0, 0]) 4
        = some (ak_error_ok, some (set_ctx sample_coveyou_handle
            (context.coveyou { x := 2, m := 0xFFFFFFFB }))) :=
  ⟨C12_coveyou_seed_validation sample_collaborators sample_coveyou_handle
      { x := 0x380316, m := 0xFFFFFFFB } [1, 0, 0, 0] rfl (by decide) (by decide),
   C12_coveyou_seed_validation sample_collaborators sample_coveyou_handle
      { x := 0x380316, m := 0xFFFFFFFB } [2, 0, 0, 0] rfl (by decide) (by decide)⟩

/-! ### Construction of the Green-Smith-Klem generator -/

theorem gck_init_words :
    read_words32 (bytes_of_words32 random_gck_init) 0 45 = some random_gck_init := by
  set_option maxRecDepth 100000 in rfl

theorem gck_randomize_init {S : Type} (g : random S) (c : random_gck)
    (hx : c.x ≠ pointer.dangling) :
    ak_random_gck_randomize_ptr (set_ctx g (context.gck c)) (bytes_of_words32 random_gck_init)
        (45 * 4)
      = some (ak_error_ok, set_ctx g (context.gck
          { c with k := 45, x := pointer.live random_gck_init })) := by
  have hsz : ((45 * 4 : Int) / 4).toNat = 45 := by decide
  have hmod : ¬ ((45 * 4 : Int) % 4 ≠ 0) := by decide
  have hneg : ¬ ((45 * 4 : Int) < 0 ∨ c.x = pointer.dangling) := by
    intro h
    cases h with
    | inl h => exact absurd h (by decide)
    | inr h => exact hx h
  unfold ak_random_gck_randomize_ptr
  rw [if_neg hmod, set_ctx_ctx]
  simp only []
  rw [if_neg hneg, hsz, gck_init_words]
  simp only [Option.bind_eq_bind, Option.some_bind, set_ctx_set_ctx]

/-- C20 (the code departs from the claim): `ak_random_create_gck` seeds the new
generator with the 45 words of its array `init`, so that the fresh generator
holds `k = 45` and a block of 45 words, not the 47 words that the constant
`random_gck_k` of the file names as the lag; the modulus is `0xFFFFFFFB`. -/
theorem C20_gck_default_lag {S : Type} (E : collaborators S) (malloc_ok : Bool) (r : random S) :
    ak_random_create_gck E true malloc_ok (some r) = some (ak_error_ok, some (gck_created E))
      ∧ (gck_created E).data.ctx = pointer.live (context.gck
          { next := 0, k := 45, x := pointer.live random_gck_init, m := 0xFFFFFFFB })
      ∧ random_gck_init.length = 45 ∧ random_gck_k = 47 := by
  have hx : (if malloc_ok then (pointer.live [] : pointer (List Nat)) else pointer.null)
      ≠ pointer.dangling := by
    cases malloc_ok
    · exact fun h => pointer.noConfusion h
    · exact fun h => pointer.noConfusion h
  refine ⟨?_, rfl, rfl, rfl⟩
  unfold ak_random_create_gck ak_random_create
  simp only [Bool.true_eq_false, if_false]
  unfold call_randomize
  rw [set_ctx_randomize_ptr]
  simp only []
  rw [gck_randomize_init _ _ hx]
  rfl

/-! ### Seed length of the Mitchell-Moore generator -/

/-- C19 (as stated, refuted): a seed of 224 bytes, longer than 55 words, is
accepted by the Mitchell-Moore generator: `ak_random_randomize` returns
`ak_error_ok`, not the wrong-length error, and the block holds the first 55
words of the seed. -/
theorem C19_mitchel_seed_length_counterexample :
    ak_random_randomize sample_collaborators
        (some (sample_mitchel_handle 0 (List.replicate 55 0))) (some (List.replicate 224 1)) 224
      = some (ak_error_ok, some (sample_mitchel_handle 0 (List.replicate 55 0x01010101))) := by
  set_option maxRecDepth 100000 in rfl

/-- C19 (amended): seeding a Mitchell-Moore generator through
`ak_random_randomize` succeeds exactly when the seed is at least 55 words (220
bytes) long. A shorter seed fails with the wrong-length error and leaves the
handle, with its 55-word block, as it was; a seed of 220 bytes or more replaces
the whole block with the first 55 words of the seed. -/
theorem C19_mitchel_seed_length {S : Type} (E : collaborators S) (g : random S)
    (c : random_mitchel) (xs s : List Nat)
    (hz : g.randomize_ptr = some fn_randomize.mitchel) (hx : xs.length = 55)
    (hmax : s.length < 2 ^ 63) :
    (s.length < 220 →
      ak_random_randomize E (some (set_ctx g (context.mitchel { c with x := pointer.live xs })))
          (some s) (s.length : Int)
        = some (ak_error_wrong_length,
            some (set_ctx g (context.mitchel { c with x := pointer.live xs }))))
    ∧ (220 ≤ s.length →
      ∃ ws, read_words32 s 0 55 = some ws ∧ ws.length = 55
        ∧ ak_random_randomize E
            (some (set_ctx g (context.mitchel { c with x := pointer.live xs })))
            (some s) (s.length : Int)
          = some (ak_error_ok,
              some (set_ctx g (context.mitchel { c with x := pointer.live ws })))) := by
  have hr : ¬ ((set_ctx g (context.mitchel { c with x := pointer.live xs })).randomize_ptr
      = none) := by
    rw [set_ctx_randomize_ptr, hz]; exact Option.some_ne_none _
  have hu : to_uint64 (s.length : Int) = s.length :=
    to_uint64_small s.length (by
      have : (2 : Nat) ^ 63 < 2 ^ 64 := by decide
      omega)
  constructor
  · intro hlt
    simp only [ak_random_randomize]
    by_cases hpos : (s.length : Int) ≤ 0
    · rw [if_pos hpos]
      rfl
    · rw [if_neg hpos, if_neg hr]
      unfold call_randomize
      rw [set_ctx_randomize_ptr, hz]
      simp only []
      unfold ak_random_mitchel_randomize_ptr
      rw [hu, if_pos (by omega)]
      rfl
  · intro hge
    obtain ⟨ws, hws, hlen⟩ := read_words32_some s 55 0 (by omega)
    refine ⟨ws, hws, hlen, ?_⟩
    have hpos : ¬ ((s.length : Int) ≤ 0) := by omega
    simp only [ak_random_randomize]
    rw [if_neg hpos, if_neg hr]
    unfold call_randomize
    rw [set_ctx_randomize_ptr, hz]
    simp only []
    unfold ak_random_mitchel_randomize_ptr
    rw [hu, if_neg (by omega), set_ctx_ctx]
    simp only [hws, Option.bind_eq_bind, Option.some_bind]
    rw [mem_write_whole xs ws (by omega)]
    simp only [Option.some_bind, set_ctx_set_ctx]
    rfl

/-- Concrete check of C19 (amended): a seed of 3 bytes is refused and a seed of
224 bytes is accepted by the sample Mitchell-Moore generator. -/
theorem C19_mitchel_seed_length_witness :
    ak_random_randomize sample_collaborators
        (some (sample_mitchel_handle 0 (List.replicate 55 0))) (some [1, 2, 3]) 3
      = some (ak_error_wrong_length, some (sample_mitchel_handle 0 (List.replicate 55 0)))
    ∧ ∃ ws, read_words32 (List.replicate 224 1) 0 55 = some ws ∧ ws.length = 55
        ∧ ak_random_randomize sample_collaborators
            (some (sample_mitchel_handle 0 (List.replicate 55 0)))
            (some (List.replicate 224 1)) 224
          = some (ak_error_ok, some (sample_mitchel_handle 0 ws)) :=
  ⟨(C19_mitchel_seed_length sample_collaborators (sample_mitchel_handle 0 [])
      { next := 0, x := pointer.null, m := random_mitchel_m } (List.replicate 55 0) [1, 2, 3]
      rfl rfl (by decide)).1 (by decide),
   (C19_mitchel_seed_length sample_collaborators (sample_mitchel_handle 0 [])
      { next := 0, x := pointer.null, m := random_mitchel_m } (List.replicate 55 0)
      (List.replicate 224 1) rfl rfl (by rw [List.length_replicate]; decide)).2
      (by rw [List.length_replicate]; decide)⟩

/-! ### The mixing pass of `ak_ptr_wipe` -/

theorem mem_write_set (buf : List Nat) (i v : Nat) (h : i < buf.length) :
    mem_write buf i [v] = some (buf.set i v) := by
  unfold mem_write
  rw [if_pos (by rw [List.length_singleton]; omega), List.set_eq_take_append_cons_drop,
    if_pos h]
  simp

theorem wipe_state_length (g : List Nat) (n idx : Nat) :
    (wipe_state g n idx).length = g.length := by
  unfold wipe_state
  rw [List.length_map, List.length_range]

theorem wipe_state_get (g : List Nat) (n idx j : Nat) (h : j < g.length) :
    (wipe_state g n idx)[j]? = some (if j < idx then wipe_mixed g n j else g.getD j 0) := by
  unfold wipe_state
  rw [List.getElem?_map, List.getElem?_range h]
  rfl

theorem wipe_state_zero (g : List Nat) (n : Nat) : wipe_state g n 0 = g := by
  apply List.ext_getElem?
  intro j
  by_cases h : j < g.length
  · rw [wipe_state_get g n 0 j h, if_neg (by omega), List.getD_eq_getElem?_getD,
      List.getElem?_eq_getElem h]
    rfl
  · rw [List.getElem?_eq_none (by rw [wipe_state_length]; omega),
      List.getElem?_eq_none (by omega)]

theorem wipe_mixed_partner (g : List Nat) (n idx : Nat) (h : idx < n) :
    (g.getD idx 0
        + (if n - 1 - idx < idx then wipe_mixed g n (n - 1 - idx) else g.getD (n - 1 - idx) 0))
      % 256 = wipe_mixed g n idx := by
  by_cases c1 : 2 * idx + 1 < n
  · have r : wipe_mixed g n idx = (g.getD idx 0 + g.getD (n - 1 - idx) 0) % 256 := by
      unfold wipe_mixed
      rw [if_pos c1]
    rw [r, if_neg (by omega)]
  · by_cases c2 : 2 * idx + 1 = n
    · have r : wipe_mixed g n idx = (g.getD idx 0 + g.getD idx 0) % 256 := by
        unfold wipe_mixed
        rw [if_neg c1, if_pos c2]
      have e : n - 1 - idx = idx := by omega
      rw [r, if_neg (by omega), e]
    · have r : wipe_mixed g n idx
          = (g.getD idx 0 + (g.getD (n - 1 - idx) 0 + g.getD idx 0) % 256) % 256 := by
        unfold wipe_mixed
        rw [if_neg c1, if_neg c2]
      have e : n - 1 - (n - 1 - idx) = idx := by omega
      have p : wipe_mixed g n (n - 1 - idx)
          = (g.getD (n - 1 - idx) 0 + g.getD idx 0) % 256 := by
        unfold wipe_mixed
        rw [if_pos (by omega), e]
      rw [r, if_pos (by omega), p]

theorem wipe_state_step (g : List Nat) (n idx : Nat) (h : idx < n) (hn : n ≤ g.length) :
    ∃ a b, (wipe_state g n idx)[idx]? = some a
      ∧ (wipe_state g n idx)[n - 1 - idx]? = some b
      ∧ mem_write (wipe_state g n idx) idx [(a + b) % 256] = some (wipe_state g n (idx + 1)) := by
  refine ⟨g.getD idx 0,
    if n - 1 - idx < idx then wipe_mixed g n (n - 1 - idx) else g.getD (n - 1 - idx) 0, ?_, ?_, ?_⟩
  · rw [wipe_state_get g n idx idx (by omega), if_neg (by omega)]
  · rw [wipe_state_get g n idx (n - 1 - idx) (by omega)]
  · rw [mem_write_set _ _ _ (by rw [wipe_state_length]; omega), wipe_mixed_partner g n idx h]
    congr 1
    apply List.ext_getElem?
    intro j
    rw [List.getElem?_set, wipe_state_length]
    by_cases hj : j < g.length
    · rw [wipe_state_get g n (idx + 1) j hj, wipe_state_get g n idx j hj]
      by_cases hij : idx = j
      · subst hij
        rw [if_pos rfl, if_pos hj, if_pos (by omega)]
      · rw [if_neg hij]
        by_cases hlt : j < idx
        · rw [if_pos hlt, if_pos (by omega)]
        · rw [if_neg hlt, if_neg (by omega)]
    · have hL : (wipe_state g n idx)[j]? = none :=
        List.getElem?_eq_none (by rw [wipe_state_length]; omega)
      have hR : (wipe_state g n (idx + 1))[j]? = none :=
        List.getElem?_eq_none (by rw [wipe_state_length]; omega)
      rw [hL, hR, if_neg (by omega)]

theorem wipe_loop_eq (g : List Nat) (n : Nat) (hn : n ≤ g.length) :
    ∀ (fuel idx : Nat), idx ≤ n → n - idx < fuel →
      ak_ptr_wipe_loop fuel (wipe_state g n idx) idx n = some (wipe_state g n n) := by
  intro fuel
  induction fuel with
  | zero => intro idx _ hf; omega
  | succ f ih =>
    intro idx hle hf
    rw [ak_ptr_wipe_loop]
    by_cases hlt : idx < n
    · obtain ⟨a, b, ha, hb, hw⟩ := wipe_state_step g n idx hlt hn
      rw [if_pos hlt, ha, hb]
      simp only [Option.bind_eq_bind, Option.some_bind, hw]
      exact ih (idx + 1) (by omega) (by omega)
    · rw [if_neg hlt]
      have e : idx = n := by omega
      rw [e]

theorem wipe_state_full_get (g : List Nat) (n i : Nat) (hn : n ≤ g.length) :
    (wipe_state g n n)[i]? = if i < n then some (wipe_mixed g n i) else g[i]? := by
  by_cases hi : i < g.length
  · rw [wipe_state_get g n n i hi]
    by_cases hlt : i < n
    · rw [if_pos hlt, if_pos hlt]
    · rw [if_neg hlt, if_neg hlt, List.getD_eq_getElem?_getD, List.getElem?_eq_getElem hi]
      rfl
  · rw [List.getElem?_eq_none (by rw [wipe_state_length]; omega), if_neg (by omega),
      List.getElem?_eq_none (by omega)]

theorem ak_ptr_wipe_ok {S : Type} (E : collaborators S) (r r1 : random S) (buf g : List Nat)
    (n : Nat) (hr : r.random ≠ none) (h1 : 1 ≤ n) (hmax : n < 2 ^ 63)
    (hext : call_random E r buf (n : Int) = some (ak_error_ok, r1, g)) (hg : n ≤ g.length) :
    ak_ptr_wipe E (some buf) n (some r) = some (ak_error_ok, some r1, some (wipe_state g n n)) := by
  have hsz : ¬ (n > (2 ^ 64 - 1) / 2) := by
    have : ((2 : Nat) ^ 64 - 1) / 2 = 2 ^ 63 - 1 := by decide
    omega
  have h0 : ¬ (n = 0) := by omega
  have hloop := wipe_loop_eq g n hg (n + 1) 0 (by omega) (by omega)
  rw [wipe_state_zero] at hloop
  unfold ak_ptr_wipe
  simp only []
  rw [if_neg hr, if_neg hsz, if_neg h0, hext]
  simp only [Option.bind_eq_bind, Option.some_bind, ne_eq, not_true_eq_false, if_false, hloop]

/-- C17: for a region of `n` bytes (`1 <= n < 2^63`) and a generator whose
extraction of `n` bytes returns `ak_error_ok` with the region holding `g`,
`ak_ptr_wipe` returns `ak_error_ok` and leaves at index `i < n` the byte
`g[i] + g[n-1-i]` when `2i < n-1`, `2 g[i]` when `2i = n-1`, and
`2 g[i] + g[n-1-i]` when `2i > n-1` (all modulo 256), which is the result of the
pass `byte[i] += byte[n-1-i]` for `i = 0..n-1` in increasing order; bytes past
the region are as the extraction left them. -/
theorem C17_ptr_wipe_result {S : Type} (E : collaborators S) (r r1 : random S)
    (buf g : List Nat) (n : Nat) (hr : r.random ≠ none) (h1 : 1 ≤ n) (hmax : n < 2 ^ 63)
    (hext : call_random E r buf (n : Int) = some (ak_error_ok, r1, g)) (hg : n ≤ g.length) :
    ∃ out : List Nat,
      ak_ptr_wipe E (some buf) n (some r) = some (ak_error_ok, some r1, some out)
      ∧ out.length = g.length
      ∧ (∀ i, i < n → out[i]? = some
          (if 2 * i + 1 < n then (g.getD i 0 + g.getD (n - 1 - i) 0) % 256
           else if 2 * i + 1 = n then 2 * g.getD i 0 % 256
           else (2 * g.getD i 0 + g.getD (n - 1 - i) 0) % 256))
      ∧ (∀ i, n ≤ i → out[i]? = g[i]?) := by
  refine ⟨wipe_state g n n, ak_ptr_wipe_ok E r r1 buf g n hr h1 hmax hext hg,
    wipe_state_length g n n, ?_, ?_⟩
  · intro i hi
    rw [wipe_state_full_get g n i hg, if_pos hi]
    congr 1
    unfold wipe_mixed
    split
    · rfl
    · split
      · omega
      · omega
  · intro i hi
    rw [wipe_state_full_get g n i hg, if_neg (by omega)]

/-- Concrete check of C17: five bytes of the sample file, 1 2 3 4 1, are mixed
to 2 6 6 10 3. -/
theorem C17_ptr_wipe_result_witness :
    ∃ out : List Nat,
      ak_ptr_wipe sample_collaborators (some [0, 0, 0, 0, 0]) 5 (some sample_file_handle)
        = some (ak_error_ok, some (sample_file_handle_at 1 4), some out)
      ∧ out.length = ([1, 2, 3, 4, 1] : List Nat).length
      ∧ (∀ i, i < 5 → out[i]? = some
          (if 2 * i + 1 < 5 then
             (([1, 2, 3, 4, 1] : List Nat).getD i 0
               + ([1, 2, 3, 4, 1] : List Nat).getD (5 - 1 - i) 0) % 256
           else if 2 * i + 1 = 5 then 2 * ([1, 2, 3, 4, 1] : List Nat).getD i 0 % 256
           else (2 * ([1, 2, 3, 4, 1] : List Nat).getD i 0
               + ([1, 2, 3, 4, 1] : List Nat).getD (5 - 1 - i) 0) % 256))
      ∧ (∀ i, 5 ≤ i → out[i]? = ([1, 2, 3, 4, 1] : List Nat)[i]?) :=
  C17_ptr_wipe_result sample_collaborators sample_file_handle (sample_file_handle_at 1 4)
    [0, 0, 0, 0, 0] [1, 2, 3, 4, 1] 5 (by decide) (by decide) (by decide) rfl (by decide)

theorem file_cycle_length (c : List Nat) : ∀ (k p : Nat), (file_cycle c p k).length = k := by
  intro k
  induction k with
  | zero => intro p; rfl
  | succ k ih => intro p; rw [file_cycle, List.length_cons, ih]

theorem file_cycle_rewind (c : List Nat) : ∀ (k p : Nat),
    file_cycle c (p + c.length) k = file_cycle c p k := by
  intro k
  induction k with
  | zero => intro p; rfl
  | succ k ih =>
    intro p
    rw [file_cycle, file_cycle, Nat.add_mod_right]
    have e : p + c.length + 1 = p + 1 + c.length := by omega
    rw [e, ih]

theorem file_cycle_chunk (c : List Nat) (k : Nat) : ∀ (m p : Nat), p + m ≤ c.length →
    file_cycle c p (m + k) = (c.drop p).take m ++ file_cycle c (p + m) k := by
  intro m
  induction m with
  | zero =>
    intro p _
    rw [Nat.zero_add, List.take_zero, List.nil_append, Nat.add_zero]
  | succ m ih =>
    intro p hp
    have hlt : p < c.length := by omega
    have e1 : m + 1 + k = (m + k) + 1 := by omega
    have e2 : p + (m + 1) = p + 1 + m := by omega
    rw [e1, file_cycle, ih (p + 1) (by omega), e2, Nat.mod_eq_of_lt hlt,
      List.getD_eq_getElem?_getD, List.getElem?_eq_getElem hlt, List.drop_eq_getElem_cons hlt]
    rfl

theorem file_cycle_get (c : List Nat) : ∀ (k p i : Nat), i < k →
    (file_cycle c p k)[i]? = some (c.getD ((p + i) % c.length) 0) := by
  intro k
  induction k with
  | zero => intro p i hi; omega
  | succ k ih =>
    intro p i hi
    rw [file_cycle]
    cases i with
    | zero => rw [List.getElem?_cons_zero, Nat.add_zero]
    | succ i =>
      rw [List.getElem?_cons_succ, ih (p + 1) i (by omega)]
      have e : p + 1 + i = p + (i + 1) := by omega
      rw [e]

theorem file_loop_eq {S : Type} (E : collaborators S) (g : random S) (c : List Nat)
    (sz : Nat) (hE : ∀ k, E.os_read_fails k = false) (hc : 0 < c.length) :
    ∀ (fuel p reads off : Nat) (pre mid post : List Nat),
      p ≤ c.length → off < sz → pre.length = off → mid.length = sz - off →
      2 * (sz - off) + (if p = c.length then 1 else 0) ≤ fuel →
      ∃ f1 : open_file,
        ak_random_file_loop E fuel (set_file g { contents := c, pos := p, reads := reads })
            (pre ++ (mid ++ post)) (off : Int) ((sz - off : Nat) : Int) (sz : Int)
          = some (ak_error_ok, set_file g f1, pre ++ (file_cycle c p (sz - off) ++ post)) := by
  intro fuel
  induction fuel with
  | zero => intro p reads off pre mid post _ hoff _ _ hf; omega
  | succ fuel ih =>
    intro p reads off pre mid post hp hoff hpre hmid hf
    subst hpre
    have hfile : (set_file g { contents := c, pos := p, reads := reads }).data.file
        = some { contents := c, pos := p, reads := reads } := rfl
    rw [ak_random_file_loop, hfile]
    simp only []
    by_cases hend : p = c.length
    · -- end of file: the read returns 0 and the file is rewound
      have hread : os_read E { contents := c, pos := p, reads := reads }
            ((sz - pre.length : Nat) : Int).toNat
          = (0, { contents := c, pos := p + 0, reads := reads + 1 }, (c.drop p).take 0) := by
        unfold os_read
        simp only [hE, Bool.false_eq_true, if_false]
        rw [if_pos (Or.inl (by omega))]
        rfl
      rw [hread]
      simp only [lt_self_iff_false, if_false, if_true]
      rw [if_pos hend] at hf
      obtain ⟨f1, h1⟩ := ih 0 (reads + 1) pre.length pre mid post (by omega) hoff rfl hmid
        (by rw [if_neg (by omega)]; omega)
      have hcyc : file_cycle c p (sz - pre.length) = file_cycle c 0 (sz - pre.length) := by
        rw [hend]
        have := file_cycle_rewind c (sz - pre.length) 0
        rw [Nat.zero_add] at this
        exact this
      rw [hcyc]
      exact ⟨f1, h1⟩
    · -- at least one byte is delivered
      obtain ⟨n, hn⟩ : ∃ n, n = max 1 (min (E.os_read_length reads) (min (c.length - p) (sz - pre.length)))
        := ⟨_, rfl⟩
      have hn1 : 1 ≤ n := by rw [hn]; exact Nat.le_max_left _ _
      have hn2 : n ≤ c.length - p ∧ n ≤ sz - pre.length := by
        rw [hn]
        constructor
        · apply Nat.max_le.mpr
          exact ⟨by omega, Nat.le_trans (Nat.min_le_right _ _) (Nat.min_le_left _ _)⟩
        · apply Nat.max_le.mpr
          exact ⟨by omega, Nat.le_trans (Nat.min_le_right _ _) (Nat.min_le_right _ _)⟩
      have hread : os_read E { contents := c, pos := p, reads := reads }
            ((sz - pre.length : Nat) : Int).toNat
          = ((n : Int), { contents := c, pos := p + n, reads := reads + 1 },
              (c.drop p).take n) := by
        unfold os_read
        simp only [hE, Bool.false_eq_true, if_false, Int.toNat_ofNat]
        rw [if_neg (by omega), ← hn]
      rw [hread]
      simp only []
      rw [if_neg (by omega), if_neg (by omega), Int.toNat_ofNat]
      have hchunk : ((c.drop p).take n).length = (mid.take n).length := by
        rw [List.length_take, List.length_take, List.length_drop]; omega
      have hsplit : pre ++ (mid ++ post) = pre ++ (mid.take n ++ (mid.drop n ++ post)) := by
        rw [← List.append_assoc (mid.take n), List.take_append_drop]
      rw [hsplit, mem_write_block pre _ _ _ hchunk]
      simp only []
      by_cases hdone : (pre.length : Int) + (n : Int) ≥ (sz : Int)
      · rw [if_pos hdone]
        have hn3 : n = sz - pre.length := by omega
        have hnil : mid.drop n = [] := by
          apply List.drop_eq_nil_of_le; omega
        have hcyc : file_cycle c p (sz - pre.length) = (c.drop p).take n := by
          have := file_cycle_chunk c 0 n p (by omega)
          rw [Nat.add_zero] at this
          rw [← hn3, this]
          show _ ++ [] = _
          rw [List.append_nil]
        rw [hnil, List.nil_append, hcyc]
        exact ⟨_, rfl⟩
      · rw [if_neg hdone]
        have e1 : (pre.length : Int) + (n : Int) = ((pre.length + n : Nat) : Int) := by omega
        have e2 : ((sz - pre.length : Nat) : Int) - (n : Int)
            = ((sz - (pre.length + n) : Nat) : Int) := by
          omega
        rw [e1, e2]
        have hpre2 : (pre ++ (c.drop p).take n).length = pre.length + n := by
          rw [List.length_append, List.length_take, List.length_drop]; omega
        obtain ⟨f1, h1⟩ := ih (p + n) (reads + 1) (pre.length + n) (pre ++ (c.drop p).take n)
          (mid.drop n) post (by omega) (by omega) hpre2
          (by rw [List.length_drop]; omega)
          (by split <;> omega)
        simp only [List.append_assoc] at h1
        have hcyc : file_cycle c p (sz - pre.length)
            = (c.drop p).take n ++ file_cycle c (p + n) (sz - (pre.length + n)) := by
          have := file_cycle_chunk c (sz - (pre.length + n)) n p (by omega)
          have e : n + (sz - (pre.length + n)) = sz - pre.length := by omega
          rw [e] at this
          exact this
        rw [hcyc, List.append_assoc]
        exact ⟨f1, h1⟩

theorem mem_write_front (buf src : List Nat) (h : src.length ≤ buf.length) :
    mem_write buf 0 src = some (src ++ buf.drop src.length) := by
  unfold mem_write
  rw [if_pos (by omega), List.take_zero, List.nil_append, Nat.zero_add]

/-- C13: for a file generator whose file has non-empty contents `fc` and is
positioned at the start, if no `read` fails (each `read` then delivers at least
one byte until the end of the file, where it returns 0 and the file is
rewound), `ak_random_ptr` of `n >= 1` bytes terminates with `ak_error_ok` and
the byte at every position `i < n` is `fc[i mod L]`, `L` the length of `fc`. -/
theorem C13_device_wraparound {S : Type} (E : collaborators S) (g : random S)
    (fc ptr : List Nat) (reads n : Nat) (hr : g.random = some fn_random.file)
    (hE : ∀ k, E.os_read_fails k = false) (hc : fc ≠ []) (h1 : 1 ≤ n) (hlen : n ≤ ptr.length) :
    ∃ r1 : random S,
      ak_random_ptr E (some (set_file g { contents := fc, pos := 0, reads := reads })) (some ptr)
          (n : Int)
        = some (ak_error_ok, some r1, some (file_cycle fc 0 n ++ ptr.drop n))
      ∧ ∀ i, i < n → (file_cycle fc 0 n ++ ptr.drop n)[i]? = fc[i % fc.length]? := by
  have hL : 0 < fc.length := List.length_pos.mpr hc
  have hpos : ¬ ((n : Int) ≤ 0) := by omega
  have hrn : ¬ ((set_file g { contents := fc, pos := 0, reads := reads }).random = none) := by
    show ¬ (g.random = none)
    rw [hr]; exact Option.some_ne_none _
  have hrs : (set_file g { contents := fc, pos := 0, reads := reads }).random
      = some fn_random.file := hr
  obtain ⟨f1, hloop⟩ := file_loop_eq E g fc n hE hL (2 * n + 1) 0 reads 0 []
    (List.replicate n 0) (ptr.drop n) (by omega) (by omega) rfl
    (by rw [List.length_replicate]; omega) (by split <;> omega)
  rw [List.nil_append, List.nil_append, Nat.sub_zero] at hloop
  refine ⟨set_file g f1, ?_, ?_⟩
  · simp only [ak_random_ptr]
    rw [if_neg hpos, if_neg hrn]
    unfold call_random
    rw [hrs]
    simp only []
    unfold ak_random_file_ptr
    rw [if_neg hpos, Int.toNat_ofNat,
      mem_write_front ptr (List.replicate n 0) (by rw [List.length_replicate]; exact hlen),
      List.length_replicate]
    simp only [Option.bind_eq_bind, Option.some_bind]
    have hz : ((0 : Nat) : Int) = 0 := rfl
    rw [hz] at hloop
    rw [hloop]
    rfl
  · intro i hi
    have hm : i % fc.length < fc.length := Nat.mod_lt _ hL
    rw [List.getElem?_append_left (by rw [file_cycle_length]; exact hi),
      file_cycle_get fc n 0 i hi, Nat.zero_add, List.getD_eq_getElem?_getD,
      List.getElem?_eq_getElem hm]
    rfl

/-- Concrete check of C13: the sample file of the four bytes 1 2 3 4, asked for
10 bytes, delivers the file twice and then its first two bytes. -/
theorem C13_device_wraparound_witness :
    ∃ r1 : random Unit,
      ak_random_ptr sample_collaborators (some sample_file_handle)
          (some (List.replicate 10 0)) ((10 : Nat) : Int)
        = some (ak_error_ok, some r1, some [1, 2, 3, 4, 1, 2, 3, 4, 1, 2])
      ∧ ∀ i, i < 10 → ([1, 2, 3, 4, 1, 2, 3, 4, 1, 2] : List Nat)[i]?
          = ([1, 2, 3, 4] : List Nat)[i % 4]? :=
  C13_device_wraparound sample_collaborators sample_file_handle [1, 2, 3, 4]
    (List.replicate 10 0) 0 10 rfl (fun _ => rfl) (by decide) (by decide) (by decide)

/-! ### The statistical test -/

theorem hamming_table_eq : ak_hamming_weight_table = (List.range 256).map bit_count := by
  set_option maxRecDepth 100000 in decide

theorem bigramm_table_eq : ak_bigramm_weight_table
    = (List.range 256).map
        (fun b => [field_count 0 b, field_count 1 b, field_count 2 b, field_count 3 b]) := by
  set_option maxRecDepth 100000 in decide

theorem hamming_table_get (b : Nat) (h : b < 256) :
    ak_hamming_weight_table[b]? = some (bit_count b) := by
  rw [hamming_table_eq, List.getElem?_map, List.getElem?_range h]
  rfl

theorem bigramm_table_get (b : Nat) (h : b < 256) :
    ak_bigramm_weight_table[b]?
      = some [field_count 0 b, field_count 1 b, field_count 2 b, field_count 3 b] := by
  rw [bigramm_table_eq, List.getElem?_map, List.getElem?_range h]
  rfl

theorem sum_map_take_succ (f : Nat → Nat) (l : List Nat) (i : Nat) (h : i < l.length) :
    ((l.take (i + 1)).map f).sum = ((l.take i).map f).sum + f l[i] := by
  rw [List.take_succ, List.getElem?_eq_getElem h]
  simp only [Option.toList, List.map_append, List.sum_append, List.map_cons, List.map_nil,
    List.sum_cons, List.sum_nil, Nat.add_zero]

theorem block_bits_pre_succ (data : List Nat) (idx : Nat) (h : idx < data.length) :
    block_bits_pre data (idx + 1) = block_bits_pre data idx + bit_count data[idx] :=
  sum_map_take_succ bit_count data idx h

theorem block_fields_pre_succ (v : Nat) (data : List Nat) (idx : Nat) (h : idx < data.length) :
    block_fields_pre v data (idx + 1)
      = block_fields_pre v data idx + field_count v data[idx] :=
  sum_map_take_succ (field_count v) data idx h

theorem add_mod_pow (a b : Nat) : (a % 2 ^ 64 + b) % 2 ^ 64 = (a + b) % 2 ^ 64 := by
  rw [Nat.add_mod, Nat.mod_mod, ← Nat.add_mod]

theorem dynamic_sums_step (data : List Nat) (idx : Nat) (h : idx < data.length) :
    dynamic_sums_at data (idx + 1)
      = { binsum := ((dynamic_sums_at data idx).binsum + bit_count data[idx]) % 2 ^ 64,
          bigrsum0 := ((dynamic_sums_at data idx).bigrsum0 + field_count 0 data[idx]) % 2 ^ 64,
          bigrsum1 := ((dynamic_sums_at data idx).bigrsum1 + field_count 1 data[idx]) % 2 ^ 64,
          bigrsum2 := ((dynamic_sums_at data idx).bigrsum2 + field_count 2 data[idx]) % 2 ^ 64,
          bigrsum3 := ((dynamic_sums_at data idx).bigrsum3 + field_count 3 data[idx]) % 2 ^ 64 }
    := by
  unfold dynamic_sums_at
  simp only [add_mod_pow, block_bits_pre_succ data idx h, block_fields_pre_succ _ data idx h]

theorem dynamic_loop_eq (data : List Nat) (hbytes : ∀ b ∈ data, b < 256) :
    ∀ (fuel idx : Nat), idx ≤ data.length → data.length - idx < fuel →
      ak_random_dynamic_test_loop fuel data idx data.length (dynamic_sums_at data idx)
        = some (dynamic_sums_at data data.length) := by
  intro fuel
  induction fuel with
  | zero => intro idx _ hf; omega
  | succ f ih =>
    intro idx hle hf
    rw [ak_random_dynamic_test_loop]
    by_cases hlt : idx < data.length
    · have hb : data[idx] < 256 := hbytes _ (List.getElem_mem hlt)
      rw [if_pos hlt, List.getElem?_eq_getElem hlt]
      simp only [Option.bind_eq_bind, Option.some_bind, hamming_table_get _ hb,
        bigramm_table_get _ hb]
      have hstep := dynamic_sums_step data idx hlt
      have i := ih (idx + 1) (by omega) (by omega)
      rw [hstep] at i
      exact i
    · rw [if_neg hlt]
      have e : idx = data.length := by omega
      rw [e]

theorem sum_map_le (f : Nat → Nat) (K : Nat) (hf : ∀ b, f b ≤ K) :
    ∀ l : List Nat, (l.map f).sum ≤ K * l.length := by
  intro l
  induction l with
  | nil => simp
  | cons a l ih =>
    rw [List.map_cons, List.sum_cons, List.length_cons, Nat.mul_succ]
    have := hf a
    omega

theorem bit_count_le (b : Nat) : bit_count b ≤ 8 := by
  have h := sum_map_le (fun k => b / 2 ^ k % 2) 1
    (fun k => Nat.le_of_lt_succ (Nat.mod_lt _ (by decide))) (List.range 8)
  rw [List.length_range] at h
  exact h

theorem field_count_le (v b : Nat) : field_count v b ≤ 4 := by
  unfold field_count
  have h := List.length_filter_le (fun k => decide (b / 4 ^ k % 4 = v)) (List.range 4)
  rw [List.length_range] at h
  exact h

theorem block_bits_le (data : List Nat) : block_bits data ≤ 8 * data.length :=
  sum_map_le bit_count 8 bit_count_le data

theorem block_fields_le (v : Nat) (data : List Nat) : block_fields v data ≤ 4 * data.length :=
  sum_map_le (field_count v) 4 (field_count_le v) data

theorem wrapped_square (M d : Nat) (h : 2 * d ≤ M) : (M - d) * (M - d) % M = d * d % M := by
  have key : (M - d) * (M - d) = d * d + M * (M - 2 * d) := by
    have h1 : d ≤ M := by omega
    zify [h1, h]
    ring
  rw [key, Nat.add_mul_mod_self_left]

theorem dynamic_test_square_eq (s size : Nat) (hs : size ≤ 128) (hc : s ≤ 4 * size) :
    (dynamic_test_square s size : ℚ) = ((s : ℚ) - (size : ℚ)) ^ 2 := by
  have hM : (2 : Nat) ^ 64 = 18446744073709551616 := by norm_num
  unfold dynamic_test_square
  rw [hM]
  by_cases hle : size ≤ s
  · have e : (s + (18446744073709551616 - size % 18446744073709551616)) % 18446744073709551616
        = s - size := by omega
    have hb : (s - size) * (s - size) < 18446744073709551616 := by
      have h1 : (s - size) * (s - size) ≤ 512 * 512 :=
        Nat.mul_le_mul (by omega) (by omega)
      omega
    rw [e, Nat.mod_eq_of_lt hb]
    push_cast [Nat.cast_sub hle]
    ring
  · have hlt : s < size := by omega
    have e : (s + (18446744073709551616 - size % 18446744073709551616)) % 18446744073709551616
        = 18446744073709551616 - (size - s) := by omega
    have hb : (size - s) * (size - s) < 18446744073709551616 := by
      have h1 : (size - s) * (size - s) ≤ 128 * 128 :=
        Nat.mul_le_mul (by omega) (by omega)
      omega
    rw [e, wrapped_square _ (size - s) (by omega), Nat.mod_eq_of_lt hb]
    push_cast [Nat.cast_sub (Nat.le_of_lt hlt)]
    ring

theorem chi_threshold (T N K : Nat) (L : ℚ) (hN : 0 < N) (lo : (K : ℚ) / (N : ℚ) ≤ L)
    (hi : L < ((K + 1 : Nat) : ℚ) / (N : ℚ)) : (T : ℚ) / (N : ℚ) ≤ L ↔ T ≤ K := by
  have hNq : (0 : ℚ) < (N : ℚ) := by exact_mod_cast hN
  constructor
  · intro h
    by_contra hgt
    have h1 : K + 1 ≤ T := by omega
    have h2 : ((K + 1 : Nat) : ℚ) ≤ (T : ℚ) := by exact_mod_cast h1
    have h3 : ((K + 1 : Nat) : ℚ) / (N : ℚ) ≤ (T : ℚ) / (N : ℚ) :=
      div_le_div_of_nonneg_right h2 (le_of_lt hNq)
    exact absurd (lt_of_lt_of_le hi (le_trans h3 h)) (lt_irrefl _)
  · intro h
    have h2 : (T : ℚ) ≤ (K : ℚ) := by exact_mod_cast h
    exact le_trans (div_le_div_of_nonneg_right h2 (le_of_lt hNq)) lo

theorem dynamic_sums_final (data : List Nat) (h128 : data.length ≤ 128) :
    dynamic_sums_at data data.length
      = { binsum := block_bits data, bigrsum0 := block_fields 0 data,
          bigrsum1 := block_fields 1 data, bigrsum2 := block_fields 2 data,
          bigrsum3 := block_fields 3 data } := by
  have hM : (2 : Nat) ^ 64 = 18446744073709551616 := by norm_num
  have hb := block_bits_le data
  have h0 := block_fields_le 0 data
  have h1 := block_fields_le 1 data
  have h2 := block_fields_le 2 data
  have h3 := block_fields_le 3 data
  unfold dynamic_sums_at block_bits_pre block_fields_pre
  rw [List.take_length, hM, Nat.mod_eq_of_lt (by omega), Nat.mod_eq_of_lt (by omega),
    Nat.mod_eq_of_lt (by omega), Nat.mod_eq_of_lt (by omega), Nat.mod_eq_of_lt (by omega)]

theorem dynamic_test_verdict (data : List Nat) (N lo hi K : Nat) (hlen : data.length = N)
    (hN : 0 < N) (h128 : N ≤ 128)
    (k1 : (K : ℚ) / (N : ℚ) ≤ dynamic_test_limit)
    (k2 : dynamic_test_limit < ((K + 1 : Nat) : ℚ) / (N : ℚ))
    (k3 : (K : ℚ) / (N : ℚ) ≤ 16266 / 1000)
    (k4 : (16266 / 1000 : ℚ) < ((K + 1 : Nat) : ℚ) / (N : ℚ)) :
    (if block_bits data < lo ∨ block_bits data > hi then some false
      else if ((dynamic_test_square (block_fields 0 data) N : ℚ)
          + (dynamic_test_square (block_fields 1 data) N : ℚ)
          + (dynamic_test_square (block_fields 2 data) N : ℚ)
          + (dynamic_test_square (block_fields 3 data) N : ℚ)) / (N : ℚ) > dynamic_test_limit
        then some false else some true) = some true
    ↔ (lo ≤ block_bits data ∧ block_bits data ≤ hi) ∧ block_chi data N ≤ 16266 / 1000 := by
  have hc : ∀ v, block_fields v data ≤ 4 * N := by
    intro v
    have := block_fields_le v data
    rw [hlen] at this
    exact this
  obtain ⟨T, hT⟩ : ∃ T : Nat, T = dynamic_test_square (block_fields 0 data) N
      + dynamic_test_square (block_fields 1 data) N
      + dynamic_test_square (block_fields 2 data) N
      + dynamic_test_square (block_fields 3 data) N := ⟨_, rfl⟩
  have hchi : ((dynamic_test_square (block_fields 0 data) N : ℚ)
      + (dynamic_test_square (block_fields 1 data) N : ℚ)
      + (dynamic_test_square (block_fields 2 data) N : ℚ)
      + (dynamic_test_square (block_fields 3 data) N : ℚ)) = (T : ℚ) := by
    rw [hT]; push_cast; rfl
  have hex : block_chi data N = (T : ℚ) / (N : ℚ) := by
    unfold block_chi
    rw [← dynamic_test_square_eq _ N h128 (hc 0), ← dynamic_test_square_eq _ N h128 (hc 1),
      ← dynamic_test_square_eq _ N h128 (hc 2), ← dynamic_test_square_eq _ N h128 (hc 3), hchi]
  have t1 := chi_threshold T N K dynamic_test_limit hN k1 k2
  have t2 := chi_threshold T N K (16266 / 1000) hN k3 k4
  rw [hchi, hex]
  by_cases hr : block_bits data < lo ∨ block_bits data > hi
  · rw [if_pos hr]
    constructor
    · intro h; exact absurd h (by decide)
    · intro h; omega
  · rw [if_neg hr]
    by_cases hx : (T : ℚ) / (N : ℚ) > dynamic_test_limit
    · rw [if_pos hx]
      constructor
      · intro h; exact absurd h (by decide)
      · intro h
        have := t1.mpr (t2.mp h.2)
        exact absurd hx (not_lt.mpr this)
    · rw [if_neg hx]
      constructor
      · intro _
        exact ⟨by omega, t2.mpr (t1.mp (not_lt.mp hx))⟩
      · intro _; rfl

theorem dynamic_test_run (data : List Nat) (hbytes : ∀ b ∈ data, b < 256) :
    ak_random_dynamic_test_loop (data.length + 1) data 0 data.length
        { binsum := 0, bigrsum0 := 0, bigrsum1 := 0, bigrsum2 := 0, bigrsum3 := 0 }
      = some (dynamic_sums_at data data.length) := by
  have z : dynamic_sums_at data 0
      = { binsum := 0, bigrsum0 := 0, bigrsum1 := 0, bigrsum2 := 0, bigrsum3 := 0 } := rfl
  rw [← z]
  exact dynamic_loop_eq data hbytes (data.length + 1) 0 (by omega) (by omega)

theorem dynamic_limit_32 : (520 : ℚ) / 32 ≤ dynamic_test_limit
    ∧ dynamic_test_limit < ((520 + 1 : Nat) : ℚ) / 32
    ∧ (520 : ℚ) / 32 ≤ 16266 / 1000 ∧ (16266 / 1000 : ℚ) < ((520 + 1 : Nat) : ℚ) / 32 := by
  unfold dynamic_test_limit
  norm_num

theorem dynamic_limit_64 : (1041 : ℚ) / 64 ≤ dynamic_test_limit
    ∧ dynamic_test_limit < ((1041 + 1 : Nat) : ℚ) / 64
    ∧ (1041 : ℚ) / 64 ≤ 16266 / 1000 ∧ (16266 / 1000 : ℚ) < ((1041 + 1 : Nat) : ℚ) / 64 := by
  unfold dynamic_test_limit
  norm_num

theorem dynamic_limit_128 : (2082 : ℚ) / 128 ≤ dynamic_test_limit
    ∧ dynamic_test_limit < ((2082 + 1 : Nat) : ℚ) / 128
    ∧ (2082 : ℚ) / 128 ≤ 16266 / 1000 ∧ (16266 / 1000 : ℚ) < ((2082 + 1 : Nat) : ℚ) / 128 := by
  unfold dynamic_test_limit
  norm_num

theorem dynamic_test_returns (data : List Nat) (hbytes : ∀ b ∈ data, b < 256) :
    ∃ res : Bool, ak_random_dynamic_test data data.length = some res := by
  have hrun := dynamic_test_run data hbytes
  unfold ak_random_dynamic_test
  rw [hrun]
  simp only [Option.bind_eq_bind, Option.some_bind]
  split
  · split
    · exact ⟨_, rfl⟩
    · split <;> exact ⟨_, rfl⟩
  · split
    · split
      · exact ⟨_, rfl⟩
      · split <;> exact ⟨_, rfl⟩
    · split
      · split
        · exact ⟨_, rfl⟩
        · split <;> exact ⟨_, rfl⟩
      · exact ⟨_, rfl⟩

theorem dynamic_test_true_iff (data : List Nat) (hbytes : ∀ b ∈ data, b < 256) :
    ak_random_dynamic_test data data.length = some true ↔
      ((data.length = 32 ∧ 102 ≤ block_bits data ∧ block_bits data ≤ 154)
        ∨ (data.length = 64 ∧ 219 ≤ block_bits data ∧ block_bits data ≤ 293)
        ∨ (data.length = 128 ∧ 460 ≤ block_bits data ∧ block_bits data ≤ 564))
      ∧ block_chi data data.length ≤ 16266 / 1000 := by
  have hrun := dynamic_test_run data hbytes
  unfold ak_random_dynamic_test
  rw [hrun]
  simp only [Option.bind_eq_bind, Option.some_bind]
  by_cases h32 : data.length = 32
  · rw [if_pos h32, dynamic_sums_final data (by omega)]
    simp only []
    rw [h32]
    obtain ⟨k1, k2, k3, k4⟩ := dynamic_limit_32
    have v := dynamic_test_verdict data 32 102 154 520 h32 (by decide) (by decide)
      (by exact_mod_cast k1) (by exact_mod_cast k2) (by exact_mod_cast k3)
      (by exact_mod_cast k4)
    rw [v]
    constructor
    · intro h; exact ⟨Or.inl ⟨rfl, h.1⟩, h.2⟩
    · intro h
      refine ⟨?_, h.2⟩
      rcases h.1 with h1 | h1 | h1
      · exact h1.2
      · exact absurd h1.1 (by decide)
      · exact absurd h1.1 (by decide)
  · rw [if_neg h32]
    by_cases h64 : data.length = 64
    · rw [if_pos h64, dynamic_sums_final data (by omega)]
      simp only []
      rw [h64]
      obtain ⟨k1, k2, k3, k4⟩ := dynamic_limit_64
      have v := dynamic_test_verdict data 64 219 293 1041 h64 (by decide) (by decide)
        (by exact_mod_cast k1) (by exact_mod_cast k2) (by exact_mod_cast k3)
        (by exact_mod_cast k4)
      rw [v]
      constructor
      · intro h; exact ⟨Or.inr (Or.inl ⟨rfl, h.1⟩), h.2⟩
      · intro h
        refine ⟨?_, h.2⟩
        rcases h.1 with h1 | h1 | h1
        · exact absurd h1.1 (by decide)
        · exact h1.2
        · exact absurd h1.1 (by decide)
    · rw [if_neg h64]
      by_cases h128 : data.length = 128
      · rw [if_pos h128, dynamic_sums_final data (by omega)]
        simp only []
        rw [h128]
        obtain ⟨k1, k2, k3, k4⟩ := dynamic_limit_128
        have v := dynamic_test_verdict data 128 460 564 2082 h128 (by decide) (by decide)
          (by exact_mod_cast k1) (by exact_mod_cast k2) (by exact_mod_cast k3)
          (by exact_mod_cast k4)
        rw [v]
        constructor
        · intro h; exact ⟨Or.inr (Or.inr ⟨rfl, h.1⟩), h.2⟩
        · intro h
          refine ⟨?_, h.2⟩
          rcases h.1 with h1 | h1 | h1
          · exact absurd h1.1 (by decide)
          · exact absurd h1.1 (by decide)
          · exact h1.2
      · rw [if_neg h128]
        constructor
        · intro h; exact absurd h (by decide)
        · intro h
          rcases h.1 with h1 | h1 | h1
          · exact absurd h1.1 h32
          · exact absurd h1.1 h64
          · exact absurd h1.1 h128

/-- C14: for every block of `size` bytes, `ak_random_dynamic_test` returns, and
it returns true exactly when `size` is 32, 64 or 128, the number of set bits of
the block lies in `[102,154]`, `[219,293]` or `[460,564]` respectively, and the
sum over `v = 0..3` of `(c_v - size)^2`, divided by `size`, is at most 16.266 in
exact arithmetic, `c_v` being the number of aligned 2-bit fields of the block
equal to `v`; the two lookup tables hold, for each of the 256 byte values, the
number of set bits and these four field counts. -/
theorem C14_dynamic_test_characterisation (data : List Nat) (size : Nat)
    (hlen : data.length = size) (hbytes : ∀ b ∈ data, b < 256) :
    (∃ res : Bool, ak_random_dynamic_test data size = some res)
    ∧ (ak_random_dynamic_test data size = some true ↔
        ((size = 32 ∧ 102 ≤ block_bits data ∧ block_bits data ≤ 154)
          ∨ (size = 64 ∧ 219 ≤ block_bits data ∧ block_bits data ≤ 293)
          ∨ (size = 128 ∧ 460 ≤ block_bits data ∧ block_bits data ≤ 564))
        ∧ block_chi data size ≤ 16266 / 1000)
    ∧ (∀ b, b < 256 → ak_hamming_weight_table[b]? = some (bit_count b)
        ∧ ak_bigramm_weight_table[b]?
          = some [field_count 0 b, field_count 1 b, field_count 2 b, field_count 3 b]) := by
  subst hlen
  exact ⟨dynamic_test_returns data hbytes, dynamic_test_true_iff data hbytes,
    fun b hb => ⟨hamming_table_get b hb, bigramm_table_get b hb⟩⟩

/-- Concrete check of C14: the block of 32 copies of the byte `0x1B`. -/
theorem C14_dynamic_test_characterisation_witness :
    (∃ res : Bool, ak_random_dynamic_test (List.replicate 32 0x1B) 32 = some res)
    ∧ (ak_random_dynamic_test (List.replicate 32 0x1B) 32 = some true ↔
        (((32 : Nat) = 32 ∧ 102 ≤ block_bits (List.replicate 32 0x1B)
            ∧ block_bits (List.replicate 32 0x1B) ≤ 154)
          ∨ ((32 : Nat) = 64 ∧ 219 ≤ block_bits (List.replicate 32 0x1B)
            ∧ block_bits (List.replicate 32 0x1B) ≤ 293)
          ∨ ((32 : Nat) = 128 ∧ 460 ≤ block_bits (List.replicate 32 0x1B)
            ∧ block_bits (List.replicate 32 0x1B) ≤ 564))
        ∧ block_chi (List.replicate 32 0x1B) 32 ≤ 16266 / 1000)
    ∧ (∀ b, b < 256 → ak_hamming_weight_table[b]? = some (bit_count b)
        ∧ ak_bigramm_weight_table[b]?
          = some [field_count 0 b, field_count 1 b, field_count 2 b, field_count 3 b]) :=
  C14_dynamic_test_characterisation (List.replicate 32 0x1B) 32 (List.length_replicate _ _)
    (fun b hb => by rw [List.eq_of_mem_replicate hb]; decide)

theorem bit_count_fields : ∀ b, b < 256 →
    bit_count b = field_count 1 b + field_count 2 b + 2 * field_count 3 b := by
  set_option maxRecDepth 100000 in decide

theorem block_bits_fields : ∀ data : List Nat, (∀ b ∈ data, b < 256) →
    block_bits data = block_fields 1 data + block_fields 2 data + 2 * block_fields 3 data := by
  intro data
  induction data with
  | nil => intro _; rfl
  | cons a l ih =>
    intro h
    have ha := bit_count_fields a (h a (List.mem_cons_self a l))
    have hl := ih (fun b hb => h b (List.mem_cons_of_mem a hb))
    unfold block_bits block_fields at *
    simp only [List.map_cons, List.sum_cons]
    omega

theorem dynamic_test_zero_block :
    ak_random_dynamic_test (List.replicate 32 0) 32 = some false := by
  have hb : ∀ b ∈ List.replicate 32 0, b < 256 :=
    fun b hb => by rw [List.eq_of_mem_replicate hb]; decide
  have hl : (List.replicate 32 0).length = 32 := List.length_replicate _ _
  obtain ⟨res, hres⟩ := dynamic_test_returns (List.replicate 32 0) hb
  have hiff := dynamic_test_true_iff (List.replicate 32 0) hb
  rw [hl] at hres hiff
  have hbits : block_bits (List.replicate 32 0) = 0 := by decide
  cases res with
  | false => exact hres
  | true =>
    have := (hiff.mp hres).1
    rw [hbits] at this
    omega

/-- C15: the block of 32 zero bytes is rejected by `ak_random_dynamic_test`, and
every block of 32 bytes in which each of the four values of an aligned 2-bit
field occurs exactly 32 times has exactly 128 set bits and is accepted. -/
theorem C15_dynamic_test_boundaries :
    ak_random_dynamic_test (List.replicate 32 0) 32 = some false
    ∧ ∀ data : List Nat, data.length = 32 → (∀ b ∈ data, b < 256) →
        (block_fields 0 data = 32 ∧ block_fields 1 data = 32 ∧ block_fields 2 data = 32
          ∧ block_fields 3 data = 32) →
        block_bits data = 128 ∧ ak_random_dynamic_test data 32 = some true := by
  refine ⟨dynamic_test_zero_block, ?_⟩
  intro data hlen hbytes hf
  obtain ⟨f0, f1, f2, f3⟩ := hf
  have hbits : block_bits data = 128 := by
    rw [block_bits_fields data hbytes, f1, f2, f3]
  refine ⟨hbits, ?_⟩
  have hiff := dynamic_test_true_iff data hbytes
  rw [hlen] at hiff
  apply hiff.mpr
  refine ⟨Or.inl ⟨rfl, by omega, by omega⟩, ?_⟩
  unfold block_chi
  rw [f0, f1, f2, f3]
  norm_num

/-- Concrete check of C15: the block of 32 copies of the byte `0x1B` (fields
3, 2, 1, 0) has 128 set bits and is accepted. -/
theorem C15_dynamic_test_boundaries_witness :
    block_bits (List.replicate 32 0x1B) = 128
      ∧ ak_random_dynamic_test (List.replicate 32 0x1B) 32 = some true :=
  C15_dynamic_test_boundaries.2 (List.replicate 32 0x1B) (List.length_replicate _ _)
    (fun b hb => by rw [List.eq_of_mem_replicate hb]; decide)
    ⟨by decide, by decide, by decide, by decide⟩

/-! ### Algorithm B over a source -/

theorem stream_random (s : Nat → Nat) (hs : ∀ i, s i < 256) (pos n : Nat) (out : List Nat)
    (h : n ≤ out.length) :
    (stream_collaborators s).source_random pos out (n : Int)
      = some (ak_error_ok, pos + n, (List.range n).map (fun i => s (pos + i)) ++ out.drop n) := by
  have e : (fun i => s (pos + i) % 256) = (fun i => s (pos + i)) := by
    funext i
    exact Nat.mod_eq_of_lt (hs _)
  show (if (n : Int).toNat ≤ out.length then
      some (ak_error_ok, pos + (n : Int).toNat,
        (List.range (n : Int).toNat).map (fun i => s (pos + i) % 256)
          ++ out.drop (n : Int).toNat) else none) = _
  rw [Int.toNat_ofNat, if_pos h, e]

theorem stream_create_knuth_b (s : Nat → Nat) (hs : ∀ i, s i < 256) (k : Nat) (hk : k ≤ 255) :
    ak_random_create_knuth_b (stream_collaborators s) true true (some blank_random)
        (pointer.live 0) k
      = some (ak_error_ok, some (knuth_b_handle k k ((List.range k).map s) 0)) := by
  have hm : k % 256 = k := Nat.mod_eq_of_lt (by omega)
  have hr := stream_random s hs 0 k (List.replicate k 0) (by rw [List.length_replicate])
  rw [List.drop_of_length_le (by rw [List.length_replicate]), List.append_nil] at hr
  have e : (fun i => s (0 + i)) = s := by
    funext i
    rw [Nat.zero_add]
  rw [e, Nat.zero_add] at hr
  unfold ak_random_create_knuth_b ak_random_create
  simp only [Bool.true_eq_false, if_false, hm, hr]
  rfl

theorem stream_random_one (s : Nat → Nat) (hs : ∀ i, s i < 256) (pos b : Nat) :
    (stream_collaborators s).source_random pos [b] 1 = some (ak_error_ok, pos + 1, [s pos]) := by
  have h := stream_random s hs pos 1 [b] (by rw [List.length_singleton])
  exact h

theorem knuth_index (k y : Nat) (hk1 : 1 ≤ k) (hk : k ≤ 255) (hy : y < 256) :
    (k * y) % 2 ^ 32 / 2 ^ 8 % 256 = k * y / 256 ∧ k * y / 256 < k := by
  have h1 : k * y ≤ 255 * 255 := Nat.mul_le_mul hk (by omega)
  have h2 : k * y < k * 256 := Nat.mul_lt_mul_of_pos_left hy (by omega)
  have hp : (2 : Nat) ^ 32 = 4294967296 := by norm_num
  have hq : (2 : Nat) ^ 8 = 256 := by norm_num
  rw [hp, hq]
  constructor
  · omega
  · omega

theorem stream_knuth_b_next (s : Nat → Nat) (hs : ∀ i, s i < 256) (p k nx : Nat)
    (v : List Nat) (hk1 : 1 ≤ k) (hk : k ≤ 255) (hv : v.length = k) :
    call_next (stream_collaborators s) (knuth_b_handle p k v nx)
      = some (ak_error_ok, knuth_b_handle (p + 1 + 1) k
          (v.set (k * s p / 256) (s (p + 1))) (v.getD (k * s p / 256) 0)) := by
  obtain ⟨hj, hjk⟩ := knuth_index k (s p) hk1 hk (hs p)
  have hget : v[k * s p / 256]? = some (v.getD (k * s p / 256) 0) := by
    rw [List.getD_eq_getElem?_getD, List.getElem?_eq_getElem (by omega)]
    rfl
  unfold call_next
  simp only [show (knuth_b_handle p k v nx).next = some fn_next.knuth_b from rfl]
  unfold ak_random_knuth_b_next
  simp only [show (knuth_b_handle p k v nx).data.ctx = pointer.live (context.knuth_b
    { source_gen := pointer.live p, k := k, v := pointer.live v, next := nx }) from rfl]
  simp only [stream_random_one s hs, Option.bind_eq_bind, Option.some_bind, ne_eq,
    not_true_eq_false, if_false, List.getElem?_cons_zero, hj, hget,
    mem_write_set v _ _ (by omega : k * s p / 256 < v.length)]
  rfl

theorem knuth_b_first_byte (k : Nat) (hk2 : 2 ≤ k) (hk : k ≤ 255) :
    (∀ s : Nat → Nat, (∀ i, s i < 256) → s (k * s k / 256) ≠ s 0 →
      knuth_b_stream (stream_collaborators s) 0 k 1 = some [s (k * s k / 256)]
      ∧ source_stream (stream_collaborators s) 0 1 = some [s 0]
      ∧ knuth_b_stream (stream_collaborators s) 0 k 1
          ≠ source_stream (stream_collaborators s) 0 1)
    ∧ (∀ i, spike_stream (i + 256) = spike_stream i) ∧ (∀ i, spike_stream i < 256)
    ∧ spike_stream (k * spike_stream k / 256) ≠ spike_stream 0 := by
  refine ⟨?_, ?_, ?_, ?_⟩
  · intro s hs hdiff
    obtain ⟨_, hjk⟩ := knuth_index k (s k) (by omega) hk (hs k)
    have hb : knuth_b_stream (stream_collaborators s) 0 k 1 = some [s (k * s k / 256)] := by
      have hvl : ((List.range k).map s).length = k := by
        rw [List.length_map, List.length_range]
      have hvj : ((List.range k).map s).getD (k * s k / 256) 0 = s (k * s k / 256) := by
        rw [List.getD_eq_getElem?_getD, List.getElem?_map, List.getElem?_range hjk]
        rfl
      unfold knuth_b_stream
      rw [stream_create_knuth_b s hs k hk]
      simp only [Option.some_bind, ak_random_ptr]
      rw [if_neg (by decide), if_neg (by
        show ¬ ((knuth_b_handle k k ((List.range k).map s) 0).random = none)
        exact Option.some_ne_none _)]
      unfold call_random
      simp only [show (knuth_b_handle k k ((List.range k).map s) 0).random
        = some fn_random.knuth_b from rfl]
      unfold ak_random_knuth_b_random
      have h2 : ((1 : Nat) : Int).toNat + 1 = 1 + 1 := rfl
      rw [h2, ak_random_knuth_random_loop]
      rw [if_pos (by decide), stream_knuth_b_next s hs k k 0 _ (by omega) hk hvl]
      simp only [Option.bind_eq_bind, Option.some_bind, ne_eq, not_true_eq_false, if_false]
      have hbyte : knuth_b_byte (knuth_b_handle (k + 1 + 1) k
          (((List.range k).map s).set (k * s k / 256) (s (k + 1)))
          (((List.range k).map s).getD (k * s k / 256) 0))
          = some (((List.range k).map s).getD (k * s k / 256) 0) := rfl
      rw [hbyte]
      simp only [Option.some_bind]
      have hw : mem_write (List.replicate 1 0) 0 [((List.range k).map s).getD (k * s k / 256) 0]
          = some [((List.range k).map s).getD (k * s k / 256) 0] := rfl
      rw [hw]
      simp only [Option.some_bind]
      rw [ak_random_knuth_random_loop, if_neg (by decide), hvj]
      rfl
    have hr : source_stream (stream_collaborators s) 0 1 = some [s 0] := by
      unfold source_stream
      have := stream_random_one s hs 0 0
      show ((stream_collaborators s).source_random 0 [0] 1).map _ = _
      rw [this]
      rfl
    refine ⟨hb, hr, ?_⟩
    rw [hb, hr]
    intro h
    exact hdiff (List.head_eq_of_cons_eq (Option.some.inj h))
  · intro i
    unfold spike_stream
    rw [Nat.add_mod_right]
  · intro i
    unfold spike_stream
    split <;> decide
  · have e1 : spike_stream k = 255 := by
      unfold spike_stream
      rw [if_neg (by omega)]
    have e2 : k * 255 / 256 = k - 1 := by omega
    have e3 : spike_stream (k - 1) = 255 := by
      unfold spike_stream
      rw [if_neg (by omega)]
    rw [e1, e2, e3]
    decide

theorem knuth_b_period_three_prefix :
    knuth_b_stream (stream_collaborators period_three_stream) 0 2 9
        = some [2, 2, 1, 2, 2, 1, 2, 2, 1]
    ∧ source_stream (stream_collaborators period_three_stream) 0 9
        = some [2, 2, 1, 2, 2, 1, 2, 2, 1] := by
  constructor
  · set_option maxRecDepth 100000 in rfl
  · set_option maxRecDepth 100000 in rfl

theorem lcg_advance_spec (v : Nat) : lcg_advance v = lcg_spec_advance v := by
  show (506098983240188723 + 125643267795740073 * v % 2 ^ 64) % 2 ^ 64
    = (506098983240188723 + 125643267795740073 * v) % 2 ^ 64
  rw [Nat.add_mod, Nat.mod_mod, ← Nat.add_mod]

theorem lcg_seed_fold_spec : ∀ (s : List Nat) (v : Nat),
    lcg_seed_fold s v = s.foldl (fun x b => lcg_spec_fold b x) v := by
  intro s
  induction s with
  | nil => intro v; rfl
  | cons b bs ih =>
    intro v
    rw [lcg_seed_fold, ih, List.foldl_cons, lcg_advance_spec]
    rfl

/-- C21: for every non-empty seed `b_0 .. b_(n-1)`, `ak_random_randomize` on a
linear congruential generator returns `ak_error_ok` and sets the 64-bit state to
`A(F(b_(n-1), ... F(b_1, F(b_0, b_0)) ...))`, where `A(x) = a*x + c mod 2^64` is
one advance and `F(b, x) = A(x) + b mod 2^64`: starting from `x = b_0`, one
advance-and-add per seed byte, then one more advance. -/
theorem C21_lcg_seeding {S : Type} (E : collaborators S) (h : random S) (s : List Nat)
    (hh : lcg_handle h) (hs : s ≠ []) :
    ak_random_randomize E (some h) (some s) ((s.length : Nat) : Int)
      = some (ak_error_ok, some (set_val h (lcg_spec_seed s))) := by
  rw [ak_random_randomize_lcg E h s hh hs, lcg_advance_spec, lcg_seed_fold_spec]
  rfl

/-- Concrete check of C21: the seed 1, 2, 3. -/
theorem C21_lcg_seeding_witness :
    ak_random_randomize sample_collaborators (some (sample_lcg_handle 0)) (some [1, 2, 3])
        ((([1, 2, 3] : List Nat).length : Nat) : Int)
      = some (ak_error_ok, some (set_val (sample_lcg_handle 0) (lcg_spec_seed [1, 2, 3]))) :=
  C21_lcg_seeding sample_collaborators (sample_lcg_handle 0) [1, 2, 3] ⟨rfl, rfl, rfl⟩
    (by decide)

theorem lcg_bytes_get : ∀ (n i v : Nat), i < n →
    (lcg_bytes n v)[i]? = some (lcg_advance^[i] v / 2 ^ 16 % 256) := by
  intro n
  induction n with
  | zero => intro i v hi; omega
  | succ n ih =>
    intro i v hi
    rw [lcg_bytes_succ]
    cases i with
    | zero => rw [List.getElem?_cons_zero, Function.iterate_zero_apply]
    | succ i =>
      rw [List.getElem?_cons_succ, ih i (lcg_advance v) (by omega), Function.iterate_succ_apply]

/-- C22 (as stated, refuted): a linear congruential generator seeded with the
byte 1 holds the state 2090936525808594456; the first byte it emits is 181,
bits 16-23 of that state itself, not 113, bits 16-23 of the state after one
advance, which is the second byte emitted. -/
theorem C22_lcg_extraction_order_counterexample :
    lcg_history = some (some 2090936525808594456, some [181, 113])
    ∧ 2090936525808594456 / 2 ^ 16 % 256 = 181
    ∧ lcg_advance 2090936525808594456 / 2 ^ 16 % 256 = 113 := by
  refine ⟨?_, by decide, by decide⟩
  set_option maxRecDepth 100000 in rfl

/-- C22 (amended): for every state `x` of a linear congruential generator and
every `n >= 1`, `ak_random_ptr` of `n` bytes returns `ak_error_ok`, byte `i`
(`0 <= i < n`) is bits 16-23 of the state reached after `i` advances from `x`
(each byte is emitted before the advance, the first from `x` itself), and the
state left behind is the one reached after `n` advances. -/
theorem C22_lcg_extraction_order {S : Type} (E : collaborators S) (g : random S)
    (out : List Nat) (n : Nat) (hg : lcg_handle g) (h1 : 1 ≤ n) (hlen : out.length = n) :
    ∃ bytes : List Nat,
      ak_random_ptr E (some g) (some out) (n : Int)
        = some (ak_error_ok, some (set_val g (lcg_advance^[n] g.data.val)), some bytes)
      ∧ bytes.length = n
      ∧ ∀ i, i < n → bytes[i]? = some (lcg_advance^[i] g.data.val / 2 ^ 16 % 256) :=
  ⟨lcg_bytes n g.data.val, ak_random_ptr_lcg E g out n hg h1 hlen,
    lcg_bytes_length n g.data.val, fun i hi => lcg_bytes_get n i g.data.val hi⟩

/-- Concrete check of C22 (amended): state 5, three bytes. -/
theorem C22_lcg_extraction_order_witness :
    ∃ bytes : List Nat,
      ak_random_ptr sample_collaborators (some (sample_lcg_handle 5)) (some [0, 0, 0])
          ((3 : Nat) : Int)
        = some (ak_error_ok,
            some (set_val (sample_lcg_handle 5) (lcg_advance^[3] (sample_lcg_handle 5).data.val)),
            some bytes)
      ∧ bytes.length = 3
      ∧ ∀ i, i < 3 →
          bytes[i]? = some (lcg_advance^[i] (sample_lcg_handle 5).data.val / 2 ^ 16 % 256) :=
  C22_lcg_extraction_order sample_collaborators (sample_lcg_handle 5) [0, 0, 0] 3
    ⟨rfl, rfl, rfl⟩ (by decide) rfl

/-- C23 (the code departs from its documentation): the doc comment of
`ak_random_create_lcg` gives the output byte as
`(x - (x mod 2^24)) / 2^24 mod 256`, bits 24-31 of the state; the code emits
`(ak_uint8)( val >> 16 )`, bits 16-23. A generator seeded with the byte 1 holds
the state 2090936525808594456 and emits 181 first, where the documented formula
gives 36. -/
theorem C23_lcg_documented_byte :
    lcg_history.map (fun r => (r.1, r.2.map (fun bytes => bytes.head?)))
      = some (some 2090936525808594456, some (some 181))
    ∧ lcg_documented_byte 2090936525808594456 = 36
    ∧ 2090936525808594456 / 2 ^ 16 % 256 = 181 := by
  refine ⟨?_, by decide, by decide⟩
  set_option maxRecDepth 100000 in rfl

/-! ### The recurrences of the congruential generators -/

/-- C24 (the code departs from the claim): the first advance of the generator
that `ak_random_create_qcg` builds (state `0x8299`, default `a`, `c`, `d`, `m`)
leaves `xn = 1405480468`, because the product `a * xn` exceeds `2^32` and wraps
in the 32-bit arithmetic of `ak_random_qcg_next`; `(d*x^2 + a*x + c) mod m` in
exact arithmetic is 1405480480. The parameters are left as they were. -/
theorem C24_qcg_recurrence_wraps :
    ak_random_qcg_next sample_qcg_handle
        = some (ak_error_ok, set_ctx sample_qcg_handle (context.qcg
            { xn := 1405480468, d := 0x2, a := 0x57FF7, c := 0x418693, m := 0xFFFFFFFC }))
    ∧ qcg_spec_advance 0x8299 0x57FF7 0x418693 0x2 0xFFFFFFFC = 1405480480
    ∧ 2 ^ 32 < 0x57FF7 * 0x8299 := by
  refine ⟨?_, by decide, by decide⟩
  rfl

theorem word32_of_bytes_lt (bs : List Nat) : word32_of_bytes bs < 2 ^ 32 := by
  unfold word32_of_bytes
  have h0 : bs.getD 0 0 % 256 < 256 := Nat.mod_lt _ (by decide)
  have h1 : bs.getD 1 0 % 256 < 256 := Nat.mod_lt _ (by decide)
  have h2 : bs.getD 2 0 % 256 < 256 := Nat.mod_lt _ (by decide)
  have h3 : bs.getD 3 0 % 256 < 256 := Nat.mod_lt _ (by decide)
  norm_num
  omega

theorem read_word32_lt (ptr : List Nat) (idx w : Nat) (h : read_word32 ptr idx = some w) :
    w < 2 ^ 32 := by
  unfold read_word32 at h
  cases hr : mem_read ptr (4 * idx) 4 with
  | none => rw [hr] at h; exact absurd h (by simp)
  | some bs =>
    rw [hr] at h
    have := Option.some.inj h
    rw [← this]
    exact word32_of_bytes_lt bs

theorem coveyou_advance_exact (c : random_quadratic_coveyou_method) (hr : coveyou_reachable c)
    (hm : c.m ≠ 0) :
    coveyou_advance c = { x := c.x * (c.x + 1) % c.m, m := c.m }
      ∧ coveyou_reachable (coveyou_advance c) := by
  obtain ⟨hm32, hx⟩ := hr
  have hp : (2 : Nat) ^ 32 = 4294967296 := by norm_num
  have hq : (2 : Nat) ^ 64 = 4294967296 * 4294967296 := by norm_num
  rw [hp] at hm32 hx
  have hx1 : c.x + 1 < 4294967296 := by omega
  have hx2 : (c.x + 1) % 2 ^ 32 = c.x + 1 := by rw [hp]; exact Nat.mod_eq_of_lt hx1
  have hprod : c.x * (c.x + 1) < 2 ^ 64 := by
    rw [hq]
    exact Nat.mul_lt_mul'' (by omega) hx1
  have e : coveyou_advance c = { x := c.x * (c.x + 1) % c.m, m := c.m } := by
    unfold coveyou_advance
    rw [hx2, Nat.mod_eq_of_lt hprod]
  refine ⟨e, ?_⟩
  rw [e]
  refine ⟨by rw [hp]; exact hm32, Or.inr ?_⟩
  exact Nat.mod_lt _ (Nat.pos_of_ne_zero hm)

/-- C26: for every reachable state of the Coveyou generator (32-bit fields, `x`
installed by a successful seeding, so `x mod 4 = 2`, or left by an advance) with
`m != 0`, one advance through the `next` slot sets `x` to `x*(x+1) mod m` as
computed in exact integer arithmetic, leaves `m` unchanged, and the new state
is reachable again; every state that a successful
`ak_random_coveyou_randomize_ptr` installs is reachable. -/
theorem C26_coveyou_recurrence {S : Type} (E : collaborators S) (g : random S)
    (c : random_quadratic_coveyou_method) (hn : g.next = some fn_next.coveyou)
    (hm32 : c.m < 2 ^ 32) :
    (coveyou_reachable c → c.m ≠ 0 →
      call_next E (set_ctx g (context.coveyou c))
          = some (ak_error_ok, set_ctx g (context.coveyou
              { x := c.x * (c.x + 1) % c.m, m := c.m }))
      ∧ coveyou_reachable { x := c.x * (c.x + 1) % c.m, m := c.m })
    ∧ (∀ (ptr : List Nat) (size : Int) (r : random S),
        ak_random_coveyou_randomize_ptr (set_ctx g (context.coveyou c)) ptr size
            = some (ak_error_ok, r) →
        ∃ c1, r = set_ctx g (context.coveyou c1) ∧ coveyou_reachable c1 ∧ c1.x % 4 = 2) := by
  constructor
  · intro hr hm
    obtain ⟨e, hreach⟩ := coveyou_advance_exact c hr hm
    rw [e] at hreach
    refine ⟨?_, hreach⟩
    unfold call_next
    rw [set_ctx_next, hn]
    simp only []
    unfold ak_random_coveyou_next
    rw [set_ctx_ctx]
    simp only []
    rw [if_neg hm, e, set_ctx_set_ctx]
  · intro ptr size r hseed
    unfold ak_random_coveyou_randomize_ptr at hseed
    split at hseed
    · exact absurd (Prod.mk.inj (Option.some.inj hseed)).1 (by decide)
    · cases hw0 : read_word32 ptr 0 with
      | none => rw [hw0] at hseed; exact absurd hseed (by simp)
      | some w0 =>
        rw [hw0] at hseed
        simp only [Option.bind_eq_bind, Option.some_bind, set_ctx_ctx] at hseed
        have hw0lt := read_word32_lt ptr 0 w0 hw0
        split at hseed
        · exact absurd (Prod.mk.inj (Option.some.inj hseed)).1 (by decide)
        · rename_i hv
          have hv2 : w0 % 4 = 2 := not_not.mp hv
          split at hseed
          · have hr := (Prod.mk.inj (Option.some.inj hseed)).2
            exact ⟨_, hr.symm, ⟨hm32, Or.inl ⟨hw0lt, hv2⟩⟩, hv2⟩
          · cases hw1 : read_word32 ptr 1 with
            | none => rw [hw1] at hseed; exact absurd hseed (by simp)
            | some w1 =>
              rw [hw1] at hseed
              simp only [Option.some_bind, set_ctx_set_ctx] at hseed
              have hr := (Prod.mk.inj (Option.some.inj hseed)).2
              exact ⟨_, hr.symm, ⟨read_word32_lt ptr 1 w1 hw1, Or.inl ⟨hw0lt, hv2⟩⟩, hv2⟩

/-- Concrete check of C26: the generator that `ak_random_create_coveyou`
builds. -/
theorem C26_coveyou_recurrence_witness :
    call_next sample_collaborators sample_coveyou_handle
        = some (ak_error_ok, set_ctx sample_coveyou_handle (context.coveyou
            { x := 0x380316 * (0x380316 + 1) % 0xFFFFFFFB, m := 0xFFFFFFFB }))
    ∧ coveyou_reachable { x := 0x380316 * (0x380316 + 1) % 0xFFFFFFFB, m := 0xFFFFFFFB } :=
  (C26_coveyou_recurrence sample_collaborators sample_coveyou_handle
    { x := 0x380316, m := 0xFFFFFFFB } rfl (by decide)).1
    ⟨by decide, Or.inl ⟨by decide, by decide⟩⟩ (by decide)

theorem gck_next_outside {S : Type} (E : collaborators S) (g : random S) (c : random_gck)
    (xs : List Nat) (hn : g.next = some fn_next.gck) (hx : c.x = pointer.live xs)
    (hk : xs.length = c.k) (h2 : 2 ≤ c.k) :
    call_next E (set_ctx g (context.gck c)) = none := by
  have hread : mem_read xs 4 (c.k - 1) = none := by
    unfold mem_read
    rw [if_neg (by omega)]
  have h0 : xs[0]? = some (xs.getD 0 0) := by
    rw [List.getD_eq_getElem?_getD, List.getElem?_eq_getElem (by omega)]
    rfl
  unfold call_next
  rw [set_ctx_next, hn]
  simp only []
  unfold ak_random_gck_next
  rw [set_ctx_ctx]
  simp only [hx, h0, Option.bind_eq_bind, Option.some_bind, hread, Option.none_bind]
  split <;> rfl

/-- C27 (the code departs from the claim): on the generator that
`ak_random_create_gck` builds (a block of `k = 45` words) the advance has no
result: `ak_random_gck_next` copies `k - 1` words from
`gck->x + sizeof(ak_uint32)`, the address of `x[4]`, that is the words
`x[4] .. x[k+2]`, three of them beyond the block. Where the memory beyond the
block is readable (a block of 2 words followed by 3 more), the word that
arrives at the front of the block is `x[4]`, not `x[1]`. -/
theorem C27_gck_advance_reads_outside :
    call_next sample_collaborators (gck_created sample_collaborators) = none
    ∧ mem_read random_gck_init 4 (45 - 1) = none
    ∧ (mem_read random_gck_init 1 (45 - 1)).isSome = true
    ∧ call_next sample_collaborators sample_gck_wide_handle
      = some (ak_error_ok, set_ctx sample_gck_wide_handle (context.gck
          { next := (9 + 10) % 100, k := 2, x := pointer.live [14, 9, 12, 13, 14], m := 100 }))
    := by
  refine ⟨?_, by decide, by decide, rfl⟩
  exact gck_next_outside sample_collaborators (gck_created sample_collaborators)
    { next := 0, k := 45, x := pointer.live random_gck_init, m := random_gck_m }
    random_gck_init rfl rfl rfl (by decide)

/-- C28: for every state of the Mitchell-Moore generator with a block of 55
32-bit words, current word `next` and `m != 0`, one advance through the `next`
slot returns `ak_error_ok`, sets the current word to `(x[0] + x[30]) mod m` as
computed in exact arithmetic, moves the block down by one place
(`x'[i] = x[i+1]` for `i < 54`), stores the previous current word at `x'[54]`
and leaves `m` unchanged. -/
theorem C28_mitchel_advance {S : Type} (E : collaborators S) (g : random S)
    (c : random_mitchel) (xs : List Nat) (hn : g.next = some fn_next.mitchel)
    (hx : c.x = pointer.live xs) (hlen : xs.length = 55) (hw : ∀ w ∈ xs, w < 2 ^ 32)
    (hm : c.m ≠ 0) :
    ∃ xs1 : List Nat,
      call_next E (set_ctx g (context.mitchel c))
        = some (ak_error_ok, set_ctx g (context.mitchel
            { next := (xs.getD 0 0 + xs.getD 30 0) % c.m, x := pointer.live xs1, m := c.m }))
      ∧ xs1.length = 55
      ∧ (∀ i, i < 54 → xs1[i]? = xs[i + 1]?)
      ∧ xs1[54]? = some c.next := by
  have h0 : xs[0]? = some (xs.getD 0 0) := by
    rw [List.getD_eq_getElem?_getD, List.getElem?_eq_getElem (by omega)]
    rfl
  have h30 : xs[30]? = some (xs.getD 30 0) := by
    rw [List.getD_eq_getElem?_getD, List.getElem?_eq_getElem (by omega)]
    rfl
  have b0 : xs.getD 0 0 < 2 ^ 32 := by
    rw [List.getD_eq_getElem?_getD, List.getElem?_eq_getElem (by omega)]
    exact hw _ (List.getElem_mem _)
  have b30 : xs.getD 30 0 < 2 ^ 32 := by
    rw [List.getD_eq_getElem?_getD, List.getElem?_eq_getElem (by omega)]
    exact hw _ (List.getElem_mem _)
  have hsum : (xs.getD 0 0 + xs.getD 30 0) % 2 ^ 64 = xs.getD 0 0 + xs.getD 30 0 := by
    have hp : (2 : Nat) ^ 32 = 4294967296 := by norm_num
    have hq : (2 : Nat) ^ 64 = 18446744073709551616 := by norm_num
    rw [hp] at b0 b30
    rw [hq]
    omega
  have hread : mem_read xs 1 54 = some (xs.drop 1) := by
    rw [mem_read_some xs 1 54 (by omega),
      List.take_of_length_le (by rw [List.length_drop]; omega)]
  have hw1 : mem_write xs 0 (xs.drop 1) = some (xs.drop 1 ++ xs.drop 54) := by
    rw [mem_write_front xs (xs.drop 1) (by rw [List.length_drop]; omega), List.length_drop,
      hlen]
  have hd54 : xs.drop 54 = xs.getD 54 0 :: [] := by
    have h54 : 54 < xs.length := by omega
    rw [List.drop_eq_getElem_cons h54, List.drop_of_length_le (by omega),
      List.getD_eq_getElem?_getD, List.getElem?_eq_getElem h54]
    rfl
  have hw2 : mem_write (xs.drop 1 ++ xs.drop 54) 54 [c.next]
      = some (xs.drop 1 ++ c.next :: []) := by
    have hl : (xs.drop 1).length = 54 := by rw [List.length_drop]; omega
    have := mem_write_mid (xs.drop 1) (xs.getD 54 0) c.next []
    rw [hl] at this
    rw [hd54]
    exact this
  refine ⟨xs.drop 1 ++ c.next :: [], ?_, ?_, ?_, ?_⟩
  · unfold call_next
    rw [set_ctx_next, hn]
    simp only []
    unfold ak_random_mitchel_next
    rw [set_ctx_ctx]
    simp only [hx, h0, h30, Option.bind_eq_bind, Option.some_bind, if_neg hm, hread, hw1, hw2,
      hsum, set_ctx_set_ctx]
  · rw [List.length_append, List.length_drop, List.length_singleton]
    omega
  · intro i hi
    rw [List.getElem?_append_left (by rw [List.length_drop]; omega), List.getElem?_drop,
      Nat.add_comm]
  · have hl : (xs.drop 1).length = 54 := by rw [List.length_drop]; omega
    have := getElem_mid (xs.drop 1) c.next []
    rw [hl] at this
    exact this

/-- Concrete check of C28: the handle with the slots, the modulus and the 55
words of `init` that `ak_random_create_mitchel` installs. -/
theorem C28_mitchel_advance_witness :
    ∃ xs1 : List Nat,
      call_next sample_collaborators (sample_mitchel_handle 0 random_mitchel_init)
        = some (ak_error_ok, set_ctx (sample_mitchel_handle 0 random_mitchel_init)
            (context.mitchel
              { next := (random_mitchel_init.getD 0 0 + random_mitchel_init.getD 30 0)
                  % random_mitchel_m,
                x := pointer.live xs1, m := random_mitchel_m }))
      ∧ xs1.length = 55
      ∧ (∀ i, i < 54 → xs1[i]? = random_mitchel_init[i + 1]?)
      ∧ xs1[54]? = some 0 :=
  C28_mitchel_advance sample_collaborators (sample_mitchel_handle 0 random_mitchel_init)
    { next := 0, x := pointer.live random_mitchel_init, m := random_mitchel_m }
    random_mitchel_init rfl rfl rfl (by decide) (by decide)

/-! ### Extraction from the additive Fibonacci generator -/

theorem fibonachi_advance_spec (f : random_fibonachi) (hw : fibonachi_wf f) :
    fibonachi_advance f = fibonachi_spec_advance f ∧ fibonachi_wf (fibonachi_spec_advance f) := by
  obtain ⟨hm0, hm, hx, hp⟩ := hw
  have hp32 : (2 : Nat) ^ 32 = 4294967296 := by norm_num
  have hp64 : (2 : Nat) ^ 64 = 18446744073709551616 := by norm_num
  have hsum : (f.xn + f.xprev) % 2 ^ 64 = f.xn + f.xprev := by
    rw [hp32] at hx hp
    rw [hp64]
    omega
  have e : fibonachi_advance f = fibonachi_spec_advance f := by
    unfold fibonachi_advance fibonachi_spec_advance
    rw [hsum]
  refine ⟨e, hm0, hm, ?_, hx⟩
  exact Nat.lt_trans (Nat.mod_lt _ (Nat.pos_of_ne_zero hm0)) hm

theorem call_next_fibonachi {S : Type} (E : collaborators S) (h : random S)
    (f : random_fibonachi) (hn : h.next = some fn_next.fibonachi) (hw : fibonachi_wf f) :
    call_next E (set_ctx h (context.fibonachi f))
      = some (ak_error_ok, set_ctx h (context.fibonachi (fibonachi_spec_advance f))) := by
  unfold call_next
  rw [set_ctx_next, hn]
  simp only []
  unfold ak_random_fibonachi_next
  rw [set_ctx_ctx]
  simp only []
  rw [if_neg hw.1, set_ctx_set_ctx, (fibonachi_advance_spec f hw).1]

theorem three_bytes_blocks_get {α : Type} (step : α → α) (word : α → Nat) :
    ∀ (k q r : Nat) (a : α), q < k → r < 3 →
      (three_bytes_blocks step word k a)[3 * q + r]?
        = some (byte_of_word (word (step^[q + 1] a)) (r + 1)) := by
  intro k
  induction k with
  | zero => intro q r a hq _; omega
  | succ k ih =>
    intro q r a hq hr
    rw [three_bytes_blocks_succ]
    cases q with
    | zero =>
      rw [Nat.mul_zero, Nat.zero_add,
        List.getElem?_append_left (by show r < 3; exact hr)]
      match r, hr with
      | 0, _ => rfl
      | 1, _ => rfl
      | 2, _ => rfl
    | succ q =>
      have e : 3 * (q + 1) + r = (three_bytes (word (step a))).length + (3 * q + r) := by
        show _ = 3 + (3 * q + r)
        omega
      rw [e, List.getElem?_append_right (Nat.le_add_right _ _), Nat.add_sub_cancel_left,
        ih q r (step a) (by omega) hr]
      rfl

/-- C25: for every state of the additive Fibonacci generator (32-bit words,
`m != 0`) and every `n >= 1`, `ak_random_ptr` of `n` bytes returns `ak_error_ok`,
leaves the state reached after `ceil(n/3)` steps of
`x_(j+1) = (x_j + x_(j-1)) mod m` (the pair shifted at each step), and output
byte `3q + r` (`r` in `0..2`) is bits `8(r+1) .. 8(r+1)+7` of `x_(q+1)`: the three
high bytes of each new word, the lowest of them first, the low byte never. -/
theorem C25_fibonachi_extraction {S : Type} (E : collaborators S) (h : random S)
    (f : random_fibonachi) (buf : List Nat) (n : Nat) (hh : fibonachi_handle h)
    (hw : fibonachi_wf f) (h1 : 1 ≤ n) (hlen : buf.length = n) :
    ∃ bytes : List Nat,
      ak_random_ptr E (some (set_ctx h (context.fibonachi f))) (some buf) (n : Int)
        = some (ak_error_ok,
            some (set_ctx h (context.fibonachi (fibonachi_spec_advance^[(n + 2) / 3] f))),
            some bytes)
      ∧ bytes.length = n
      ∧ ∀ q r, r < 3 → 3 * q + r < n →
          bytes[3 * q + r]?
            = some ((fibonachi_spec_advance^[q + 1] f).xn / 2 ^ (8 * (r + 1)) % 256) := by
  have hpos : ¬ ((n : Int) ≤ 0) := by omega
  have hr : ¬ ((set_ctx h (context.fibonachi f)).random = none) := by
    rw [set_ctx_random, hh.2]; exact Option.some_ne_none _
  have hloop := three_bytes_loop_eq E fibonachi_word (fun q => set_ctx h (context.fibonachi q))
    fibonachi_spec_advance (fun q => q.xn) fibonachi_wf
    (fun a ha => ⟨call_next_fibonachi E h a hh.1 ha, (fibonachi_advance_spec a ha).2,
      (by unfold fibonachi_word; rw [set_ctx_ctx])⟩)
    (n + 1) f [] buf [] hw (by omega)
  rw [List.length_nil, Nat.zero_add, List.nil_append, List.append_nil, List.nil_append,
    List.append_nil, hlen] at hloop
  refine ⟨(three_bytes_blocks fibonachi_spec_advance (fun q => q.xn) ((n + 2) / 3) f).take n,
    ?_, ?_, ?_⟩
  · simp only [ak_random_ptr]
    rw [if_neg hpos, if_neg hr]
    unfold call_random
    rw [set_ctx_random, hh.2]
    simp only []
    unfold ak_random_fibonachi_random
    rw [if_neg hpos, Int.toNat_ofNat, hloop]
    rfl
  · rw [List.length_take, three_bytes_blocks_length]
    omega
  · intro q r hr3 hlt
    rw [List.getElem?_take_of_lt hlt,
      three_bytes_blocks_get fibonachi_spec_advance (fun q => q.xn) ((n + 2) / 3) q r f
        (by omega) hr3]
    rfl

/-- Concrete check of C25: the generator that `ak_random_create_fibonachi`
builds, four bytes (two advances). -/
theorem C25_fibonachi_extraction_witness :
    ∃ bytes : List Nat,
      ak_random_ptr sample_collaborators (some sample_fibonachi_handle) (some [0, 0, 0, 0])
          ((4 : Nat) : Int)
        = some (ak_error_ok,
            some (set_ctx sample_fibonachi_handle (context.fibonachi
              (fibonachi_spec_advance^[(4 + 2) / 3]
                { xn := 0x4E5F6A7B, xprev := 0xA1B2C3D4, m := 0xFFFFFFFB }))),
            some bytes)
      ∧ bytes.length = 4
      ∧ ∀ q r, r < 3 → 3 * q + r < 4 →
          bytes[3 * q + r]?
            = some ((fibonachi_spec_advance^[q + 1]
                { xn := 0x4E5F6A7B, xprev := 0xA1B2C3D4, m := 0xFFFFFFFB }).xn
              / 2 ^ (8 * (r + 1)) % 256) :=
  C25_fibonachi_extraction sample_collaborators sample_fibonachi_handle
    { xn := 0x4E5F6A7B, xprev := 0xA1B2C3D4, m := 0xFFFFFFFB } [0, 0, 0, 0] 4 ⟨rfl, rfl⟩
    ⟨by decide, by decide, by decide, by decide⟩ (by decide) rfl

/-! ### Seeding of the nonlinear feedback shift register -/

theorem nlfsr_truncate (v n : Nat) (hn1 : 1 ≤ n) (hn : n ≤ 32) :
    shr32 (shl32 v ((64 + (2 ^ 64 - n % 2 ^ 64)) % 2 ^ 64))
        ((64 + (2 ^ 64 - n % 2 ^ 64)) % 2 ^ 64)
      = v % 2 ^ n := by
  have e64 : (2 : Nat) ^ 64 = 18446744073709551616 := by norm_num
  have hc : (64 + (2 ^ 64 - n % 2 ^ 64)) % 2 ^ 64 % 32 = 32 - n := by
    rw [e64]
    omega
  have h32 : (2 : Nat) ^ 32 = 2 ^ n * 2 ^ (32 - n) := by
    rw [← Nat.pow_add]
    congr 1
    omega
  unfold shl32 shr32
  rw [hc, h32, Nat.mul_mod_mul_right, Nat.mul_div_cancel _ (Nat.two_pow_pos _)]

theorem nlfsr_pack (x b : Nat) (hx : x < 16777216) (hb : b < 256) :
    (x * 2 ^ 8 % 2 ^ 32 + b) % 2 ^ 32 = 256 * x + b := by
  have e32 : (2 : Nat) ^ 32 = 4294967296 := by norm_num
  have e8 : (2 : Nat) ^ 8 = 256 := by norm_num
  rw [e32, e8]
  omega

theorem nlfsr_randomize_eq {S : Type} (g : random S) (s0 L N n : Nat) (seed : List Nat)
    (hn1 : 1 ≤ n) (hn : n ≤ 32) (hlen : 1 ≤ seed.length) (hb : ∀ b ∈ seed, b < 256) :
    ak_random_nlfsr_randomize_ptr
        (set_ctx g (context.nlfsr
          { state := s0, linear_part := L, nonlinear_part := N, n := n }))
        seed (seed.length : Int)
      = some (ak_error_ok, set_ctx g (context.nlfsr
          { state := nlfsr_seed_value seed % 2 ^ n, linear_part := L, nonlinear_part := N,
            n := n })) := by
  have e32 : (2 : Nat) ^ 32 = 4294967296 := by norm_num
  have e8 : (2 : Nat) ^ 8 = 256 := by norm_num
  have hpos : ¬ ((seed.length : Int) ≤ 0) := by omega
  unfold ak_random_nlfsr_randomize_ptr
  rw [if_neg hpos, set_ctx_ctx]
  simp only [set_ctx_set_ctx]
  match seed, hlen, hb with
  | [a], _, hb =>
    have ha : a < 256 := hb a (by simp)
    have hv : nlfsr_seed_value [a] = a := by
      show 256 * 0 + a = a
      omega
    simp only [List.length_singleton, List.getElem?_cons_zero, Option.bind_eq_bind,
      Option.some_bind, Nat.cast_one, gt_iff_lt, lt_self_iff_false, if_false,
      show ¬ ((3 : Int) < 1) by decide, show ¬ ((2 : Int) < 1) by decide,
      nlfsr_truncate _ n hn1 hn, hv]
  | [a, b], _, hb =>
    have ha : a < 256 := hb a (by simp)
    have hb1 : b < 256 := hb b (by simp)
    have hv : nlfsr_seed_value [a, b] = 256 * a + b := by
      show 256 * (256 * 0 + a) + b = _
      omega
    have hl : (([a, b] : List Nat).length : Int) = 2 := rfl
    rw [hl]
    simp only [List.getElem?_cons_zero, List.getElem?_cons_succ, Option.bind_eq_bind,
      Option.some_bind, Option.map_some', gt_iff_lt, show ((1 : Int) < 2) by decide,
      show ¬ ((2 : Int) < 2) by decide, show ¬ ((3 : Int) < 2) by decide, if_true, if_false,
      nlfsr_pack a b (by omega) hb1, nlfsr_truncate _ n hn1 hn, hv]
  | [a, b, c], _, hb =>
    have ha : a < 256 := hb a (by simp)
    have hb1 : b < 256 := hb b (by simp)
    have hc1 : c < 256 := hb c (by simp)
    have hv : nlfsr_seed_value [a, b, c] = 256 * (256 * a + b) + c := by
      show 256 * (256 * (256 * 0 + a) + b) + c = _
      omega
    have hl : (([a, b, c] : List Nat).length : Int) = 3 := rfl
    rw [hl]
    simp only [List.getElem?_cons_zero, List.getElem?_cons_succ, Option.bind_eq_bind,
      Option.some_bind, Option.map_some', gt_iff_lt, show ((1 : Int) < 3) by decide,
      show ((2 : Int) < 3) by decide, show ¬ ((3 : Int) < 3) by decide, if_true, if_false,
      nlfsr_pack a b (by omega) hb1, nlfsr_pack (256 * a + b) c (by omega) hc1,
      nlfsr_truncate _ n hn1 hn, hv]
  | a :: b :: c :: d :: rest, _, hb =>
    have ha : a < 256 := hb a (by simp)
    have hb1 : b < 256 := hb b (by simp)
    have hc1 : c < 256 := hb c (by simp)
    have hd1 : d < 256 := hb d (by simp)
    have hv : nlfsr_seed_value (a :: b :: c :: d :: rest)
        = 256 * (256 * (256 * a + b) + c) + d := by
      show 256 * (256 * (256 * (256 * 0 + a) + b) + c) + d = _
      omega
    have h1 : (1 : Int) < ((a :: b :: c :: d :: rest).length : Int) := by
      simp only [List.length_cons]; omega
    have h2 : (2 : Int) < ((a :: b :: c :: d :: rest).length : Int) := by
      simp only [List.length_cons]; omega
    have h3 : (3 : Int) < ((a :: b :: c :: d :: rest).length : Int) := by
      simp only [List.length_cons]; omega
    simp only [List.getElem?_cons_zero, List.getElem?_cons_succ, Option.bind_eq_bind,
      Option.some_bind, Option.map_some', gt_iff_lt, h1, h2, h3, if_true,
      nlfsr_pack a b (by omega) hb1, nlfsr_pack (256 * a + b) c (by omega) hc1,
      nlfsr_pack (256 * (256 * a + b) + c) d (by omega) hd1,
      nlfsr_truncate _ n hn1 hn, hv]

/-- C30: for every register length `n` from 1 to 32, every seed of `len >= 1`
bytes and every previous register value `s0`, `ak_random_randomize` on a
generator of the class `nlfsr` returns `ak_error_ok` and leaves the register at
the value of the first `min( len, 4 )` seed bytes, first byte highest, reduced
modulo `2^n`, which is below `2^n` and does not depend on `s0`; the masks and `n`
are as before. -/
theorem C30_nlfsr_seeding {S : Type} (E : collaborators S) (g : random S) (s0 L N n : Nat)
    (seed : List Nat) (hr : g.randomize_ptr = some fn_randomize.nlfsr) (hn1 : 1 ≤ n)
    (hn : n ≤ 32) (hlen : 1 ≤ seed.length) (hb : ∀ b ∈ seed, b < 256) :
    ak_random_randomize E
        (some (set_ctx g (context.nlfsr
          { state := s0, linear_part := L, nonlinear_part := N, n := n })))
        (some seed) (seed.length : Int)
      = some (ak_error_ok, some (set_ctx g (context.nlfsr
          { state := nlfsr_seed_value seed % 2 ^ n, linear_part := L, nonlinear_part := N,
            n := n })))
    ∧ nlfsr_seed_value seed = (seed.take (min seed.length 4)).foldl (fun acc b => 256 * acc + b) 0
    ∧ nlfsr_seed_value seed % 2 ^ n < 2 ^ n := by
  have hpos : ¬ ((seed.length : Int) ≤ 0) := by omega
  have hr1 : ¬ ((set_ctx g (context.nlfsr
      { state := s0, linear_part := L, nonlinear_part := N, n := n })).randomize_ptr
      = none) := by
    rw [set_ctx_randomize_ptr, hr]; exact Option.some_ne_none _
  refine ⟨?_, ?_, Nat.mod_lt _ (Nat.two_pow_pos n)⟩
  · simp only [ak_random_randomize]
    rw [if_neg hpos, if_neg hr1]
    unfold call_randomize
    rw [set_ctx_randomize_ptr, hr]
    simp only []
    rw [nlfsr_randomize_eq g s0 L N n seed hn1 hn hlen hb]
    rfl
  · unfold nlfsr_seed_value
    have e : seed.take 4 = seed.take (min seed.length 4) := by
      rw [List.take_eq_take]
      omega
    rw [e]

theorem nlfsr_create_sample :
    ak_random_create_nlfsr sample_collaborators 5 true (some blank_handle)
      = some (ak_error_ok, some sample_nlfsr_handle) := by
  rfl

/-- Concrete check of C30: the generator with the parameters of
`ak_random_create_nlfsr` and the register value 5 is seeded with the bytes
1, 2, 3, 4; the register becomes `0x01020304`. -/
theorem C30_nlfsr_seeding_witness :
    ak_random_randomize sample_collaborators
        (some (set_ctx sample_nlfsr_handle (context.nlfsr
          { state := 5, linear_part := 183599831, nonlinear_part := 858993459, n := 32 })))
        (some [1, 2, 3, 4]) (([1, 2, 3, 4] : List Nat).length : Int)
      = some (ak_error_ok, some (set_ctx sample_nlfsr_handle (context.nlfsr
          { state := nlfsr_seed_value [1, 2, 3, 4] % 2 ^ 32, linear_part := 183599831,
            nonlinear_part := 858993459, n := 32 })))
    ∧ nlfsr_seed_value [1, 2, 3, 4]
        = (([1, 2, 3, 4] : List Nat).take (min ([1, 2, 3, 4] : List Nat).length 4)).foldl
            (fun acc b => 256 * acc + b) 0
    ∧ nlfsr_seed_value [1, 2, 3, 4] % 2 ^ 32 < 2 ^ 32 :=
  C30_nlfsr_seeding sample_collaborators sample_nlfsr_handle 5 183599831 858993459 32
    [1, 2, 3, 4] rfl (by decide) (by decide) (by decide) (by decide)

/-! ### The parity computed by `ak_hamming_weight` -/

theorem land_split (a b c d i : Nat) (hb : b < 2 ^ i) (hd : d < 2 ^ i) :
    (2 ^ i * a + b) &&& (2 ^ i * c + d) = 2 ^ i * (a &&& c) + (b &&& d) := by
  have hbd : b &&& d < 2 ^ i := Nat.lt_of_le_of_lt Nat.and_le_left hb
  apply Nat.eq_of_testBit_eq
  intro j
  rw [Nat.testBit_and, Nat.testBit_mul_pow_two_add a hb, Nat.testBit_mul_pow_two_add c hd,
    Nat.testBit_mul_pow_two_add _ hbd]
  by_cases h : j < i
  · rw [if_pos h, if_pos h, if_pos h, Nat.testBit_and]
  · rw [if_neg h, if_neg h, if_neg h, Nat.testBit_and]

theorem land_bytes (v0 v1 v2 v3 m0 m1 m2 m3 : Nat) (h0 : v0 < 256) (h1 : v1 < 256)
    (h2 : v2 < 256) (k0 : m0 < 256) (k1 : m1 < 256) (k2 : m2 < 256) :
    (v0 + 256 * (v1 + 256 * (v2 + 256 * v3))) &&& (m0 + 256 * (m1 + 256 * (m2 + 256 * m3)))
      = (v0 &&& m0) + 256 * ((v1 &&& m1) + 256 * ((v2 &&& m2) + 256 * (v3 &&& m3))) := by
  have s := fun a b c d hb hd => land_split a b c d 8 hb hd
  have e : (2 : Nat) ^ 8 = 256 := by norm_num
  rw [e] at s
  rw [Nat.add_comm v0, Nat.add_comm m0, s _ _ _ _ h0 k0,
    Nat.add_comm v1, Nat.add_comm m1, s _ _ _ _ h1 k1,
    Nat.add_comm v2, Nat.add_comm m2, s _ _ _ _ h2 k2]
  omega

theorem land_high (v e m i : Nat) (hv : v < 2 ^ i) (hm : m < 2 ^ i) :
    (v + 2 ^ i * e) &&& m = v &&& m := by
  have h := land_split e v 0 m i hv hm
  rw [Nat.mul_zero, Nat.zero_add, Nat.and_zero, Nat.mul_zero, Nat.zero_add] at h
  rw [Nat.add_comm]
  exact h

theorem hamming_byte_table : ∀ b, b < 256 →
    hamming_byte_nibbles b % 16 + hamming_byte_nibbles b / 16 = bit_count b
      ∧ hamming_byte_nibbles b / 16 ≤ 4 ∧ hamming_byte_nibbles b % 16 ≤ 4 := by
  set_option maxRecDepth 100000 in decide

theorem hamming_pairs_lt (b : Nat) (h : b < 256) : hamming_byte_pairs b < 256 :=
  Nat.lt_of_le_of_lt (Nat.sub_le _ _) h

theorem hamming_stage_pairs (b0 b1 b2 b3 : Nat) (h0 : b0 < 256) (h1 : b1 < 256)
    (h2 : b2 < 256) (h3 : b3 < 256) :
    ((b0 + 256 * (b1 + 256 * (b2 + 256 * b3)))
        + (2 ^ 32 - ((b0 + 256 * (b1 + 256 * (b2 + 256 * b3))) / 2 ^ 1 &&& 0x55555555)))
      % 2 ^ 32
    = hamming_byte_pairs b0 + 256 * (hamming_byte_pairs b1
        + 256 * (hamming_byte_pairs b2 + 256 * hamming_byte_pairs b3)) := by
  have ed : (b0 + 256 * (b1 + 256 * (b2 + 256 * b3))) / 2 ^ 1
      = (b0 / 2 + 2 ^ 7 * (b1 % 2)) + 256 * ((b1 / 2 + 2 ^ 7 * (b2 % 2))
          + 256 * ((b2 / 2 + 2 ^ 7 * (b3 % 2)) + 256 * (b3 / 2))) := by
    have e7 : (2 : Nat) ^ 7 = 128 := by norm_num
    rw [e7, Nat.pow_one]
    omega
  have em : (0x55555555 : Nat) = 0x55 + 256 * (0x55 + 256 * (0x55 + 256 * 0x55)) := by
    norm_num
  have e7 : (2 : Nat) ^ 7 = 128 := by norm_num
  rw [ed, em, land_bytes _ _ _ _ _ _ _ _ (by rw [e7]; omega) (by rw [e7]; omega)
      (by rw [e7]; omega) (by decide) (by decide) (by decide),
    land_high _ _ _ 7 (by rw [e7]; omega) (by decide),
    land_high _ _ _ 7 (by rw [e7]; omega) (by decide),
    land_high _ _ _ 7 (by rw [e7]; omega) (by decide)]
  unfold hamming_byte_pairs
  have u0 : b0 / 2 &&& 0x55 ≤ b0 := Nat.le_trans Nat.and_le_left (Nat.div_le_self _ _)
  have u1 : b1 / 2 &&& 0x55 ≤ b1 := Nat.le_trans Nat.and_le_left (Nat.div_le_self _ _)
  have u2 : b2 / 2 &&& 0x55 ≤ b2 := Nat.le_trans Nat.and_le_left (Nat.div_le_self _ _)
  have u3 : b3 / 2 &&& 0x55 ≤ b3 := Nat.le_trans Nat.and_le_left (Nat.div_le_self _ _)
  generalize b0 / 2 &&& 0x55 = U0 at u0 ⊢
  generalize b1 / 2 &&& 0x55 = U1 at u1 ⊢
  generalize b2 / 2 &&& 0x55 = U2 at u2 ⊢
  generalize b3 / 2 &&& 0x55 = U3 at u3 ⊢
  obtain ⟨C0, rfl⟩ := Nat.exists_eq_add_of_le u0
  obtain ⟨C1, rfl⟩ := Nat.exists_eq_add_of_le u1
  obtain ⟨C2, rfl⟩ := Nat.exists_eq_add_of_le u2
  obtain ⟨C3, rfl⟩ := Nat.exists_eq_add_of_le u3
  rw [Nat.add_sub_cancel_left, Nat.add_sub_cancel_left, Nat.add_sub_cancel_left,
    Nat.add_sub_cancel_left]
  have e32 : (2 : Nat) ^ 32 = 4294967296 := by norm_num
  have hx : U0 + C0 + 256 * (U1 + C1 + 256 * (U2 + C2 + 256 * (U3 + C3)))
      = (U0 + 256 * (U1 + 256 * (U2 + 256 * U3)))
        + (C0 + 256 * (C1 + 256 * (C2 + 256 * C3))) := by ring
  have hb : (U0 + 256 * (U1 + 256 * (U2 + 256 * U3)))
        + (C0 + 256 * (C1 + 256 * (C2 + 256 * C3))) < 4294967296 := by
    rw [← hx]
    omega
  rw [hx, e32]
  generalize U0 + 256 * (U1 + 256 * (U2 + 256 * U3)) = X at hb ⊢
  generalize C0 + 256 * (C1 + 256 * (C2 + 256 * C3)) = Y at hb ⊢
  omega

theorem hamming_stage_nibbles (c0 c1 c2 c3 : Nat) (h0 : c0 < 256) (h1 : c1 < 256)
    (h2 : c2 < 256) :
    ((c0 + 256 * (c1 + 256 * (c2 + 256 * c3))) &&& 0x33333333)
        + ((c0 + 256 * (c1 + 256 * (c2 + 256 * c3))) / 2 ^ 2 &&& 0x33333333)
    = ((c0 &&& 0x33) + (c0 / 4 &&& 0x33)) + 256 * (((c1 &&& 0x33) + (c1 / 4 &&& 0x33))
        + 256 * (((c2 &&& 0x33) + (c2 / 4 &&& 0x33))
          + 256 * ((c3 &&& 0x33) + (c3 / 4 &&& 0x33)))) := by
  have e6 : (2 : Nat) ^ 6 = 64 := by norm_num
  have ed : (c0 + 256 * (c1 + 256 * (c2 + 256 * c3))) / 2 ^ 2
      = (c0 / 4 + 2 ^ 6 * (c1 % 4)) + 256 * ((c1 / 4 + 2 ^ 6 * (c2 % 4))
          + 256 * ((c2 / 4 + 2 ^ 6 * (c3 % 4)) + 256 * (c3 / 4))) := by
    have e2 : (2 : Nat) ^ 2 = 4 := by norm_num
    rw [e6, e2]
    omega
  have em : (0x33333333 : Nat) = 0x33 + 256 * (0x33 + 256 * (0x33 + 256 * 0x33)) := by
    norm_num
  rw [ed, em, land_bytes c0 c1 c2 c3 _ _ _ _ h0 h1 h2 (by decide) (by decide) (by decide),
    land_bytes _ _ _ _ _ _ _ _ (by rw [e6]; omega) (by rw [e6]; omega)
      (by rw [e6]; omega) (by decide) (by decide) (by decide),
    land_high _ _ _ 6 (by rw [e6]; omega) (by decide),
    land_high _ _ _ 6 (by rw [e6]; omega) (by decide),
    land_high _ _ _ 6 (by rw [e6]; omega) (by decide)]
  ring

theorem hamming_stage_sum (d0 d1 d2 d3 : Nat)
    (l0 : d0 % 16 ≤ 4) (l1 : d1 % 16 ≤ 4) (l2 : d2 % 16 ≤ 4) (l3 : d3 % 16 ≤ 4)
    (u0 : d0 / 16 ≤ 4) (u1 : d1 / 16 ≤ 4) (u2 : d2 / 16 ≤ 4) (u3 : d3 / 16 ≤ 4) :
    ((d0 + 256 * (d1 + 256 * (d2 + 256 * d3)))
        + (d0 + 256 * (d1 + 256 * (d2 + 256 * d3))) / 2 ^ 4) % 2 ^ 32 &&& 0x0F0F0F0F
    = (d0 % 16 + d0 / 16) + 256 * ((d1 % 16 + d1 / 16)
        + 256 * ((d2 % 16 + d2 / 16) + 256 * (d3 % 16 + d3 / 16))) := by
  have e4 : (2 : Nat) ^ 4 = 16 := by norm_num
  have e32 : (2 : Nat) ^ 32 = 4294967296 := by norm_num
  have ed : (d0 + 256 * (d1 + 256 * (d2 + 256 * d3))) / 2 ^ 4
      = (d0 / 16 + 16 * (d1 % 16)) + 256 * ((d1 / 16 + 16 * (d2 % 16))
          + 256 * ((d2 / 16 + 16 * (d3 % 16)) + 256 * (d3 / 16))) := by
    rw [e4]
    omega
  have es : (d0 + 256 * (d1 + 256 * (d2 + 256 * d3)))
        + ((d0 / 16 + 16 * (d1 % 16)) + 256 * ((d1 / 16 + 16 * (d2 % 16))
          + 256 * ((d2 / 16 + 16 * (d3 % 16)) + 256 * (d3 / 16))))
      = (d0 + d0 / 16 + 16 * (d1 % 16)) + 256 * ((d1 + d1 / 16 + 16 * (d2 % 16))
          + 256 * ((d2 + d2 / 16 + 16 * (d3 % 16)) + 256 * (d3 + d3 / 16))) := by
    ring
  have em : (0x0F0F0F0F : Nat) = 0x0F + 256 * (0x0F + 256 * (0x0F + 256 * 0x0F)) := by
    norm_num
  have low : ∀ v : Nat, v &&& 0x0F = v % 16 := fun v => Nat.and_pow_two_sub_one_eq_mod v 4
  rw [ed, es, Nat.mod_eq_of_lt (by rw [e32]; omega), em,
    land_bytes _ _ _ _ _ _ _ _ (by omega) (by omega) (by omega) (by decide) (by decide)
      (by decide),
    low, low, low, low]
  have r0 : (d0 + d0 / 16 + 16 * (d1 % 16)) % 16 = d0 % 16 + d0 / 16 := by omega
  have r1 : (d1 + d1 / 16 + 16 * (d2 % 16)) % 16 = d1 % 16 + d1 / 16 := by omega
  have r2 : (d2 + d2 / 16 + 16 * (d3 % 16)) % 16 = d2 % 16 + d2 / 16 := by omega
  have r3 : (d3 + d3 / 16) % 16 = d3 % 16 + d3 / 16 := by omega
  rw [r0, r1, r2, r3]

theorem hamming_stage_mul (p0 p1 p2 p3 : Nat) (h0 : p0 ≤ 8) (h1 : p1 ≤ 8) (h2 : p2 ≤ 8)
    (h3 : p3 ≤ 8) :
    0x01010101 * (p0 + 256 * (p1 + 256 * (p2 + 256 * p3))) % 2 ^ 32 / 2 ^ 24
      = p0 + p1 + p2 + p3 := by
  have e32 : (2 : Nat) ^ 32 = 4294967296 := by norm_num
  have e24 : (2 : Nat) ^ 24 = 16777216 := by norm_num
  have hexp : 0x01010101 * (p0 + 256 * (p1 + 256 * (p2 + 256 * p3)))
      = ((p0 + 256 * (p0 + p1) + 65536 * (p0 + p1 + p2)) + 16777216 * (p0 + p1 + p2 + p3))
        + 4294967296 * ((p1 + p2 + p3) + 256 * (p2 + p3) + 65536 * p3) := by
    ring
  rw [e32, e24, hexp, Nat.add_mul_mod_self_left, Nat.mod_eq_of_lt (by omega)]
  omega

theorem ak_hamming_weight_bytes (b0 b1 b2 b3 : Nat) (h0 : b0 < 256) (h1 : b1 < 256)
    (h2 : b2 < 256) (h3 : b3 < 256) :
    ak_hamming_weight (b0 + 256 * (b1 + 256 * (b2 + 256 * b3)))
      = (bit_count b0 + bit_count b1 + bit_count b2 + bit_count b3) % 2 := by
  have e32 : (2 : Nat) ^ 32 = 4294967296 := by norm_num
  have hN : ∀ b, (hamming_byte_pairs b &&& 0x33) + (hamming_byte_pairs b / 4 &&& 0x33)
      = hamming_byte_nibbles b := fun _ => rfl
  obtain ⟨t0, u0, l0⟩ := hamming_byte_table b0 h0
  obtain ⟨t1, u1, l1⟩ := hamming_byte_table b1 h1
  obtain ⟨t2, u2, l2⟩ := hamming_byte_table b2 h2
  obtain ⟨t3, u3, l3⟩ := hamming_byte_table b3 h3
  have hlt : hamming_byte_nibbles b0 + 256 * (hamming_byte_nibbles b1
      + 256 * (hamming_byte_nibbles b2 + 256 * hamming_byte_nibbles b3)) < 2 ^ 32 := by
    rw [e32]
    omega
  unfold ak_hamming_weight
  simp only []
  rw [hamming_stage_pairs b0 b1 b2 b3 h0 h1 h2 h3,
    hamming_stage_nibbles _ _ _ _ (hamming_pairs_lt b0 h0) (hamming_pairs_lt b1 h1)
      (hamming_pairs_lt b2 h2),
    hN, hN, hN, hN, Nat.mod_eq_of_lt hlt,
    hamming_stage_sum _ _ _ _ l0 l1 l2 l3 u0 u1 u2 u3, t0, t1, t2, t3,
    hamming_stage_mul _ _ _ _ (bit_count_le b0) (bit_count_le b1) (bit_count_le b2)
      (bit_count_le b3),
    Nat.and_one_is_mod]

theorem bit_sum_byte (n b r : Nat) (hb : b < 256) :
    bit_sum (8 + n) (b + 256 * r) = bit_count b + bit_sum n r := by
  unfold bit_sum bit_count
  rw [List.range_add, List.map_append, List.sum_append, List.map_map]
  congr 2
  · apply List.map_congr_left
    intro k hk
    have hk8 : k < 8 := List.mem_range.mp hk
    have e : (2 : Nat) ^ 8 = 2 ^ k * 2 ^ (8 - k) := by
      rw [← Nat.pow_add]
      congr 1
      omega
    have e8 : (256 : Nat) = 2 ^ 8 := by norm_num
    rw [e8, e, Nat.mul_assoc, Nat.add_mul_div_left _ _ (Nat.two_pow_pos k),
      Nat.add_mod]
    have hz : 2 ^ (8 - k) * r % 2 = 0 := by
      have e1 : 8 - k = (8 - k - 1) + 1 := by omega
      rw [e1, Nat.pow_succ, Nat.mul_comm _ 2, Nat.mul_assoc, Nat.mul_mod_right]
    rw [hz, Nat.add_zero, Nat.mod_mod]
  · apply List.map_congr_left
    intro k _
    have e8 : (2 : Nat) ^ 8 = 256 := by norm_num
    show (b + 256 * r) / 2 ^ (8 + k) % 2 = r / 2 ^ k % 2
    rw [Nat.pow_add, ← Nat.div_div_eq_div_mul, e8,
      Nat.add_mul_div_left _ _ (by decide), Nat.div_eq_of_lt hb, Nat.zero_add]

theorem word_parity_bytes (b0 b1 b2 b3 : Nat) (h0 : b0 < 256) (h1 : b1 < 256)
    (h2 : b2 < 256) :
    word_parity (b0 + 256 * (b1 + 256 * (b2 + 256 * b3)))
      = (bit_count b0 + bit_count b1 + bit_count b2 + bit_count b3) % 2 := by
  have hlast : bit_sum (8 + 0) b3 = bit_count b3 := rfl
  unfold word_parity
  rw [show (32 : Nat) = 8 + (8 + (8 + (8 + 0))) from rfl, bit_sum_byte _ _ _ h0,
    bit_sum_byte _ _ _ h1, bit_sum_byte _ _ _ h2, hlast]
  omega

/-- For every 32-bit input `ak_hamming_weight` returns the parity of the input:
the number of its set bits modulo 2. -/
theorem ak_hamming_weight_parity (x : Nat) (hx : x < 2 ^ 32) :
    ak_hamming_weight x = word_parity x := by
  have e32 : (2 : Nat) ^ 32 = 4294967296 := by norm_num
  rw [e32] at hx
  have ex : x = x % 256 + 256 * (x / 256 % 256 + 256 * (x / 65536 % 256
      + 256 * (x / 16777216))) := by omega
  have h3 : x / 16777216 < 256 := by omega
  have key := (ak_hamming_weight_bytes _ _ _ _ (Nat.mod_lt x (by decide))
    (Nat.mod_lt (x / 256) (by decide)) (Nat.mod_lt (x / 65536) (by decide)) h3).trans
    (word_parity_bytes _ _ _ _ (Nat.mod_lt x (by decide))
      (Nat.mod_lt (x / 256) (by decide)) (Nat.mod_lt (x / 65536) (by decide))).symm
  rw [← ex] at key
  exact key

/-! ### The step of the nonlinear feedback shift register -/

theorem nlfsr_new_bit_lt (L N s : Nat) :
    (s &&& 1) ^^^ word_parity ((L &&& s / 2) ^^^ (N &&& s / 2 &&& s / 2 / 2)) < 2 ^ 1 := by
  apply Nat.xor_lt_two_pow
  · rw [Nat.and_one_is_mod]
    exact Nat.mod_lt _ (by decide)
  · exact Nat.mod_lt _ (by decide)

theorem nlfsr_moved (n b : Nat) (hn1 : 1 ≤ n) (hn : n ≤ 32) (hb : b < 2 ^ 1) :
    shl32 b (n - 1) = b * 2 ^ (n - 1) ∧ b * 2 ^ (n - 1) < 2 ^ n := by
  have hlt : b * 2 ^ (n - 1) < 2 ^ n := by
    have e : n = 1 + (n - 1) := by omega
    have h := Nat.mul_lt_mul_of_pos_right hb (Nat.two_pow_pos (n - 1))
    rw [← Nat.pow_add, ← e] at h
    exact h
  refine ⟨?_, hlt⟩
  have hc : (n - 1) % 32 = n - 1 := Nat.mod_eq_of_lt (by omega)
  unfold shl32
  rw [hc, Nat.mod_eq_of_lt (Nat.lt_of_lt_of_le hlt (Nat.pow_le_pow_right (by decide) hn))]

theorem nlfsr_next_bit2_eq (n L N s : Nat) (hn1 : 1 ≤ n) (hn : n ≤ 32) (hL : L < 2 ^ 32)
    (hN : N < 2 ^ 32) :
    ak_random_nlfsr_next_bit2 { state := s, linear_part := L, nonlinear_part := N, n := n }
        (s &&& 1) (n - 1)
      = some ({ state := nlfsr_spec_step n L N s, linear_part := L, nonlinear_part := N,
                n := n }, nlfsr_spec_step n L N s &&& 1) := by
  have hx : (L &&& s / 2) ^^^ (N &&& s / 2 &&& s / 2 / 2) < 2 ^ 32 :=
    Nat.xor_lt_two_pow (Nat.lt_of_le_of_lt Nat.and_le_left hL)
      (Nat.lt_of_le_of_lt (Nat.le_trans Nat.and_le_left Nat.and_le_left) hN)
  unfold ak_random_nlfsr_next_bit2 nlfsr_spec_step
  simp only [Nat.pow_one]
  rw [ak_hamming_weight_parity _ hx, (nlfsr_moved n _ hn1 hn (nlfsr_new_bit_lt L N s)).1]

theorem nlfsr_spec_step_lt (n L N s : Nat) (hn1 : 1 ≤ n) (hn : n ≤ 32) (hs : s < 2 ^ n) :
    nlfsr_spec_step n L N s < 2 ^ n := by
  unfold nlfsr_spec_step
  simp only []
  apply Nat.xor_lt_two_pow
  · exact Nat.lt_of_le_of_lt (Nat.div_le_self _ _) hs
  · exact (nlfsr_moved n _ hn1 hn (nlfsr_new_bit_lt L N s)).2

theorem nlfsr_or_bit (a e : Nat) (he : e < 2) : a * 2 % 256 ||| e = a * 2 % 256 + e := by
  have h := Nat.mul_add_lt_is_or (show e < 2 ^ 1 from he) (a % 128)
  rw [Nat.pow_one] at h
  have e2 : a * 2 % 256 = 2 * (a % 128) := by omega
  rw [e2, ← h]

theorem nlfsr_next_byte_eq (n L N s : Nat) (hn1 : 1 ≤ n) (hn : n ≤ 32) (hL : L < 2 ^ 32)
    (hN : N < 2 ^ 32) :
    ak_random_nlfsr_next_byte { state := s, linear_part := L, nonlinear_part := N, n := n }
      = some ({ state := (nlfsr_spec_step n L N)^[8] s, linear_part := L,
                nonlinear_part := N, n := n }, nlfsr_spec_byte n L N s) := by
  have e64 : (2 : Nat) ^ 64 = 18446744073709551616 := by norm_num
  have e32 : (2 : Nat) ^ 32 = 4294967296 := by norm_num
  have hn1e : (n + (2 ^ 64 - 1)) % 2 ^ 64 % 2 ^ 32 = n - 1 := by
    rw [e64, e32]
    omega
  have step := fun q => nlfsr_next_bit2_eq n L N q hn1 hn hL hN
  unfold ak_random_nlfsr_next_byte
  simp only []
  rw [hn1e, step, Option.bind_eq_bind, Option.some_bind, step, Option.some_bind, step,
    Option.some_bind, step, Option.some_bind, step, Option.some_bind, step, Option.some_bind,
    step, Option.some_bind, step, Option.some_bind]
  dsimp only
  unfold nlfsr_spec_byte
  simp only [Function.iterate_succ, Function.iterate_zero, Function.comp_apply, id_eq,
    Nat.and_one_is_mod]
  have b1 := Nat.mod_lt (nlfsr_spec_step n L N s) (show 0 < 2 by decide)
  generalize nlfsr_spec_step n L N s = s1 at b1 ⊢
  have b2 := Nat.mod_lt (nlfsr_spec_step n L N s1) (show 0 < 2 by decide)
  generalize nlfsr_spec_step n L N s1 = s2 at b2 ⊢
  have b3 := Nat.mod_lt (nlfsr_spec_step n L N s2) (show 0 < 2 by decide)
  generalize nlfsr_spec_step n L N s2 = s3 at b3 ⊢
  have b4 := Nat.mod_lt (nlfsr_spec_step n L N s3) (show 0 < 2 by decide)
  generalize nlfsr_spec_step n L N s3 = s4 at b4 ⊢
  have b5 := Nat.mod_lt (nlfsr_spec_step n L N s4) (show 0 < 2 by decide)
  generalize nlfsr_spec_step n L N s4 = s5 at b5 ⊢
  have b6 := Nat.mod_lt (nlfsr_spec_step n L N s5) (show 0 < 2 by decide)
  generalize nlfsr_spec_step n L N s5 = s6 at b6 ⊢
  have b7 := Nat.mod_lt (nlfsr_spec_step n L N s6) (show 0 < 2 by decide)
  generalize nlfsr_spec_step n L N s6 = s7 at b7 ⊢
  have b8 := Nat.mod_lt (nlfsr_spec_step n L N s7) (show 0 < 2 by decide)
  generalize nlfsr_spec_step n L N s7 = s8 at b8 ⊢
  rw [nlfsr_or_bit _ _ b2, nlfsr_or_bit _ _ b3, nlfsr_or_bit _ _ b4, nlfsr_or_bit _ _ b5,
    nlfsr_or_bit _ _ b6, nlfsr_or_bit _ _ b7, nlfsr_or_bit _ _ b8]
  generalize s1 % 2 = e1 at b1 ⊢
  generalize s2 % 2 = e2 at b2 ⊢
  generalize s3 % 2 = e3 at b3 ⊢
  generalize s4 % 2 = e4 at b4 ⊢
  generalize s5 % 2 = e5 at b5 ⊢
  generalize s6 % 2 = e6 at b6 ⊢
  generalize s7 % 2 = e7 at b7 ⊢
  generalize s8 % 2 = e8 at b8 ⊢
  refine congrArg some (congrArg (Prod.mk _) ?_)
  omega

/-- C29: for a register of length `n` (`1 <= n <= 32`) with state `s < 2^n`,
linear mask `L` and nonlinear mask `N` (32-bit words), one step
`ak_random_nlfsr_next_bit2` (entered, as in `ak_random_nlfsr_next_byte`, with
`lsb = s AND 1` and `n1 = n - 1`) leaves the state
`t XOR (b << (n-1))` with `t = s >> 1`,
`f = parity((L AND t) XOR (N AND t AND (t >> 1)))`, `b = (s AND 1) XOR f`, which is
again below `2^n`; `ak_hamming_weight` returns the parity (number of set bits
modulo 2) of every 32-bit input; and `ak_random_nlfsr_next_byte` makes eight such
steps and returns the byte whose bits, from the most significant down, are the
least-significant bits of the eight new states. -/
theorem C29_nlfsr_step_and_byte (n L N s : Nat) (hn1 : 1 ≤ n) (hn : n ≤ 32)
    (hs : s < 2 ^ n) (hL : L < 2 ^ 32) (hN : N < 2 ^ 32) :
    ak_random_nlfsr_next_bit2 { state := s, linear_part := L, nonlinear_part := N, n := n }
        (s &&& 1) (n - 1)
      = some ({ state := nlfsr_spec_step n L N s, linear_part := L, nonlinear_part := N,
                n := n }, nlfsr_spec_step n L N s &&& 1)
    ∧ nlfsr_spec_step n L N s < 2 ^ n
    ∧ (∀ x, x < 2 ^ 32 → ak_hamming_weight x = word_parity x)
    ∧ ak_random_nlfsr_next_byte
        { state := s, linear_part := L, nonlinear_part := N, n := n }
      = some ({ state := (nlfsr_spec_step n L N)^[8] s, linear_part := L,
                nonlinear_part := N, n := n }, nlfsr_spec_byte n L N s) :=
  ⟨nlfsr_next_bit2_eq n L N s hn1 hn hL hN, nlfsr_spec_step_lt n L N s hn1 hn hs,
    ak_hamming_weight_parity, nlfsr_next_byte_eq n L N s hn1 hn hL hN⟩

/-- Concrete check of C29: the register of `ak_random_create_nlfsr` (length 32,
linear part 183599831, nonlinear part 858993459) in the state 5. -/
theorem C29_nlfsr_step_and_byte_witness :
    (1 ≤ 32 ∧ 32 ≤ 32 ∧ 5 < 2 ^ 32 ∧ 183599831 < 2 ^ 32 ∧ 858993459 < 2 ^ 32)
    ∧ (ak_random_nlfsr_next_bit2
          { state := 5, linear_part := 183599831, nonlinear_part := 858993459, n := 32 }
          (5 &&& 1) (32 - 1)
        = some ({ state := nlfsr_spec_step 32 183599831 858993459 5,
                  linear_part := 183599831, nonlinear_part := 858993459, n := 32 },
                nlfsr_spec_step 32 183599831 858993459 5 &&& 1)
      ∧ nlfsr_spec_step 32 183599831 858993459 5 < 2 ^ 32
      ∧ (∀ x, x < 2 ^ 32 → ak_hamming_weight x = word_parity x)
      ∧ ak_random_nlfsr_next_byte
          { state := 5, linear_part := 183599831, nonlinear_part := 858993459, n := 32 }
        = some ({ state := (nlfsr_spec_step 32 183599831 858993459)^[8] 5,
                  linear_part := 183599831, nonlinear_part := 858993459, n := 32 },
                nlfsr_spec_byte 32 183599831 858993459 5)) :=
  ⟨⟨by decide, by decide, by decide, by decide, by decide⟩,
    C29_nlfsr_step_and_byte 32 183599831 858993459 5 (by decide) (by decide) (by decide)
      (by decide) (by decide)⟩

/-! ### One advance of the hash based generator -/

theorem hrng_increment_words (cnt : List Nat) (hc : cnt.length = 8) :
    (hrng_increment cnt).length = 8
      ∧ (hrng_increment cnt)[7]? = some ((cnt.getD 7 0 + 1) % 2 ^ 64)
      ∧ ∀ i, i < 7 → (hrng_increment cnt)[i]? = cnt[i]? := by
  unfold hrng_increment
  have ht : (cnt.take 7).length = 7 := by rw [List.length_take]; omega
  refine ⟨?_, ?_, ?_⟩
  · rw [List.length_append, List.length_append, ht, List.length_drop, List.length_singleton]
    omega
  · rw [List.append_assoc, List.getElem?_append_right (by omega), ht, Nat.sub_self,
      List.singleton_append, List.getElem?_cons_zero]
  · intro i hi
    rw [List.append_assoc, List.getElem?_append_left (by omega), List.getElem?_take_of_lt hi]

/-- C31 (as stated, refuted): one advance of a hash based generator whose
counter words are 5, 0, 0, 0, 0, 0, 0, 9 leaves word 0 at 5 and makes word 7
equal to 10: the statement `counter[7]++` increments the last word of the
array, not word 0. -/
theorem C31_hrng_advance_word_counterexample :
    call_next sample_collaborators (set_ctx sample_hrng_base (context.hrng sample_hrng_marked))
      = some (ak_error_ok, set_ctx sample_hrng_base (context.hrng
          { counter := [5, 0, 0, 0, 0, 0, 0, 10], buffer := List.replicate 64 15,
            capacity := 64 })) := by
  rfl

/-- C31 (amended): one advance of a hash based generator (eight counter words,
64 buffer bytes, a hash that delivers 64 bytes) returns `ak_error_ok`, adds 1
modulo `2^64` to word 7 of the counter, the last word of the array, and leaves
words 0 to 6 unchanged, sets the capacity to 64, and sets the buffer to the hash
of the 64 bytes of the updated counter. -/
theorem C31_hrng_advance {S : Type} (E : collaborators S) (g : random S) (h : random_hrng)
    (hE : hash_total E) (hn : g.next = some fn_next.hrng) (hw : hrng_wf h) :
    ∃ h1 : random_hrng,
      call_next E (set_ctx g (context.hrng h)) = some (ak_error_ok, set_ctx g (context.hrng h1))
      ∧ h1.counter.length = 8
      ∧ h1.counter[7]? = some ((h.counter.getD 7 0 + 1) % 2 ^ 64)
      ∧ (∀ i, i < 7 → h1.counter[i]? = h.counter[i]?)
      ∧ h1.capacity = 64
      ∧ h1.buffer = hrng_hash E (bytes_of_words64 h1.counter)
      ∧ h1.buffer.length = 64 := by
  obtain ⟨hadv, _⟩ := hrng_step_eq E hE h hw
  obtain ⟨i1, i2, i3⟩ := hrng_increment_words h.counter hw.1
  refine ⟨hrng_after E h.counter, ?_, i1, i2, i3, rfl, rfl, hrng_hash_length E hE _⟩
  unfold call_next
  rw [set_ctx_next, hn]
  simp only []
  unfold ak_random_hrng_next
  rw [set_ctx_ctx]
  simp only []
  rw [hadv]
  simp only []
  rw [set_ctx_set_ctx]

/-- Concrete check of C31 (amended): the sample generator with the counter
5, 0, 0, 0, 0, 0, 0, 9. -/
theorem C31_hrng_advance_witness :
    ∃ h1 : random_hrng,
      call_next sample_collaborators (set_ctx sample_hrng_base (context.hrng sample_hrng_marked))
        = some (ak_error_ok, set_ctx sample_hrng_base (context.hrng h1))
      ∧ h1.counter.length = 8
      ∧ h1.counter[7]? = some ((sample_hrng_marked.counter.getD 7 0 + 1) % 2 ^ 64)
      ∧ (∀ i, i < 7 → h1.counter[i]? = sample_hrng_marked.counter[i]?)
      ∧ h1.capacity = 64
      ∧ h1.buffer = hrng_hash sample_collaborators (bytes_of_words64 h1.counter)
      ∧ h1.buffer.length = 64 :=
  C31_hrng_advance sample_collaborators sample_hrng_base sample_hrng_marked
    (fun _ => ⟨rfl, List.length_replicate _ _⟩) rfl ⟨rfl, rfl, by decide, by decide⟩

/-! ### Seeding of the quadratic congruential generator with a zero modulus -/

/-- C35: `ak_random_randomize` accepts the 20-byte seed with the words
1, 2, 3, 4, 0 on the generator that `ak_random_create_qcg` builds: it returns
`ak_error_ok` and stores the modulus `m = 0`; the advance that follows, and with
it the extraction of one byte through `ak_random_ptr`, then has no result (the
reduction `% qcg->m` divides by zero). -/
theorem C35_qcg_zero_modulus_accepted :
    ak_random_randomize sample_collaborators (some sample_qcg_handle)
        (some qcg_zero_modulus_seed) 20
      = some (ak_error_ok, some sample_qcg_zero_modulus)
    ∧ call_next sample_collaborators sample_qcg_zero_modulus = none
    ∧ ak_random_ptr sample_collaborators (some sample_qcg_zero_modulus) (some [0]) 1 = none := by
  refine ⟨rfl, rfl, rfl⟩

/-! ### Algorithm M and Algorithm B: one advance -/

theorem knuth_m_next_eq {S : Type} (E : collaborators S) (x y x1 y1 : S) (k yb xb nx : Nat)
    (v : List Nat) (hk1 : 1 ≤ k) (hk : k ≤ 255) (hv : v.length = k) (hyb : yb < 256)
    (hy : E.source_random y [0] 1 = some (ak_error_ok, y1, [yb]))
    (hx : E.source_random x [yb] 1 = some (ak_error_ok, x1, [xb])) :
    call_next E (knuth_m_handle x y k v nx)
      = some (ak_error_ok, knuth_m_handle x1 y1 k (v.set (k * yb / 256) xb)
          (v.getD (k * yb / 256) 0)) := by
  obtain ⟨hj, hjk⟩ := knuth_index k yb hk1 hk hyb
  have hget : v[k * yb / 256]? = some (v.getD (k * yb / 256) 0) := by
    rw [List.getD_eq_getElem?_getD, List.getElem?_eq_getElem (by omega)]
    rfl
  unfold call_next
  simp only [show (knuth_m_handle x y k v nx).next = some fn_next.knuth_m from rfl]
  unfold ak_random_knuth_m_next
  simp only [show (knuth_m_handle x y k v nx).data.ctx = pointer.live (context.knuth_m
    { source_gen_x := pointer.live x, source_gen_y := pointer.live y, k := k,
      v := pointer.live v, next := nx }) from rfl]
  simp only [hy, hx, Option.bind_eq_bind, Option.some_bind, ne_eq, not_true_eq_false, if_false,
    List.getElem?_cons_zero, hj, hget,
    mem_write_set v _ _ (by omega : k * yb / 256 < v.length)]
  rfl

theorem knuth_b_next_eq {S : Type} (E : collaborators S) (src s1 s2 : S) (k yb xb nx : Nat)
    (v : List Nat) (hk1 : 1 ≤ k) (hk : k ≤ 255) (hv : v.length = k) (hyb : yb < 256)
    (h1 : E.source_random src [0] 1 = some (ak_error_ok, s1, [yb]))
    (h2 : E.source_random s1 [yb] 1 = some (ak_error_ok, s2, [xb])) :
    call_next E (knuth_b_handle src k v nx)
      = some (ak_error_ok, knuth_b_handle s2 k (v.set (k * yb / 256) xb)
          (v.getD (k * yb / 256) 0)) := by
  obtain ⟨hj, hjk⟩ := knuth_index k yb hk1 hk hyb
  have hget : v[k * yb / 256]? = some (v.getD (k * yb / 256) 0) := by
    rw [List.getD_eq_getElem?_getD, List.getElem?_eq_getElem (by omega)]
    rfl
  unfold call_next
  simp only [show (knuth_b_handle src k v nx).next = some fn_next.knuth_b from rfl]
  unfold ak_random_knuth_b_next
  simp only [show (knuth_b_handle src k v nx).data.ctx = pointer.live (context.knuth_b
    { source_gen := pointer.live src, k := k, v := pointer.live v, next := nx }) from rfl]
  simp only [h1, h2, Option.bind_eq_bind, Option.some_bind, ne_eq, not_true_eq_false, if_false,
    List.getElem?_cons_zero, hj, hget,
    mem_write_set v _ _ (by omega : k * yb / 256 < v.length)]
  rfl

theorem tape_random (sx sy : Nat → Nat) (t : tape) (n : Nat) (out : List Nat)
    (h : n ≤ out.length) :
    (tape_collaborators sx sy).source_random t out (n : Int)
      = some (ak_error_ok, { t with pos := t.pos + n, calls := t.calls + 1 },
          (List.range n).map
              (fun i => (if t.second then sy (t.pos + i) else sx (t.pos + i)) % 256)
            ++ out.drop n) := by
  have e : ((n : Int)).toNat = n := Int.toNat_ofNat n
  unfold tape_collaborators
  simp only [e, if_pos h]

theorem tape_random_one (sx sy : Nat → Nat) (t : tape) (b : Nat) :
    (tape_collaborators sx sy).source_random t [b] 1
      = some (ak_error_ok, { t with pos := t.pos + 1, calls := t.calls + 1 },
          [(if t.second then sy t.pos else sx t.pos) % 256]) :=
  tape_random sx sy t 1 [b] (by rw [List.length_singleton])

theorem knuth_loop_eq {S α : Type} (E : collaborators S) (byte : random S → Option Nat)
    (emb : α → random S) (step : α → α) (out : α → Nat) (Inv : α → Prop)
    (H : ∀ a, Inv a → call_next E (emb a) = some (ak_error_ok, emb (step a)) ∧ Inv (step a)
      ∧ byte (emb (step a)) = some (out (step a))) (n : Nat) :
    ∀ (fuel : Nat) (a : α) (pre mid post : List Nat), Inv a → pre.length + mid.length = n →
      mid.length < fuel →
      ak_random_knuth_random_loop E byte fuel (emb a) (pre ++ (mid ++ post)) pre.length (n : Int)
        = some (ak_error_ok, emb (step^[mid.length] a),
            pre ++ ((List.range mid.length).map (fun i => out (step^[i + 1] a)) ++ post)) := by
  intro fuel
  induction fuel with
  | zero => intro a pre mid post _ _ hf; omega
  | succ f ih =>
    intro a pre mid post ha hlen hf
    rw [ak_random_knuth_random_loop]
    cases mid with
    | nil =>
      have hge : ¬ ((pre.length : Int) < (n : Int)) := by
        rw [List.length_nil] at hlen; omega
      rw [if_neg hge]
      rfl
    | cons m rest =>
      have hlt : (pre.length : Int) < (n : Int) := by
        rw [List.length_cons] at hlen; omega
      obtain ⟨hnext, hinv, hbyte⟩ := H a ha
      rw [if_pos hlt, hnext]
      simp only [Option.bind_eq_bind, Option.some_bind, ne_eq, not_true_eq_false, if_false,
        hbyte]
      rw [List.cons_append, mem_write_mid pre m (out (step a)) (rest ++ post)]
      simp only [Option.some_bind]
      have i := ih (step a) (pre ++ [out (step a)]) rest post hinv
        (by rw [List.length_append, List.length_singleton, List.length_cons] at *; omega)
        (by rw [List.length_cons] at hf; omega)
      rw [List.length_append, List.length_singleton, List.append_assoc,
        List.singleton_append] at i
      rw [i, List.length_cons, List.range_succ_eq_map, List.map_cons, List.map_map,
        List.cons_append, Function.iterate_succ_apply, List.append_assoc,
        List.singleton_append]
      rfl

/-! ### Algorithm M over two byte streams -/

theorem tape_knuth_m_next (sx sy : Nat → Nat) (hsx : ∀ i, sx i < 256) (hsy : ∀ i, sy i < 256)
    (k : Nat) (hk1 : 1 ≤ k) (hk : k ≤ 255) (st : knuth_m_state) (hw : knuth_m_wf k st) :
    call_next (tape_collaborators sx sy) (knuth_m_embed k st)
        = some (ak_error_ok, knuth_m_embed k (knuth_m_spec_step sx sy k st))
      ∧ knuth_m_wf k (knuth_m_spec_step sx sy k st) := by
  obtain ⟨hx, hy, hv⟩ := hw
  have ry := tape_random_one sx sy st.y 0
  rw [hy, if_pos rfl, Nat.mod_eq_of_lt (hsy _)] at ry
  have rx := tape_random_one sx sy st.x (sy st.y.pos)
  rw [hx] at rx
  simp only [Bool.false_eq_true, if_false] at rx
  rw [Nat.mod_eq_of_lt (hsx _)] at rx
  refine ⟨?_, ?_⟩
  · unfold knuth_m_embed
    rw [knuth_m_next_eq (tape_collaborators sx sy) st.x st.y _ _ k (sy st.y.pos) (sx st.x.pos)
      st.next st.v hk1 hk hv (hsy _) ry rx]
    unfold knuth_m_spec_step
    simp only [hx, hy]
  · unfold knuth_m_spec_step knuth_m_wf
    exact ⟨hx, hy, by rw [List.length_set]; exact hv⟩

theorem tape_create_knuth_m (sx sy : Nat → Nat) (hsx : ∀ i, sx i < 256) (k : Nat)
    (hk : k ≤ 255) :
    ak_random_create_knuth_m (tape_collaborators sx sy) true true (some blank_random)
        (pointer.live { second := false, pos := 0, calls := 0 })
        (pointer.live { second := true, pos := 0, calls := 0 }) k
      = some (ak_error_ok, some (knuth_m_embed k (knuth_m_initial sx k))) := by
  have hm : k % 256 = k := Nat.mod_eq_of_lt (by omega)
  have hr := tape_random sx sy { second := false, pos := 0, calls := 0 } k
    (List.replicate k 0) (by rw [List.length_replicate])
  rw [List.drop_of_length_le (by rw [List.length_replicate]), List.append_nil] at hr
  have e : (fun i => (if (false : Bool) = true then sy i else sx i) % 256) = sx := by
    funext i
    rw [if_neg (by decide)]
    exact Nat.mod_eq_of_lt (hsx i)
  simp only [Nat.zero_add] at hr
  rw [e] at hr
  unfold ak_random_create_knuth_m ak_random_create
  simp only [Bool.true_eq_false, if_false, hm, hr]
  rfl

theorem tape_knuth_m_ptr (sx sy : Nat → Nat) (hsx : ∀ i, sx i < 256) (hsy : ∀ i, sy i < 256)
    (k : Nat) (hk1 : 1 ≤ k) (hk : k ≤ 255) (st : knuth_m_state) (hw : knuth_m_wf k st)
    (out : List Nat) (n : Nat) (hn : 1 ≤ n) (hout : out.length = n) :
    ak_random_ptr (tape_collaborators sx sy) (some (knuth_m_embed k st)) (some out) (n : Int)
      = some (ak_error_ok, some (knuth_m_embed k ((knuth_m_spec_step sx sy k)^[n] st)),
          some ((List.range n).map (fun i => ((knuth_m_spec_step sx sy k)^[i + 1] st).next))) := by
  have hpos : ¬ ((n : Int) ≤ 0) := by omega
  have hr : ¬ ((knuth_m_embed k st).random = none) := by
    show ¬ (some fn_random.knuth_m = none)
    exact Option.some_ne_none _
  have hloop := knuth_loop_eq (tape_collaborators sx sy) knuth_m_byte (knuth_m_embed k)
    (knuth_m_spec_step sx sy k) (fun a => a.next) (knuth_m_wf k)
    (fun a ha => ⟨(tape_knuth_m_next sx sy hsx hsy k hk1 hk a ha).1,
      (tape_knuth_m_next sx sy hsx hsy k hk1 hk a ha).2, rfl⟩)
    n (n + 1) st [] out [] hw (by rw [List.length_nil, Nat.zero_add, hout]) (by omega)
  rw [List.nil_append, List.append_nil, List.length_nil, List.nil_append, List.append_nil,
    hout] at hloop
  simp only [ak_random_ptr]
  rw [if_neg hpos, if_neg hr]
  unfold call_random
  simp only [show (knuth_m_embed k st).random = some fn_random.knuth_m from rfl]
  unfold ak_random_knuth_m_random
  rw [Int.toNat_ofNat, hloop]
  rfl

/-- C32: over any two byte streams `sx` (source X) and `sy` (source Y) and for
every table size `k` in `1..255`: `ak_random_create_knuth_m` makes one call of
source X and fills the table with the first `k` bytes of `sx` in order; each
advance draws one byte `y` from Y in one call, takes `j = (k * y) >> 8`, makes
the old `v[j]` the current byte, draws one byte from X in one call and stores
it in `v[j]` (the other entries are those of the old table); and
`ak_random_ptr` of `n >= 1` bytes returns `ak_error_ok`, leaves the state after
`n` advances and outputs the current bytes after the advances `1, ..., n`. -/
theorem C32_knuth_m_mechanics (sx sy : Nat → Nat) (k n : Nat) (out : List Nat)
    (hsx : ∀ i, sx i < 256) (hsy : ∀ i, sy i < 256) (hk1 : 1 ≤ k) (hk : k ≤ 255)
    (hn : 1 ≤ n) (hout : out.length = n) :
    ak_random_create_knuth_m (tape_collaborators sx sy) true true (some blank_random)
        (pointer.live { second := false, pos := 0, calls := 0 })
        (pointer.live { second := true, pos := 0, calls := 0 }) k
      = some (ak_error_ok, some (knuth_m_embed k (knuth_m_initial sx k)))
    ∧ knuth_m_wf k (knuth_m_initial sx k)
    ∧ (∀ st, knuth_m_wf k st →
        call_next (tape_collaborators sx sy) (knuth_m_embed k st)
            = some (ak_error_ok, knuth_m_embed k (knuth_m_spec_step sx sy k st))
          ∧ knuth_m_wf k (knuth_m_spec_step sx sy k st)
          ∧ ∀ i, i ≠ k * sy st.y.pos / 256 →
              (knuth_m_spec_step sx sy k st).v[i]? = st.v[i]?)
    ∧ (∀ st, knuth_m_wf k st →
        ak_random_ptr (tape_collaborators sx sy) (some (knuth_m_embed k st)) (some out) (n : Int)
          = some (ak_error_ok, some (knuth_m_embed k ((knuth_m_spec_step sx sy k)^[n] st)),
              some ((List.range n).map
                (fun i => ((knuth_m_spec_step sx sy k)^[i + 1] st).next)))) := by
  refine ⟨tape_create_knuth_m sx sy hsx k hk, ⟨rfl, rfl, ?_⟩, ?_, ?_⟩
  · show ((List.range k).map sx).length = k
    rw [List.length_map, List.length_range]
  · intro st hw
    refine ⟨(tape_knuth_m_next sx sy hsx hsy k hk1 hk st hw).1,
      (tape_knuth_m_next sx sy hsx hsy k hk1 hk st hw).2, ?_⟩
    intro i hi
    show (st.v.set (k * sy st.y.pos / 256) (sx st.x.pos))[i]? = st.v[i]?
    rw [List.getElem?_set_ne (Ne.symm hi)]
  · intro st hw
    exact tape_knuth_m_ptr sx sy hsx hsy k hk1 hk st hw out n hn hout

/-- Concrete check of C32: table size 4 over the sample streams, three bytes. -/
theorem C32_knuth_m_mechanics_witness :
    ak_random_create_knuth_m (tape_collaborators sample_stream_x sample_stream_y) true true
        (some blank_random) (pointer.live { second := false, pos := 0, calls := 0 })
        (pointer.live { second := true, pos := 0, calls := 0 }) 4
      = some (ak_error_ok, some (knuth_m_embed 4 (knuth_m_initial sample_stream_x 4)))
    ∧ knuth_m_wf 4 (knuth_m_initial sample_stream_x 4)
    ∧ (∀ st, knuth_m_wf 4 st →
        call_next (tape_collaborators sample_stream_x sample_stream_y) (knuth_m_embed 4 st)
            = some (ak_error_ok,
                knuth_m_embed 4 (knuth_m_spec_step sample_stream_x sample_stream_y 4 st))
          ∧ knuth_m_wf 4 (knuth_m_spec_step sample_stream_x sample_stream_y 4 st)
          ∧ ∀ i, i ≠ 4 * sample_stream_y st.y.pos / 256 →
              (knuth_m_spec_step sample_stream_x sample_stream_y 4 st).v[i]? = st.v[i]?)
    ∧ (∀ st, knuth_m_wf 4 st →
        ak_random_ptr (tape_collaborators sample_stream_x sample_stream_y)
            (some (knuth_m_embed 4 st)) (some [0, 0, 0]) ((3 : Nat) : Int)
          = some (ak_error_ok,
              some (knuth_m_embed 4
                ((knuth_m_spec_step sample_stream_x sample_stream_y 4)^[3] st)),
              some ((List.range 3).map
                (fun i => ((knuth_m_spec_step sample_stream_x sample_stream_y 4)^[i + 1]
                  st).next)))) :=
  C32_knuth_m_mechanics sample_stream_x sample_stream_y 4 3 [0, 0, 0]
    (fun _ => Nat.mod_lt _ (by decide)) (fun _ => Nat.mod_lt _ (by decide)) (by decide)
    (by decide) (by decide) rfl

/-- C34: for every table size `k` in `1..255` and every byte `y` in `0..255` that
the first source call delivers, the index that the advances of Algorithm M and
of Algorithm B compute, `(k * y) >> 8` truncated to a byte, equals `k * y / 256`
and is below `k`; on a table of `k` bytes the read `v[j]` and the write of `v[j]`
have a result, and both advances return `ak_error_ok` with a table of `k`
bytes. -/
theorem C34_knuth_index_in_bounds {S : Type} (E : collaborators S) (x y x1 y1 y2 : S)
    (k yb xb xb2 nx : Nat) (v : List Nat) (hk1 : 1 ≤ k) (hk : k ≤ 255) (hv : v.length = k)
    (hyb : yb < 256)
    (hy : E.source_random y [0] 1 = some (ak_error_ok, y1, [yb]))
    (hx : E.source_random x [yb] 1 = some (ak_error_ok, x1, [xb]))
    (hy2 : E.source_random y1 [yb] 1 = some (ak_error_ok, y2, [xb2])) :
    ((k * yb) % 2 ^ 32 / 2 ^ 8 % 256 = k * yb / 256 ∧ k * yb / 256 < k)
    ∧ mem_read v (k * yb / 256) 1 = some [v.getD (k * yb / 256) 0]
    ∧ mem_write v (k * yb / 256) [xb] = some (v.set (k * yb / 256) xb)
    ∧ call_next E (knuth_m_handle x y k v nx)
        = some (ak_error_ok, knuth_m_handle x1 y1 k (v.set (k * yb / 256) xb)
            (v.getD (k * yb / 256) 0))
    ∧ call_next E (knuth_b_handle y k v nx)
        = some (ak_error_ok, knuth_b_handle y2 k (v.set (k * yb / 256) xb2)
            (v.getD (k * yb / 256) 0))
    ∧ (v.set (k * yb / 256) xb).length = k ∧ (v.set (k * yb / 256) xb2).length = k := by
  obtain ⟨hj, hjk⟩ := knuth_index k yb hk1 hk hyb
  have hlt : k * yb / 256 < v.length := by omega
  refine ⟨⟨hj, hjk⟩, ?_, mem_write_set v _ _ hlt,
    knuth_m_next_eq E x y x1 y1 k yb xb nx v hk1 hk hv hyb hy hx,
    knuth_b_next_eq E y y1 y2 k yb xb2 nx v hk1 hk hv hyb hy hy2,
    by rw [List.length_set]; exact hv, by rw [List.length_set]; exact hv⟩
  rw [mem_read_some v _ 1 (by omega), List.getD_eq_getElem?_getD,
    List.getElem?_eq_getElem hlt, Option.getD_some, List.drop_eq_getElem_cons hlt]
  rfl

/-- Concrete check of C34: table size 4, the table 1, 4, 7, 10, the sample
streams; the first source delivers 100, so that the index is 1. -/
theorem C34_knuth_index_in_bounds_witness :
    ((4 * 100) % 2 ^ 32 / 2 ^ 8 % 256 = 4 * 100 / 256 ∧ 4 * 100 / 256 < 4)
    ∧ mem_read [1, 4, 7, 10] (4 * 100 / 256) 1 = some [[1, 4, 7, 10].getD (4 * 100 / 256) 0]
    ∧ mem_write [1, 4, 7, 10] (4 * 100 / 256) [13]
        = some ([1, 4, 7, 10].set (4 * 100 / 256) 13)
    ∧ call_next (tape_collaborators sample_stream_x sample_stream_y)
          (knuth_m_handle { second := false, pos := 4, calls := 1 }
            { second := true, pos := 0, calls := 0 } 4 [1, 4, 7, 10] 0)
        = some (ak_error_ok, knuth_m_handle { second := false, pos := 5, calls := 2 }
            { second := true, pos := 1, calls := 1 } 4 ([1, 4, 7, 10].set (4 * 100 / 256) 13)
            ([1, 4, 7, 10].getD (4 * 100 / 256) 0))
    ∧ call_next (tape_collaborators sample_stream_x sample_stream_y)
          (knuth_b_handle { second := true, pos := 0, calls := 0 } 4 [1, 4, 7, 10] 0)
        = some (ak_error_ok, knuth_b_handle { second := true, pos := 2, calls := 2 } 4
            ([1, 4, 7, 10].set (4 * 100 / 256) 164) ([1, 4, 7, 10].getD (4 * 100 / 256) 0))
    ∧ ([1, 4, 7, 10].set (4 * 100 / 256) 13).length = 4
    ∧ ([1, 4, 7, 10].set (4 * 100 / 256) 164).length = 4 :=
  C34_knuth_index_in_bounds (tape_collaborators sample_stream_x sample_stream_y)
    { second := false, pos := 4, calls := 1 } { second := true, pos := 0, calls := 0 }
    { second := false, pos := 5, calls := 2 } { second := true, pos := 1, calls := 1 }
    { second := true, pos := 2, calls := 2 } 4 100 13 164 0 [1, 4, 7, 10] (by decide)
    (by decide) rfl (by decide) rfl rfl rfl

/-! ### Algorithm B: the calls on its source -/

/-- C33 (as stated, refuted): the generator of Algorithm B with table size 4
over the stream 1, 4, 7, 10, 13, 16, ... is constructed with one call on its
source (4 bytes); one advance then makes two one-byte calls on the source, not
one: the source goes from 4 bytes in 1 call to 6 bytes in 3 calls, the byte 13
selects the index 0 and the next byte, 16, replaces `v[0]`. -/
theorem C33_knuth_b_source_calls_counterexample :
    ak_random_create_knuth_b (tape_collaborators sample_stream_x sample_stream_y) true true
        (some blank_random) (pointer.live { second := false, pos := 0, calls := 0 }) 4
      = some (ak_error_ok,
          some (knuth_b_handle { second := false, pos := 4, calls := 1 } 4 [1, 4, 7, 10] 0))
    ∧ call_next (tape_collaborators sample_stream_x sample_stream_y)
          (knuth_b_handle { second := false, pos := 4, calls := 1 } 4 [1, 4, 7, 10] 0)
        = some (ak_error_ok,
            knuth_b_handle { second := false, pos := 6, calls := 3 } 4 [16, 4, 7, 10] 1) := by
  refine ⟨rfl, rfl⟩

/-- C33 (amended): for every table size `k` in `1..255` and every byte stream
`sx` of the source, one advance of the generator of Algorithm B makes exactly
two one-byte calls on its single source: the first byte `y` selects
`j = (k * y) >> 8` and the old `v[j]` becomes the current byte, the second byte
replaces `v[j]`. -/
theorem C33_knuth_b_source_usage (sx sy : Nat → Nat) (src : tape) (k nx : Nat) (v : List Nat)
    (hsx : ∀ i, sx i < 256) (hsrc : src.second = false) (hk1 : 1 ≤ k) (hk : k ≤ 255)
    (hv : v.length = k) :
    (tape_collaborators sx sy).source_random src [0] 1
        = some (ak_error_ok, { src with pos := src.pos + 1, calls := src.calls + 1 },
            [sx src.pos])
    ∧ (tape_collaborators sx sy).source_random
          { src with pos := src.pos + 1, calls := src.calls + 1 } [sx src.pos] 1
        = some (ak_error_ok, { src with pos := src.pos + 2, calls := src.calls + 2 },
            [sx (src.pos + 1)])
    ∧ call_next (tape_collaborators sx sy) (knuth_b_handle src k v nx)
        = some (ak_error_ok,
            knuth_b_handle { src with pos := src.pos + 2, calls := src.calls + 2 } k
              (v.set (k * sx src.pos / 256) (sx (src.pos + 1)))
              (v.getD (k * sx src.pos / 256) 0)) := by
  have r1 := tape_random_one sx sy src 0
  rw [hsrc] at r1
  simp only [Bool.false_eq_true, if_false] at r1
  rw [Nat.mod_eq_of_lt (hsx _)] at r1
  have r2 := tape_random_one sx sy
    { second := false, pos := src.pos + 1, calls := src.calls + 1 } (sx src.pos)
  simp only [Bool.false_eq_true, if_false] at r2
  rw [Nat.mod_eq_of_lt (hsx _)] at r2
  have e1 : ({ src with pos := src.pos + 1, calls := src.calls + 1 } : tape)
      = { second := false, pos := src.pos + 1, calls := src.calls + 1 } := by rw [hsrc]
  have e2 : ({ src with pos := src.pos + 2, calls := src.calls + 2 } : tape)
      = { second := false, pos := src.pos + 1 + 1, calls := src.calls + 1 + 1 } := by rw [hsrc]
  rw [e1, e2]
  exact ⟨r1, r2, knuth_b_next_eq (tape_collaborators sx sy) src _ _ k (sx src.pos)
    (sx (src.pos + 1)) nx v hk1 hk hv (hsx _) r1 r2⟩

/-- Concrete check of C33 (amended): table size 4 over the sample stream, right
after construction. -/
theorem C33_knuth_b_source_usage_witness :
    (tape_collaborators sample_stream_x sample_stream_y).source_random
          { second := false, pos := 4, calls := 1 } [0] 1
        = some (ak_error_ok, { second := false, pos := 4 + 1, calls := 1 + 1 },
            [sample_stream_x 4])
    ∧ (tape_collaborators sample_stream_x sample_stream_y).source_random
          { second := false, pos := 4 + 1, calls := 1 + 1 } [sample_stream_x 4] 1
        = some (ak_error_ok, { second := false, pos := 4 + 2, calls := 1 + 2 },
            [sample_stream_x (4 + 1)])
    ∧ call_next (tape_collaborators sample_stream_x sample_stream_y)
          (knuth_b_handle { second := false, pos := 4, calls := 1 } 4 [1, 4, 7, 10] 0)
        = some (ak_error_ok,
            knuth_b_handle { second := false, pos := 4 + 2, calls := 1 + 2 } 4
              ([1, 4, 7, 10].set (4 * sample_stream_x 4 / 256) (sample_stream_x (4 + 1)))
              ([1, 4, 7, 10].getD (4 * sample_stream_x 4 / 256) 0)) :=
  C33_knuth_b_source_usage sample_stream_x sample_stream_y
    { second := false, pos := 4, calls := 1 } 4 0 [1, 4, 7, 10]
    (fun _ => Nat.mod_lt _ (by decide)) rfl (by decide) (by decide) rfl

/-! ### Algorithm M: the bytes of the table come from source X -/

theorem knuth_m_drawn_step (sx sy : Nat → Nat) (hsy : ∀ i, sy i < 256) (k : Nat)
    (hk1 : 1 ≤ k) (hk : k ≤ 255) (st : knuth_m_state) (p : Nat) (hw : knuth_m_wf k st)
    (hp : st.x.pos = p) (hall : ∀ b ∈ st.v, drawn_from sx p b) :
    knuth_m_wf k (knuth_m_spec_step sx sy k st)
      ∧ (knuth_m_spec_step sx sy k st).x.pos = p + 1
      ∧ (∀ b ∈ (knuth_m_spec_step sx sy k st).v, drawn_from sx (p + 1) b)
      ∧ drawn_from sx p (knuth_m_spec_step sx sy k st).next := by
  obtain ⟨hx, hy, hv⟩ := hw
  obtain ⟨_, hjk⟩ := knuth_index k (sy st.y.pos) hk1 hk (hsy _)
  have hlt : k * sy st.y.pos / 256 < st.v.length := by omega
  refine ⟨⟨hx, hy, by show (st.v.set _ _).length = k; rw [List.length_set]; exact hv⟩,
    by show st.x.pos + 1 = p + 1; rw [hp], ?_, ?_⟩
  · intro b hb
    have hb' : b ∈ st.v.set (k * sy st.y.pos / 256) (sx st.x.pos) := hb
    rcases List.mem_or_eq_of_mem_set hb' with h | h
    · obtain ⟨q, hq, e⟩ := hall b h
      exact ⟨q, by omega, e⟩
    · exact ⟨st.x.pos, by omega, h⟩
  · show drawn_from sx p (st.v.getD (k * sy st.y.pos / 256) 0)
    rw [List.getD_eq_getElem?_getD, List.getElem?_eq_getElem hlt, Option.getD_some]
    exact hall _ (List.getElem_mem hlt)

theorem knuth_m_drawn_iterate (sx sy : Nat → Nat) (hsy : ∀ i, sy i < 256) (k : Nat)
    (hk1 : 1 ≤ k) (hk : k ≤ 255) :
    ∀ (m : Nat) (st : knuth_m_state) (p : Nat), knuth_m_wf k st → st.x.pos = p →
      (∀ b ∈ st.v, drawn_from sx p b) →
      knuth_m_wf k ((knuth_m_spec_step sx sy k)^[m] st)
        ∧ ((knuth_m_spec_step sx sy k)^[m] st).x.pos = p + m
        ∧ (∀ b ∈ ((knuth_m_spec_step sx sy k)^[m] st).v, drawn_from sx (p + m) b)
        ∧ drawn_from sx (p + m) ((knuth_m_spec_step sx sy k)^[m + 1] st).next := by
  intro m
  induction m with
  | zero =>
    intro st p hw hp hall
    exact ⟨hw, hp, hall, (knuth_m_drawn_step sx sy hsy k hk1 hk st p hw hp hall).2.2.2⟩
  | succ m ih =>
    intro st p hw hp hall
    obtain ⟨w1, p1, a1, _⟩ := knuth_m_drawn_step sx sy hsy k hk1 hk st p hw hp hall
    obtain ⟨w2, p2, a2, n2⟩ := ih (knuth_m_spec_step sx sy k st) (p + 1) w1 p1 a1
    have e : p + 1 + m = p + (m + 1) := by omega
    rw [e] at p2 a2 n2
    exact ⟨w2, p2, a2, n2⟩

theorem knuth_m_initial_drawn (sx : Nat → Nat) (k : Nat) :
    ∀ b ∈ (knuth_m_initial sx k).v, drawn_from sx k b := by
  intro b hb
  have hb' : b ∈ (List.range k).map sx := hb
  obtain ⟨q, hq, e⟩ := List.mem_map.mp hb'
  exact ⟨q, List.mem_range.mp hq, e.symm⟩

/-- C39: over any two byte streams `sx` (source X) and `sy` (source Y) and for
every table size `k` in `1..255`, the generator of Algorithm M that
`ak_random_create_knuth_m` builds satisfies: after `m` advances (`m = 0`: right
after construction) source X has delivered `k + m` bytes and every table entry
is one of them; the current byte left by advance `m + 1` is one of the `k + m`
bytes that X had delivered before that advance; and every byte that
`ak_random_ptr` outputs, byte `i` of `n`, is one of the first `k + i` bytes of
`sx`. -/
theorem C39_knuth_m_emits_source_x (sx sy : Nat → Nat) (k n : Nat) (out : List Nat)
    (hsx : ∀ i, sx i < 256) (hsy : ∀ i, sy i < 256) (hk1 : 1 ≤ k) (hk : k ≤ 255)
    (hn : 1 ≤ n) (hout : out.length = n) :
    ak_random_create_knuth_m (tape_collaborators sx sy) true true (some blank_random)
        (pointer.live { second := false, pos := 0, calls := 0 })
        (pointer.live { second := true, pos := 0, calls := 0 }) k
      = some (ak_error_ok, some (knuth_m_embed k (knuth_m_initial sx k)))
    ∧ (∀ m, ((knuth_m_spec_step sx sy k)^[m] (knuth_m_initial sx k)).x.pos = k + m
        ∧ (∀ b ∈ ((knuth_m_spec_step sx sy k)^[m] (knuth_m_initial sx k)).v,
            drawn_from sx (k + m) b)
        ∧ drawn_from sx (k + m)
            ((knuth_m_spec_step sx sy k)^[m + 1] (knuth_m_initial sx k)).next)
    ∧ ∃ (r : random tape) (bytes : List Nat),
        ak_random_ptr (tape_collaborators sx sy) (some (knuth_m_embed k (knuth_m_initial sx k)))
            (some out) (n : Int) = some (ak_error_ok, some r, some bytes)
        ∧ bytes.length = n
        ∧ ∀ i, i < n → ∃ q, q < k + i ∧ bytes[i]? = some (sx q) := by
  have hw0 : knuth_m_wf k (knuth_m_initial sx k) := by
    refine ⟨rfl, rfl, ?_⟩
    show ((List.range k).map sx).length = k
    rw [List.length_map, List.length_range]
  have hit := fun m => knuth_m_drawn_iterate sx sy hsy k hk1 hk m (knuth_m_initial sx k) k hw0
    rfl (knuth_m_initial_drawn sx k)
  refine ⟨tape_create_knuth_m sx sy hsx k hk,
    fun m => ⟨(hit m).2.1, (hit m).2.2.1, (hit m).2.2.2⟩, _, _,
    tape_knuth_m_ptr sx sy hsx hsy k hk1 hk _ hw0 out n hn hout, ?_, ?_⟩
  · rw [List.length_map, List.length_range]
  · intro i hi
    obtain ⟨q, hq, e⟩ := (hit i).2.2.2
    refine ⟨q, hq, ?_⟩
    rw [List.getElem?_map, List.getElem?_range hi, Option.map_some', e]

/-- Concrete check of C39: table size 4 over the sample streams, three bytes. -/
theorem C39_knuth_m_emits_source_x_witness :
    ak_random_create_knuth_m (tape_collaborators sample_stream_x sample_stream_y) true true
        (some blank_random) (pointer.live { second := false, pos := 0, calls := 0 })
        (pointer.live { second := true, pos := 0, calls := 0 }) 4
      = some (ak_error_ok, some (knuth_m_embed 4 (knuth_m_initial sample_stream_x 4)))
    ∧ (∀ m, ((knuth_m_spec_step sample_stream_x sample_stream_y 4)^[m]
            (knuth_m_initial sample_stream_x 4)).x.pos = 4 + m
        ∧ (∀ b ∈ ((knuth_m_spec_step sample_stream_x sample_stream_y 4)^[m]
            (knuth_m_initial sample_stream_x 4)).v, drawn_from sample_stream_x (4 + m) b)
        ∧ drawn_from sample_stream_x (4 + m)
            ((knuth_m_spec_step sample_stream_x sample_stream_y 4)^[m + 1]
              (knuth_m_initial sample_stream_x 4)).next)
    ∧ ∃ (r : random tape) (bytes : List Nat),
        ak_random_ptr (tape_collaborators sample_stream_x sample_stream_y)
            (some (knuth_m_embed 4 (knuth_m_initial sample_stream_x 4)))
            (some [0, 0, 0]) ((3 : Nat) : Int) = some (ak_error_ok, some r, some bytes)
        ∧ bytes.length = 3
        ∧ ∀ i, i < 3 → ∃ q, q < 4 + i ∧ bytes[i]? = some (sample_stream_x q) :=
  C39_knuth_m_emits_source_x sample_stream_x sample_stream_y 4 3 [0, 0, 0]
    (fun _ => Nat.mod_lt _ (by decide)) (fun _ => Nat.mod_lt _ (by decide)) (by decide)
    (by decide) (by decide) rfl

/-! ### The capacity of the hash based generator -/

theorem hrng_randomize_wf {S : Type} (E : collaborators S) (g : random S) (h : random_hrng)
    (s : List Nat) (hn : g.next = some fn_next.hrng) (hw : hrng_wf h) :
    ∃ (e : ak_error) (h1 : random_hrng),
      ak_random_hrng_randomize_ptr E (set_ctx g (context.hrng h)) s (s.length : Int)
        = some (e, set_ctx g (context.hrng h1)) ∧ hrng_wf h1 := by
  obtain ⟨hc, hb, h0, h64⟩ := hw
  have hread : mem_read s 0 s.length = some s := by
    rw [mem_read_some s 0 s.length (by omega), List.drop_zero, List.take_length]
  obtain ⟨bytes, hbw⟩ := mem_write_ok (bytes_of_words64 h.counter) 0
    ((E.ak_hash_ptr s 64).2.take 64)
    (by rw [bytes_of_words64_length, hc, List.length_take]; omega)
  have hbl : bytes.length = 8 * 8 := by
    rw [mem_write_length _ _ _ _ hbw, bytes_of_words64_length, hc]
  have hwf1 : hrng_wf { h with counter := words64_of_bytes bytes } :=
    ⟨words64_of_bytes_length 8 _ hbl, hb, h0, h64⟩
  have hneg : ¬ ((s.length : Int) < 0) := by omega
  unfold ak_random_hrng_randomize_ptr
  rw [set_ctx_ctx]
  simp only []
  rw [if_neg hneg, Int.toNat_ofNat, hread]
  simp only [Option.bind_eq_bind, Option.some_bind, hbw, set_ctx_set_ctx]
  by_cases herr : (E.ak_hash_ptr s 64).1 ≠ ak_error_ok
  · rw [if_pos herr]
    exact ⟨_, _, rfl, hwf1⟩
  · rw [if_neg herr]
    obtain ⟨e, hnext⟩ := call_next_hrng E g _ hn hwf1
    obtain ⟨_, _, hwf2, _⟩ := hrng_advance_wf E _ hwf1
    exact ⟨e, _, hnext, hwf2⟩

theorem hrng_create_wf {S : Type} (E : collaborators S) (value : Nat) (r : random S) :
    ∃ (e : ak_error) (g : random S) (h : random_hrng),
      ak_random_create_hrng E value true (some r) = some (e, some g)
      ∧ g.data.ctx = pointer.live (context.hrng h) ∧ hrng_wf h := by
  have hw0 : hrng_wf sample_hrng_ctx :=
    ⟨List.length_replicate _ _, List.length_replicate _ _, by decide, by decide⟩
  unfold ak_random_create_hrng ak_random_create
  simp only [Bool.true_eq_false, if_false]
  by_cases hh : E.ak_hash_create_streebog512 ≠ ak_error_ok
  · rw [if_pos hh]
    exact ⟨_, _, _, rfl, set_ctx_ctx _ _, hw0⟩
  · rw [if_neg hh]
    obtain ⟨e, h1, hr, hwf⟩ := hrng_randomize_wf E (hrng_slots E) sample_hrng_ctx
      ((List.range 8).map (byte_of_word value)) rfl hw0
    have hcall : call_randomize E (set_ctx (hrng_slots E) (context.hrng sample_hrng_ctx))
        ((List.range 8).map (byte_of_word value)) 8
        = some (e, set_ctx (hrng_slots E) (context.hrng h1)) := by
      rw [← hr]
      rfl
    refine ⟨e, set_ctx (hrng_slots E) (context.hrng h1), h1, ?_, set_ctx_ctx _ _, hwf⟩
    have hform : ∀ x : Option (ak_error × random S),
        x = some (e, set_ctx (hrng_slots E) (context.hrng h1)) →
        (match x with
          | none => none
          | some res => some (res.1, some res.2))
          = some (e, some (set_ctx (hrng_slots E) (context.hrng h1))) := by
      intro x hx
      rw [hx]
    exact hform _ hcall

/-- C36: a context of the hash based generator is well formed when it has eight
counter words, 64 buffer bytes and `0 <= capacity <= 64`. The context that
`ak_random_create_hrng` leaves is well formed (whatever the hash reports); from
a well formed context, seeding, one advance and the extraction of `n` bytes
with `0 <= n < 2^31` all return and leave a well formed context (after an
advance the capacity is 64). Since a copy outside the 64-byte buffer has no
result in the embedding, every offset `64 - capacity` and every length that the
extraction uses lies inside the buffer. -/
theorem C36_hrng_capacity_invariant {S : Type} (E : collaborators S) (g r : random S)
    (h : random_hrng) (s buf : List Nat) (n value : Nat) (hn : g.next = some fn_next.hrng)
    (hw : hrng_wf h) (hlt : n < 2 ^ 31) (hbuf : buf.length = n) :
    (∃ (e : ak_error) (g0 : random S) (h0 : random_hrng),
        ak_random_create_hrng E value true (some r) = some (e, some g0)
        ∧ g0.data.ctx = pointer.live (context.hrng h0) ∧ hrng_wf h0)
    ∧ (∃ (e : ak_error) (h1 : random_hrng),
        ak_random_hrng_randomize_ptr E (set_ctx g (context.hrng h)) s (s.length : Int)
          = some (e, set_ctx g (context.hrng h1)) ∧ hrng_wf h1)
    ∧ (∃ (e : ak_error) (h1 : random_hrng),
        call_next E (set_ctx g (context.hrng h)) = some (e, set_ctx g (context.hrng h1))
        ∧ hrng_wf h1 ∧ h1.capacity = 64)
    ∧ (∃ (h1 : random_hrng) (bytes : List Nat) (calls : Nat),
        ak_random_hrng_random E (set_ctx g (context.hrng h)) buf (n : Int)
          = some (ak_error_ok, set_ctx g (context.hrng h1), bytes, calls)
        ∧ hrng_wf h1 ∧ bytes.length = n) := by
  refine ⟨hrng_create_wf E value r, hrng_randomize_wf E g h s hn hw, ?_, ?_⟩
  · obtain ⟨e, hnext⟩ := call_next_hrng E g h hn hw
    obtain ⟨_, _, hwf, hcap⟩ := hrng_advance_wf E h hw
    exact ⟨e, _, hnext, hwf, hcap⟩
  · have hk : n + (if h.capacity.toNat = 0 then 1 else 0) < n + 2 := by split <;> omega
    obtain ⟨hwf, hlen⟩ := hrng_drain_wf E (n + 2) h n hw hk
    exact ⟨_, _, _, hrng_random_eq E g h buf n hn hw hlt hbuf, hwf, hlen⟩

/-- Concrete check of C36: the sample generator, the seed 1, 2, 3 and 70
bytes. -/
theorem C36_hrng_capacity_invariant_witness :
    (∃ (e : ak_error) (g0 : random Unit) (h0 : random_hrng),
        ak_random_create_hrng sample_collaborators 77 true (some blank_handle)
          = some (e, some g0)
        ∧ g0.data.ctx = pointer.live (context.hrng h0) ∧ hrng_wf h0)
    ∧ (∃ (e : ak_error) (h1 : random_hrng),
        ak_random_hrng_randomize_ptr sample_collaborators
            (set_ctx sample_hrng_base (context.hrng sample_hrng_ctx)) [1, 2, 3]
            (([1, 2, 3] : List Nat).length : Int)
          = some (e, set_ctx sample_hrng_base (context.hrng h1)) ∧ hrng_wf h1)
    ∧ (∃ (e : ak_error) (h1 : random_hrng),
        call_next sample_collaborators (set_ctx sample_hrng_base (context.hrng sample_hrng_ctx))
          = some (e, set_ctx sample_hrng_base (context.hrng h1))
        ∧ hrng_wf h1 ∧ h1.capacity = 64)
    ∧ (∃ (h1 : random_hrng) (bytes : List Nat) (calls : Nat),
        ak_random_hrng_random sample_collaborators
            (set_ctx sample_hrng_base (context.hrng sample_hrng_ctx)) (List.replicate 70 0)
            ((70 : Nat) : Int)
          = some (ak_error_ok, set_ctx sample_hrng_base (context.hrng h1), bytes, calls)
        ∧ hrng_wf h1 ∧ bytes.length = 70) :=
  C36_hrng_capacity_invariant sample_collaborators sample_hrng_base blank_handle
    sample_hrng_ctx [1, 2, 3] (List.replicate 70 0) 70 77 rfl
    ⟨rfl, rfl, by decide, by decide⟩ (by decide) rfl

/-! ### The statistical test on a complemented block -/

theorem complement_byte_table : ∀ b, b < 256 →
    (b ^^^ 0xFF) < 256 ∧ bit_count (b ^^^ 0xFF) + bit_count b = 8
      ∧ field_count 0 (b ^^^ 0xFF) = field_count 3 b
      ∧ field_count 1 (b ^^^ 0xFF) = field_count 2 b
      ∧ field_count 2 (b ^^^ 0xFF) = field_count 1 b
      ∧ field_count 3 (b ^^^ 0xFF) = field_count 0 b := by
  set_option maxRecDepth 100000 in decide

theorem block_complement_counts : ∀ data : List Nat, (∀ b ∈ data, b < 256) →
    (∀ b ∈ block_complement data, b < 256)
      ∧ block_bits (block_complement data) + block_bits data = 8 * data.length
      ∧ block_fields 0 (block_complement data) = block_fields 3 data
      ∧ block_fields 1 (block_complement data) = block_fields 2 data
      ∧ block_fields 2 (block_complement data) = block_fields 1 data
      ∧ block_fields 3 (block_complement data) = block_fields 0 data := by
  intro data
  induction data with
  | nil =>
    intro _
    exact ⟨fun b hb => absurd hb (List.not_mem_nil b), rfl, rfl, rfl, rfl, rfl⟩
  | cons x xs ih =>
    intro hb
    obtain ⟨t0, t1, t2, t3, t4, t5⟩ := complement_byte_table x (hb x (List.mem_cons_self x xs))
    obtain ⟨i0, i1, i2, i3, i4, i5⟩ := ih (fun b h => hb b (List.mem_cons_of_mem x h))
    have eb : ∀ l : List Nat, block_bits l = (l.map bit_count).sum := fun _ => rfl
    have ef : ∀ (v : Nat) (l : List Nat), block_fields v l = (l.map (field_count v)).sum :=
      fun _ _ => rfl
    have ec : block_complement (x :: xs) = (x ^^^ 0xFF) :: block_complement xs := rfl
    rw [eb] at i1
    rw [eb xs] at i1
    rw [ef, ef] at i2 i3 i4 i5
    refine ⟨?_, ?_, ?_, ?_, ?_, ?_⟩
    · intro b h
      rw [ec] at h
      rcases List.mem_cons.mp h with h | h
      · rw [h]; exact t0
      · exact i0 b h
    · rw [ec, eb, eb, List.map_cons, List.sum_cons, List.map_cons, List.sum_cons,
        List.length_cons]
      omega
    · rw [ec, ef, ef, List.map_cons, List.sum_cons, List.map_cons, List.sum_cons, t2, i2]
    · rw [ec, ef, ef, List.map_cons, List.sum_cons, List.map_cons, List.sum_cons, t3, i3]
    · rw [ec, ef, ef, List.map_cons, List.sum_cons, List.map_cons, List.sum_cons, t4, i4]
    · rw [ec, ef, ef, List.map_cons, List.sum_cons, List.map_cons, List.sum_cons, t5, i5]

theorem block_complement_length (data : List Nat) :
    (block_complement data).length = data.length := List.length_map _ _

theorem dynamic_test_complement_true (data : List Nat) (hbytes : ∀ b ∈ data, b < 256) :
    ak_random_dynamic_test (block_complement data) data.length = some true
      ↔ ak_random_dynamic_test data data.length = some true := by
  obtain ⟨hb', hbits, f0, f1, f2, f3⟩ := block_complement_counts data hbytes
  have h1 := dynamic_test_true_iff (block_complement data) hb'
  rw [block_complement_length] at h1
  have hchi : block_chi (block_complement data) data.length = block_chi data data.length := by
    unfold block_chi
    rw [f0, f1, f2, f3]
    ring
  rw [h1, dynamic_test_true_iff data hbytes, hchi]
  have hiff : ((data.length = 32 ∧ 102 ≤ block_bits (block_complement data)
          ∧ block_bits (block_complement data) ≤ 154)
        ∨ (data.length = 64 ∧ 219 ≤ block_bits (block_complement data)
          ∧ block_bits (block_complement data) ≤ 293)
        ∨ (data.length = 128 ∧ 460 ≤ block_bits (block_complement data)
          ∧ block_bits (block_complement data) ≤ 564))
      ↔ ((data.length = 32 ∧ 102 ≤ block_bits data ∧ block_bits data ≤ 154)
        ∨ (data.length = 64 ∧ 219 ≤ block_bits data ∧ block_bits data ≤ 293)
        ∨ (data.length = 128 ∧ 460 ≤ block_bits data ∧ block_bits data ≤ 564)) := by
    constructor <;> intro h <;> omega
  rw [hiff]

/-- C40: for every block of bytes of any size, `ak_random_dynamic_test` returns,
and returns the same verdict for the block and for the block with every byte
bitwise complemented. -/
theorem C40_dynamic_test_complement (data : List Nat) (size : Nat)
    (hlen : data.length = size) (hbytes : ∀ b ∈ data, b < 256) :
    (∃ res : Bool, ak_random_dynamic_test data size = some res)
      ∧ ak_random_dynamic_test (block_complement data) size
          = ak_random_dynamic_test data size := by
  subst hlen
  obtain ⟨hb', _⟩ := block_complement_counts data hbytes
  obtain ⟨r1, e1⟩ := dynamic_test_returns data hbytes
  have e2' := dynamic_test_returns (block_complement data) hb'
  rw [block_complement_length] at e2'
  obtain ⟨r2, e2⟩ := e2'
  have hiff := dynamic_test_complement_true data hbytes
  refine ⟨⟨r1, e1⟩, ?_⟩
  rw [e1, e2] at hiff
  rw [e1, e2]
  cases r1 <;> cases r2
  · rfl
  · exact absurd (hiff.mp rfl) (by decide)
  · exact absurd (hiff.mpr rfl) (by decide)
  · rfl

/-- Concrete check of C40: the block of 32 bytes `0x1B`, whose complement is the
block of 32 bytes `0xE4`. -/
theorem C40_dynamic_test_complement_witness :
    (∃ res : Bool, ak_random_dynamic_test (List.replicate 32 0x1B) 32 = some res)
      ∧ ak_random_dynamic_test (block_complement (List.replicate 32 0x1B)) 32
          = ak_random_dynamic_test (List.replicate 32 0x1B) 32 :=
  C40_dynamic_test_complement (List.replicate 32 0x1B) 32 (List.length_replicate _ _)
    (fun b hb => by rw [List.eq_of_mem_replicate hb]; decide)

/-! ### The register of the nonlinear feedback shift register stays in `n` bits -/

theorem xor_high (t b m : Nat) (ht : t < 2 ^ m) : t ^^^ (b * 2 ^ m) = 2 ^ m * b + t := by
  apply Nat.eq_of_testBit_eq
  intro j
  rw [Nat.testBit_xor, Nat.testBit_mul_pow_two_add b ht, Nat.mul_comm b, Nat.testBit_mul_pow_two]
  by_cases h : j < m
  · rw [if_pos h]
    have : ¬ (j ≥ m) := by omega
    simp [this]
  · rw [if_neg h]
    have hge : j ≥ m := by omega
    have hf : t.testBit j = false :=
      Nat.testBit_lt_two_pow (Nat.lt_of_lt_of_le ht (Nat.pow_le_pow_right (by decide) hge))
    simp [hge, hf]

theorem nlfsr_step_iterate_lt (n L N : Nat) (hn1 : 1 ≤ n) (hn : n ≤ 32) :
    ∀ (m s : Nat), s < 2 ^ n → (nlfsr_spec_step n L N)^[m] s < 2 ^ n := by
  intro m
  induction m with
  | zero => intro s hs; exact hs
  | succ m ih =>
    intro s hs
    rw [Function.iterate_succ_apply]
    exact ih _ (nlfsr_spec_step_lt n L N s hn1 hn hs)

theorem nlfsr_random_loop_eq {S : Type} (g : random S) (n L N : Nat) (hn1 : 1 ≤ n)
    (hn : n ≤ 32) (hL : L < 2 ^ 32) (hN : N < 2 ^ 32) :
    ∀ (fuel s : Nat) (pre mid post : List Nat), mid.length < fuel →
      ak_random_nlfsr_random_loop fuel
          (set_ctx g (context.nlfsr
            { state := s, linear_part := L, nonlinear_part := N, n := n }))
          (pre ++ (mid ++ post)) pre.length (mid.length : Int)
        = some (set_ctx g (context.nlfsr
            { state := (nlfsr_spec_step n L N)^[8 * mid.length] s, linear_part := L,
              nonlinear_part := N, n := n }),
            pre ++ ((List.range mid.length).map
              (fun i => nlfsr_spec_byte n L N ((nlfsr_spec_step n L N)^[8 * i] s)) ++ post)) := by
  intro fuel
  induction fuel with
  | zero => intro s pre mid post hf; omega
  | succ f ih =>
    intro s pre mid post hf
    rw [ak_random_nlfsr_random_loop]
    cases mid with
    | nil =>
      rw [if_neg (by decide)]
      rfl
    | cons m rest =>
      have hpos : (((m :: rest).length : Nat) : Int) > 0 := by
        rw [List.length_cons]; omega
      rw [if_pos hpos, set_ctx_ctx]
      simp only []
      rw [nlfsr_next_byte_eq n L N s hn1 hn hL hN]
      simp only [Option.bind_eq_bind, Option.some_bind]
      rw [List.cons_append, mem_write_mid pre m _ (rest ++ post)]
      simp only [Option.some_bind, set_ctx_set_ctx]
      have e1 : (((m :: rest).length : Nat) : Int) - 1 = ((rest.length : Nat) : Int) := by
        rw [List.length_cons]; omega
      have i := ih ((nlfsr_spec_step n L N)^[8] s) (pre ++ [nlfsr_spec_byte n L N s]) rest post
        (by rw [List.length_cons] at hf; omega)
      rw [List.length_append, List.length_singleton, List.append_assoc,
        List.singleton_append] at i
      rw [e1, i, List.length_cons, List.range_succ_eq_map, List.map_cons, List.map_map,
        List.cons_append, List.append_assoc, List.singleton_append,
        ← Function.iterate_add_apply]
      have e8 : 8 * rest.length + 8 = 8 * (rest.length + 1) := by omega
      have ef : (fun i => nlfsr_spec_byte n L N
            ((nlfsr_spec_step n L N)^[8 * i] ((nlfsr_spec_step n L N)^[8] s)))
          = ((fun i => nlfsr_spec_byte n L N ((nlfsr_spec_step n L N)^[8 * i] s)) ∘ Nat.succ) := by
        funext i
        show _ = nlfsr_spec_byte n L N ((nlfsr_spec_step n L N)^[8 * (i + 1)] s)
        rw [← Function.iterate_add_apply]
        have e : 8 * i + 8 = 8 * (i + 1) := by omega
        rw [e]
      rw [e8, ef]
      rfl

theorem ak_random_ptr_nlfsr {S : Type} (E : collaborators S) (g : random S) (n L N s : Nat)
    (buf : List Nat) (m : Nat) (hg : nlfsr_handle g) (hn1 : 1 ≤ n) (hn : n ≤ 32)
    (hL : L < 2 ^ 32) (hN : N < 2 ^ 32) (hm : 1 ≤ m) (hbuf : buf.length = m) :
    ak_random_ptr E
        (some (set_ctx g (context.nlfsr
          { state := s, linear_part := L, nonlinear_part := N, n := n })))
        (some buf) (m : Int)
      = some (ak_error_ok,
          some (set_ctx g (context.nlfsr
            { state := (nlfsr_spec_step n L N)^[8 * m] s, linear_part := L,
              nonlinear_part := N, n := n })),
          some ((List.range m).map
            (fun i => nlfsr_spec_byte n L N ((nlfsr_spec_step n L N)^[8 * i] s)))) := by
  have hpos : ¬ ((m : Int) ≤ 0) := by omega
  have hr : ¬ ((set_ctx g (context.nlfsr
      { state := s, linear_part := L, nonlinear_part := N, n := n })).random = none) := by
    rw [set_ctx_random, hg]; exact Option.some_ne_none _
  have hloop := nlfsr_random_loop_eq g n L N hn1 hn hL hN (m + 1) s [] buf []
    (by omega)
  rw [List.nil_append, List.append_nil, List.length_nil, List.nil_append, List.append_nil,
    hbuf] at hloop
  simp only [ak_random_ptr]
  rw [if_neg hpos, if_neg hr]
  unfold call_random
  rw [set_ctx_random, hg]
  simp only []
  unfold ak_random_nlfsr_random
  rw [if_neg hpos, Int.toNat_ofNat, hloop]
  rfl

/-- C37: for every register length `n` in `1..32`, any 32-bit masks and any
state `s < 2^n`: one bit step `ak_random_nlfsr_next_bit2` leaves a state below
`2^n`; so does `ak_random_nlfsr_next_byte` (eight steps); and `ak_random_ptr` of
`m >= 1` bytes returns `ak_error_ok` and leaves the state reached after `8m`
steps, which is below `2^n`. -/
theorem C37_nlfsr_width_invariant {S : Type} (E : collaborators S) (g : random S)
    (n L N s : Nat) (buf : List Nat) (m : Nat) (hg : nlfsr_handle g) (hn1 : 1 ≤ n)
    (hn : n ≤ 32) (hs : s < 2 ^ n) (hL : L < 2 ^ 32) (hN : N < 2 ^ 32) (hm : 1 ≤ m)
    (hbuf : buf.length = m) :
    (∃ (s1 lsb : Nat),
        ak_random_nlfsr_next_bit2 { state := s, linear_part := L, nonlinear_part := N, n := n }
            (s &&& 1) (n - 1)
          = some ({ state := s1, linear_part := L, nonlinear_part := N, n := n }, lsb)
        ∧ s1 < 2 ^ n)
    ∧ (∃ (s8 byte : Nat),
        ak_random_nlfsr_next_byte { state := s, linear_part := L, nonlinear_part := N, n := n }
          = some ({ state := s8, linear_part := L, nonlinear_part := N, n := n }, byte)
        ∧ s8 < 2 ^ n)
    ∧ (∃ (sm : Nat) (bytes : List Nat),
        ak_random_ptr E
            (some (set_ctx g (context.nlfsr
              { state := s, linear_part := L, nonlinear_part := N, n := n })))
            (some buf) (m : Int)
          = some (ak_error_ok,
              some (set_ctx g (context.nlfsr
                { state := sm, linear_part := L, nonlinear_part := N, n := n })),
              some bytes)
        ∧ sm = (nlfsr_spec_step n L N)^[8 * m] s ∧ sm < 2 ^ n ∧ bytes.length = m) := by
  refine ⟨⟨_, _, nlfsr_next_bit2_eq n L N s hn1 hn hL hN,
      nlfsr_spec_step_lt n L N s hn1 hn hs⟩,
    ⟨_, _, nlfsr_next_byte_eq n L N s hn1 hn hL hN,
      nlfsr_step_iterate_lt n L N hn1 hn 8 s hs⟩,
    ⟨_, _, ak_random_ptr_nlfsr E g n L N s buf m hg hn1 hn hL hN hm hbuf, rfl,
      nlfsr_step_iterate_lt n L N hn1 hn (8 * m) s hs, ?_⟩⟩
  rw [List.length_map, List.length_range]

/-- Concrete check of C37: the register of `ak_random_create_nlfsr` (length 32)
in the state 5, three bytes. -/
theorem C37_nlfsr_width_invariant_witness :
    (∃ (s1 lsb : Nat),
        ak_random_nlfsr_next_bit2
            { state := 5, linear_part := 183599831, nonlinear_part := 858993459, n := 32 }
            (5 &&& 1) (32 - 1)
          = some ({ state := s1, linear_part := 183599831, nonlinear_part := 858993459,
                    n := 32 }, lsb)
        ∧ s1 < 2 ^ 32)
    ∧ (∃ (s8 byte : Nat),
        ak_random_nlfsr_next_byte
            { state := 5, linear_part := 183599831, nonlinear_part := 858993459, n := 32 }
          = some ({ state := s8, linear_part := 183599831, nonlinear_part := 858993459,
                    n := 32 }, byte)
        ∧ s8 < 2 ^ 32)
    ∧ (∃ (sm : Nat) (bytes : List Nat),
        ak_random_ptr sample_collaborators
            (some (set_ctx sample_nlfsr_handle (context.nlfsr
              { state := 5, linear_part := 183599831, nonlinear_part := 858993459, n := 32 })))
            (some [0, 0, 0]) ((3 : Nat) : Int)
          = some (ak_error_ok,
              some (set_ctx sample_nlfsr_handle (context.nlfsr
                { state := sm, linear_part := 183599831, nonlinear_part := 858993459,
                  n := 32 })),
              some bytes)
        ∧ sm = (nlfsr_spec_step 32 183599831 858993459)^[8 * 3] 5 ∧ sm < 2 ^ 32
        ∧ bytes.length = 3) :=
  C37_nlfsr_width_invariant sample_collaborators sample_nlfsr_handle 32 183599831 858993459 5
    [0, 0, 0] 3 rfl (by decide) (by decide) (by decide) (by decide) (by decide) (by decide) rfl

/-! ### The step of the register is a bijection of the `n`-bit states -/

theorem nlfsr_half_lt (n s : Nat) (hn1 : 1 ≤ n) (hs : s < 2 ^ n) : s / 2 < 2 ^ (n - 1) := by
  have e : 2 ^ n = 2 * 2 ^ (n - 1) := by
    rw [← Nat.pow_succ']
    congr 1
    omega
  rw [e] at hs
  omega

theorem nlfsr_spec_step_eq (n L N s : Nat) (hn1 : 1 ≤ n) (hs : s < 2 ^ n) :
    nlfsr_spec_step n L N s
      = 2 ^ (n - 1) * ((s &&& 1) ^^^ word_parity ((L &&& s / 2) ^^^ (N &&& s / 2 &&& s / 2 / 2)))
        + s / 2 := by
  unfold nlfsr_spec_step
  simp only []
  exact xor_high _ _ _ (nlfsr_half_lt n s hn1 hs)

theorem nlfsr_unstep_step (n L N s : Nat) (hn1 : 1 ≤ n) (hs : s < 2 ^ n) :
    nlfsr_spec_unstep n L N (nlfsr_spec_step n L N s) = s := by
  have ht := nlfsr_half_lt n s hn1 hs
  rw [nlfsr_spec_step_eq n L N s hn1 hs]
  unfold nlfsr_spec_unstep
  simp only []
  rw [Nat.mul_add_mod, Nat.mod_eq_of_lt ht, Nat.mul_add_div (Nat.two_pow_pos _),
    Nat.div_eq_of_lt ht, Nat.add_zero, Nat.xor_cancel_right, Nat.and_one_is_mod]
  omega

theorem nlfsr_step_unstep (n L N s1 : Nat) (hn1 : 1 ≤ n) (hs : s1 < 2 ^ n) :
    nlfsr_spec_unstep n L N s1 < 2 ^ n
      ∧ nlfsr_spec_step n L N (nlfsr_spec_unstep n L N s1) = s1 := by
  have e : 2 ^ n = 2 * 2 ^ (n - 1) := by
    rw [← Nat.pow_succ']
    congr 1
    omega
  have hp : 0 < 2 ^ (n - 1) := Nat.two_pow_pos _
  have ht : s1 % 2 ^ (n - 1) < 2 ^ (n - 1) := Nat.mod_lt _ hp
  have hb : s1 / 2 ^ (n - 1) < 2 ^ 1 := by
    rw [Nat.pow_one, Nat.div_lt_iff_lt_mul hp]
    omega
  have hf : word_parity ((L &&& s1 % 2 ^ (n - 1))
      ^^^ (N &&& s1 % 2 ^ (n - 1) &&& s1 % 2 ^ (n - 1) / 2)) < 2 ^ 1 :=
    Nat.mod_lt _ (by decide)
  have hc := Nat.xor_lt_two_pow hb hf
  rw [Nat.pow_one] at hc
  have hu : nlfsr_spec_unstep n L N s1
      = 2 * (s1 % 2 ^ (n - 1)) + (s1 / 2 ^ (n - 1) ^^^ word_parity ((L &&& s1 % 2 ^ (n - 1))
          ^^^ (N &&& s1 % 2 ^ (n - 1) &&& s1 % 2 ^ (n - 1) / 2))) := rfl
  obtain ⟨c, hcdef⟩ : ∃ c, c = s1 / 2 ^ (n - 1) ^^^ word_parity ((L &&& s1 % 2 ^ (n - 1))
      ^^^ (N &&& s1 % 2 ^ (n - 1) &&& s1 % 2 ^ (n - 1) / 2)) := ⟨_, rfl⟩
  rw [← hcdef] at hc hu
  have hlt : nlfsr_spec_unstep n L N s1 < 2 ^ n := by
    rw [hu, e]
    omega
  refine ⟨hlt, ?_⟩
  have h2 : nlfsr_spec_unstep n L N s1 / 2 = s1 % 2 ^ (n - 1) := by
    rw [hu]
    omega
  have h1 : nlfsr_spec_unstep n L N s1 &&& 1 = c := by
    rw [Nat.and_one_is_mod, hu]
    omega
  rw [nlfsr_spec_step_eq n L N _ hn1 hlt, h2, h1, hcdef, Nat.xor_cancel_right]
  exact Nat.div_add_mod _ _

theorem nlfsr_step_injective (n L N s1 s2 : Nat) (hn1 : 1 ≤ n) (h1 : s1 < 2 ^ n)
    (h2 : s2 < 2 ^ n) (h : nlfsr_spec_step n L N s1 = nlfsr_spec_step n L N s2) : s1 = s2 := by
  rw [← nlfsr_unstep_step n L N s1 hn1 h1, h, nlfsr_unstep_step n L N s2 hn1 h2]

theorem nlfsr_cycle_of_eq (n L N : Nat) (hn1 : 1 ≤ n) (hn : n ≤ 32) (d s : Nat)
    (hs : s < 2 ^ n) :
    ∀ i, (nlfsr_spec_step n L N)^[i] s = (nlfsr_spec_step n L N)^[i + d] s →
      (nlfsr_spec_step n L N)^[d] s = s := by
  intro i
  induction i with
  | zero =>
    intro h
    rw [Nat.zero_add] at h
    exact h.symm
  | succ i ih =>
    intro h
    have e : i + 1 + d = (i + d) + 1 := by omega
    rw [e, Function.iterate_succ_apply', Function.iterate_succ_apply'] at h
    exact ih (nlfsr_step_injective n L N _ _ hn1
      (nlfsr_step_iterate_lt n L N hn1 hn i s hs)
      (nlfsr_step_iterate_lt n L N hn1 hn (i + d) s hs) h)

theorem nlfsr_on_cycle (n L N : Nat) (hn1 : 1 ≤ n) (hn : n ≤ 32) (s : Nat) (hs : s < 2 ^ n) :
    ∃ p, 0 < p ∧ p ≤ 2 ^ n ∧ (nlfsr_spec_step n L N)^[p] s = s := by
  have hmaps : ∀ i ∈ Finset.range (2 ^ n + 1),
      (nlfsr_spec_step n L N)^[i] s ∈ Finset.range (2 ^ n) :=
    fun i _ => Finset.mem_range.mpr (nlfsr_step_iterate_lt n L N hn1 hn i s hs)
  have hcard : (Finset.range (2 ^ n)).card < (Finset.range (2 ^ n + 1)).card := by
    rw [Finset.card_range, Finset.card_range]
    omega
  obtain ⟨i, hi, j, hj, hne, heq⟩ := Finset.exists_ne_map_eq_of_card_lt_of_maps_to hcard hmaps
  have hi' := Finset.mem_range.mp hi
  have hj' := Finset.mem_range.mp hj
  rcases Nat.lt_or_gt_of_ne hne with hlt | hgt
  · refine ⟨j - i, by omega, by omega, ?_⟩
    have e : j = i + (j - i) := by omega
    rw [e] at heq
    exact nlfsr_cycle_of_eq n L N hn1 hn (j - i) s hs i heq
  · refine ⟨i - j, by omega, by omega, ?_⟩
    have e : i = j + (i - j) := by omega
    rw [e] at heq
    exact nlfsr_cycle_of_eq n L N hn1 hn (i - j) s hs j heq.symm

/-- C38: for every register length `n` in `1..32` and any 32-bit masks, the bit
step of the code, `ak_random_nlfsr_next_bit2`, maps each state `s < 2^n` to the
state `nlfsr_spec_step n L N s < 2^n`; this map is injective on the states below
`2^n` and reaches every one of them (it is a bijection of the `n`-bit states),
and every `n`-bit state returns to itself after at most `2^n` steps. -/
theorem C38_nlfsr_step_bijective (n L N : Nat) (hn1 : 1 ≤ n) (hn : n ≤ 32)
    (hL : L < 2 ^ 32) (hN : N < 2 ^ 32) :
    (∀ s, s < 2 ^ n →
        ak_random_nlfsr_next_bit2 { state := s, linear_part := L, nonlinear_part := N, n := n }
            (s &&& 1) (n - 1)
          = some ({ state := nlfsr_spec_step n L N s, linear_part := L, nonlinear_part := N,
                    n := n }, nlfsr_spec_step n L N s &&& 1)
        ∧ nlfsr_spec_step n L N s < 2 ^ n)
    ∧ (∀ s1 s2, s1 < 2 ^ n → s2 < 2 ^ n →
        nlfsr_spec_step n L N s1 = nlfsr_spec_step n L N s2 → s1 = s2)
    ∧ (∀ s1, s1 < 2 ^ n → ∃ s, s < 2 ^ n ∧ nlfsr_spec_step n L N s = s1)
    ∧ (∀ s, s < 2 ^ n → ∃ p, 0 < p ∧ p ≤ 2 ^ n ∧ (nlfsr_spec_step n L N)^[p] s = s) :=
  ⟨fun s hs => ⟨nlfsr_next_bit2_eq n L N s hn1 hn hL hN, nlfsr_spec_step_lt n L N s hn1 hn hs⟩,
    fun s1 s2 h1 h2 h => nlfsr_step_injective n L N s1 s2 hn1 h1 h2 h,
    fun s1 h1 => ⟨nlfsr_spec_unstep n L N s1, (nlfsr_step_unstep n L N s1 hn1 h1).1,
      (nlfsr_step_unstep n L N s1 hn1 h1).2⟩,
    fun s hs => nlfsr_on_cycle n L N hn1 hn s hs⟩

/-- Concrete check of C38: the register of `ak_random_create_nlfsr` (length 32,
linear part 183599831, nonlinear part 858993459). -/
theorem C38_nlfsr_step_bijective_witness :
    (∀ s, s < 2 ^ 32 →
        ak_random_nlfsr_next_bit2
            { state := s, linear_part := 183599831, nonlinear_part := 858993459, n := 32 }
            (s &&& 1) (32 - 1)
          = some ({ state := nlfsr_spec_step 32 183599831 858993459 s,
                    linear_part := 183599831, nonlinear_part := 858993459, n := 32 },
                  nlfsr_spec_step 32 183599831 858993459 s &&& 1)
        ∧ nlfsr_spec_step 32 183599831 858993459 s < 2 ^ 32)
    ∧ (∀ s1 s2, s1 < 2 ^ 32 → s2 < 2 ^ 32 →
        nlfsr_spec_step 32 183599831 858993459 s1 = nlfsr_spec_step 32 183599831 858993459 s2 →
        s1 = s2)
    ∧ (∀ s1, s1 < 2 ^ 32 → ∃ s, s < 2 ^ 32 ∧ nlfsr_spec_step 32 183599831 858993459 s = s1)
    ∧ (∀ s, s < 2 ^ 32 →
        ∃ p, 0 < p ∧ p ≤ 2 ^ 32 ∧ (nlfsr_spec_step 32 183599831 858993459)^[p] s = s) :=
  C38_nlfsr_step_bijective 32 183599831 858993459 (by decide) (by decide) (by decide)
    (by decide)

end Akrypt
